import Mathlib

/-!
# The XML reader of libutap (`src/xmlreader.cpp`)

A shallow embedding of the recursive-descent reader of UPPAAL XML documents
and of the path it maintains for diagnostics, followed by theorems about it.

* The libxml2 text reader is a list of nodes that is consumed front to back;
  `cur` is the current node and `rest` the nodes not yet read.
* The `ParserBuilder`, the embedded grammar `parseXTA` and `isKeyword` are
  not part of `xmlreader.cpp`; they are the fields of `Env`.  Every call made
  on them is appended to `log`.
* A C++ `throw -1` is the outcome `fatal`, a thrown `TypeException` the
  outcome `typeException`, a null dereference the outcome `crash`, and a
  loop that has used up its fuel the outcome `timeout`.
-/

namespace UTAP

/-! ## Tags -/

/-- Enumeration type for tags (`enum tag_t`). -/
inductive tag_t
  | TAG_NTA | TAG_IMPORTS | TAG_DECLARATION | TAG_TEMPLATE | TAG_INSTANTIATION
  | TAG_SYSTEM | TAG_NAME | TAG_PARAMETER | TAG_LOCATION | TAG_INIT
  | TAG_TRANSITION | TAG_URGENT | TAG_COMMITTED | TAG_SOURCE | TAG_TARGET
  | TAG_LABEL | TAG_NAIL
  deriving DecidableEq, Repr

open tag_t

/-- Modelled from the spec: the generated perfect-hash table `tags.cc`
(`Tags::in_word_set`) is not among the sources.  It is the exact-match lookup
from element name to tag; the names are the ones `Path::get` prints. -/
def in_word_set (element : String) : Option tag_t :=
  if element = "nta" then some TAG_NTA
  else if element = "imports" then some TAG_IMPORTS
  else if element = "declaration" then some TAG_DECLARATION
  else if element = "template" then some TAG_TEMPLATE
  else if element = "instantiation" then some TAG_INSTANTIATION
  else if element = "system" then some TAG_SYSTEM
  else if element = "name" then some TAG_NAME
  else if element = "parameter" then some TAG_PARAMETER
  else if element = "location" then some TAG_LOCATION
  else if element = "init" then some TAG_INIT
  else if element = "transition" then some TAG_TRANSITION
  else if element = "urgent" then some TAG_URGENT
  else if element = "committed" then some TAG_COMMITTED
  else if element = "source" then some TAG_SOURCE
  else if element = "target" then some TAG_TARGET
  else if element = "label" then some TAG_LABEL
  else if element = "nail" then some TAG_NAIL
  else none

/-- Which XTA part to parse (`xta_part_t` of `libparser.hh`). -/
inductive xta_part_t
  | S_XTA | S_DECLARATION | S_LOCAL_DECL | S_INST | S_SYSTEM | S_PARAMETERS
  | S_INVARIANT | S_GUARD | S_SYNC | S_ASSIGN
  deriving DecidableEq, Repr

open xta_part_t

/-- The constant `SYNTAX_OLD` of `syntax_t`. -/
def SYNTAX_OLD : Nat := 1
/-- The constant `SYNTAX_NEW` of `syntax_t`. -/
def SYNTAX_NEW : Nat := 2
/-- The constant `SYNTAX_PROPERTY` of `syntax_t`. -/
def SYNTAX_PROPERTY : Nat := 4
/-- The constant `SYNTAX_GUIDING` of `syntax_t`. -/
def SYNTAX_GUIDING : Nat := 8

/-! ## Character classes and `symbol` -/

/-- The C function `isspace` in the "C" locale: space, `\t`, `\n`, `\v`, `\f`, `\r`. -/
def isspace (c : Char) : Bool :=
  c = Char.ofNat 32 || (9 ≤ c.toNat && c.toNat ≤ 13)

/-- The C function `isalpha` in the "C" locale. -/
def isalpha (c : Char) : Bool :=
  (65 ≤ c.toNat && c.toNat ≤ 90) || (97 ≤ c.toNat && c.toNat ≤ 122)

/-- The C function `isalnum` in the "C" locale. -/
def isalnum (c : Char) : Bool :=
  isalpha c || (48 ≤ c.toNat && c.toNat ≤ 57)

/-- The function `isempty`: true if the string is NULL, of zero length or
contains only white space. -/
def isempty (p : Option String) : Bool :=
  match p with
  | none => true
  | some s => s.data.all isspace

/-- The function `isAlpha`. -/
def isAlpha (c : Char) : Bool :=
  isalpha c || c = Char.ofNat 95

/-- The function `isIdChr`: alphanumeric, `_`, `$` or `#`. -/
def isIdChr (c : Char) : Bool :=
  isalnum c || c = Char.ofNat 95 || c = Char.ofNat 36 || c = Char.ofNat 35

/-- The function `symbol`: extracts the identifier of `str`.  A thrown
`const char *` is the `error` case. -/
def symbol (str : Option String) : Except String String :=
  match str with
  | none => .error "Identifier expected"
  | some s =>
    match s.data.dropWhile isspace with
    | [] => .error "Identifier expected"
    | c :: cs =>
      if !isAlpha c then .error "Invalid identifier"
      else
        let p := ((c :: cs).dropWhile isIdChr).dropWhile isspace
        if p ≠ [] then .error "Invalid identifier"
        else .ok (String.mk ((c :: cs).takeWhile isIdChr))

/-! ## The path to the current node -/

/-- The class `Path`.  The field `path` is the `list<vector<tag_t>>`, held as
a stack: the head of the list is `path.back()`, the innermost frame, and the
last element is `path.front()`.  A frame lists its tags in insertion order. -/
structure Path where
  path : List (List tag_t)
  deriving DecidableEq, Repr

namespace Path

/-- The constructor `Path::Path`: one empty frame. -/
def new : Path := ⟨[[]]⟩

/-- The method `Path::push`: `path.back().push_back(tag)` and then
`path.push_back(vector<tag_t>())`.  (`back()` of an empty list does not
occur: the constructor makes one frame and `pop` is the only remover.) -/
def push (p : Path) (tag : tag_t) : Path :=
  match p.path with
  | [] => ⟨[[]]⟩
  | back :: below => ⟨[] :: (back ++ [tag]) :: below⟩

/-- The method `Path::pop`: `path.pop_back()` and then
`return path.back().back()`.  The result is `none` where the source calls
`back()` on an empty container. -/
def pop (p : Path) : Option (tag_t × Path) :=
  match p.path with
  | _ :: back :: below =>
    match back.getLast? with
    | none => none
    | some t => some (t, ⟨back :: below⟩)
  | _ => none

/-- The decimal output of `operator<<` for a count. -/
def showCount (n : Nat) : String := toString n

/-- One iteration of the loop body of `Path::get`: the `switch (i->back())`,
for a frame `i` whose last tag is `t`.  All seventeen tags have a case. -/
def segment (i : List tag_t) (t : tag_t) : String :=
  match t with
  | TAG_NTA => "/nta"
  | TAG_IMPORTS => "/imports"
  | TAG_DECLARATION => "/declaration"
  | TAG_TEMPLATE => "/template[" ++ showCount (i.count TAG_TEMPLATE) ++ "]"
  | TAG_INSTANTIATION => "/instantiation"
  | TAG_SYSTEM => "/system"
  | TAG_NAME => "/name"
  | TAG_PARAMETER => "/parameter"
  | TAG_LOCATION => "/location[" ++ showCount (i.count TAG_LOCATION) ++ "]"
  | TAG_INIT => "/init"
  | TAG_TRANSITION => "/transition[" ++ showCount (i.count TAG_TRANSITION) ++ "]"
  | TAG_LABEL => "/label[" ++ showCount (i.count TAG_LABEL) ++ "]"
  | TAG_URGENT => "/urgent"
  | TAG_COMMITTED => "/committed"
  | TAG_SOURCE => "/source"
  | TAG_TARGET => "/target"
  | TAG_NAIL => "/nail[" ++ showCount (i.count TAG_NAIL) ++ "]"

/-- The loop of `Path::get` from the iterator position given by the list of
the frames still to visit: it stops at the first empty frame, or at the end
of the list. -/
def getFrom : List (List tag_t) → String
  | [] => ""
  | i :: rest =>
    match i.getLast? with
    | none => ""
    | some t => segment i t ++ getFrom rest

/-- The method `Path::get`: the XPath encoding of the current path. -/
def get (p : Path) : String := getFrom p.path.reverse

end Path

/-! ## The text reader, the builder and the error handler -/

/-- The node types of the text reader that the code distinguishes
(`xmlReaderTypes`); `OTHER` stands for every other type (white space,
comments, the document type, ...), `NONE` for "no current node". -/
inductive NodeType
  | NONE | ELEMENT | TEXT | END_ELEMENT | OTHER
  deriving DecidableEq, Repr

open NodeType

/-- One node delivered by `xmlTextReaderRead`: its type, its local name,
whether it is an empty element (`<a/>`), its attributes and its value. -/
structure Node where
  type : NodeType
  localName : String
  isEmpty : Bool
  attrs : List (String × String)
  value : String
  deriving DecidableEq, Repr

/-- A call made on the `ParserBuilder` or on the embedded grammar. -/
inductive Call
  | procBegin (name : Option String) (count : Int)
  | procEnd
  | procState (name : String) (hasInvariant : Bool)
  | procStateCommit (name : String)
  | procStateUrgent (name : String)
  | procStateInit (name : String)
  | procEdge (source : String) (target : String)
  | done
  | parseXTA (text : String) (newxta : Bool) (part : xta_part_t)
  deriving DecidableEq, Repr

/-- An entry of the error handler (`ErrorHandler::error_t`, without the
position): the path and the message. -/
structure error_t where
  xpath : String
  msg : String
  deriving DecidableEq, Repr

/-- What `xmlreader.cpp` is linked against.
* `isKeyword id mask` is the function of `keywords.cc`.
* `parseXTA log text newxta part` is the embedded grammar: the value it
  returns and the messages it hands to the error handler; `log` holds the
  calls made before.
* `builder log call` is the `ParserBuilder`: `some msg` when it answers
  `call` with a `TypeException` of message `msg`. -/
structure Env where
  newxta : Bool
  isKeyword : String → Nat → Bool
  parseXTA : List Call → String → Bool → xta_part_t → Int × List String
  builder : List Call → Call → Option String

/-- The class `XMLReader` together with what it writes to: the reader's
position (`cur`, `rest`), the map `locations` (a null key is `none`), the
`path`, the calls made so far and the errors reported so far. -/
structure XMLReader where
  cur : Option Node
  rest : List Node
  locations : List (Option String × String)
  path : Path
  log : List Call
  errors : List error_t
  deriving DecidableEq, Repr

/-- How a piece of code ends: normally with a value, with `throw -1`
(`fatal`), with a `TypeException`, with a null dereference or the like
(`crash`), or not within the fuel given (`timeout`). -/
inductive Outcome (α : Type)
  | ok (a : α)
  | fatal (code : Int)
  | typeException (msg : String)
  | crash
  | timeout
  deriving DecidableEq, Repr

/-- A computation over a state `σ` that returns `α` or ends otherwise. -/
def StM (σ α : Type) : Type := σ → Outcome α × σ

namespace StM

/-- Normal return. -/
def ret {σ α : Type} (a : α) : StM σ α := fun s => (.ok a, s)

/-- Sequencing: an exception of the first part skips the second. -/
def andThen {σ α β : Type} (m : StM σ α) (f : α → StM σ β) : StM σ β := fun s =>
  match m s with
  | (.ok a, s1) => f a s1
  | (.fatal c, s1) => (.fatal c, s1)
  | (.typeException msg, s1) => (.typeException msg, s1)
  | (.crash, s1) => (.crash, s1)
  | (.timeout, s1) => (.timeout, s1)

instance {σ : Type} : Monad (StM σ) where
  pure := ret
  bind := andThen

/-- The statement `throw -1`. -/
def throwInt {σ α : Type} (code : Int) : StM σ α := fun s => (.fatal code, s)

/-- A null dereference. -/
def crashed {σ α : Type} : StM σ α := fun s => (.crash, s)

/-- The block `try body catch (TypeException &e) handler(e.what())`. -/
def tryCatch {σ : Type} (body : StM σ Unit) (handler : String → StM σ Unit) : StM σ Unit :=
  fun s =>
    match body s with
    | (.typeException msg, s1) => handler msg s1
    | r => r

/-- The loop `while (cond()) b = body(b);` run for at most `fuel` tests of
the condition. -/
def whileLoop {σ β : Type} : Nat → StM σ Bool → (β → β) → β → StM σ β
  | 0, _, _, _ => fun s => (.timeout, s)
  | fuel + 1, cond, body, b =>
    andThen cond fun c => if c then whileLoop fuel cond body (body b) else ret b

end StM

/-- A member function of `XMLReader` returning `α`. -/
abbrev M (α : Type) : Type := StM XMLReader α

namespace XMLReader

/-- The method `getNodeType`. -/
def getNodeType (s : XMLReader) : NodeType :=
  match s.cur with
  | none => NONE
  | some n => n.type

/-- The method `getElement`: the tag of the current element; throws if the
tag is not known. -/
def getElement : M tag_t := fun s =>
  match s.cur with
  | none => (.crash, s)
  | some n =>
    match in_word_set n.localName with
    | none => (.fatal (-1), s)
    | some t => (.ok t, s)

/-- The method `isEmpty`. -/
def isEmpty (s : XMLReader) : Bool :=
  match s.cur with
  | none => false
  | some n => n.type = ELEMENT && n.isEmpty

/-- The call `xmlTextReaderGetAttribute(reader, name)`. -/
def getAttribute (s : XMLReader) (name : String) : Option String :=
  match s.cur with
  | none => none
  | some n => n.attrs.lookup name

/-- The call `xmlTextReaderConstValue(reader)`. -/
def getValue (s : XMLReader) : String :=
  match s.cur with
  | none => ""
  | some n => n.value

/-- The call `path.pop()` inside `read`. -/
def popPath : M tag_t := fun s =>
  match s.path.pop with
  | none => (.crash, s)
  | some (t, p) => (.ok t, { s with path := p })

/-- The call `xmlTextReaderRead(reader)`: true if a node was read. -/
def xmlTextReaderRead : M Bool := fun s =>
  match s.rest with
  | [] => (.ok false, s)
  | n :: r => (.ok true, { s with cur := some n, rest := r })

/-- The first statement of `read`: on an end tag or an empty element the
path is popped and the popped tag compared with the current element.  (The
source leaves open which operand of `!=` is evaluated first; the pop is
taken first.) -/
def readPop : M Unit := fun s =>
  if getNodeType s = END_ELEMENT ∨ (getNodeType s = ELEMENT ∧ isEmpty s = true) then
    (do
      let t ← popPath
      let e ← getElement
      if t ≠ e then StM.throwInt (-1) else pure ()) s
  else (.ok (), s)

/-- The last statement of `read`: on a start tag its tag is pushed. -/
def readPush : M Unit := fun s =>
  if getNodeType s = ELEMENT then
    (do
      let e ← getElement
      fun s1 => (.ok (), { s1 with path := s1.path.push e })) s
  else (.ok (), s)

/-- The method `read`: advances the reader and maintains the path. -/
def read : M Unit := do
  readPop
  if (← xmlTextReaderRead) = false then StM.throwInt (-1)
  else readPush

/-- The method `begin`: read until a start element; true if that element has
the given tag.  If `skipEmpty` is true, empty elements with the given tag
are ignored.  Every turn of the two loops that does not return calls `read`
once; `fuel` bounds the number of turns. -/
def begin : Nat → tag_t → Bool → M Bool
  | 0, _, _ => fun s => (.timeout, s)
  | fuel + 1, tag, skipEmpty => fun s =>
    if getNodeType s ≠ ELEMENT then
      (do read; begin fuel tag skipEmpty) s
    else
      (do
        let e ← getElement
        if e ≠ tag then pure false
        else fun s1 =>
          if !skipEmpty || !isEmpty s1 then (.ok true, s1)
          else (do read; begin fuel tag skipEmpty) s1) s

/-- The method `getLocation`: the name of a location.  The comparator of the
map calls `strcmp` on the keys, so a null key in a map that is searched is a
null dereference. -/
def getLocation (id : Option String) : M String := fun s =>
  match id with
  | none => (.fatal (-1), s)
  | some i =>
    if s.locations.any (fun kv => kv.1 = none) then (.crash, s)
    else
      match s.locations.lookup (some i) with
      | some l => (.ok l, s)
      | none => (.fatal (-1), s)

/-- The assignment `locations[l_id] = l_name`: an existing key keeps its
place and gets the new value, a new key is added.  A null key is compared
with `strcmp` as soon as the map has another entry. -/
def setLocation (l_id : Option String) (l_name : String) : M Unit := fun s =>
  if s.locations = [] then (.ok (), { s with locations := [(l_id, l_name)] })
  else if l_id = none ∨ s.locations.any (fun kv => kv.1 = none) then (.crash, s)
  else if s.locations.any (fun kv => kv.1 = l_id) then
    let updated := s.locations.map fun kv => if kv.1 = l_id then (kv.1, l_name) else kv
    (.ok (), { s with locations := updated })
  else (.ok (), { s with locations := s.locations ++ [(l_id, l_name)] })

/-- The call `errorHandler->handleError(msg)`: the entry gets the current
path. -/
def handleError (msg : String) : M Unit := fun s =>
  (.ok (), { s with errors := s.errors ++ [⟨s.path.get, msg⟩] })

/-- The method `parse`: invokes the embedded grammar on the given text. -/
def parse (env : Env) (text : String) (part : xta_part_t) : M Int := fun s =>
  let r := env.parseXTA s.log text env.newxta part
  (.ok r.1, { s with
    log := s.log ++ [Call.parseXTA text env.newxta part],
    errors := s.errors ++ List.map (fun m => ⟨s.path.get, m⟩) r.2 })

/-- A call `parser->c`: it is logged, and ends with a `TypeException` if the
builder rejects it. -/
def notify (env : Env) (c : Call) : M Unit := fun s =>
  match env.builder s.log c with
  | none => (.ok (), { s with log := s.log ++ [c] })
  | some msg => (.typeException msg, { s with log := s.log ++ [c] })

/-- The method `declaration`: parse optional declaration. -/
def declaration (env : Env) (fuel : Nat) : M Bool := do
  if ← begin fuel TAG_DECLARATION true then
    read
    if (← fun s => (.ok (getNodeType s), s)) = TEXT then
      let text ← fun s => (.ok (getValue s), s)
      let _ ← parse env text S_DECLARATION
      pure true
    else pure true
  else pure false

/-- The dispatch on `kind` in `label`; `strcmp` on a null `kind` is a null
dereference. -/
def labelText (env : Env) (kind : Option String) (text : String) : M Unit :=
  match kind with
  | none => StM.crashed
  | some k =>
    if k = "invariant" then do let _ ← parse env text S_INVARIANT
    else if k = "guard" then do let _ ← parse env text S_GUARD
    else if k = "synchronisation" then do let _ ← parse env text S_SYNC
    else if k = "assignment" then do let _ ← parse env text S_ASSIGN
    else pure ()

/-- The method `label`: parse optional label. -/
def label (env : Env) (fuel : Nat) : M Bool := do
  if ← begin fuel TAG_LABEL true then
    let kind ← fun s => (.ok (getAttribute s "kind"), s)
    read
    if (← fun s => (.ok (getNodeType s), s)) = TEXT then
      let text ← fun s => (.ok (getValue s), s)
      labelText env kind text
      pure true
    else pure true
  else pure false

/-- The method `name`: parse optional name tag; `none` is the null result. -/
def name (env : Env) (fuel : Nat) : M (Option String) := do
  if ← begin fuel TAG_NAME true then
    read
    if (← fun s => (.ok (getNodeType s), s)) = TEXT then
      let name ← fun s => (.ok (getValue s), s)
      match symbol (some name) with
      | .ok id =>
        if !env.isKeyword id (SYNTAX_OLD ||| SYNTAX_PROPERTY) then pure (some id)
        else do
          handleError "Keywords are not allowed here"
          pure none
      | .error str => do
        handleError str
        pure none
    else pure none
  else pure none

/-- The method `committed`: parse optional committed tag. -/
def committed (fuel : Nat) : M Bool := do
  if ← begin fuel TAG_COMMITTED false then
    read
    pure true
  else pure false

/-- The method `urgent`: parse optional urgent tag. -/
def urgent (fuel : Nat) : M Bool := do
  if ← begin fuel TAG_URGENT false then
    read
    pure true
  else pure false

/-- The naming of anonymous locations in `location`: if `l_name` is empty it
becomes `"_"` followed by the id (`strlen` on a null id is a null
dereference). -/
def locationName (l_name l_id : Option String) : M String :=
  if isempty l_name then
    match l_id with
    | none => StM.crashed
    | some i => pure ("_" ++ i)
  else pure (l_name.getD "")

/-- The method `location`: parse optional location. -/
def location (env : Env) (fuel : Nat) : M Bool := do
  if ← begin fuel TAG_LOCATION false then
    StM.tryCatch (do
        let l_id ← fun s => (.ok (getAttribute s "id"), s)
        read
        let l_name ← name env fuel
        let l_invariant ← StM.whileLoop fuel (label env fuel) (fun _ => true) false
        let l_urgent ← urgent fuel
        let l_committed ← committed fuel
        let l_name ← locationName l_name l_id
        setLocation l_id l_name
        notify env (Call.procState l_name l_invariant)
        if l_committed then notify env (Call.procStateCommit l_name) else pure ()
        if l_urgent then notify env (Call.procStateUrgent l_name) else pure ())
      (fun what => handleError what)
    pure true
  else pure false

/-- The method `init`: parse optional init tag. -/
def init (env : Env) (fuel : Nat) : M Bool := do
  if ← begin fuel TAG_INIT false then
    let ref ← fun s => (.ok (getAttribute s "ref"), s)
    match ref with
    | some r =>
      let name ← getLocation (some r)
      StM.tryCatch (notify env (Call.procStateInit name)) (fun what => handleError what)
    | none => handleError "Missing initial state"
    read
    pure true
  else
    handleError "Missing initial state"
    pure false

/-- The method `source`: parse obligatory source tag. -/
def source (fuel : Nat) : M String := do
  if ← begin fuel TAG_SOURCE false then
    let id ← fun s => (.ok (getAttribute s "ref"), s)
    let name ← getLocation id
    read
    pure name
  else StM.throwInt (-1)

/-- The method `target`: parse obligatory target tag. -/
def target (fuel : Nat) : M String := do
  if ← begin fuel TAG_TARGET false then
    let id ← fun s => (.ok (getAttribute s "ref"), s)
    let name ← getLocation id
    read
    pure name
  else StM.throwInt (-1)

/-- The method `transition`: parse optional transition. -/
def transition (env : Env) (fuel : Nat) : M Bool := do
  if ← begin fuel TAG_TRANSITION true then
    StM.tryCatch (do
        read
        let src ← source fuel
        let dst ← target fuel
        StM.whileLoop fuel (label env fuel) id ()
        StM.whileLoop fuel (begin fuel TAG_NAIL true) id ()
        notify env (Call.procEdge src dst))
      (fun what => handleError what)
    pure true
  else pure false

/-- The method `parameter`: parses an optional parameter tag and returns the
number of parameters. -/
def parameter (env : Env) (fuel : Nat) : M Int := do
  if ← begin fuel TAG_PARAMETER true then
    read
    if (← fun s => (.ok (getNodeType s), s)) = TEXT then
      let text ← fun s => (.ok (getValue s), s)
      parse env text S_PARAMETERS
    else pure 0
  else pure 0

/-- The method `templ`: parse optional template. -/
def templ (env : Env) (fuel : Nat) : M Bool := do
  if ← begin fuel TAG_TEMPLATE true then
    read
    StM.tryCatch (do
        let t_name ← name env fuel
        let p_count ← parameter env fuel
        notify env (Call.procBegin t_name p_count)
        let _ ← declaration env fuel
        StM.whileLoop fuel (location env fuel) id ()
        let _ ← init env fuel
        StM.whileLoop fuel (transition env fuel) id ()
        notify env Call.procEnd)
      (fun what => handleError what)
    pure true
  else pure false

/-- The method `instantiation`: parse optional instantiation tag. -/
def instantiation (env : Env) (fuel : Nat) : M Bool := do
  if ← begin fuel TAG_INSTANTIATION false then
    read
    let text ← fun s => (.ok (if getNodeType s = TEXT then getValue s else ""), s)
    let _ ← parse env text S_INST
    pure true
  else pure false

/-- The method `system`: parse optional system tag. -/
def system (env : Env) (fuel : Nat) : M Bool := do
  if ← begin fuel TAG_SYSTEM false then
    read
    let text ← fun s => (.ok (if getNodeType s = TEXT then getValue s else ""), s)
    let _ ← parse env text S_SYSTEM
    pure true
  else pure false

/-- The method `nta`: parse NTA document. -/
def nta (env : Env) (fuel : Nat) : M Unit := do
  if (← begin fuel TAG_NTA true) = false then StM.throwInt (-1)
  else
    read
    let _ ← declaration env fuel
    StM.whileLoop fuel (templ env fuel) id ()
    let _ ← instantiation env fuel
    let _ ← system env fuel
    notify env Call.done

/-- The constructor `XMLReader::XMLReader`, before its call of `read`. -/
def new (nodes : List Node) : XMLReader :=
  { cur := none, rest := nodes, locations := [], path := Path.new, log := [], errors := [] }

end XMLReader

open XMLReader in
/-- The body shared by `parseXMLFile` and `parseXMLBuffer`; `nodes` is what
the text reader delivers for the file or buffer, `none` if no reader could be
made.  A thrown `int` is caught and returned. -/
def parseXML (env : Env) (fuel : Nat) (nodes : Option (List Node)) : Outcome Int × XMLReader :=
  match nodes with
  | none => (.ok (-1), XMLReader.new [])
  | some l =>
    match (do read; nta env fuel : M Unit) (XMLReader.new l) with
    | (.ok _, s) => (.ok 0, s)
    | (.fatal error, s) => (.ok error, s)
    | (.typeException msg, s) => (.typeException msg, s)
    | (.crash, s) => (.crash, s)
    | (.timeout, s) => (.timeout, s)

/-- The function `parseXMLFile`; the reader is made with `XML_PARSE_NOCDATA`
and `XML_PARSE_NOBLANKS`, which only bears on the nodes delivered. -/
def parseXMLFile (env : Env) (fuel : Nat) (nodes : Option (List Node)) : Outcome Int × XMLReader :=
  parseXML env fuel nodes

/-- The function `parseXMLBuffer`; the reader is made with
`XML_PARSE_NOCDATA`. -/
def parseXMLBuffer (env : Env) (fuel : Nat) (nodes : Option (List Node)) : Outcome Int × XMLReader :=
  parseXML env fuel nodes

/-! ## Definitions used in the statements -/

/-- The element name of a tag. -/
def tagName : tag_t → String
  | TAG_NTA => "nta"
  | TAG_IMPORTS => "imports"
  | TAG_DECLARATION => "declaration"
  | TAG_TEMPLATE => "template"
  | TAG_INSTANTIATION => "instantiation"
  | TAG_SYSTEM => "system"
  | TAG_NAME => "name"
  | TAG_PARAMETER => "parameter"
  | TAG_LOCATION => "location"
  | TAG_INIT => "init"
  | TAG_TRANSITION => "transition"
  | TAG_URGENT => "urgent"
  | TAG_COMMITTED => "committed"
  | TAG_SOURCE => "source"
  | TAG_TARGET => "target"
  | TAG_LABEL => "label"
  | TAG_NAIL => "nail"

/-- The tags that may occur several times under one parent. -/
def repeatable : tag_t → Bool
  | TAG_TEMPLATE | TAG_LOCATION | TAG_TRANSITION | TAG_LABEL | TAG_NAIL => true
  | _ => false

/-- The segment of a frame as the specification words it: `/tagname` for
the frame's last tag, followed by `[k]` when the tag is repeatable, where `k`
counts the occurrences of that tag among all entries of the frame. -/
def specSegment (frame : List tag_t) : String :=
  match frame.getLast? with
  | none => ""
  | some t =>
    if repeatable t then "/" ++ tagName t ++ "[" ++ toString (frame.count t) ++ "]"
    else "/" ++ tagName t

/-- The rendering of a path as the specification words it: the segments of
the frames, outermost first, up to the first empty frame. -/
def specRender (p : Path) : String :=
  ((p.path.reverse.takeWhile (fun f => f ≠ [])).map specSegment).foldr (fun a b => a ++ b) ""

/-! ### Documents

A document in the shape the reader expects is described by its start tags in
the order of the grammar.  Each start tag carries the nodes that follow it up
to the next start tag (text, end tags, white space, comments). -/

/-- A start tag: its attributes, whether it is written `<a/>`, and the nodes
between it and the next start tag. -/
structure El where
  attrs : List (String × String)
  isEmpty : Bool
  gap : List Node
  deriving DecidableEq, Repr

/-- The node of a start tag with tag `t`. -/
def El.node (t : tag_t) (e : El) : Node := ⟨ELEMENT, tagName t, e.isEmpty, e.attrs, ""⟩

/-- The nodes of a start tag and of its gap. -/
def El.render (t : tag_t) (e : El) : List Node := e.node t :: e.gap

/-- The text directly after a start tag, if the next node is a text node. -/
def El.text (e : El) : Option String :=
  match e.gap with
  | [] => none
  | n :: _ => if n.type = TEXT then some n.value else none

/-- The nodes of an optional element. -/
def renderOpt (t : tag_t) : Option El → List Node
  | none => []
  | some e => e.render t

/-- The nodes of a sequence of elements with the same tag. -/
def renderEls (t : tag_t) : List El → List Node
  | [] => []
  | e :: es => e.render t ++ renderEls t es

/-- A `location` element: its start tag and its children in the order of the
grammar. -/
structure LocationD where
  el : El
  name : Option El
  labels : List El
  urgent : Option El
  committed : Option El
  deriving DecidableEq, Repr

/-- A `transition` element. -/
structure TransitionD where
  el : El
  source : Option El
  target : Option El
  labels : List El
  nails : List El
  deriving DecidableEq, Repr

/-- A `template` element. -/
structure TemplateD where
  el : El
  name : Option El
  parameter : Option El
  declaration : Option El
  locations : List LocationD
  init : Option El
  transitions : List TransitionD
  deriving DecidableEq, Repr

/-- A document: the nodes before the root tag, the root tag and its
children in the order of the grammar. -/
structure NtaD where
  pre : List Node
  el : El
  declaration : Option El
  templates : List TemplateD
  instantiation : Option El
  system : El
  deriving DecidableEq, Repr

/-- The nodes of a location. -/
def LocationD.render (l : LocationD) : List Node :=
  l.el.render TAG_LOCATION ++ renderOpt TAG_NAME l.name ++ renderEls TAG_LABEL l.labels
    ++ renderOpt TAG_URGENT l.urgent ++ renderOpt TAG_COMMITTED l.committed

/-- The nodes of a sequence of locations. -/
def renderLocations : List LocationD → List Node
  | [] => []
  | l :: ls => l.render ++ renderLocations ls

/-- The nodes of a transition. -/
def TransitionD.render (t : TransitionD) : List Node :=
  t.el.render TAG_TRANSITION ++ renderOpt TAG_SOURCE t.source ++ renderOpt TAG_TARGET t.target
    ++ renderEls TAG_LABEL t.labels ++ renderEls TAG_NAIL t.nails

/-- The nodes of a sequence of transitions. -/
def renderTransitions : List TransitionD → List Node
  | [] => []
  | t :: ts => t.render ++ renderTransitions ts

/-- The nodes of a template. -/
def TemplateD.render (t : TemplateD) : List Node :=
  t.el.render TAG_TEMPLATE ++ renderOpt TAG_NAME t.name ++ renderOpt TAG_PARAMETER t.parameter
    ++ renderOpt TAG_DECLARATION t.declaration ++ renderLocations t.locations
    ++ renderOpt TAG_INIT t.init ++ renderTransitions t.transitions

/-- The nodes of a sequence of templates. -/
def renderTemplates : List TemplateD → List Node
  | [] => []
  | t :: ts => t.render ++ renderTemplates ts

/-- The nodes of a document. -/
def NtaD.render (d : NtaD) : List Node :=
  d.pre ++ d.el.render TAG_NTA ++ renderOpt TAG_DECLARATION d.declaration
    ++ renderTemplates d.templates ++ renderOpt TAG_INSTANTIATION d.instantiation
    ++ d.system.render TAG_SYSTEM

/-- No node of the list is a start tag. -/
def NoElem (l : List Node) : Prop := ∀ n ∈ l, n.type ≠ ELEMENT

instance (l : List Node) : Decidable (NoElem l) := by
  unfold NoElem
  infer_instance

/-- The shape conditions on a start tag: its gap holds no start tag. -/
def El.ok (e : El) : Prop := NoElem e.gap

instance (e : El) : Decidable e.ok := by
  unfold El.ok
  infer_instance

/-- The shape conditions on an optional element. -/
def okOpt : Option El → Prop
  | none => True
  | some e => e.ok

instance (o : Option El) : Decidable (okOpt o) := by
  cases o <;> unfold okOpt <;> infer_instance

/-- The shape conditions on a location. -/
def LocationD.ok (l : LocationD) : Prop :=
  l.el.ok ∧ okOpt l.name ∧ (∀ e ∈ l.labels, e.ok) ∧ okOpt l.urgent ∧ okOpt l.committed

instance (l : LocationD) : Decidable l.ok := by
  unfold LocationD.ok
  infer_instance

/-- The shape conditions on a transition: a transition written
`<transition/>` has no children, and nails are written `<nail/>`. -/
def TransitionD.ok (t : TransitionD) : Prop :=
  t.el.ok ∧ okOpt t.source ∧ okOpt t.target ∧ (∀ e ∈ t.labels, e.ok)
    ∧ (∀ e ∈ t.nails, e.ok ∧ e.isEmpty = true)
    ∧ (t.el.isEmpty = true → t.source = none ∧ t.target = none ∧ t.labels = [] ∧ t.nails = [])

instance (t : TransitionD) : Decidable t.ok := by
  unfold TransitionD.ok
  infer_instance

/-- The shape conditions on a template: a template written `<template/>`
has no children. -/
def TemplateD.ok (t : TemplateD) : Prop :=
  t.el.ok ∧ okOpt t.name ∧ okOpt t.parameter ∧ okOpt t.declaration
    ∧ (∀ l ∈ t.locations, l.ok) ∧ okOpt t.init ∧ (∀ x ∈ t.transitions, x.ok)
    ∧ (t.el.isEmpty = true → t.name = none ∧ t.parameter = none ∧ t.declaration = none
        ∧ t.locations = [] ∧ t.init = none ∧ t.transitions = [])

instance (t : TemplateD) : Decidable t.ok := by
  unfold TemplateD.ok
  infer_instance

/-- The well-nestedness of a node list as XML, relative to the names of the
elements that are open (innermost first): every end tag closes the innermost
open element.  The list may stop before all elements are closed. -/
def WN : List String → List Node → Bool
  | _, [] => true
  | st, n :: l =>
    match n.type with
    | ELEMENT => if n.isEmpty then WN st l else WN (n.localName :: st) l
    | END_ELEMENT =>
      match st with
      | [] => false
      | x :: st1 => x = n.localName && WN st1 l
    | _ => WN st l

/-- The shape conditions on a document: the nodes before the root tag and
all gaps hold no start tag, the root tag is not written `<nta/>`, something
follows the `system` tag, and the nodes are well nested. -/
def NtaD.ok (d : NtaD) : Prop :=
  NoElem d.pre ∧ d.el.ok ∧ d.el.isEmpty = false ∧ okOpt d.declaration
    ∧ (∀ t ∈ d.templates, t.ok) ∧ okOpt d.instantiation ∧ d.system.ok ∧ d.system.gap ≠ []
    ∧ WN [] d.render = true

instance (d : NtaD) : Decidable d.ok := by
  unfold NtaD.ok
  infer_instance

/-! ### What a document means

The part of the reader's state that does not depend on the position in the
document, and the effect of each element of a document on it.  These
functions follow the corresponding methods with the calls of `begin` and
`read` left out; the theorems below show that the methods compute them. -/

/-- The map of locations, the calls made and the messages of the errors
reported. -/
structure Sem where
  locations : List (Option String × String)
  log : List Call
  msgs : List String
  deriving DecidableEq, Repr

/-- The position-independent part of the state of the reader. -/
def XMLReader.abs (s : XMLReader) : Sem :=
  ⟨s.locations, s.log, s.errors.map (fun e => e.msg)⟩

namespace Sem

/-- The state before anything is read. -/
def new : Sem := ⟨[], [], []⟩

/-- The effect of `handleError`. -/
def handleError (msg : String) : StM Sem Unit := fun s =>
  (.ok (), { s with msgs := s.msgs ++ [msg] })

/-- The effect of `parse`. -/
def parse (env : Env) (text : String) (part : xta_part_t) : StM Sem Int := fun s =>
  let r := env.parseXTA s.log text env.newxta part
  (.ok r.1, { s with
    log := s.log ++ [Call.parseXTA text env.newxta part],
    msgs := s.msgs ++ r.2 })

/-- The effect of `notify`. -/
def notify (env : Env) (c : Call) : StM Sem Unit := fun s =>
  match env.builder s.log c with
  | none => (.ok (), { s with log := s.log ++ [c] })
  | some msg => (.typeException msg, { s with log := s.log ++ [c] })

/-- The effect of `getLocation`. -/
def getLocation (id : Option String) : StM Sem String := fun s =>
  match id with
  | none => (.fatal (-1), s)
  | some i =>
    if s.locations.any (fun kv => kv.1 = none) then (.crash, s)
    else
      match s.locations.lookup (some i) with
      | some l => (.ok l, s)
      | none => (.fatal (-1), s)

/-- The effect of `setLocation`. -/
def setLocation (l_id : Option String) (l_name : String) : StM Sem Unit := fun s =>
  if s.locations = [] then (.ok (), { s with locations := [(l_id, l_name)] })
  else if l_id = none ∨ s.locations.any (fun kv => kv.1 = none) then (.crash, s)
  else if s.locations.any (fun kv => kv.1 = l_id) then
    let updated := s.locations.map fun kv => if kv.1 = l_id then (kv.1, l_name) else kv
    (.ok (), { s with locations := updated })
  else (.ok (), { s with locations := s.locations ++ [(l_id, l_name)] })

/-- The effect of `labelText`. -/
def labelText (env : Env) (kind : Option String) (text : String) : StM Sem Unit :=
  match kind with
  | none => StM.crashed
  | some k =>
    if k = "invariant" then do let _ ← parse env text S_INVARIANT
    else if k = "guard" then do let _ ← parse env text S_GUARD
    else if k = "synchronisation" then do let _ ← parse env text S_SYNC
    else if k = "assignment" then do let _ ← parse env text S_ASSIGN
    else pure ()

/-- The effect of `locationName`. -/
def locationName (l_name l_id : Option String) : StM Sem String :=
  if isempty l_name then
    match l_id with
    | none => StM.crashed
    | some i => pure ("_" ++ i)
  else pure (l_name.getD "")

/-- Running an action on each element of a list, in order. -/
def forEach {α β : Type} (f : α → StM Sem β) : List α → StM Sem Unit
  | [] => pure ()
  | a :: l => do
    let _ ← f a
    forEach f l

end Sem

/-- An element that `begin` with `skipEmpty` finds: present and not written
`<a/>`. -/
def found : Option El → Option El
  | none => none
  | some e => if e.isEmpty then none else some e

/-- The effect and the result of `declaration` on an optional `declaration`
element: its text is parsed. -/
def semDeclaration (env : Env) (o : Option El) : StM Sem Bool :=
  match found o with
  | some e =>
    match e.text with
    | some text => do
      let _ ← Sem.parse env text S_DECLARATION
      pure true
    | none => pure true
  | none => pure false

/-- The effect and the result of `label` on a `label` element: its text is
parsed according to its kind. -/
def semLabel (env : Env) (e : El) : StM Sem Bool :=
  match found (some e) with
  | some e =>
    match e.text with
    | some text => do
      Sem.labelText env (e.attrs.lookup "kind") text
      pure true
    | none => pure true
  | none => pure false

/-- The effect and the result of `name` on an optional `name` element. -/
def semName (env : Env) (o : Option El) : StM Sem (Option String) :=
  match (found o).bind El.text with
  | some name =>
    match symbol (some name) with
    | .ok id =>
      if !env.isKeyword id (SYNTAX_OLD ||| SYNTAX_PROPERTY) then pure (some id)
      else do
        Sem.handleError "Keywords are not allowed here"
        pure none
    | .error str => do
      Sem.handleError str
      pure none
  | none => pure none

/-- The effect and the result of `parameter` on an optional `parameter`
element. -/
def semParameter (env : Env) (o : Option El) : StM Sem Int :=
  match (found o).bind El.text with
  | some text => Sem.parse env text S_PARAMETERS
  | none => pure 0

/-- The value of `l_invariant` after the loop over the labels of a location:
true if the loop body ran, that is, if `label` returned true once. -/
def anyLabel (labels : List El) : Bool := labels.any (fun e => !e.isEmpty)

/-- The effect and the result of `location` on a `location` element. -/
def semLocation (env : Env) (l : LocationD) : StM Sem Bool := do
  StM.tryCatch (do
      let l_name ← semName env l.name
      Sem.forEach (semLabel env) l.labels
      let l_name ← Sem.locationName l_name (l.el.attrs.lookup "id")
      Sem.setLocation (l.el.attrs.lookup "id") l_name
      Sem.notify env (Call.procState l_name (anyLabel l.labels))
      if l.committed.isSome then Sem.notify env (Call.procStateCommit l_name) else pure ()
      if l.urgent.isSome then Sem.notify env (Call.procStateUrgent l_name) else pure ())
    (fun what => Sem.handleError what)
  pure true

/-- The effect and the result of `init` on the `init` element, or on its
absence. -/
def semInit (env : Env) (o : Option El) : StM Sem Bool :=
  match o with
  | none => do
    Sem.handleError "Missing initial state"
    pure false
  | some e => do
    match e.attrs.lookup "ref" with
    | some r =>
      let name ← Sem.getLocation (some r)
      StM.tryCatch (Sem.notify env (Call.procStateInit name)) (fun what => Sem.handleError what)
    | none => Sem.handleError "Missing initial state"
    pure true

/-- The effect and the result of `source` or `target` on a `source` or
`target` element, or on its absence. -/
def semEndpoint (o : Option El) : StM Sem String :=
  match o with
  | none => StM.throwInt (-1)
  | some e => Sem.getLocation (e.attrs.lookup "ref")

/-- The effect and the result of `transition` on a `transition` element;
one written `<transition/>` has no effect. -/
def semTransition (env : Env) (t : TransitionD) : StM Sem Bool :=
  if t.el.isEmpty then pure false
  else do
    StM.tryCatch (do
        let src ← semEndpoint t.source
        let dst ← semEndpoint t.target
        Sem.forEach (semLabel env) t.labels
        Sem.notify env (Call.procEdge src dst))
      (fun what => Sem.handleError what)
    pure true

/-- The effect and the result of `templ` on a `template` element; one
written `<template/>` has no effect. -/
def semTemplate (env : Env) (t : TemplateD) : StM Sem Bool :=
  if t.el.isEmpty then pure false
  else do
    StM.tryCatch (do
        let t_name ← semName env t.name
        let p_count ← semParameter env t.parameter
        Sem.notify env (Call.procBegin t_name p_count)
        let _ ← semDeclaration env t.declaration
        Sem.forEach (semLocation env) t.locations
        let _ ← semInit env t.init
        Sem.forEach (semTransition env) t.transitions
        Sem.notify env Call.procEnd)
      (fun what => Sem.handleError what)
    pure true

/-- The effect and the result of `instantiation` and of `system` on an
optional element: the text after its start tag, or the empty text, is
parsed. -/
def semSystem (env : Env) (part : xta_part_t) (o : Option El) : StM Sem Bool :=
  match o with
  | some e => do
    let _ ← Sem.parse env (e.text.getD "") part
    pure true
  | none => pure false

/-- The effect of `nta` on a document. -/
def semNta (env : Env) (d : NtaD) : StM Sem Unit := do
  let _ ← semDeclaration env d.declaration
  Sem.forEach (semTemplate env) d.templates
  let _ ← semSystem env S_INST d.instantiation
  let _ ← semSystem env S_SYSTEM (some d.system)
  Sem.notify env Call.done

/-- What the entry points return for a document, and the state they leave:
a thrown `int` is returned. -/
def semParse (env : Env) (d : NtaD) : Outcome Int × Sem :=
  match semNta env d Sem.new with
  | (.ok _, s) => (.ok 0, s)
  | (.fatal error, s) => (.ok error, s)
  | (.typeException msg, s) => (.typeException msg, s)
  | (.crash, s) => (.crash, s)
  | (.timeout, s) => (.timeout, s)

/-- The builder accepts every `procBegin`. -/
def AcceptsBegin (env : Env) : Prop :=
  ∀ log name count, env.builder log (Call.procBegin name count) = none

/-! ### Invariants of the reader -/

/-- The list starts with a start tag whose tag is one of `S`. -/
def Follows (S : List tag_t) (l : List Node) : Prop :=
  ∃ n r t, l = n :: r ∧ n.type = ELEMENT ∧ in_word_set n.localName = some t ∧ t ∈ S

/-- The frames of a path agree with the names of the open elements
(innermost first): the frame below the top ends with the tag of the innermost
open element, and so on outwards. -/
def PathOK : List (List tag_t) → List String → Prop
  | frames, [] => frames ≠ []
  | frames, x :: st =>
    match frames with
    | _ :: f :: fs => (∃ t, in_word_set x = some t ∧ f.getLast? = some t) ∧ PathOK (f :: fs) st
    | _ => False

/-- The name of the element that the next `read` pops from the path: the
current node is an end tag or an empty element. -/
def pendingPop (cur : Option Node) : List String :=
  match cur with
  | none => []
  | some n =>
    if n.type = END_ELEMENT ∨ (n.type = ELEMENT ∧ n.isEmpty = true) then [n.localName] else []

/-- The invariant of the reader: the nodes still to read are well nested
relative to some list of open elements, and the path agrees with it. -/
def Inv (s : XMLReader) : Prop :=
  ∃ st, WN st s.rest = true ∧ PathOK s.path.path (pendingPop s.cur ++ st)

/-- The invariant together with the bound on the fuel. -/
def Good (fuel : Nat) (s : XMLReader) : Prop :=
  Inv s ∧ s.rest.length < fuel

/-- A node that `begin` passes over when it looks for tag `k`: anything but
a start tag, or an empty element with tag `k`. -/
def Skippable (k : Option tag_t) (n : Node) : Prop :=
  n.type ≠ ELEMENT ∨ (n.isEmpty = true ∧ ∃ t, k = some t ∧ in_word_set n.localName = some t)

/-- The current node followed by the nodes still to read. -/
def XMLReader.stream (s : XMLReader) : List Node := s.cur.toList ++ s.rest

/-- The nodes `X` lie ahead of the reader, after nodes that `begin` passes
over. -/
def Pending (k : Option tag_t) (s : XMLReader) (X : List Node) : Prop :=
  ∃ skip, s.stream = skip ++ X ∧ ∀ n ∈ skip, Skippable k n

/-- The outcome is a normal return. -/
def Outcome.returns {α : Type} : Outcome α → Prop
  | .ok _ => True
  | _ => False

/-- The outcome is a normal return or a `TypeException`. -/
def Outcome.caught {α : Type} : Outcome α → Prop
  | .ok _ => True
  | .typeException _ => True
  | _ => False

/-- The method `m` reads the nodes `X` that lie ahead and has the effect
`m'`: from every good state with `X ++ tail` ahead, `m` ends as `m'` does,
with the same calls, messages and locations, and if its outcome satisfies
`post`, `tail` lies ahead in a good state. -/
def ParsesG {α : Type} (post : Outcome α → Prop) (fuel : Nat) (k : Option tag_t) (m : M α)
    (m' : StM Sem α) (X tail : List Node) : Prop :=
  ∀ s, Good fuel s → Pending k s (X ++ tail) →
    (m s).1 = (m' s.abs).1 ∧ (m s).2.abs = (m' s.abs).2 ∧
    (post (m s).1 → Good fuel (m s).2 ∧ Pending none (m s).2 tail)

/-- The judgement `ParsesG` for a normal return. -/
def Parses {α : Type} (fuel : Nat) (k : Option tag_t) (m : M α) (m' : StM Sem α)
    (X tail : List Node) : Prop :=
  ParsesG Outcome.returns fuel k m m' X tail

/-- The judgement `ParsesG` for a normal return or a `TypeException`. -/
def ParsesT {α : Type} (fuel : Nat) (k : Option tag_t) (m : M α) (m' : StM Sem α)
    (X tail : List Node) : Prop :=
  ParsesG Outcome.caught fuel k m m' X tail

/-- The effect `m'` never ends with a `TypeException`. -/
def NoThrow {α : Type} (m' : StM Sem α) : Prop :=
  ∀ σ msg, (m' σ).1 ≠ .typeException msg

/-- The text of the current node, if it is a text node. -/
def XMLReader.curText (s : XMLReader) : Option String :=
  if XMLReader.getNodeType s = TEXT then some (XMLReader.getValue s) else none

/-- The method `m` does not read and has the effect `m'`. -/
def Sim {α : Type} (m : M α) (m' : StM Sem α) : Prop :=
  ∀ s, (m s).1 = (m' s.abs).1 ∧ (m s).2.abs = (m' s.abs).2 ∧
    (m s).2.cur = s.cur ∧ (m s).2.rest = s.rest ∧ (m s).2.path = s.path

/-- The value of the variable of a loop `while (f()) b = body(b);` over a
list of elements: the body runs once for each element that is not
skipped. -/
def loopResult {α β : Type} (body : β → β) (skipped : α → Bool) : β → List α → β
  | b, [] => b
  | b, a :: l => if skipped a then loopResult body skipped b l
                 else loopResult body skipped (body b) l

/-- The nodes of a sequence of elements. -/
def renderAll {α : Type} (rend : α → List Node) : List α → List Node
  | [] => []
  | a :: l => rend a ++ renderAll rend l

/-- The outcome and the position-independent state of a run of an entry
point. -/
def absRun (r : Outcome Int × XMLReader) : Outcome Int × Sem := (r.1, r.2.abs)

/-! ### The calls that begin and end templates -/

/-- What a call says about the templates: `some name` for `procBegin` with
that name, `none` for `procEnd`; other calls say nothing. -/
def templateCall : Call → Option (Option (Option String))
  | Call.procBegin name _ => some (some name)
  | Call.procEnd => some none
  | _ => none

/-- The calls of `procBegin` (as `some name`) and of `procEnd` (as `none`)
of a log, in the order made. -/
def templateCalls (log : List Call) : List (Option (Option String)) :=
  log.filterMap templateCall

/-- The call is a `procBegin`. -/
def Call.isBegin : Call → Bool
  | Call.procBegin _ _ => true
  | _ => false

/-- The call is a `procEnd`. -/
def Call.isEnd : Call → Bool
  | Call.procEnd => true
  | _ => false

/-- The value that `name` returns on an optional `name` element: the
identifier of its text, unless there is none or it is a keyword. -/
def nameOf (env : Env) (o : Option El) : Option String :=
  match (found o).bind El.text with
  | some name =>
    match symbol (some name) with
    | .ok id => if !env.isKeyword id (SYNTAX_OLD ||| SYNTAX_PROPERTY) then some id else none
    | .error _ => none
  | none => none

/-- One `procBegin` followed by one `procEnd` for each template not written
`<template/>`, in document order. -/
def pairsOf (env : Env) : List TemplateD → List (Option (Option String))
  | [] => []
  | t :: ts =>
    if t.el.isEmpty then pairsOf env ts else some (nameOf env t.name) :: none :: pairsOf env ts

/-- The number of templates not written `<template/>`. -/
def countTemplates (ts : List TemplateD) : Nat :=
  ts.countP (fun t => !t.el.isEmpty)

/-- The effect `m` makes no call that `π` selects. -/
def Quiet {α β : Type} (π : Call → Option β) (m : StM Sem α) : Prop :=
  ∀ σ, (m σ).2.log.filterMap π = σ.log.filterMap π

/-- If the effect `m` ends normally or with a `TypeException`, the calls it
made that `π` selects are `X`. -/
def Emits {α β : Type} (π : Call → Option β) (m : StM Sem α) (X : List β) : Prop :=
  ∀ σ, (m σ).1.caught → (m σ).2.log.filterMap π = σ.log.filterMap π ++ X

/-- The effect `m` throws no `int` but -1. -/
def ThrowsMinusOne {α : Type} (m : StM Sem α) : Prop :=
  ∀ σ c, (m σ).1 = .fatal c → c = -1

/-! ### Documents and collaborators used as instances -/

/-- The node of a start tag `<name ...>`. -/
def startTag (name : String) (attrs : List (String × String)) : Node :=
  ⟨ELEMENT, name, false, attrs, ""⟩

/-- The node of an empty element `<name .../>`. -/
def emptyTag (name : String) (attrs : List (String × String)) : Node :=
  ⟨ELEMENT, name, true, attrs, ""⟩

/-- The node of an end tag `</name>`. -/
def endTag (name : String) : Node := ⟨END_ELEMENT, name, false, [], ""⟩

/-- A text node. -/
def textNode (value : String) : Node := ⟨TEXT, "#text", false, [], value⟩

/-- Collaborators that accept everything: no keyword, an embedded grammar
that returns 0 without a message, a builder that never throws. -/
def acceptAll : Env :=
  { newxta := true
    isKeyword := fun _ _ => false
    parseXTA := fun _ _ _ _ => (0, [])
    builder := fun _ _ => none }

/-- Collaborators as `acceptAll`, with a builder that answers every
`procBegin` with a `TypeException`. -/
def rejectBegin : Env :=
  { newxta := true
    isKeyword := fun _ _ => false
    parseXTA := fun _ _ _ _ => (0, [])
    builder := fun _ c => if c.isBegin then some "rejected" else none }

/-- The template
`<template><name>n</name><location id="i"></location><init ref="i"/>`
`<transition><source ref="i"/><target ref="i"/></transition></template>`. -/
def loopTemplate (n i : String) : TemplateD :=
  { el := ⟨[], false, []⟩
    name := some ⟨[], false, [textNode n, endTag "name"]⟩
    parameter := none
    declaration := none
    locations := [⟨⟨[("id", i)], false, [endTag "location"]⟩, none, [], none, none⟩]
    init := some ⟨[("ref", i)], true, []⟩
    transitions :=
      [⟨⟨[], false, []⟩, some ⟨[("ref", i)], true, []⟩,
        some ⟨[("ref", i)], true, [endTag "transition", endTag "template"]⟩, [], []⟩] }

/-- The document `<nta>` templates `<system>system T;</system></nta>`. -/
def docOf (ts : List TemplateD) : NtaD :=
  { pre := []
    el := ⟨[], false, []⟩
    declaration := none
    templates := ts
    instantiation := none
    system := ⟨[], false, [textNode "system T;", endTag "system", endTag "nta"]⟩ }

/-- A document with two templates. -/
def twoTemplates : NtaD := docOf [loopTemplate "T" "a", loopTemplate "U" "b"]

/-- A document with one template. -/
def oneTemplate : NtaD := docOf [loopTemplate "T" "a"]

/-- The nodes of the document
`<nta><template><name>T</name><location id="a"></location><init ref="a"/>`
`</template></nta>`, which has no `system` element. -/
def noSystem : List Node :=
  [startTag "nta" [], startTag "template" [], startTag "name" [], textNode "T", endTag "name",
    startTag "location" [("id", "a")], endTag "location", emptyTag "init" [("ref", "a")],
    endTag "template", endTag "nta"]

/-! ### The parse up to a point of the document -/

/-- The effect of `templ` on a template before it comes to the `init`
element: the name, the parameters, `procBegin`, the declaration and the
locations. -/
def semTemplateHead (env : Env) (t : TemplateD) : StM Sem Unit := do
  let t_name ← semName env t.name
  let p_count ← semParameter env t.parameter
  Sem.notify env (Call.procBegin t_name p_count)
  let _ ← semDeclaration env t.declaration
  Sem.forEach (semLocation env) t.locations

/-- The effect of the parse of document `d` before it comes to the `init`
element of the template `t` that follows the templates `before`. -/
def semUpToInit (env : Env) (d : NtaD) (before : List TemplateD) (t : TemplateD) :
    StM Sem Unit := do
  let _ ← semDeclaration env d.declaration
  Sem.forEach (semTemplate env) before
  semTemplateHead env t

/-- The effect of the parse of document `d` before it comes to the
transition of template `t` that follows the transitions `xs`. -/
def semUpToTransition (env : Env) (d : NtaD) (before : List TemplateD) (t : TemplateD)
    (xs : List TransitionD) : StM Sem Unit := do
  semUpToInit env d before t
  let _ ← semInit env t.init
  Sem.forEach (semTransition env) xs

/-- The location that `source` or `target` finds for an element: the entry
of the map of locations for its `ref` attribute. -/
def resolve (σ : Sem) (o : Option El) : Option String :=
  match o with
  | none => none
  | some e =>
    match e.attrs.lookup "ref" with
    | none => none
    | some r => σ.locations.lookup (some r)

/-- No key of the map of locations is null. -/
def KeysSet (σ : Sem) : Prop := ∀ kv ∈ σ.locations, kv.1 ≠ none

instance (σ : Sem) : Decidable (KeysSet σ) := by
  unfold KeysSet
  infer_instance

/-- The effect of `templ` on a template from its `init` element on: the
initial location, the transitions and `procEnd`. -/
def semTemplateTail (env : Env) (t : TemplateD) : StM Sem Unit := do
  let _ ← semInit env t.init
  Sem.forEach (semTransition env) t.transitions
  Sem.notify env Call.procEnd

/-- A template whose second transition has a `target` with a `ref` that no
location has:
`<template><name>T</name><location id="a"></location><init ref="a"/>`
`<transition><source ref="a"/><target ref="a"/></transition>`
`<transition><source ref="a"/><target ref="zz"/></transition></template>`. -/
def danglingTarget : TemplateD :=
  { el := ⟨[], false, []⟩
    name := some ⟨[], false, [textNode "T", endTag "name"]⟩
    parameter := none
    declaration := none
    locations := [⟨⟨[("id", "a")], false, [endTag "location"]⟩, none, [], none, none⟩]
    init := some ⟨[("ref", "a")], true, []⟩
    transitions :=
      [⟨⟨[], false, []⟩, some ⟨[("ref", "a")], true, []⟩,
          some ⟨[("ref", "a")], true, [endTag "transition"]⟩, [], []⟩,
        ⟨⟨[], false, []⟩, some ⟨[("ref", "a")], true, []⟩,
          some ⟨[("ref", "zz")], true, [endTag "transition", endTag "template"]⟩, [], []⟩] }

/-- The nodes of the document
`<nta><template><name>T</name><location id="a"></location><init ref="a"/>`
`<transition/></template><system>system T;</system></nta>`, whose transition
has neither a `source` nor a `target`. -/
def selfClosingTransition : List Node :=
  [startTag "nta" [], startTag "template" [], startTag "name" [], textNode "T", endTag "name",
    startTag "location" [("id", "a")], endTag "location", emptyTag "init" [("ref", "a")],
    emptyTag "transition" [], endTag "template", startTag "system" [], textNode "system T;",
    endTag "system", endTag "nta"]

/-- A template whose `init` has a `ref` that no location has:
`<template><name>T</name><location id="a"></location><init ref="zz"/>`
`<transition><source ref="a"/><target ref="a"/></transition></template>`. -/
def unregisteredInit : TemplateD :=
  { loopTemplate "T" "a" with init := some ⟨[("ref", "zz")], true, []⟩ }

/-- A template without an `init` element:
`<template><name>T</name><location id="a"></location>`
`<transition><source ref="a"/><target ref="a"/></transition></template>`. -/
def withoutInit : TemplateD :=
  { loopTemplate "T" "a" with init := none }

/-- A template whose `init` has no `ref`:
`<template><name>T</name><location id="a"></location><init/>`
`<transition><source ref="a"/><target ref="a"/></transition></template>`. -/
def initWithoutRef : TemplateD :=
  { loopTemplate "T" "a" with init := some ⟨[], true, []⟩ }

/-- What the entry points make of the way `nta` ends: a thrown `int` is
returned, a normal end returns 0. -/
def finishParse (r : Outcome Unit × Sem) : Outcome Int × Sem :=
  match r with
  | (.ok _, s) => (.ok 0, s)
  | (.fatal error, s) => (.ok error, s)
  | (.typeException msg, s) => (.typeException msg, s)
  | (.crash, s) => (.crash, s)
  | (.timeout, s) => (.timeout, s)

/-- The nodes of the document
`<nta><template><name>T</name><location id="a"></location>`
`<transition><source ref="a"/><target ref="a"/></transition></template></nta>`,
whose template has no `init` element and which has no `system` element. -/
def noInitNoSystem : List Node :=
  [startTag "nta" [], startTag "template" [], startTag "name" [], textNode "T", endTag "name",
    startTag "location" [("id", "a")], endTag "location", startTag "transition" [],
    emptyTag "source" [("ref", "a")], emptyTag "target" [("ref", "a")], endTag "transition",
    endTag "template", endTag "nta"]

/-- The call is a call of the embedded grammar. -/
def Call.isParse : Call → Bool
  | Call.parseXTA _ _ _ => true
  | _ => false

/-- Every label that has a text has a `kind` attribute. -/
def LabelKinds (labels : List El) : Prop :=
  ∀ e ∈ labels, e.isEmpty = false → e.text ≠ none → e.attrs.lookup "kind" ≠ none

instance (labels : List El) : Decidable (LabelKinds labels) := by
  unfold LabelKinds
  infer_instance

/-- The name under which `location` registers a location with id `i` and
which it passes to `procState`: the identifier that `name` returns, or `"_"`
followed by the id if `name` returns none. -/
def locationNameOf (env : Env) (l : LocationD) (i : String) : String :=
  (nameOf env l.name).getD ("_" ++ i)

/-- The string is an identifier: a letter or `_` followed by characters of
identifiers. -/
def identifier (s : String) : Bool :=
  match s.data with
  | [] => false
  | c :: cs => isAlpha c && cs.all isIdChr

/-- A location with id `a` and no name: `<location id="a"></location>`. -/
def unnamedLocation : LocationD :=
  ⟨⟨[("id", "a")], false, [endTag "location"]⟩, none, [], none, none⟩

/-- A location with id `a` and name `idle`:
`<location id="a"><name>idle</name></location>`. -/
def namedLocation : LocationD :=
  ⟨⟨[("id", "a")], false, []⟩, some ⟨[], false, [textNode "idle", endTag "name",
    endTag "location"]⟩, [], none, none⟩

/-- A location with id `a` and one label of a kind that `label` does not
know: `<location id="a"><label kind="comments">hi</label></location>`. -/
def commentedLocation : LocationD :=
  ⟨⟨[("id", "a")], false, []⟩, none,
    [⟨[("kind", "comments")], false, [textNode "hi", endTag "label", endTag "location"]⟩],
    none, none⟩

/-- The template `loopTemplate "T" "a"` with the label
`<label kind="comments">hi</label>` added to its location. -/
def commentedTemplate : TemplateD :=
  { loopTemplate "T" "a" with locations := [commentedLocation] }

/-- The template `loopTemplate "T" "a"` with the label
`<label kind="comments">hi</label>` added to its transition. -/
def commentedTransition : TemplateD :=
  { loopTemplate "T" "a" with
    transitions :=
      [⟨⟨[], false, []⟩, some ⟨[("ref", "a")], true, []⟩, some ⟨[("ref", "a")], true, []⟩,
        [⟨[("kind", "comments")], false,
          [textNode "hi", endTag "label", endTag "transition", endTag "template"]⟩], []⟩] }

/-! ### Siblings and their ordinals -/

/-- The method `read` called `n` times in a row. -/
def XMLReader.readN : Nat → M Unit
  | 0 => pure ()
  | n + 1 => do
    XMLReader.read
    XMLReader.readN n

/-- The nodes `X` are a sequence of complete elements with the known tags
`ts`, in this order, with any nodes other than tags between them: each
element is an empty element, or a start tag, a sequence of this kind and the
end tag of the same name. -/
inductive Siblings : List Node → List tag_t → Prop
  | nil : Siblings [] []
  | other (n : Node) (X : List Node) (ts : List tag_t) :
      n.type ≠ ELEMENT → n.type ≠ END_ELEMENT → Siblings X ts → Siblings (n :: X) ts
  | empty (n : Node) (t : tag_t) (X : List Node) (ts : List tag_t) :
      n.type = ELEMENT → n.isEmpty = true → in_word_set n.localName = some t →
      Siblings X ts → Siblings (n :: X) (t :: ts)
  | elem (n e : Node) (t : tag_t) (C : List Node) (cs : List tag_t) (X : List Node)
      (ts : List tag_t) :
      n.type = ELEMENT → n.isEmpty = false → in_word_set n.localName = some t →
      e.type = END_ELEMENT → e.localName = n.localName →
      Siblings C cs → Siblings X ts → Siblings (n :: (C ++ e :: X)) (t :: ts)

/-- The frames of the path are `F` once the pop is made that the next
`read` makes for the current node (an end tag or an empty element), and that
pop agrees with the current node. -/
def Settled (s : XMLReader) (F : List (List tag_t)) : Prop :=
  (pendingPop s.cur = [] ∧ s.path.path = F) ∨
  (∃ n c t back below, s.cur = some n
    ∧ (n.type = END_ELEMENT ∨ (n.type = ELEMENT ∧ n.isEmpty = true))
    ∧ in_word_set n.localName = some t ∧ s.path.path = c :: F
    ∧ F = back :: below ∧ back.getLast? = some t)

/-- The reader at the start tag of the first template of a document, with
three locations ahead:
`<location id="a"></location><location id="b"/> <location id="c">`. -/
def atTemplate : XMLReader :=
  { cur := some (startTag "template" [])
    rest := [startTag "location" [("id", "a")], endTag "location",
      emptyTag "location" [("id", "b")], textNode " ", startTag "location" [("id", "c")]]
    locations := []
    path := ⟨[[], [TAG_TEMPLATE], [TAG_NTA]]⟩
    log := []
    errors := [] }

/-! ### Start tags with unknown names -/

/-- The node is a start tag whose name is not in the table of tags. -/
def Unknown (n : Node) : Prop := n.type = ELEMENT ∧ in_word_set n.localName = none

instance (n : Node) : Decidable (Unknown n) := by
  unfold Unknown
  infer_instance

/-- The nodes of `nodes` that the reader has read when `s.rest` is still to
read. -/
def consumed (nodes : List Node) (s : XMLReader) : List Node :=
  nodes.take (nodes.length - s.rest.length)

/-- The method `m` reads on in `nodes` and throws -1 as soon as it has read
a start tag with an unknown name: from a state in which no such tag has been
read, it ends in a state in which none has been read, or with -1 thrown. -/
def StopsAtUnknown {α : Type} (nodes : List Node) (m : M α) : Prop :=
  ∀ s pre, nodes = pre ++ s.rest → (∀ n ∈ pre, ¬ Unknown n) →
    ∃ pre1, nodes = pre1 ++ (m s).2.rest
      ∧ ((∀ n ∈ pre1, ¬ Unknown n) ∨ (m s).1 = .fatal (-1))

/-- The nodes of the document
`<nta><system>system T;</system><gadget/></nta>`, in which `gadget` is not
a known tag. -/
def unknownAfterSystem : List Node :=
  [startTag "nta" [], startTag "system" [], textNode "system T;", endTag "system",
    emptyTag "gadget" [], endTag "nta"]

/-- The nodes of the document
`<nta><template><gadget/></template><system>system T;</system></nta>`, in
which `gadget` is not a known tag. -/
def unknownInTemplate : List Node :=
  [startTag "nta" [], startTag "template" [], emptyTag "gadget" [], endTag "template",
    startTag "system" [], textNode "system T;", endTag "system", endTag "nta"]

/-! ### The calls that an effect adds -/

/-- The effect `m` only appends to the log, and every call it appends
satisfies `P`. -/
def Adds {α : Type} (P : Call → Prop) (m : StM Sem α) : Prop :=
  ∀ σ, ∃ l, (m σ).2.log = σ.log ++ l ∧ ∀ c ∈ l, P c

/-- The calls made before the instantiation is reached: every call but
`done` and the calls of the embedded grammar for the instantiation and the
system. -/
def Call.early : Call → Bool
  | Call.parseXTA _ _ part => part ≠ S_INST && part ≠ S_SYSTEM
  | Call.done => false
  | _ => true

/-! ### The end of the document -/

/-- The effect of the parse of document `d` before it comes to the
instantiation: the declaration and the templates. -/
def semUpToInstantiation (env : Env) (d : NtaD) : StM Sem Unit := do
  let _ ← semDeclaration env d.declaration
  Sem.forEach (semTemplate env) d.templates

/-- The builder accepts every `done`. -/
def AcceptsDone (env : Env) : Prop := ∀ log, env.builder log Call.done = none

/-- The call is a call of the embedded grammar for the instantiation. -/
def Call.isInst : Call → Bool
  | Call.parseXTA _ _ part => part = S_INST
  | _ => false

/-- The call is a call of the embedded grammar for the system. -/
def Call.isSystem : Call → Bool
  | Call.parseXTA _ _ part => part = S_SYSTEM
  | _ => false

/-- The calls that `instantiation` makes on a document: one call of the
embedded grammar if the element is present, with its text or the empty
string. -/
def instCalls (env : Env) (d : NtaD) : List Call :=
  match d.instantiation with
  | some e => [Call.parseXTA (e.text.getD "") env.newxta S_INST]
  | none => []

/-- The nodes of the document `<nta></nta>`. -/
def rootOnly : List Node := [startTag "nta" [], endTag "nta"]

/-- The document `oneTemplate` with the element
`<instantiation>P = T();</instantiation>` before its `system` element. -/
def withInstantiation : NtaD :=
  { oneTemplate with
    instantiation := some ⟨[], false, [textNode "P = T();", endTag "instantiation"]⟩ }

/-- Collaborators as `acceptAll`, with a builder that answers the
`procBegin` of the template named `T` with a `TypeException` and accepts
every other call. -/
def rejectT : Env :=
  { newxta := true
    isKeyword := fun _ _ => false
    parseXTA := fun _ _ _ _ => (0, [])
    builder := fun _ c => if c = Call.procBegin (some "T") 0 then some "rejected" else none }

/-- The document of `twoTemplates` followed by an `instantiation` element:
`<nta>` T, U `<instantiation>P = T();</instantiation><system>system T;</system></nta>`. -/
def twoTemplatesInst : NtaD :=
  { twoTemplates with
    instantiation := some ⟨[], false, [textNode "P = T();", endTag "instantiation"]⟩ }

/-- The effect of `templ` on a template before it calls `procBegin`: the
name and the number of parameters. -/
def semTemplateNames (env : Env) (t : TemplateD) : StM Sem (Option String × Int) := do
  let t_name ← semName env t.name
  let p_count ← semParameter env t.parameter
  pure (t_name, p_count)

/-- A call that `templ` makes after `procBegin`: the embedded grammar for a
declaration or a label, or a notification of a location, of the initial
location, of an edge or of the end of the template. -/
def Call.inBody : Call → Bool
  | Call.parseXTA _ _ part =>
    part = S_DECLARATION || part = S_INVARIANT || part = S_GUARD || part = S_SYNC
      || part = S_ASSIGN
  | Call.procBegin _ _ => false
  | Call.done => false
  | _ => true

/-- The template of `loopTemplate "T" "a"` with the parameter element
`<parameter>int x</parameter>` after its name. -/
def paramTemplate : TemplateD :=
  { loopTemplate "T" "a" with
    parameter := some ⟨[], false, [textNode "int x", endTag "parameter"]⟩ }

/-- The label `<label kind="guard">x &gt; 0</label>`. -/
def guardLabel : El := ⟨[("kind", "guard")], false, [textNode "x > 0", endTag "label"]⟩

/-- The element `<name> idle </name>`, with white space around the
identifier. -/
def spacedName : El := ⟨[], false, [textNode " idle ", endTag "name"]⟩

/-- A node of white space.  The text reader delivers text that is all white
space with the node type `XML_READER_TYPE_WHITESPACE` or
`XML_READER_TYPE_SIGNIFICANT_WHITESPACE`, never as a text node. -/
def spaceNode (value : String) : Node := ⟨OTHER, "#text", false, [], value⟩

/-- The element `<name> </name>`, whose text is blank. -/
def blankName : El := ⟨[], false, [spaceNode " ", endTag "name"]⟩

/-- The element `<name></name>`, without text. -/
def emptyName : El := ⟨[], false, [endTag "name"]⟩

/-- The element `<name>1st</name>`, whose text is no identifier. -/
def digitName : El := ⟨[], false, [textNode "1st", endTag "name"]⟩

/-- Collaborators as `acceptAll`, with a keyword table in which `broadcast`
is a keyword of the new syntax only: `isKeyword "broadcast" mask` holds when
`mask` has the bit `SYNTAX_NEW`. -/
def newKeyword : Env :=
  { newxta := true
    isKeyword := fun id mask => id = "broadcast" && mask &&& SYNTAX_NEW ≠ 0
    parseXTA := fun _ _ _ _ => (0, [])
    builder := fun _ _ => none }

/-- The element `<name>broadcast</name>`. -/
def broadcastName : El := ⟨[], false, [textNode "broadcast", endTag "name"]⟩

/-- Collaborators as `acceptAll`, with the dialect flag `newxta` set and a
keyword table in which `commit` is a keyword of the old syntax only:
`isKeyword "commit" mask` holds when `mask` has the bit `SYNTAX_OLD`. -/
def oldKeyword : Env :=
  { newxta := true
    isKeyword := fun id mask => id = "commit" && mask &&& SYNTAX_OLD ≠ 0
    parseXTA := fun _ _ _ _ => (0, [])
    builder := fun _ _ => none }

/-- The element `<name>commit</name>`. -/
def commitName : El := ⟨[], false, [textNode "commit", endTag "name"]⟩

/-- The effect `m` keeps the entry of id `i` in the map of locations: if the
map has no null key and holds `nm` for `i` before, so it does after. -/
def Keeps {α : Type} (i nm : String) (m : StM Sem α) : Prop :=
  ∀ σ, KeysSet σ → σ.locations.lookup (some i) = some nm →
    KeysSet (m σ).2 ∧ (m σ).2.locations.lookup (some i) = some nm

/-- A template whose `init` and whose transition refer to the location `a`
of another template:
`<template><name>U</name><location id="b"></location><init ref="a"/>`
`<transition><source ref="a"/><target ref="b"/></transition></template>`. -/
def crossTemplate : TemplateD :=
  { el := ⟨[], false, []⟩
    name := some ⟨[], false, [textNode "U", endTag "name"]⟩
    parameter := none
    declaration := none
    locations := [⟨⟨[("id", "b")], false, [endTag "location"]⟩, none, [], none, none⟩]
    init := some ⟨[("ref", "a")], true, []⟩
    transitions :=
      [⟨⟨[], false, []⟩, some ⟨[("ref", "a")], true, []⟩,
        some ⟨[("ref", "b")], true, [endTag "transition", endTag "template"]⟩, [], []⟩] }

/-- The document with the templates `loopTemplate "T" "a"` and
`crossTemplate`. -/
def crossDoc : NtaD := docOf [loopTemplate "T" "a", crossTemplate]

/-! ### The `switch` of `Path::get` with its `default` branch -/

/-- The value of a tag as the `enum tag_t` numbers it. -/
def tag_t.code : tag_t → Nat
  | TAG_NTA => 0
  | TAG_IMPORTS => 1
  | TAG_DECLARATION => 2
  | TAG_TEMPLATE => 3
  | TAG_INSTANTIATION => 4
  | TAG_SYSTEM => 5
  | TAG_NAME => 6
  | TAG_PARAMETER => 7
  | TAG_LOCATION => 8
  | TAG_INIT => 9
  | TAG_TRANSITION => 10
  | TAG_URGENT => 11
  | TAG_COMMITTED => 12
  | TAG_SOURCE => 13
  | TAG_TARGET => 14
  | TAG_LABEL => 15
  | TAG_NAIL => 16

/-- The `switch (i->back())` of `Path::get` on the number of the tag, for a
frame `i` given by the numbers of its tags, with its `default` branch
`throw -1`. -/
def Path.switchSegment (i : List Nat) (back : Nat) : Except Int String :=
  match back with
  | 0 => .ok "/nta"
  | 1 => .ok "/imports"
  | 2 => .ok "/declaration"
  | 3 => .ok ("/template[" ++ Path.showCount (i.count 3) ++ "]")
  | 4 => .ok "/instantiation"
  | 5 => .ok "/system"
  | 6 => .ok "/name"
  | 7 => .ok "/parameter"
  | 8 => .ok ("/location[" ++ Path.showCount (i.count 8) ++ "]")
  | 9 => .ok "/init"
  | 10 => .ok ("/transition[" ++ Path.showCount (i.count 10) ++ "]")
  | 15 => .ok ("/label[" ++ Path.showCount (i.count 15) ++ "]")
  | 11 => .ok "/urgent"
  | 12 => .ok "/committed"
  | 13 => .ok "/source"
  | 14 => .ok "/target"
  | 16 => .ok ("/nail[" ++ Path.showCount (i.count 16) ++ "]")
  | _ => .error (-1)

/-- The loop of `Path::get` over frames given by the numbers of their tags,
from the iterator position given by the frames still to visit; the `throw`
of the `default` branch ends it. -/
def Path.getFromCodes : List (List Nat) → Except Int String
  | [] => .ok ""
  | i :: rest =>
    match i.getLast? with
    | none => .ok ""
    | some back =>
      match Path.switchSegment i back with
      | .error e => .error e
      | .ok seg =>
        match Path.getFromCodes rest with
        | .error e => .error e
        | .ok str => .ok (seg ++ str)

/-- The method `Path::get` with its `default` branch, on the frames of a
path. -/
def Path.getChecked (p : Path) : Except Int String :=
  Path.getFromCodes (p.path.reverse.map (fun frame => frame.map tag_t.code))

/-! ### The depth of the path -/

/-- A call of `Path::push` or of `Path::pop`. -/
inductive PathOp
  | push (t : tag_t)
  | pop
  deriving DecidableEq, Repr

/-- The call is a `push`. -/
def PathOp.isPush : PathOp → Bool
  | PathOp.push _ => true
  | PathOp.pop => false

/-- The call is a `pop`. -/
def PathOp.isPop : PathOp → Bool
  | PathOp.push _ => false
  | PathOp.pop => true

/-- The calls `ops` made in a row on the path `p`; `none` where a `pop`
calls `back()` on an empty container. -/
def Path.run : List PathOp → Path → Option Path
  | [], p => some p
  | PathOp.push t :: ops, p => Path.run ops (p.push t)
  | PathOp.pop :: ops, p =>
    match p.pop with
    | none => none
    | some r => Path.run ops r.2

/-- No prefix of the calls holds more calls of `pop` than of `push`. -/
def Balanced (ops : List PathOp) : Prop :=
  ∀ j, (ops.take j).countP PathOp.isPop ≤ (ops.take j).countP PathOp.isPush

/-- The node is a start tag; an empty element is one. -/
def Node.opens (n : Node) : Bool := n.type = ELEMENT

/-- The node ends an element: an end tag or an empty element. -/
def Node.closes (n : Node) : Bool :=
  n.type = END_ELEMENT || (n.type = ELEMENT && n.isEmpty)

/-- The number of elements that are open when the nodes `read` have been
read and the last of them is the current node: the start tags read, less the
end tags and empty elements that the reader has left.  The current node has
not been left. -/
def openElements (read : List Node) : Int :=
  (read.countP Node.opens : Int) - (read.dropLast.countP Node.closes : Int)

/-- The start tag `<a>` for the empty element `<a/>`. -/
def Node.asStart (e : Node) : Node := { e with isEmpty := false }

/-- The end tag `</a>` for the element `a`. -/
def Node.endOf (e : Node) : Node := ⟨END_ELEMENT, e.localName, false, [], ""⟩

/-- The effect of a computation that does not return, whatever the fuel. -/
def Sem.hang {α : Type} : StM Sem α := fun σ => (.timeout, σ)

/-- The transition
`<transition><source ref="a"/><target ref="a"/><nail x="0" y="0"></nail></transition>`,
whose nail has a separate end tag. -/
def openNailTransition : TransitionD :=
  ⟨⟨[], false, []⟩, some ⟨[("ref", "a")], true, []⟩, some ⟨[("ref", "a")], true, []⟩, [],
    [⟨[("x", "0"), ("y", "0")], false, [endTag "nail", endTag "transition"]⟩]⟩

/-- A reader with the nodes of `openNailTransition` ahead, after the location
`a` with the name `A` was registered. -/
def openNailState : XMLReader :=
  { XMLReader.new openNailTransition.render with locations := [(some "a", "A")] }

/-! ### A rejected notification inside a template -/

/-- The effect of `transition` on a transition before it calls `procEdge`:
the names of the source and of the target, and the labels. -/
def semEdgeEnds (env : Env) (x : TransitionD) : StM Sem (String × String) := do
  let src ← semEndpoint x.source
  let dst ← semEndpoint x.target
  Sem.forEach (semLabel env) x.labels
  pure (src, dst)

/-- What the parse of document `d` does after a transition of a template:
the transitions `ys` that follow it in the template and `procEnd`, then the
templates `after`, the instantiation, the system and `done`. -/
def semAfterTransition (env : Env) (d : NtaD) (ys : List TransitionD)
    (after : List TemplateD) : StM Sem Unit := do
  StM.tryCatch (do
      Sem.forEach (semTransition env) ys
      Sem.notify env Call.procEnd)
    (fun what => Sem.handleError what)
  Sem.forEach (semTemplate env) after
  let _ ← semSystem env S_INST d.instantiation
  let _ ← semSystem env S_SYSTEM (some d.system)
  Sem.notify env Call.done

/-- Collaborators as `acceptAll`, with a builder that answers the call
`procEdge("_a", "_b")` with a `TypeException`. -/
def rejectEdge : Env :=
  { newxta := true
    isKeyword := fun _ _ => false
    parseXTA := fun _ _ _ _ => (0, [])
    builder := fun _ c => if c = Call.procEdge "_a" "_b" then some "rejected" else none }

/-- The transition `<transition><source ref="a"/><target ref="b"/></transition>`. -/
def edgeAB : TransitionD :=
  ⟨⟨[], false, []⟩, some ⟨[("ref", "a")], true, []⟩,
    some ⟨[("ref", "b")], true, [endTag "transition"]⟩, [], []⟩

/-- The transition `<transition><source ref="b"/><target ref="a"/></transition>`
at the end of a template. -/
def edgeBA : TransitionD :=
  ⟨⟨[], false, []⟩, some ⟨[("ref", "b")], true, []⟩,
    some ⟨[("ref", "a")], true, [endTag "transition", endTag "template"]⟩, [], []⟩

/-- The template
`<template><name>T</name><location id="a"></location><location id="b"></location>`
`<init ref="a"/><transition><source ref="a"/><target ref="b"/></transition>`
`<transition><source ref="b"/><target ref="a"/></transition></template>`. -/
def twoEdges : TemplateD :=
  { el := ⟨[], false, []⟩
    name := some ⟨[], false, [textNode "T", endTag "name"]⟩
    parameter := none
    declaration := none
    locations := [⟨⟨[("id", "a")], false, [endTag "location"]⟩, none, [], none, none⟩,
      ⟨⟨[("id", "b")], false, [endTag "location"]⟩, none, [], none, none⟩]
    init := some ⟨[("ref", "a")], true, []⟩
    transitions := [edgeAB, edgeBA] }

/-- The state of the parse of `twoEdges` after its `init` element. -/
def twoEdgesAtInit : Sem :=
  ⟨[(some "a", "_a"), (some "b", "_b")],
    [Call.procBegin (some "T") 0, Call.procState "_a" false, Call.procState "_b" false,
      Call.procStateInit "_a"], []⟩

/-- The nodes of the document `<nta>` `twoEdges` `</nta>`, which has no
`system` element. -/
def twoEdgesNoSystem : List Node :=
  startTag "nta" [] :: twoEdges.render ++ [endTag "nta"]

/-- The effect of `location` on a location before it notifies the builder:
the name, the labels, and the entry of the map of locations; the result is
the name of the location. -/
def semLocationHead (env : Env) (l : LocationD) : StM Sem String := do
  let l_name ← semName env l.name
  Sem.forEach (semLabel env) l.labels
  let l_name ← Sem.locationName l_name (l.el.attrs.lookup "id")
  Sem.setLocation (l.el.attrs.lookup "id") l_name
  pure l_name

/-- The notifications of `location` for a location with the name `nm`. -/
def semLocationCalls (env : Env) (l : LocationD) (nm : String) : StM Sem Unit := do
  Sem.notify env (Call.procState nm (anyLabel l.labels))
  if l.committed.isSome then Sem.notify env (Call.procStateCommit nm) else pure ()
  if l.urgent.isSome then Sem.notify env (Call.procStateUrgent nm) else pure ()

/-- The effect of the parse of document `d` before it comes to the location
of template `t` that follows the locations `ls`. -/
def semUpToLocation (env : Env) (d : NtaD) (before : List TemplateD) (t : TemplateD)
    (ls : List LocationD) : StM Sem Unit := do
  let _ ← semDeclaration env d.declaration
  Sem.forEach (semTemplate env) before
  let t_name ← semName env t.name
  let p_count ← semParameter env t.parameter
  Sem.notify env (Call.procBegin t_name p_count)
  let _ ← semDeclaration env t.declaration
  Sem.forEach (semLocation env) ls

/-- What the parse of document `d` does after a location of template `t`:
the locations `ls` that follow it in the template, the `init`, the
transitions and `procEnd`, then the templates `after`, the instantiation, the
system and `done`. -/
def semAfterLocation (env : Env) (d : NtaD) (t : TemplateD) (ls : List LocationD)
    (after : List TemplateD) : StM Sem Unit := do
  StM.tryCatch (do
      Sem.forEach (semLocation env) ls
      let _ ← semInit env t.init
      Sem.forEach (semTransition env) t.transitions
      Sem.notify env Call.procEnd)
    (fun what => Sem.handleError what)
  Sem.forEach (semTemplate env) after
  let _ ← semSystem env S_INST d.instantiation
  let _ ← semSystem env S_SYSTEM (some d.system)
  Sem.notify env Call.done

/-- Collaborators as `acceptAll`, with a builder that answers the call
`procState("_a", false)` with a `TypeException`. -/
def rejectState : Env :=
  { newxta := true
    isKeyword := fun _ _ => false
    parseXTA := fun _ _ _ _ => (0, [])
    builder := fun _ c => if c = Call.procState "_a" false then some "rejected" else none }

/-- The location `<location id="a"></location>`. -/
def locationA : LocationD :=
  ⟨⟨[("id", "a")], false, [endTag "location"]⟩, none, [], none, none⟩

/-- The state of the parse of `oneTemplate` when it comes to the location. -/
def atLocationA : Sem := ⟨[], [Call.procBegin (some "T") 0], []⟩

/-- The state of the parse of `oneTemplate` when the location is registered. -/
def registeredA : Sem := ⟨[(some "a", "_a")], [Call.procBegin (some "T") 0], []⟩

/-- The state of the parse of `oneTemplate` when `procState` was called. -/
def notifiedA : Sem :=
  ⟨[(some "a", "_a")], [Call.procBegin (some "T") 0, Call.procState "_a" false], []⟩

/-! ### One entry for each id -/

/-- The effect `m` maintains the property `Q` of the map of locations. -/
def Maintains {α : Type} (Q : List (Option String × String) → Prop) (m : StM Sem α) : Prop :=
  ∀ σ, Q σ.locations → Q (m σ).2.locations

/-- The map of locations has at most one entry for each id: no two entries
have the same key. -/
def DistinctIds (l : List (Option String × String)) : Prop := (l.map Prod.fst).Nodup

/-- A null key is the key of the only entry of the map of locations. -/
def NullAlone (l : List (Option String × String)) : Prop :=
  (∀ kv ∈ l, kv.1 ≠ none) ∨ ∃ n, l = [(none, n)]

/-- The location `<location id="a"><name>A</name></location>`. -/
def firstA : LocationD :=
  ⟨⟨[("id", "a")], false, []⟩,
    some ⟨[], false, [textNode "A", endTag "name", endTag "location"]⟩, [], none, none⟩

/-- The location `<location id="a"><name>B</name></location>`, with the id of
`firstA`. -/
def secondA : LocationD :=
  ⟨⟨[("id", "a")], false, []⟩,
    some ⟨[], false, [textNode "B", endTag "name", endTag "location"]⟩, [], none, none⟩

/-- The template `loopTemplate "T" "a"` with the two locations `firstA` and
`secondA`, which have the same id. -/
def sameIdTemplate : TemplateD :=
  { loopTemplate "T" "a" with locations := [firstA, secondA] }

/-- The state of the parse of `docOf [sameIdTemplate]` after the first
location. -/
def afterFirstA : Sem :=
  ⟨[(some "a", "A")], [Call.procBegin (some "T") 0, Call.procState "A" false], []⟩

/-- The state of the parse of `docOf [sameIdTemplate]` after the second
location. -/
def afterSecondA : Sem :=
  ⟨[(some "a", "B")],
    [Call.procBegin (some "T") 0, Call.procState "A" false, Call.procState "B" false], []⟩

/-- A template whose only location has a name and no `id`, and whose `init`
has a `ref` that no location has:
`<template><name>T</name><location><name>idle</name></location><init ref="zz"/>`
`<transition><source ref="a"/><target ref="a"/></transition></template>`. -/
def namedNoId : TemplateD :=
  { loopTemplate "T" "a" with
    locations := [⟨⟨[], false, []⟩,
      some ⟨[], false, [textNode "idle", endTag "name", endTag "location"]⟩, [], none, none⟩]
    init := some ⟨[("ref", "zz")], true, []⟩ }

/-- The nodes of the document
`<nta><template><name>T</name><location id="a"></location><init ref="a"/>`
`<transition><source ref="a"/><target ref="a"/></transition></template></nta>`:
the document `noInitNoSystem` with an `init` element. -/
def initNoSystem : List Node :=
  [startTag "nta" [], startTag "template" [], startTag "name" [], textNode "T", endTag "name",
    startTag "location" [("id", "a")], endTag "location", emptyTag "init" [("ref", "a")],
    startTag "transition" [],
    emptyTag "source" [("ref", "a")], emptyTag "target" [("ref", "a")], endTag "transition",
    endTag "template", endTag "nta"]

/-- The nodes of the document `<nta><imports/></nta>`, which has no `system`
element. -/
def importsOnly : List Node := [startTag "nta" [], emptyTag "imports" [], endTag "nta"]

/-! ## Theorems -/

theorem in_word_set_tagName (t : tag_t) : in_word_set (tagName t) = some t := by
  cases t <;> decide

theorem segment_eq_spec (f : List tag_t) (t : tag_t) (h : f.getLast? = some t) :
    Path.segment f t = specSegment f := by
  rw [specSegment, h]
  cases t <;> simp [Path.segment, repeatable, tagName, Path.showCount]

theorem getFrom_eq_spec (l : List (List tag_t)) :
    Path.getFrom l
      = ((l.takeWhile (fun f => f ≠ [])).map specSegment).foldr (fun a b => a ++ b) "" := by
  induction l with
  | nil => rfl
  | cons f fs ih =>
    cases hf : f.getLast? with
    | none =>
      have : f = [] := List.getLast?_eq_none_iff.mp hf
      subst this
      simp [Path.getFrom]
    | some t =>
      have hne : f ≠ [] := by
        intro h
        subst h
        simp at hf
      simp only [Path.getFrom, hf, segment_eq_spec f t hf, ih]
      simp [List.takeWhile, hne]

/-- C10: `Path::get` is the concatenation, over the frames from the
outermost up to the first empty one, of the segment of each frame: `/name`
of the frame's last tag, with `[k]` appended for template, location,
transition, label and nail, `k` being the number of occurrences of that tag
in the whole frame. -/
theorem C10_get_concatenates_segments (p : Path) : p.get = specRender p := by
  simp [Path.get, specRender, getFrom_eq_spec]

/-! ### The monad -/

namespace StM

@[simp] theorem pure_apply {σ α : Type} (a : α) (s : σ) : (pure a : StM σ α) s = (.ok a, s) := rfl

@[simp] theorem ret_apply {σ α : Type} (a : α) (s : σ) : (ret a : StM σ α) s = (.ok a, s) := rfl

theorem bind_apply {σ α β : Type} (m : StM σ α) (f : α → StM σ β) (s : σ) :
    (m >>= f) s = andThen m f s := rfl

theorem andThen_ok {σ α β : Type} {m : StM σ α} {f : α → StM σ β} {s s1 : σ} {a : α}
    (h : m s = (.ok a, s1)) : andThen m f s = f a s1 := by
  simp [andThen, h]

theorem bind_ok {σ α β : Type} {m : StM σ α} {f : α → StM σ β} {s s1 : σ} {a : α}
    (h : m s = (.ok a, s1)) : (m >>= f) s = f a s1 := andThen_ok h

end StM

/-! ### The reader keeps its invariant -/

namespace XMLReader

theorem PathOK_top (top top1 : List tag_t) (fs : List (List tag_t)) (st : List String)
    (h : PathOK (top :: fs) st) : PathOK (top1 :: fs) st := by
  cases st with
  | nil => simp [PathOK]
  | cons x st =>
    cases fs with
    | nil => simp [PathOK] at h
    | cons f fs => simpa [PathOK] using h

theorem readPop_ok (s : XMLReader) (st : List String)
    (hP : PathOK s.path.path (pendingPop s.cur ++ st)) :
    ∃ p, readPop s = (.ok (), { s with path := p }) ∧ PathOK p.path st := by
  obtain ⟨cur, rest, locs, path, log, errs⟩ := s
  simp only at hP
  cases cur with
  | none =>
    refine ⟨path, ?_, ?_⟩
    · simp [readPop, getNodeType]
    · simpa [pendingPop] using hP
  | some n =>
    by_cases hcl : n.type = END_ELEMENT ∨ (n.type = ELEMENT ∧ n.isEmpty = true)
    · simp only [pendingPop, hcl, if_true, List.singleton_append] at hP
      obtain ⟨frames⟩ := path
      match frames, hP with
      | _ :: f :: fs, hP =>
        simp only [PathOK] at hP
        obtain ⟨⟨t, ht, hf⟩, hrest⟩ := hP
        refine ⟨⟨f :: fs⟩, ?_, hrest⟩
        simp [readPop, getNodeType, isEmpty, StM.bind_apply, StM.andThen, popPath,
          Path.pop, hf, getElement, ht]
        intro h
        exact hcl.resolve_left h
      | [], hP => simp [PathOK] at hP
      | [_], hP => simp [PathOK] at hP
    · refine ⟨path, ?_, ?_⟩
      · simp [readPop, getNodeType, isEmpty]
        intro h
        exact absurd h hcl
      · simpa [pendingPop, hcl] using hP

end XMLReader

namespace XMLReader

theorem read_cons (s : XMLReader) (n : Node) (r : List Node) (hI : Inv s) (hr : s.rest = n :: r)
    (hn : n.type = ELEMENT → ∃ t, in_word_set n.localName = some t) :
    ∃ p, read s = (.ok (), { s with cur := some n, rest := r, path := p })
      ∧ Inv { s with cur := some n, rest := r, path := p } := by
  obtain ⟨st, hWN, hP⟩ := hI
  obtain ⟨p1, hpop, hP1⟩ := readPop_ok s st hP
  obtain ⟨cur, rest, locs, path, log, errs⟩ := s
  simp only at hr hWN hpop
  subst hr
  obtain ⟨frames⟩ := p1
  simp only at hP1
  have hne : frames ≠ [] := by
    intro h
    subst h
    cases st <;> simp [PathOK] at hP1
  obtain ⟨top, below, rfl⟩ := List.exists_cons_of_ne_nil hne
  by_cases hel : n.type = ELEMENT
  · obtain ⟨t, ht⟩ := hn hel
    refine ⟨⟨[] :: (top ++ [t]) :: below⟩, ?_, ?_⟩
    · simp [read, StM.bind_apply, StM.andThen, hpop, xmlTextReaderRead, readPush, getNodeType,
        hel, getElement, ht, Path.push]
    · simp only [WN, hel] at hWN
      by_cases hem : n.isEmpty = true
      · simp only [hem, if_true] at hWN
        refine ⟨st, hWN, ?_⟩
        simp only [pendingPop, hel, hem, and_self, or_true, if_true, List.singleton_append, PathOK]
        exact ⟨⟨t, ht, by simp⟩, PathOK_top _ _ _ _ hP1⟩
      · simp only [hem, if_false] at hWN
        refine ⟨n.localName :: st, hWN, ?_⟩
        simp only [pendingPop, hel, hem, and_false, or_false, if_false, List.nil_append, PathOK]
        refine ⟨⟨t, ht, by simp⟩, PathOK_top _ _ _ _ hP1⟩
  · refine ⟨⟨top :: below⟩, ?_, ?_⟩
    · simp [read, StM.bind_apply, StM.andThen, hpop, xmlTextReaderRead, readPush, getNodeType, hel]
    · by_cases hend : n.type = END_ELEMENT
      · simp only [WN, hend] at hWN
        cases st with
        | nil => simp at hWN
        | cons x st1 =>
          simp only [Bool.and_eq_true, decide_eq_true_eq] at hWN
          refine ⟨st1, hWN.2, ?_⟩
          simpa [pendingPop, hend, ← hWN.1] using hP1
      · have hWN1 : WN st r = true := by
          revert hWN
          cases htype : n.type <;> simp_all [WN]
        refine ⟨st, hWN1, ?_⟩
        simpa [pendingPop, hend, hel] using hP1

end XMLReader

namespace XMLReader

theorem read_nil (s : XMLReader) (hI : Inv s) (hr : s.rest = []) :
    ∃ s1, read s = (.fatal (-1), s1) ∧ s1.abs = s.abs := by
  obtain ⟨st, _, hP⟩ := hI
  obtain ⟨p1, hpop, _⟩ := readPop_ok s st hP
  obtain ⟨cur, rest, locs, path, log, errs⟩ := s
  simp only at hr
  subst hr
  simp only at hpop
  exact ⟨⟨cur, [], locs, p1, log, errs⟩,
    by simp [read, StM.bind_apply, StM.andThen, hpop, xmlTextReaderRead, StM.throwInt], rfl⟩

theorem read_unknown (s : XMLReader) (n : Node) (r : List Node) (hI : Inv s)
    (hr : s.rest = n :: r) (hel : n.type = ELEMENT) (hu : in_word_set n.localName = none) :
    ∃ s1, read s = (.fatal (-1), s1) ∧ s1.abs = s.abs := by
  obtain ⟨st, _, hP⟩ := hI
  obtain ⟨p1, hpop, _⟩ := readPop_ok s st hP
  obtain ⟨cur, rest, locs, path, log, errs⟩ := s
  simp only at hr
  subst hr
  simp only at hpop
  exact ⟨⟨some n, r, locs, p1, log, errs⟩,
    by simp [read, StM.bind_apply, StM.andThen, hpop, xmlTextReaderRead, readPush,
      getNodeType, hel, getElement, hu], rfl⟩

theorem head_known (k : Option tag_t) (skip : List Node) (e n : Node) (L r : List Node)
    (hs : ∀ x ∈ skip, Skippable k x) (he : ∃ t, in_word_set e.localName = some t)
    (h : skip ++ e :: L = n :: r) (hn : n.type = ELEMENT) :
    ∃ t, in_word_set n.localName = some t := by
  cases skip with
  | nil =>
    simp at h
    rw [← h.1]
    exact he
  | cons c skip1 =>
    simp at h
    have := hs c (by simp)
    rw [h.1] at this
    rcases this with h1 | ⟨_, t, _, ht⟩
    · exact absurd hn h1
    · exact ⟨t, ht⟩

theorem begin_at (fuel : Nat) (t : tag_t) (sk : Bool) (s : XMLReader) (e : Node) (te : tag_t)
    (hc : s.cur = some e) (he : e.type = ELEMENT) (hte : in_word_set e.localName = some te)
    (hstop : ¬ (sk = true ∧ e.isEmpty = true ∧ te = t)) :
    begin (fuel + 1) t sk s = (.ok (decide (te = t)), s) := by
  by_cases h : te = t
  · subst h
    have : (!sk || !isEmpty s) = true := by
      simp [isEmpty, hc, he]
      by_cases hsk : sk = true
      · right
        simpa [hsk] using hstop
      · left
        simpa using hsk
    simp [begin, getNodeType, hc, he, StM.bind_apply, StM.andThen, getElement, hte]
    intro h1 h2
    simp [h1, h2] at this
  · have h2 : ¬ t = te := fun x => h x.symm
    simp [begin, getNodeType, hc, he, StM.bind_apply, StM.andThen, getElement, hte, h, h2]

theorem begin_some (t : tag_t) (sk : Bool) (k : Option tag_t)
    (hk : k = none ∨ (k = some t ∧ sk = true)) (e : Node) (L : List Node) (te : tag_t)
    (he : e.type = ELEMENT) (hte : in_word_set e.localName = some te)
    (hstop : ¬ (sk = true ∧ e.isEmpty = true ∧ te = t)) (skip : List Node) :
    ∀ (fuel : Nat) (s : XMLReader) (c : Node), Good fuel s → s.cur = some c →
      c :: s.rest = skip ++ e :: L → (∀ n ∈ skip, Skippable k n) →
      ∃ s1, begin fuel t sk s = (.ok (decide (te = t)), s1) ∧ s1.cur = some e ∧ s1.rest = L
        ∧ s1.abs = s.abs ∧ Good fuel s1 := by
  induction skip with
  | nil =>
    intro fuel s c hG hc hst _
    simp at hst
    obtain ⟨rfl, hrest⟩ := hst
    obtain ⟨f, rfl⟩ : ∃ f, fuel = f + 1 := ⟨fuel - 1, by have := hG.2; omega⟩
    exact ⟨s, begin_at f t sk s c te hc he hte hstop, hc, hrest, rfl, hG⟩
  | cons c0 skip1 ih =>
    intro fuel s c hG hc hst hs
    simp at hst
    obtain ⟨rfl, hrest⟩ := hst
    obtain ⟨f, rfl⟩ : ∃ f, fuel = f + 1 := ⟨fuel - 1, by have := hG.2; omega⟩
    -- the node read next
    obtain ⟨n, r, hnr⟩ : ∃ n r, skip1 ++ e :: L = n :: r := by
      cases skip1 with
      | nil => exact ⟨e, L, rfl⟩
      | cons a l => exact ⟨a, l ++ e :: L, rfl⟩
    have hs1 : ∀ x ∈ skip1, Skippable k x := fun x hx => hs x (by simp [hx])
    have hn := head_known k skip1 e n L r hs1 ⟨te, hte⟩ hnr
    obtain ⟨p, hread, hInv⟩ := read_cons s n r hG.1 (by rw [hrest, hnr]) hn
    have hG1 : Good f { s with cur := some n, rest := r, path := p } := by
      refine ⟨hInv, ?_⟩
      have := hG.2
      rw [hrest, hnr] at this
      simp at this ⊢
      omega
    obtain ⟨s1, hb, h1, h2, h3, h4⟩ := ih f _ n hG1 rfl (by simpa using hnr.symm) hs1
    refine ⟨s1, ?_, h1, h2, by simpa [abs] using h3, ⟨h4.1, by have := h4.2; omega⟩⟩
    have hsk := hs c (by simp)
    by_cases hce : c.type = ELEMENT
    · rcases hsk with h | ⟨hem, t1, hk1, ht1⟩
      · exact absurd hce h
      · rcases hk with hk | ⟨hk, hsk⟩
        · simp [hk] at hk1
        · rw [hk] at hk1
          simp at hk1
          subst hk1 hsk
          have : (!true || !isEmpty s) = false := by simp [isEmpty, hc, hce, hem]
          simp only [begin, getNodeType, hc, hce, ne_eq, not_true_eq_false, if_false,
            StM.bind_apply, StM.andThen, getElement, ht1, if_true, this, Bool.false_eq_true, hread]
          exact hb
    · simp only [begin, getNodeType, hc, ne_eq, hce, not_false_eq_true, if_true, StM.bind_apply,
        StM.andThen, hread]
      exact hb

end XMLReader

namespace XMLReader

theorem begin_pending (fuel : Nat) (t : tag_t) (sk : Bool) (k : Option tag_t)
    (hk : k = none ∨ (k = some t ∧ sk = true)) (s : XMLReader) (e : Node) (L : List Node)
    (te : tag_t) (hG : Good fuel s) (hP : Pending k s (e :: L)) (he : e.type = ELEMENT)
    (hte : in_word_set e.localName = some te)
    (hstop : ¬ (sk = true ∧ e.isEmpty = true ∧ te = t)) :
    ∃ s1, begin fuel t sk s = (.ok (decide (te = t)), s1) ∧ s1.cur = some e ∧ s1.rest = L
      ∧ s1.abs = s.abs ∧ Good fuel s1 := by
  obtain ⟨skip, hst, hs⟩ := hP
  cases hc : s.cur with
  | some c =>
    exact begin_some t sk k hk e L te he hte hstop skip fuel s c hG hc
      (by simpa [stream, hc] using hst) hs
  | none =>
    simp only [stream, hc, Option.toList, List.nil_append] at hst
    obtain ⟨n, r, hnr⟩ : ∃ n r, skip ++ e :: L = n :: r := by
      cases skip with
      | nil => exact ⟨e, L, rfl⟩
      | cons a l => exact ⟨a, l ++ e :: L, rfl⟩
    have hn := head_known k skip e n L r hs ⟨te, hte⟩ hnr
    obtain ⟨p, hread, hInv⟩ := read_cons s n r hG.1 (by rw [hst, hnr]) hn
    obtain ⟨f, rfl⟩ : ∃ f, fuel = f + 1 := ⟨fuel - 1, by have := hG.2; omega⟩
    have hG1 : Good f { s with cur := some n, rest := r, path := p } := by
      refine ⟨hInv, ?_⟩
      have := hG.2
      rw [hst, hnr] at this
      simp at this ⊢
      omega
    obtain ⟨s1, hb, h1, h2, h3, h4⟩ :=
      begin_some t sk k hk e L te he hte hstop skip f _ n hG1 rfl (by simpa using hnr.symm) hs
    refine ⟨s1, ?_, h1, h2, by simpa [abs] using h3, ⟨h4.1, by have := h4.2; omega⟩⟩
    simp only [begin, getNodeType, hc, ne_eq, reduceCtorEq, not_false_eq_true, if_true,
      StM.bind_apply, StM.andThen, hread]
    exact hb

end XMLReader

theorem Pending_weaken {k : Option tag_t} {s : XMLReader} {X : List Node}
    (h : Pending none s X) : Pending k s X := by
  obtain ⟨skip, hst, hs⟩ := h
  refine ⟨skip, hst, fun n hn => ?_⟩
  rcases hs n hn with h1 | ⟨_, t, h2, _⟩
  · exact Or.inl h1
  · simp at h2

theorem Pending_absorb {k : Option tag_t} {s : XMLReader} {X Y : List Node}
    (h : Pending k s (Y ++ X)) (hY : ∀ n ∈ Y, Skippable k n) : Pending k s X := by
  obtain ⟨skip, hst, hs⟩ := h
  refine ⟨skip ++ Y, by simpa using hst, fun n hn => ?_⟩
  rcases List.mem_append.mp hn with h1 | h1
  · exact hs n h1
  · exact hY n h1

theorem Pending_frame {k : Option tag_t} {s s1 : XMLReader} {X : List Node}
    (h : Pending k s X) (hc : s1.cur = s.cur) (hr : s1.rest = s.rest) : Pending k s1 X := by
  obtain ⟨skip, hst, hs⟩ := h
  exact ⟨skip, by simpa [XMLReader.stream, hc, hr] using hst, hs⟩

theorem Good_frame {fuel : Nat} {s s1 : XMLReader} (h : Good fuel s) (hc : s1.cur = s.cur)
    (hr : s1.rest = s.rest) (hp : s1.path = s.path) : Good fuel s1 := by
  obtain ⟨⟨st, h1, h2⟩, h3⟩ := h
  exact ⟨⟨st, by rw [hr]; exact h1, by rw [hp, hc]; exact h2⟩, by rw [hr]; exact h3⟩

theorem NoElem_skippable {k : Option tag_t} {l : List Node} (h : NoElem l) :
    ∀ n ∈ l, Skippable k n := fun n hn => Or.inl (h n hn)

theorem Follows_known {S : List tag_t} {tail : List Node} (h : Follows S tail) :
    ∃ n r t, tail = n :: r ∧ n.type = ELEMENT ∧ in_word_set n.localName = some t ∧ t ∈ S := h

namespace XMLReader

theorem read_gap (fuel : Nat) (s : XMLReader) (e : El) (tail : List Node)
    (hG : Good fuel s) (hr : s.rest = e.gap ++ tail) (hgap : NoElem e.gap)
    (hF : (∃ S, Follows S tail) ∨ (tail = [] ∧ e.gap ≠ [])) :
    ∃ s2, read s = (.ok (), s2) ∧ Good fuel s2 ∧ Pending none s2 tail ∧ s2.abs = s.abs
      ∧ s2.curText = e.text := by
  cases hg : e.gap with
  | nil =>
    rcases hF with ⟨S, n0, r0, t0, rfl, hn0, ht0, _⟩ | ⟨_, h⟩
    · rw [hg] at hr
      obtain ⟨p, hread, hInv⟩ := read_cons s n0 r0 hG.1 (by simpa using hr) (fun _ => ⟨t0, ht0⟩)
      refine ⟨_, hread, ⟨hInv, ?_⟩, ⟨[], by simp [stream], by simp⟩, rfl, ?_⟩
      · have := hG.2
        rw [hr] at this
        simp at this ⊢
        omega
      · simp [curText, getNodeType, hn0, El.text, hg]
    · exact absurd hg h
  | cons g gs =>
    rw [hg] at hr hgap
    have hgne : g.type ≠ ELEMENT := hgap g (by simp)
    obtain ⟨p, hread, hInv⟩ := read_cons s g (gs ++ tail) hG.1 (by simpa using hr)
      (fun h => absurd h hgne)
    refine ⟨_, hread, ⟨hInv, ?_⟩, ⟨g :: gs, by simp [stream], ?_⟩, rfl, ?_⟩
    · have := hG.2
      rw [hr] at this
      simp at this ⊢
      omega
    · exact NoElem_skippable hgap
    · simp [curText, getNodeType, getValue, El.text, hg]

end XMLReader

/-! ### Methods that do not read -/

theorem Sim_pure {α : Type} (a : α) : Sim (pure a) (pure a) := fun _ => ⟨rfl, rfl, rfl, rfl, rfl⟩

theorem Sim_throwInt {α : Type} (c : Int) : Sim (StM.throwInt c : M α) (StM.throwInt c) :=
  fun _ => ⟨rfl, rfl, rfl, rfl, rfl⟩

theorem Sim_crashed {α : Type} : Sim (StM.crashed : M α) StM.crashed :=
  fun _ => ⟨rfl, rfl, rfl, rfl, rfl⟩

theorem Sim_bind {α β : Type} {m : M α} {m' : StM Sem α} {f : α → M β} {f' : α → StM Sem β}
    (h : Sim m m') (hf : ∀ a, Sim (f a) (f' a)) : Sim (m >>= f) (m' >>= f') := by
  intro s
  obtain ⟨h1, h2, h3, h4, h5⟩ := h s
  simp only [StM.bind_apply, StM.andThen]
  rcases hm : m s with ⟨o, s1⟩
  rcases hm' : m' s.abs with ⟨o', σ1⟩
  rw [hm, hm'] at h1 h2
  rw [hm] at h3 h4 h5
  simp only at h1 h2 h3 h4 h5
  subst h1 h2
  cases o with
  | ok a =>
    obtain ⟨g1, g2, g3, g4, g5⟩ := hf a s1
    exact ⟨g1, g2, g3.trans h3, g4.trans h4, g5.trans h5⟩
  | fatal c => exact ⟨rfl, rfl, h3, h4, h5⟩
  | typeException msg => exact ⟨rfl, rfl, h3, h4, h5⟩
  | crash => exact ⟨rfl, rfl, h3, h4, h5⟩
  | timeout => exact ⟨rfl, rfl, h3, h4, h5⟩

theorem Sim_tryCatch {m : M Unit} {m' : StM Sem Unit} {h : String → M Unit}
    {h' : String → StM Sem Unit} (hm : Sim m m') (hh : ∀ msg, Sim (h msg) (h' msg)) :
    Sim (StM.tryCatch m h) (StM.tryCatch m' h') := by
  intro s
  obtain ⟨h1, h2, h3, h4, h5⟩ := hm s
  simp only [StM.tryCatch]
  rcases hms : m s with ⟨o, s1⟩
  rcases hms' : m' s.abs with ⟨o', σ1⟩
  rw [hms, hms'] at h1 h2
  rw [hms] at h3 h4 h5
  simp only at h1 h2 h3 h4 h5
  subst h1 h2
  cases o with
  | typeException msg =>
    obtain ⟨g1, g2, g3, g4, g5⟩ := hh msg s1
    exact ⟨g1, g2, g3.trans h3, g4.trans h4, g5.trans h5⟩
  | ok a => exact ⟨rfl, rfl, h3, h4, h5⟩
  | fatal c => exact ⟨rfl, rfl, h3, h4, h5⟩
  | crash => exact ⟨rfl, rfl, h3, h4, h5⟩
  | timeout => exact ⟨rfl, rfl, h3, h4, h5⟩

theorem Sim_ite {α : Type} {c : Prop} [Decidable c] {m1 m2 : M α} {m1' m2' : StM Sem α}
    (h1 : Sim m1 m1') (h2 : Sim m2 m2') :
    Sim (if c then m1 else m2) (if c then m1' else m2') := by
  by_cases hc : c <;> simp [hc, h1, h2]

theorem Sim_handleError (msg : String) : Sim (XMLReader.handleError msg) (Sem.handleError msg) := by
  intro s
  simp [XMLReader.handleError, Sem.handleError, XMLReader.abs]

theorem Sim_parse (env : Env) (text : String) (part : xta_part_t) :
    Sim (XMLReader.parse env text part) (Sem.parse env text part) := by
  intro s
  have : ((fun e : error_t => e.msg) ∘ fun m => ({ xpath := s.path.get, msg := m } : error_t)) = id := by
    funext m
    rfl
  simp [XMLReader.parse, Sem.parse, XMLReader.abs, this]

theorem Sim_notify (env : Env) (c : Call) : Sim (XMLReader.notify env c) (Sem.notify env c) := by
  intro s
  simp only [XMLReader.notify, Sem.notify, XMLReader.abs]
  cases env.builder s.log c <;> simp

theorem Sim_getLocation (id : Option String) :
    Sim (XMLReader.getLocation id) (Sem.getLocation id) := by
  intro s
  simp only [XMLReader.getLocation, Sem.getLocation, XMLReader.abs]
  cases id with
  | none => simp
  | some i =>
    simp only
    split
    · simp
    · cases List.lookup (some i) s.locations <;> simp

theorem Sim_setLocation (id : Option String) (l_name : String) :
    Sim (XMLReader.setLocation id l_name) (Sem.setLocation id l_name) := by
  intro s
  simp only [XMLReader.setLocation, Sem.setLocation, XMLReader.abs]
  split
  · simp
  · split
    · simp
    · split <;> simp

theorem Sim_labelText (env : Env) (kind : Option String) (text : String) :
    Sim (XMLReader.labelText env kind text) (Sem.labelText env kind text) := by
  unfold XMLReader.labelText Sem.labelText
  cases kind with
  | none => exact Sim_crashed
  | some k =>
    simp only
    repeat' apply Sim_ite
    all_goals first
      | exact Sim_pure ()
      | exact Sim_bind (Sim_parse env text _) (fun _ => Sim_pure ())

theorem Sim_locationName (l_name l_id : Option String) :
    Sim (XMLReader.locationName l_name l_id) (Sem.locationName l_name l_id) := by
  unfold XMLReader.locationName Sem.locationName
  apply Sim_ite
  · cases l_id with
    | none => exact Sim_crashed
    | some i => exact Sim_pure _
  · exact Sim_pure _

/-! ### Rules for the judgement `ParsesG` -/

theorem ParsesG_of_sim {α : Type} {post : Outcome α → Prop} {fuel : Nat} {m : M α}
    {m' : StM Sem α} (tail : List Node) (h : Sim m m') : ParsesG post fuel none m m' [] tail := by
  intro s hG hP
  obtain ⟨h1, h2, h3, h4, h5⟩ := h s
  exact ⟨h1, h2, fun _ => ⟨Good_frame hG h3 h4 h5, Pending_frame (by simpa using hP) h3 h4⟩⟩

theorem ParsesG_mono {α : Type} {post post1 : Outcome α → Prop} {fuel : Nat} {k : Option tag_t}
    {m : M α} {m' : StM Sem α} {X tail : List Node} (h : ParsesG post fuel k m m' X tail)
    (hp : ∀ o, post1 o → post o) : ParsesG post1 fuel k m m' X tail := by
  intro s hG hP
  obtain ⟨h1, h2, h3⟩ := h s hG hP
  exact ⟨h1, h2, fun ho => h3 (hp _ ho)⟩

theorem ParsesG_weaken {α : Type} {post : Outcome α → Prop} {fuel : Nat} {k : Option tag_t}
    {m : M α} {m' : StM Sem α} {X tail : List Node} (h : ParsesG post fuel k m m' X tail) :
    ParsesG post fuel none m m' X tail :=
  fun s hG hP => h s hG (Pending_weaken hP)

theorem ParsesG_absorb {α : Type} {post : Outcome α → Prop} {fuel : Nat} {k : Option tag_t}
    {m : M α} {m' : StM Sem α} {X tail : List Node} (Y : List Node)
    (h : ParsesG post fuel k m m' X tail) (hY : ∀ n ∈ Y, Skippable k n) :
    ParsesG post fuel k m m' (Y ++ X) tail := by
  intro s hG hP
  exact h s hG (Pending_absorb (by simpa using hP) hY)

theorem ParsesT_toParses {α : Type} {fuel : Nat} {k : Option tag_t} {m : M α} {m' : StM Sem α}
    {X tail : List Node} (h : ParsesT fuel k m m' X tail) : Parses fuel k m m' X tail :=
  ParsesG_mono h (fun o ho => by cases o <;> simp_all [Outcome.returns, Outcome.caught])

theorem Parses_bind {α β : Type} {fuel : Nat} {k : Option tag_t} {m : M α} {m' : StM Sem α}
    {f : α → M β} {f' : α → StM Sem β} {X Y Z : List Node}
    (h : Parses fuel k m m' X (Y ++ Z)) (hf : ∀ a, Parses fuel none (f a) (f' a) Y Z) :
    Parses fuel k (m >>= f) (m' >>= f') (X ++ Y) Z := by
  intro s hG hP
  obtain ⟨h1, h2, h3⟩ := h s hG (by simpa using hP)
  simp only [StM.bind_apply, StM.andThen]
  rcases hm : m s with ⟨o, s1⟩
  rcases hm' : m' s.abs with ⟨o', σ1⟩
  rw [hm, hm'] at h1 h2
  rw [hm] at h3
  simp only at h1 h2 h3
  subst h1 h2
  cases o with
  | ok a =>
    obtain ⟨hG1, hP1⟩ := h3 trivial
    exact hf a s1 hG1 hP1
  | fatal c => exact ⟨rfl, rfl, fun h => h.elim⟩
  | typeException msg => exact ⟨rfl, rfl, fun h => h.elim⟩
  | crash => exact ⟨rfl, rfl, fun h => h.elim⟩
  | timeout => exact ⟨rfl, rfl, fun h => h.elim⟩

theorem ParsesT_bind {α β : Type} {fuel : Nat} {k : Option tag_t} {m : M α} {m' : StM Sem α}
    {f : α → M β} {f' : α → StM Sem β} {X Y Z : List Node}
    (h : Parses fuel k m m' X (Y ++ Z)) (hn : NoThrow m')
    (hf : ∀ a, ParsesT fuel none (f a) (f' a) Y Z) :
    ParsesT fuel k (m >>= f) (m' >>= f') (X ++ Y) Z := by
  intro s hG hP
  obtain ⟨h1, h2, h3⟩ := h s hG (by simpa using hP)
  have hn1 := hn s.abs
  simp only [StM.bind_apply, StM.andThen]
  rcases hm : m s with ⟨o, s1⟩
  rcases hm' : m' s.abs with ⟨o', σ1⟩
  rw [hm, hm'] at h1 h2
  rw [hm] at h3
  rw [hm'] at hn1
  simp only at h1 h2 h3 hn1
  subst h1 h2
  cases o with
  | ok a =>
    obtain ⟨hG1, hP1⟩ := h3 trivial
    exact hf a s1 hG1 hP1
  | fatal c => exact ⟨rfl, rfl, fun h => h.elim⟩
  | typeException msg => exact absurd rfl (hn1 msg)
  | crash => exact ⟨rfl, rfl, fun h => h.elim⟩
  | timeout => exact ⟨rfl, rfl, fun h => h.elim⟩

theorem ParsesT_bind_sim {α β : Type} {fuel : Nat} {k : Option tag_t} {m : M α}
    {m' : StM Sem α} {f : α → M β} {f' : α → StM Sem β} {X Z : List Node}
    (h : Parses fuel k m m' X Z) (hn : NoThrow m') (hf : ∀ a, Sim (f a) (f' a)) :
    ParsesT fuel k (m >>= f) (m' >>= f') X Z := by
  have := ParsesT_bind (Y := []) (Z := Z) (by simpa using h) hn
    (fun a => ParsesG_of_sim Z (hf a))
  simpa using this

theorem Parses_bind_sim {α β : Type} {fuel : Nat} {k : Option tag_t} {m : M α}
    {m' : StM Sem α} {f : α → M β} {f' : α → StM Sem β} {X Z : List Node}
    (h : Parses fuel k m m' X Z) (hf : ∀ a, Sim (f a) (f' a)) :
    Parses fuel k (m >>= f) (m' >>= f') X Z := by
  have := Parses_bind (Y := []) (Z := Z) (by simpa using h)
    (fun a => ParsesG_of_sim Z (hf a))
  simpa using this

theorem Parses_tryCatch {fuel : Nat} {k : Option tag_t} {m : M Unit} {m' : StM Sem Unit}
    {h : String → M Unit} {h' : String → StM Sem Unit} {X tail : List Node}
    (hm : ParsesT fuel k m m' X tail) (hh : ∀ msg, Sim (h msg) (h' msg)) :
    Parses fuel k (StM.tryCatch m h) (StM.tryCatch m' h') X tail := by
  intro s hG hP
  obtain ⟨h1, h2, h3⟩ := hm s hG hP
  simp only [StM.tryCatch]
  rcases hms : m s with ⟨o, s1⟩
  rcases hms' : m' s.abs with ⟨o', σ1⟩
  rw [hms, hms'] at h1 h2
  rw [hms] at h3
  simp only at h1 h2 h3
  subst h1 h2
  cases o with
  | typeException msg =>
    obtain ⟨hG1, hP1⟩ := h3 trivial
    obtain ⟨g1, g2, g3, g4, g5⟩ := hh msg s1
    exact ⟨g1, g2, fun _ => ⟨Good_frame hG1 g3 g4 g5, Pending_frame hP1 g3 g4⟩⟩
  | ok a => exact ⟨rfl, rfl, fun _ => h3 trivial⟩
  | fatal c => exact ⟨rfl, rfl, fun h => h.elim⟩
  | crash => exact ⟨rfl, rfl, fun h => h.elim⟩
  | timeout => exact ⟨rfl, rfl, fun h => h.elim⟩

/-! ### Leaving and entering an element -/

theorem StM.pure_bind {σ α β : Type} (a : α) (f : α → StM σ β) : (pure a >>= f) = f a := rfl

theorem StM.bind_assoc {σ α β γ : Type} (m : StM σ α) (f : α → StM σ β) (g : β → StM σ γ) :
    (m >>= f) >>= g = m >>= fun a => f a >>= g := by
  funext s
  simp only [StM.bind_apply, StM.andThen]
  rcases m s with ⟨o, s1⟩
  cases o <;> rfl

theorem in_word_set_node (t : tag_t) (e : El) : in_word_set (e.node t).localName = some t :=
  in_word_set_tagName t

theorem begin_absent (fuel : Nat) (t : tag_t) (sk : Bool) (k : Option tag_t)
    (hk : k = none ∨ (k = some t ∧ sk = true)) (tail : List Node) (S : List tag_t)
    (hF : Follows S tail) (hS : t ∉ S) :
    Parses fuel k (XMLReader.begin fuel t sk) (pure false) [] tail := by
  intro s hG hP
  obtain ⟨n, r, t1, rfl, hn, ht1, hmem⟩ := hF
  have hne : t1 ≠ t := fun h => hS (h ▸ hmem)
  obtain ⟨s1, hb, hc, hr, ha, hG1⟩ := XMLReader.begin_pending fuel t sk k hk s n r t1 hG
    (by simpa using hP) hn ht1 (fun h => hne h.2.2)
  simp only [hne, decide_False] at hb
  rw [hb]
  exact ⟨rfl, ha, fun _ => ⟨hG1, ⟨[], by simp [XMLReader.stream, hc, hr], by simp⟩⟩⟩

theorem enter (fuel : Nat) (t : tag_t) (sk : Bool) (k : Option tag_t)
    (hk : k = none ∨ (k = some t ∧ sk = true)) (e : El) (tail : List Node)
    (hgap : NoElem e.gap) (hF : (∃ S, Follows S tail) ∨ (tail = [] ∧ e.gap ≠ []))
    (hne : ¬ (sk = true ∧ e.isEmpty = true))
    (s : XMLReader) (hG : Good fuel s) (hP : Pending k s (e.render t ++ tail)) :
    ∃ s1 s2, XMLReader.begin fuel t sk s = (.ok true, s1) ∧ s1.cur = some (e.node t)
      ∧ s1.rest = e.gap ++ tail ∧ s1.abs = s.abs ∧ Good fuel s1
      ∧ XMLReader.read s1 = (.ok (), s2) ∧ s2.abs = s.abs ∧ Good fuel s2
      ∧ Pending none s2 tail ∧ s2.curText = e.text := by
  obtain ⟨s1, hb, hc, hr, ha, hG1⟩ := XMLReader.begin_pending fuel t sk k hk s (e.node t)
    (e.gap ++ tail) t hG (by simpa [El.render] using hP) rfl (in_word_set_node t e)
    (fun h => hne ⟨h.1, h.2.1⟩)
  obtain ⟨s2, hread, hG2, hP2, ha2, htext⟩ := XMLReader.read_gap fuel s1 e tail hG1 hr hgap hF
  simp only [decide_True] at hb
  exact ⟨s1, s2, hb, hc, hr, ha, hG1, hread, ha2.trans ha, hG2, hP2, htext⟩

theorem curText_some {s : XMLReader} {v : String} (h : s.curText = some v) :
    XMLReader.getNodeType s = TEXT ∧ XMLReader.getValue s = v := by
  unfold XMLReader.curText at h
  split at h
  · exact ⟨by assumption, by simpa using h⟩
  · simp at h

theorem curText_none {s : XMLReader} (h : s.curText = none) :
    XMLReader.getNodeType s ≠ TEXT := by
  unfold XMLReader.curText at h
  split at h
  · simp at h
  · assumption

theorem found_render_skip (t : tag_t) (o : Option El) (ho : okOpt o) (h : found o = none) :
    ∀ n ∈ renderOpt t o, Skippable (some t) n := by
  cases o with
  | none => simp [renderOpt]
  | some e =>
    simp only [found] at h
    split at h
    · rename_i hem
      intro n hn
      simp only [renderOpt, El.render, List.mem_cons] at hn
      rcases hn with rfl | hn
      · exact Or.inr ⟨hem, t, rfl, in_word_set_node t e⟩
      · exact Or.inl (ho n hn)
    · simp at h

theorem found_some {o : Option El} {e : El} (h : found o = some e) :
    o = some e ∧ e.isEmpty = false := by
  cases o with
  | none => simp [found] at h
  | some e1 =>
    simp only [found] at h
    split at h
    · simp at h
    · rename_i hem
      simp at h
      subst h
      exact ⟨rfl, by simpa using hem⟩

theorem Pending_some_of {k : Option tag_t} {t : tag_t} {s : XMLReader} {X : List Node}
    (hk : k = none ∨ k = some t) (h : Pending k s X) : Pending (some t) s X := by
  rcases hk with rfl | rfl
  · exact Pending_weaken h
  · exact h

theorem absent_pt (fuel : Nat) (t : tag_t) (sk : Bool) (k : Option tag_t)
    (hk : k = none ∨ (k = some t ∧ sk = true)) (tail : List Node) (S : List tag_t)
    (hF : Follows S tail) (hS : t ∉ S) (s : XMLReader) (hG : Good fuel s)
    (hP : Pending k s tail) :
    ∃ s1, XMLReader.begin fuel t sk s = (.ok false, s1) ∧ s1.abs = s.abs ∧ Good fuel s1
      ∧ Pending none s1 tail := by
  obtain ⟨h1, h2, h3⟩ := begin_absent fuel t sk k hk tail S hF hS s hG (by simpa using hP)
  rcases hb : XMLReader.begin fuel t sk s with ⟨o, s1⟩
  rw [hb] at h1 h2 h3
  simp only [StM.pure_apply] at h1 h2 h3
  subst h1
  exact ⟨s1, rfl, h2, h3 trivial⟩

theorem finish_sim {α : Type} {post : Outcome α → Prop} {fuel : Nat} {cont : M α}
    {cont' : StM Sem α} {tail : List Node} (hsim : Sim cont cont') {s s2 : XMLReader}
    (ha : s2.abs = s.abs) (hG2 : Good fuel s2) (hP2 : Pending none s2 tail) :
    (cont s2).1 = (cont' s.abs).1 ∧ (cont s2).2.abs = (cont' s.abs).2 ∧
      (post (cont s2).1 → Good fuel (cont s2).2 ∧ Pending none (cont s2).2 tail) := by
  obtain ⟨g1, g2, g3, g4, g5⟩ := hsim s2
  rw [ha] at g1 g2
  exact ⟨g1, g2, fun _ => ⟨Good_frame hG2 g3 g4 g5, Pending_frame hP2 g3 g4⟩⟩

theorem declaration_parses (env : Env) (fuel : Nat) (k : Option tag_t)
    (hk : k = none ∨ k = some TAG_DECLARATION) (o : Option El) (ho : okOpt o)
    (tail : List Node) (S : List tag_t) (hF : Follows S tail) (hS : TAG_DECLARATION ∉ S) :
    Parses fuel k (XMLReader.declaration env fuel) (semDeclaration env o)
      (renderOpt TAG_DECLARATION o) tail := by
  intro s hG hP
  cases hfo : found o with
  | none =>
    have hP1 : Pending (some TAG_DECLARATION) s tail :=
      Pending_absorb (Pending_some_of hk hP) (found_render_skip _ o ho hfo)
    obtain ⟨s1, hb, ha, hG1, hP2⟩ := absent_pt fuel TAG_DECLARATION true _ (Or.inr ⟨rfl, rfl⟩)
      tail S hF hS s hG hP1
    simp [XMLReader.declaration, StM.bind_apply, StM.andThen, hb, semDeclaration, hfo, ha, hG1,
      hP2]
  | some e =>
    obtain ⟨rfl, hem⟩ := found_some hfo
    obtain ⟨s1, s2, hb, hc, hr, ha, hG1, hread, ha2, hG2, hP2, htext⟩ :=
      enter fuel TAG_DECLARATION true k
        (by rcases hk with h | h; exact Or.inl h; exact Or.inr ⟨h, rfl⟩) e tail ho (Or.inl ⟨S, hF⟩)
        (by simp [hem]) s hG (by simpa [renderOpt] using hP)
    cases hte : e.text with
    | none =>
      have hnt := curText_none (htext.trans hte)
      simp [XMLReader.declaration, StM.bind_apply, StM.andThen, hb, hread, hnt, semDeclaration,
        hfo, hte, ha2, hG2, hP2]
    | some v =>
      obtain ⟨hty, hv⟩ := curText_some (htext.trans hte)
      have h1 : XMLReader.declaration env fuel s
          = (do let _ ← XMLReader.parse env v S_DECLARATION; pure true : M Bool) s2 := by
        simp only [XMLReader.declaration, StM.bind_apply, StM.andThen, hb, if_true, hread, hty,
          hv]
      have h2 : semDeclaration env (some e)
          = (do let _ ← Sem.parse env v S_DECLARATION; pure true) := by
        simp only [semDeclaration, hfo, hte]
      rw [h1, h2]
      exact finish_sim (Sim_bind (Sim_parse env v S_DECLARATION) (fun _ => Sim_pure true))
        ha2 hG2 hP2

/-! ### Loops over a sequence of elements -/

theorem renderAll_length {α : Type} (rend : α → List Node) (items : List α)
    (hlen : ∀ a ∈ items, rend a ≠ []) : items.length ≤ (renderAll rend items).length := by
  induction items with
  | nil => simp [renderAll]
  | cons a l ih =>
    have h1 : 0 < (rend a).length := List.length_pos.mpr (hlen a (by simp))
    have h2 := ih (fun x hx => hlen x (by simp [hx]))
    simp only [renderAll, List.length_append, List.length_cons]
    omega

theorem whileLoop_pt {α β : Type} (fuel : Nat) (k : Option tag_t) (f : M Bool)
    (sem : α → StM Sem Bool) (rend : α → List Node) (skipped : α → Bool) (body : β → β)
    (T : List Node → Prop) (tail : List Node) (hT : T tail)
    (hend : Parses fuel k f (pure false) [] tail) (items : List α) :
    (∀ a ∈ items, ∀ l, T (rend a ++ l)) →
    (∀ a ∈ items, skipped a = false → ∀ tail1, T tail1 →
        Parses fuel k f (sem a) (rend a) tail1 ∧ ∀ σ, (sem a σ).1 ≠ .ok false) →
    (∀ a ∈ items, skipped a = true →
        (∀ n ∈ rend a, Skippable k n) ∧ ∀ σ, ∃ v, sem a σ = (.ok v, σ)) →
    ∀ (n : Nat) (b : β) (s : XMLReader), items.length < n → Good fuel s →
      Pending k s (renderAll rend items ++ tail) →
      (StM.whileLoop n f body b s).1
          = ((Sem.forEach sem items >>= fun _ => pure (loopResult body skipped b items)) s.abs).1
        ∧ (StM.whileLoop n f body b s).2.abs
          = ((Sem.forEach sem items >>= fun _ => pure (loopResult body skipped b items)) s.abs).2
        ∧ (Outcome.returns (StM.whileLoop n f body b s).1 →
            Good fuel (StM.whileLoop n f body b s).2
              ∧ Pending none (StM.whileLoop n f body b s).2 tail) := by
  induction items with
  | nil =>
    intro _ _ _ n b s hn hG hP
    obtain ⟨n1, rfl⟩ : ∃ n1, n = n1 + 1 := ⟨n - 1, by simp at hn; omega⟩
    obtain ⟨h1, h2, h3⟩ := hend s hG (by simpa [renderAll] using hP)
    rcases hf : f s with ⟨o, s1⟩
    rw [hf] at h1 h2 h3
    simp only [StM.pure_apply] at h1 h2 h3
    subst h1
    simp only [StM.whileLoop, StM.andThen, hf, Sem.forEach, StM.bind_apply, StM.pure_apply,
      loopResult, Bool.false_eq_true, if_false, StM.ret_apply, true_and]
    exact ⟨h2, fun _ => h3 trivial⟩
  | cons a l ih =>
    intro hTl hpres hskip n b s hn hG hP
    have ih1 := ih (fun x hx => hTl x (by simp [hx])) (fun x hx => hpres x (by simp [hx]))
      (fun x hx => hskip x (by simp [hx]))
    have hTrest : T (renderAll rend l ++ tail) := by
      cases l with
      | nil => simpa [renderAll] using hT
      | cons a1 l1 =>
        simp only [renderAll, List.append_assoc]
        exact hTl a1 (by simp) _
    cases hsk : skipped a with
    | true =>
      obtain ⟨hs1, hs2⟩ := hskip a (by simp) hsk
      have hP1 : Pending k s (renderAll rend l ++ tail) :=
        Pending_absorb (by simpa [renderAll] using hP) hs1
      obtain ⟨v, hv⟩ := hs2 s.abs
      have := ih1 n b s (by simp at hn; omega) hG hP1
      simpa [Sem.forEach, StM.bind_apply, StM.andThen, hv, loopResult, hsk] using this
    | false =>
      obtain ⟨hpa, hnf⟩ := hpres a (by simp) hsk _ hTrest
      obtain ⟨h1, h2, h3⟩ := hpa s hG (by simpa [renderAll] using hP)
      obtain ⟨n1, rfl⟩ : ∃ n1, n = n1 + 1 := ⟨n - 1, by simp at hn; omega⟩
      have hnf1 := hnf s.abs
      rcases hf : f s with ⟨o, s1⟩
      rcases hf' : sem a s.abs with ⟨o', σ1⟩
      rw [hf, hf'] at h1 h2
      rw [hf] at h3
      rw [hf'] at hnf1
      simp only at h1 h2 h3 hnf1
      subst h1 h2
      cases o with
      | ok c =>
        have hc : c = true := by
          cases c
          · exact absurd rfl hnf1
          · rfl
        subst hc
        obtain ⟨hG1, hP1⟩ := h3 trivial
        have := ih1 n1 (body b) s1 (by simp at hn; omega) hG1 (Pending_weaken hP1)
        simpa [StM.whileLoop, Sem.forEach, StM.bind_apply, StM.andThen, hf, hf', loopResult, hsk]
          using this
      | fatal c =>
        simp [StM.whileLoop, Sem.forEach, StM.bind_apply, StM.andThen, hf, hf', Outcome.returns]
      | typeException msg =>
        simp [StM.whileLoop, Sem.forEach, StM.bind_apply, StM.andThen, hf, hf', Outcome.returns]
      | crash =>
        simp [StM.whileLoop, Sem.forEach, StM.bind_apply, StM.andThen, hf, hf', Outcome.returns]
      | timeout =>
        simp [StM.whileLoop, Sem.forEach, StM.bind_apply, StM.andThen, hf, hf', Outcome.returns]

theorem whileLoop_parses {α β : Type} (fuel : Nat) (k : Option tag_t) (f : M Bool)
    (sem : α → StM Sem Bool) (rend : α → List Node) (skipped : α → Bool) (body : β → β) (b : β)
    (T : List Node → Prop) (tail : List Node) (hT : T tail) (htail : tail ≠ [])
    (hend : Parses fuel k f (pure false) [] tail) (items : List α)
    (hlen : ∀ a ∈ items, rend a ≠ [])
    (hTl : ∀ a ∈ items, ∀ l, T (rend a ++ l))
    (hpres : ∀ a ∈ items, skipped a = false → ∀ tail1, T tail1 →
        Parses fuel k f (sem a) (rend a) tail1 ∧ ∀ σ, (sem a σ).1 ≠ .ok false)
    (hskip : ∀ a ∈ items, skipped a = true →
        (∀ n ∈ rend a, Skippable k n) ∧ ∀ σ, ∃ v, sem a σ = (.ok v, σ)) :
    Parses fuel k (StM.whileLoop fuel f body b)
      (Sem.forEach sem items >>= fun _ => pure (loopResult body skipped b items))
      (renderAll rend items) tail := by
  intro s hG hP
  refine whileLoop_pt fuel k f sem rend skipped body T tail hT hend items hTl hpres hskip
    fuel b s ?_ hG hP
  obtain ⟨skip, hst, _⟩ := hP
  have h1 := renderAll_length rend items hlen
  have h2 : 0 < tail.length := List.length_pos.mpr htail
  have h3 : s.stream.length ≤ s.rest.length + 1 := by
    simp only [XMLReader.stream, List.length_append]
    cases s.cur with
    | none => simp
    | some c => simp; omega
  have h4 := hG.2
  rw [hst] at h3
  simp only [List.length_append] at h3
  omega

theorem label_parses (env : Env) (fuel : Nat) (k : Option tag_t)
    (hk : k = none ∨ k = some TAG_LABEL) (e : El) (he : e.ok) (hem : e.isEmpty = false)
    (tail : List Node) (S : List tag_t) (hF : Follows S tail) :
    Parses fuel k (XMLReader.label env fuel) (semLabel env e) (e.render TAG_LABEL) tail := by
  intro s hG hP
  obtain ⟨s1, s2, hb, hc, hr, ha, hG1, hread, ha2, hG2, hP2, htext⟩ :=
    enter fuel TAG_LABEL true k
      (by rcases hk with h | h; exact Or.inl h; exact Or.inr ⟨h, rfl⟩) e tail he (Or.inl ⟨S, hF⟩)
      (by simp [hem]) s hG hP
  have hattr : XMLReader.getAttribute s1 "kind" = e.attrs.lookup "kind" := by
    simp [XMLReader.getAttribute, hc, El.node]
  have hfo : found (some e) = some e := by simp [found, hem]
  cases hte : e.text with
  | none =>
    have hnt := curText_none (htext.trans hte)
    simp [XMLReader.label, StM.bind_apply, StM.andThen, hb, hread, hnt, semLabel, hfo, hte, ha2,
      hG2, hP2]
  | some v =>
    obtain ⟨hty, hv⟩ := curText_some (htext.trans hte)
    have h1 : XMLReader.label env fuel s
        = (do XMLReader.labelText env (e.attrs.lookup "kind") v; pure true : M Bool) s2 := by
      simp only [XMLReader.label, StM.bind_apply, StM.andThen, hb, if_true, hread, hty, hv, hattr]
    have h2 : semLabel env e
        = (do Sem.labelText env (e.attrs.lookup "kind") v; pure true) := by
      simp only [semLabel, hfo, hte]
    rw [h1, h2]
    exact finish_sim (Sim_bind (Sim_labelText env _ v) (fun _ => Sim_pure true)) ha2 hG2 hP2

theorem name_parses (env : Env) (fuel : Nat) (k : Option tag_t)
    (hk : k = none ∨ k = some TAG_NAME) (o : Option El) (ho : okOpt o)
    (tail : List Node) (S : List tag_t) (hF : Follows S tail) (hS : TAG_NAME ∉ S) :
    Parses fuel k (XMLReader.name env fuel) (semName env o) (renderOpt TAG_NAME o) tail := by
  intro s hG hP
  cases hfo : found o with
  | none =>
    have hP1 : Pending (some TAG_NAME) s tail :=
      Pending_absorb (Pending_some_of hk hP) (found_render_skip _ o ho hfo)
    obtain ⟨s1, hb, ha, hG1, hP2⟩ := absent_pt fuel TAG_NAME true _ (Or.inr ⟨rfl, rfl⟩)
      tail S hF hS s hG hP1
    simp [XMLReader.name, StM.bind_apply, StM.andThen, hb, semName, hfo, ha, hG1, hP2]
  | some e =>
    obtain ⟨rfl, hem⟩ := found_some hfo
    obtain ⟨s1, s2, hb, hc, hr, ha, hG1, hread, ha2, hG2, hP2, htext⟩ :=
      enter fuel TAG_NAME true k
        (by rcases hk with h | h; exact Or.inl h; exact Or.inr ⟨h, rfl⟩) e tail ho (Or.inl ⟨S, hF⟩)
        (by simp [hem]) s hG (by simpa [renderOpt] using hP)
    cases hte : e.text with
    | none =>
      have hnt := curText_none (htext.trans hte)
      simp [XMLReader.name, StM.bind_apply, StM.andThen, hb, hread, hnt, semName, hfo, hte, ha2,
        hG2, hP2]
    | some v =>
      obtain ⟨hty, hv⟩ := curText_some (htext.trans hte)
      have h1 : XMLReader.name env fuel s
          = (match symbol (some v) with
            | .ok id =>
              if !env.isKeyword id (SYNTAX_OLD ||| SYNTAX_PROPERTY) then pure (some id)
              else do
                XMLReader.handleError "Keywords are not allowed here"
                pure none
            | .error str => do
              XMLReader.handleError str
              pure none : M (Option String)) s2 := by
        simp only [XMLReader.name, StM.bind_apply, StM.andThen, hb, if_true, hread, hty, hv]
      have h2 : semName env (some e)
          = (match symbol (some v) with
            | .ok id =>
              if !env.isKeyword id (SYNTAX_OLD ||| SYNTAX_PROPERTY) then pure (some id)
              else do
                Sem.handleError "Keywords are not allowed here"
                pure none
            | .error str => do
              Sem.handleError str
              pure none) := by
        simp only [semName, hfo, hte, Option.bind]
      rw [h1, h2]
      refine finish_sim ?_ ha2 hG2 hP2
      cases symbol (some v) with
      | ok id =>
        simp only
        exact Sim_ite (Sim_pure _) (Sim_bind (Sim_handleError _) (fun _ => Sim_pure _))
      | error str => exact Sim_bind (Sim_handleError _) (fun _ => Sim_pure _)

theorem parameter_parses (env : Env) (fuel : Nat) (k : Option tag_t)
    (hk : k = none ∨ k = some TAG_PARAMETER) (o : Option El) (ho : okOpt o)
    (tail : List Node) (S : List tag_t) (hF : Follows S tail) (hS : TAG_PARAMETER ∉ S) :
    Parses fuel k (XMLReader.parameter env fuel) (semParameter env o)
      (renderOpt TAG_PARAMETER o) tail := by
  intro s hG hP
  cases hfo : found o with
  | none =>
    have hP1 : Pending (some TAG_PARAMETER) s tail :=
      Pending_absorb (Pending_some_of hk hP) (found_render_skip _ o ho hfo)
    obtain ⟨s1, hb, ha, hG1, hP2⟩ := absent_pt fuel TAG_PARAMETER true _ (Or.inr ⟨rfl, rfl⟩)
      tail S hF hS s hG hP1
    simp [XMLReader.parameter, StM.bind_apply, StM.andThen, hb, semParameter, hfo, ha, hG1, hP2]
  | some e =>
    obtain ⟨rfl, hem⟩ := found_some hfo
    obtain ⟨s1, s2, hb, hc, hr, ha, hG1, hread, ha2, hG2, hP2, htext⟩ :=
      enter fuel TAG_PARAMETER true k
        (by rcases hk with h | h; exact Or.inl h; exact Or.inr ⟨h, rfl⟩) e tail ho (Or.inl ⟨S, hF⟩)
        (by simp [hem]) s hG (by simpa [renderOpt] using hP)
    cases hte : e.text with
    | none =>
      have hnt := curText_none (htext.trans hte)
      simp [XMLReader.parameter, StM.bind_apply, StM.andThen, hb, hread, hnt, semParameter, hfo,
        hte, ha2, hG2, hP2]
    | some v =>
      obtain ⟨hty, hv⟩ := curText_some (htext.trans hte)
      have h1 : XMLReader.parameter env fuel s = XMLReader.parse env v S_PARAMETERS s2 := by
        simp only [XMLReader.parameter, StM.bind_apply, StM.andThen, hb, if_true, hread, hty, hv]
      have h2 : semParameter env (some e) = Sem.parse env v S_PARAMETERS := by
        simp only [semParameter, hfo, hte, Option.bind]
      rw [h1, h2]
      exact finish_sim (Sim_parse env v S_PARAMETERS) ha2 hG2 hP2

theorem StM.bind_pure {σ α : Type} (m : StM σ α) : (m >>= fun a => pure a) = m := by
  funext s
  simp only [StM.bind_apply, StM.andThen]
  rcases m s with ⟨o, s1⟩
  cases o <;> rfl

theorem optional_parses (fuel : Nat) (t : tag_t) (f : M Bool)
    (hf : f = (do if ← XMLReader.begin fuel t false then (do XMLReader.read; pure true)
                  else pure false))
    (o : Option El) (ho : okOpt o) (tail : List Node) (S : List tag_t) (hF : Follows S tail)
    (hS : t ∉ S) :
    Parses fuel none f (pure o.isSome) (renderOpt t o) tail := by
  subst hf
  intro s hG hP
  cases o with
  | none =>
    obtain ⟨s1, hb, ha, hG1, hP2⟩ := absent_pt fuel t false none (Or.inl rfl)
      tail S hF hS s hG (by simpa [renderOpt] using hP)
    simp [StM.bind_apply, StM.andThen, hb, ha, hG1, hP2]
  | some e =>
    obtain ⟨s1, s2, hb, hc, hr, ha, hG1, hread, ha2, hG2, hP2, htext⟩ :=
      enter fuel t false none (Or.inl rfl) e tail ho (Or.inl ⟨S, hF⟩)
        (by simp) s hG (by simpa [renderOpt] using hP)
    simp [StM.bind_apply, StM.andThen, hb, hread, ha2, hG2, hP2]

theorem urgent_parses (fuel : Nat) (o : Option El) (ho : okOpt o) (tail : List Node)
    (S : List tag_t) (hF : Follows S tail) (hS : TAG_URGENT ∉ S) :
    Parses fuel none (XMLReader.urgent fuel) (pure o.isSome) (renderOpt TAG_URGENT o) tail :=
  optional_parses fuel TAG_URGENT _ rfl o ho tail S hF hS

theorem committed_parses (fuel : Nat) (o : Option El) (ho : okOpt o) (tail : List Node)
    (S : List tag_t) (hF : Follows S tail) (hS : TAG_COMMITTED ∉ S) :
    Parses fuel none (XMLReader.committed fuel) (pure o.isSome) (renderOpt TAG_COMMITTED o)
      tail :=
  optional_parses fuel TAG_COMMITTED _ rfl o ho tail S hF hS

theorem sim_then_read {α β : Type} {fuel : Nat} {A : M α} {A' : StM Sem α} (g : α → β)
    (hsim : Sim A A') {s s1 : XMLReader} {e : El} {tail : List Node} (ha : s1.abs = s.abs)
    (hG1 : Good fuel s1) (hr : s1.rest = e.gap ++ tail) (hgap : NoElem e.gap)
    (hF : (∃ S, Follows S tail) ∨ (tail = [] ∧ e.gap ≠ [])) :
    ((A >>= fun a => XMLReader.read >>= fun _ => pure (g a)) s1).1
        = ((A' >>= fun a => pure (g a)) s.abs).1
      ∧ ((A >>= fun a => XMLReader.read >>= fun _ => pure (g a)) s1).2.abs
        = ((A' >>= fun a => pure (g a)) s.abs).2
      ∧ (Outcome.returns ((A >>= fun a => XMLReader.read >>= fun _ => pure (g a)) s1).1 →
          Good fuel ((A >>= fun a => XMLReader.read >>= fun _ => pure (g a)) s1).2
            ∧ Pending none ((A >>= fun a => XMLReader.read >>= fun _ => pure (g a)) s1).2 tail) := by
  obtain ⟨g1, g2, g3, g4, g5⟩ := hsim s1
  rw [ha] at g1 g2
  simp only [StM.bind_apply, StM.andThen]
  rcases hA : A s1 with ⟨o, s1a⟩
  rcases hA' : A' s.abs with ⟨o', σ⟩
  rw [hA, hA'] at g1 g2
  rw [hA] at g3 g4 g5
  simp only at g1 g2 g3 g4 g5
  subst g1 g2
  cases o with
  | ok a =>
    obtain ⟨s2, hread, hG2, hP2, ha2, _⟩ :=
      XMLReader.read_gap fuel s1a e tail (Good_frame hG1 g3 g4 g5) (g4.trans hr) hgap hF
    simp [hread, ha2, hG2, hP2]
  | fatal c => simp [Outcome.returns]
  | typeException msg => simp [Outcome.returns]
  | crash => simp [Outcome.returns]
  | timeout => simp [Outcome.returns]

theorem init_parses (env : Env) (fuel : Nat) (o : Option El) (ho : okOpt o) (tail : List Node)
    (S : List tag_t) (hF : Follows S tail) (hS : TAG_INIT ∉ S) :
    Parses fuel none (XMLReader.init env fuel) (semInit env o) (renderOpt TAG_INIT o) tail := by
  intro s hG hP
  cases o with
  | none =>
    obtain ⟨s1, hb, ha, hG1, hP2⟩ := absent_pt fuel TAG_INIT false none (Or.inl rfl)
      tail S hF hS s hG (by simpa [renderOpt] using hP)
    have h1 : XMLReader.init env fuel s
        = (do XMLReader.handleError "Missing initial state"; pure false : M Bool) s1 := by
      simp only [XMLReader.init, StM.bind_apply, StM.andThen, hb, Bool.false_eq_true, if_false]
    rw [h1]
    exact finish_sim (Sim_bind (Sim_handleError _) (fun _ => Sim_pure false)) ha hG1 hP2
  | some e =>
    obtain ⟨s1, hb, hc, hr, ha, hG1⟩ := XMLReader.begin_pending fuel TAG_INIT false none
      (Or.inl rfl) s (e.node TAG_INIT) (e.gap ++ tail) TAG_INIT hG
      (by simpa [renderOpt, El.render] using hP) rfl (in_word_set_node _ e) (by simp)
    simp only [decide_True] at hb
    have hattr : XMLReader.getAttribute s1 "ref" = e.attrs.lookup "ref" := by
      simp [XMLReader.getAttribute, hc, El.node]
    cases hl : e.attrs.lookup "ref" with
    | none =>
      have h1 : XMLReader.init env fuel s
          = (XMLReader.handleError "Missing initial state"
              >>= fun a => XMLReader.read >>= fun _ => pure ((fun _ => true) a)) s1 := by
        simp only [XMLReader.init, StM.bind_apply, StM.andThen, hb, if_true, hattr, hl]
      have h2 : semInit env (some e)
          = (Sem.handleError "Missing initial state" >>= fun a => pure ((fun _ => true) a)) := by
        simp only [semInit, hl]
      rw [h1, h2]
      exact sim_then_read _ (Sim_handleError _) ha hG1 hr ho (Or.inl ⟨S, hF⟩)
    | some r =>
      have h1 : XMLReader.init env fuel s
          = ((do
              let name ← XMLReader.getLocation (some r)
              StM.tryCatch (XMLReader.notify env (Call.procStateInit name))
                (fun what => XMLReader.handleError what))
              >>= fun a => XMLReader.read >>= fun _ => pure ((fun _ => true) a)) s1 := by
        simp only [XMLReader.init, StM.bind_apply, StM.andThen, hb, if_true, hattr, hl]
        rcases XMLReader.getLocation (some r) s1 with ⟨o, s2⟩
        cases o <;> rfl
      have h2 : semInit env (some e)
          = ((do
              let name ← Sem.getLocation (some r)
              StM.tryCatch (Sem.notify env (Call.procStateInit name))
                (fun what => Sem.handleError what))
              >>= fun a => pure ((fun _ => true) a)) := by
        simp only [semInit, hl]
        exact (StM.bind_assoc _ _ _).symm
      rw [h1, h2]
      exact sim_then_read _ (Sim_bind (Sim_getLocation _)
        (fun _ => Sim_tryCatch (Sim_notify env _) (fun _ => Sim_handleError _)))
        ha hG1 hr ho (Or.inl ⟨S, hF⟩)

theorem endpoint_parses (fuel : Nat) (t : tag_t) (f : M String)
    (hf : f = (do
      if ← XMLReader.begin fuel t false then
        let id ← fun s => (.ok (XMLReader.getAttribute s "ref"), s)
        let name ← XMLReader.getLocation id
        XMLReader.read
        pure name
      else StM.throwInt (-1)))
    (o : Option El) (ho : okOpt o) (tail : List Node)
    (S : List tag_t) (hF : Follows S tail) (hS : t ∉ S) :
    Parses fuel none f (semEndpoint o) (renderOpt t o) tail := by
  subst hf
  intro s hG hP
  cases o with
  | none =>
    obtain ⟨s1, hb, ha, hG1, hP2⟩ := absent_pt fuel t false none (Or.inl rfl)
      tail S hF hS s hG (by simpa [renderOpt] using hP)
    simp [StM.bind_apply, StM.andThen, hb, semEndpoint, StM.throwInt, ha, Outcome.returns]
  | some e =>
    obtain ⟨s1, hb, hc, hr, ha, hG1⟩ := XMLReader.begin_pending fuel t false none
      (Or.inl rfl) s (e.node t) (e.gap ++ tail) t hG
      (by simpa [renderOpt, El.render] using hP) rfl (in_word_set_node _ e) (by simp)
    simp only [decide_True] at hb
    have hattr : XMLReader.getAttribute s1 "ref" = e.attrs.lookup "ref" := by
      simp [XMLReader.getAttribute, hc, El.node]
    have h1 : (do
        if ← XMLReader.begin fuel t false then
          let id ← fun s => (.ok (XMLReader.getAttribute s "ref"), s)
          let name ← XMLReader.getLocation id
          XMLReader.read
          pure name
        else StM.throwInt (-1) : M String) s
        = (XMLReader.getLocation (e.attrs.lookup "ref")
            >>= fun a => XMLReader.read >>= fun _ => pure (id a)) s1 := by
      simp only [StM.bind_apply, StM.andThen, hb, if_true, hattr, id]
    have h2 : semEndpoint (some e)
        = (Sem.getLocation (e.attrs.lookup "ref") >>= fun a => pure (id a)) := by
      simp only [semEndpoint, id]
      exact (StM.bind_pure _).symm
    rw [h1, h2]
    exact sim_then_read _ (Sim_getLocation _) ha hG1 hr ho (Or.inl ⟨S, hF⟩)

theorem source_parses (fuel : Nat) (o : Option El) (ho : okOpt o) (tail : List Node)
    (S : List tag_t) (hF : Follows S tail) (hS : TAG_SOURCE ∉ S) :
    Parses fuel none (XMLReader.source fuel) (semEndpoint o) (renderOpt TAG_SOURCE o) tail :=
  endpoint_parses fuel TAG_SOURCE _ rfl o ho tail S hF hS

theorem target_parses (fuel : Nat) (o : Option El) (ho : okOpt o) (tail : List Node)
    (S : List tag_t) (hF : Follows S tail) (hS : TAG_TARGET ∉ S) :
    Parses fuel none (XMLReader.target fuel) (semEndpoint o) (renderOpt TAG_TARGET o) tail :=
  endpoint_parses fuel TAG_TARGET _ rfl o ho tail S hF hS

theorem textpart_parses (env : Env) (fuel : Nat) (t : tag_t) (part : xta_part_t) (f : M Bool)
    (hf : f = (do
      if ← XMLReader.begin fuel t false then
        XMLReader.read
        let text ← fun s =>
          (.ok (if XMLReader.getNodeType s = TEXT then XMLReader.getValue s else ""), s)
        let _ ← XMLReader.parse env text part
        pure true
      else pure false))
    (o : Option El) (ho : okOpt o) (tail : List Node)
    (hF : (∃ S, Follows S tail ∧ t ∉ S) ∨ (tail = [] ∧ ∃ e, o = some e ∧ e.gap ≠ [])) :
    Parses fuel none f (semSystem env part o) (renderOpt t o) tail := by
  subst hf
  intro s hG hP
  cases o with
  | none =>
    rcases hF with ⟨S, hF, hS⟩ | ⟨_, e, h, _⟩
    · obtain ⟨s1, hb, ha, hG1, hP2⟩ := absent_pt fuel t false none (Or.inl rfl)
        tail S hF hS s hG (by simpa [renderOpt] using hP)
      simp [StM.bind_apply, StM.andThen, hb, semSystem, ha, hG1, hP2]
    · simp at h
  | some e =>
    have hF1 : (∃ S, Follows S tail) ∨ (tail = [] ∧ e.gap ≠ []) := by
      rcases hF with ⟨S, hF, _⟩ | ⟨h1, e1, h2, h3⟩
      · exact Or.inl ⟨S, hF⟩
      · simp at h2
        subst h2
        exact Or.inr ⟨h1, h3⟩
    obtain ⟨s1, s2, hb, hc, hr, ha, hG1, hread, ha2, hG2, hP2, htext⟩ :=
      enter fuel t false none (Or.inl rfl) e tail ho hF1
        (by simp) s hG (by simpa [renderOpt] using hP)
    have htx : (if XMLReader.getNodeType s2 = TEXT then XMLReader.getValue s2 else "")
        = e.text.getD "" := by
      rw [← htext]
      unfold XMLReader.curText
      split <;> simp
    have h1 : (do
        if ← XMLReader.begin fuel t false then
          XMLReader.read
          let text ← fun s =>
            (.ok (if XMLReader.getNodeType s = TEXT then XMLReader.getValue s else ""), s)
          let _ ← XMLReader.parse env text part
          pure true
        else pure false : M Bool) s
        = (do let _ ← XMLReader.parse env (e.text.getD "") part; pure true : M Bool) s2 := by
      simp only [StM.bind_apply, StM.andThen, hb, if_true, hread, htx]
    rw [h1]
    exact finish_sim (Sim_bind (Sim_parse env _ part) (fun _ => Sim_pure true)) ha2 hG2 hP2

/-! ### Effects that raise no `TypeException` -/

theorem NoThrow_pure {α : Type} (a : α) : NoThrow (pure a : StM Sem α) := by
  intro σ msg
  simp

theorem NoThrow_bind {α β : Type} {m : StM Sem α} {f : α → StM Sem β} (hm : NoThrow m)
    (hf : ∀ a, NoThrow (f a)) : NoThrow (m >>= f) := by
  intro σ msg
  have h1 := hm σ
  simp only [StM.bind_apply, StM.andThen]
  rcases hms : m σ with ⟨o, σ1⟩
  rw [hms] at h1
  cases o with
  | ok a => exact hf a σ1 msg
  | typeException m1 => exact absurd rfl (h1 m1)
  | fatal c => simp
  | crash => simp
  | timeout => simp

theorem NoThrow_tryCatch {m : StM Sem Unit} {h : String → StM Sem Unit}
    (hh : ∀ msg, NoThrow (h msg)) : NoThrow (StM.tryCatch m h) := by
  intro σ msg
  simp only [StM.tryCatch]
  rcases hms : m σ with ⟨o, σ1⟩
  cases o with
  | typeException m1 => exact hh m1 σ1 msg
  | ok a => simp
  | fatal c => simp
  | crash => simp
  | timeout => simp

theorem NoThrow_ite {α : Type} {c : Prop} [Decidable c] {m1 m2 : StM Sem α}
    (h1 : NoThrow m1) (h2 : NoThrow m2) : NoThrow (if c then m1 else m2) := by
  by_cases hc : c <;> simp [hc, h1, h2]

theorem NoThrow_handleError (msg : String) : NoThrow (Sem.handleError msg) := by
  intro σ m
  simp [Sem.handleError]

theorem NoThrow_parse (env : Env) (text : String) (part : xta_part_t) :
    NoThrow (Sem.parse env text part) := by
  intro σ m
  simp [Sem.parse]

theorem NoThrow_throwInt {α : Type} (c : Int) : NoThrow (StM.throwInt c : StM Sem α) := by
  intro σ m
  simp [StM.throwInt]

theorem NoThrow_crashed {α : Type} : NoThrow (StM.crashed : StM Sem α) := by
  intro σ m
  simp [StM.crashed]

theorem NoThrow_getLocation (id : Option String) : NoThrow (Sem.getLocation id) := by
  intro σ m
  simp only [Sem.getLocation]
  cases id with
  | none => simp
  | some i =>
    simp only
    split
    · simp
    · cases List.lookup (some i) σ.locations <;> simp

theorem NoThrow_labelText (env : Env) (kind : Option String) (text : String) :
    NoThrow (Sem.labelText env kind text) := by
  unfold Sem.labelText
  cases kind with
  | none => exact NoThrow_crashed
  | some k =>
    simp only
    repeat' apply NoThrow_ite
    all_goals first
      | exact NoThrow_bind (NoThrow_parse env text _) (fun _ => NoThrow_pure ())
      | exact NoThrow_pure ()

theorem NoThrow_semLabel (env : Env) (e : El) : NoThrow (semLabel env e) := by
  unfold UTAP.semLabel
  split
  · split
    · exact NoThrow_bind (NoThrow_labelText env _ _) (fun _ => NoThrow_pure _)
    · exact NoThrow_pure _
  · exact NoThrow_pure _

theorem NoThrow_semName (env : Env) (o : Option El) : NoThrow (semName env o) := by
  unfold UTAP.semName
  split
  · split
    · exact NoThrow_ite (NoThrow_pure _)
        (NoThrow_bind (NoThrow_handleError _) (fun _ => NoThrow_pure _))
    · exact NoThrow_bind (NoThrow_handleError _) (fun _ => NoThrow_pure _)
  · exact NoThrow_pure _

theorem NoThrow_semParameter (env : Env) (o : Option El) : NoThrow (semParameter env o) := by
  unfold UTAP.semParameter
  split
  · exact NoThrow_parse env _ _
  · exact NoThrow_pure _

theorem NoThrow_semDeclaration (env : Env) (o : Option El) :
    NoThrow (semDeclaration env o) := by
  unfold UTAP.semDeclaration
  split
  · split
    · exact NoThrow_bind (NoThrow_parse env _ _) (fun _ => NoThrow_pure _)
    · exact NoThrow_pure _
  · exact NoThrow_pure _

theorem NoThrow_semEndpoint (o : Option El) : NoThrow (semEndpoint o) := by
  cases o with
  | none => exact NoThrow_throwInt _
  | some e => exact NoThrow_getLocation _

theorem NoThrow_forEach {α β : Type} (f : α → StM Sem β) (hf : ∀ a, NoThrow (f a))
    (l : List α) : NoThrow (Sem.forEach f l) := by
  induction l with
  | nil => exact NoThrow_pure _
  | cons a l ih => exact NoThrow_bind (hf a) (fun _ => ih)

theorem NoThrow_semLocation (env : Env) (l : LocationD) : NoThrow (semLocation env l) :=
  NoThrow_bind (NoThrow_tryCatch (fun _ => NoThrow_handleError _)) (fun _ => NoThrow_pure _)

theorem NoThrow_semInit (env : Env) (o : Option El) : NoThrow (semInit env o) := by
  unfold UTAP.semInit
  split
  · exact NoThrow_bind (NoThrow_handleError _) (fun _ => NoThrow_pure _)
  · split
    · exact NoThrow_bind (NoThrow_getLocation _)
        (fun _ => NoThrow_bind (NoThrow_tryCatch (fun _ => NoThrow_handleError _))
          (fun _ => NoThrow_pure _))
    · exact NoThrow_bind (NoThrow_handleError _) (fun _ => NoThrow_pure _)

theorem NoThrow_semTransition (env : Env) (t : TransitionD) : NoThrow (semTransition env t) := by
  unfold UTAP.semTransition
  exact NoThrow_ite (NoThrow_pure _)
    (NoThrow_bind (NoThrow_tryCatch (fun _ => NoThrow_handleError _)) (fun _ => NoThrow_pure _))

theorem NoThrow_notifyBegin (env : Env) (h : AcceptsBegin env) (name : Option String)
    (count : Int) : NoThrow (Sem.notify env (Call.procBegin name count)) := by
  intro σ m
  simp [Sem.notify, h σ.log name count]

/-! ### The start tag that follows -/

theorem Follows_mono {S R : List tag_t} {l : List Node} (h : Follows S l)
    (hs : ∀ t ∈ S, t ∈ R) : Follows R l := by
  obtain ⟨n, r, t, h1, h2, h3, h4⟩ := h
  exact ⟨n, r, t, h1, h2, h3, hs t h4⟩

theorem Follows_render (t : tag_t) (e : El) (l : List Node) (S : List tag_t) (h : t ∈ S) :
    Follows S (e.render t ++ l) :=
  ⟨e.node t, e.gap ++ l, t, rfl, rfl, in_word_set_node t e, h⟩

theorem Follows_opt (t : tag_t) (o : Option El) {l : List Node} {S R : List tag_t}
    (h : Follows S l) (hs : ∀ x ∈ S, x ∈ R) (ht : t ∈ R) : Follows R (renderOpt t o ++ l) := by
  cases o with
  | none => simpa [renderOpt] using Follows_mono h hs
  | some e => exact Follows_render t e l R ht

theorem Follows_els (t : tag_t) (es : List El) {l : List Node} {S R : List tag_t}
    (h : Follows S l) (hs : ∀ x ∈ S, x ∈ R) (ht : t ∈ R) : Follows R (renderEls t es ++ l) := by
  cases es with
  | nil => simpa [renderEls] using Follows_mono h hs
  | cons e es =>
    simp only [renderEls, List.append_assoc]
    exact Follows_render t e _ R ht

theorem Follows_ne_nil {S : List tag_t} {l : List Node} (h : Follows S l) : l ≠ [] := by
  obtain ⟨n, r, t, h1, _⟩ := h
  simp [h1]

theorem renderEls_eq_renderAll (t : tag_t) (es : List El) :
    renderEls t es = renderAll (El.render t) es := by
  induction es with
  | nil => rfl
  | cons e es ih => simp [renderEls, renderAll, ih]

/-! ### Sequences of methods -/

theorem ParsesG_bind_val {α β γ : Type} {post : Outcome β → Prop} {fuel : Nat}
    {k : Option tag_t} {m : M α} {n : StM Sem γ} {v : α} {f : α → M β} {g : StM Sem β}
    {X Y tail : List Node}
    (h : Parses fuel k m (n >>= fun _ => pure v) X (Y ++ tail)) (hn : NoThrow n)
    (hf : ParsesG post fuel none (f v) g Y tail) (hpost : ∀ o : Outcome β, post o → o.caught) :
    ParsesG post fuel k (m >>= f) (n >>= fun _ => g) (X ++ Y) tail := by
  intro s hG hP
  obtain ⟨h1, h2, h3⟩ := h s hG (by simpa using hP)
  have hn1 := hn s.abs
  simp only [StM.bind_apply, StM.andThen] at h1 h2 ⊢
  rcases hm : m s with ⟨o, s1⟩
  rcases hm' : n s.abs with ⟨o', σ1⟩
  rw [hm, hm'] at h1 h2
  rw [hm] at h3
  rw [hm'] at hn1
  cases o' with
  | ok u =>
    simp only [StM.pure_apply] at h1 h2
    subst h1 h2
    obtain ⟨hG1, hP1⟩ := h3 trivial
    exact hf s1 hG1 hP1
  | fatal c =>
    simp only at h1 h2
    subst h1 h2
    exact ⟨rfl, rfl, fun h => (hpost _ h).elim⟩
  | typeException msg => exact absurd rfl (hn1 msg)
  | crash =>
    simp only at h1 h2
    subst h1 h2
    exact ⟨rfl, rfl, fun h => (hpost _ h).elim⟩
  | timeout =>
    simp only at h1 h2
    subst h1 h2
    exact ⟨rfl, rfl, fun h => (hpost _ h).elim⟩

theorem ParsesG_bind_ret {α β : Type} {post : Outcome β → Prop} {fuel : Nat}
    {k : Option tag_t} {m : M α} {v : α} {f : α → M β} {g : StM Sem β}
    {X Y tail : List Node}
    (h : Parses fuel k m (pure v) X (Y ++ tail))
    (hf : ParsesG post fuel none (f v) g Y tail) (hpost : ∀ o : Outcome β, post o → o.caught) :
    ParsesG post fuel k (m >>= f) g (X ++ Y) tail :=
  ParsesG_bind_val (n := (pure () : StM Sem Unit)) (g := g) h (NoThrow_pure ()) hf hpost

theorem caught_of_caught {β : Type} (o : Outcome β) (h : o.caught) : o.caught := h

theorem caught_of_returns {β : Type} (o : Outcome β) (h : o.returns) : o.caught := by
  cases o <;> simp_all [Outcome.returns, Outcome.caught]

theorem semLabel_skipped (env : Env) (e : El) (h : e.isEmpty = true) (σ : Sem) :
    ∃ v, semLabel env e σ = (.ok v, σ) := by
  exact ⟨false, by simp [semLabel, found, h]⟩

theorem semLabel_true (env : Env) (e : El) (h : e.isEmpty = false) (σ : Sem) :
    (semLabel env e σ).1 ≠ .ok false := by
  simp only [semLabel, found, h, Bool.false_eq_true, if_false]
  cases e.text with
  | none => simp
  | some v =>
    simp only [StM.bind_apply, StM.andThen]
    rcases Sem.labelText env (List.lookup "kind" e.attrs) v σ with ⟨o, σ1⟩
    cases o <;> simp

theorem labels_parses (env : Env) (fuel : Nat) {β : Type} (body : β → β) (b : β)
    (es : List El) (hes : ∀ e ∈ es, e.ok) (tail : List Node) (S : List tag_t)
    (hF : Follows S tail) (hS : TAG_LABEL ∉ S) :
    Parses fuel none (StM.whileLoop fuel (XMLReader.label env fuel) body b)
      (Sem.forEach (semLabel env) es
        >>= fun _ => pure (loopResult body (fun e => e.isEmpty) b es))
      (renderEls TAG_LABEL es) tail := by
  rw [renderEls_eq_renderAll]
  apply ParsesG_weaken (k := some TAG_LABEL)
  refine whileLoop_parses fuel (some TAG_LABEL) (XMLReader.label env fuel) (semLabel env)
    (El.render TAG_LABEL) (fun e => e.isEmpty) body b (fun l => Follows (TAG_LABEL :: S) l) tail
    (Follows_mono hF (fun t ht => by simp [ht])) (Follows_ne_nil hF) ?_ es ?_ ?_ ?_ ?_
  · intro s hG hP
    obtain ⟨s1, hb, ha, hG1, hP2⟩ := absent_pt fuel TAG_LABEL true (some TAG_LABEL)
      (Or.inr ⟨rfl, rfl⟩) tail S hF hS s hG (by simpa using hP)
    simp [XMLReader.label, StM.bind_apply, StM.andThen, hb, ha, hG1, hP2]
  · intro a _
    simp [El.render]
  · intro a _ l
    exact Follows_render TAG_LABEL a l _ (by simp)
  · intro a ha hem tail1 hT
    exact ⟨label_parses env fuel (some TAG_LABEL) (Or.inr rfl) a (hes a ha) hem tail1 _ hT,
      semLabel_true env a hem⟩
  · intro a ha hem
    refine ⟨?_, semLabel_skipped env a hem⟩
    intro n hn
    simp only [El.render, List.mem_cons] at hn
    rcases hn with rfl | hn
    · exact Or.inr ⟨hem, TAG_LABEL, rfl, in_word_set_node _ a⟩
    · exact Or.inl (hes a ha n hn)

theorem loopResult_anyLabel (es : List El) :
    loopResult (fun _ => true) (fun e : El => e.isEmpty) false es = anyLabel es := by
  have h : ∀ l : List El, loopResult (fun _ => true) (fun e : El => e.isEmpty) true l = true := by
    intro l
    induction l with
    | nil => rfl
    | cons e l ih => simp [loopResult, ih]
  induction es with
  | nil => rfl
  | cons e es ih =>
    cases hem : e.isEmpty <;> simp [loopResult, anyLabel, hem, h]
    simpa [anyLabel] using ih

theorem ParsesG_bind_ret_last {α β : Type} {post : Outcome β → Prop} {fuel : Nat}
    {k : Option tag_t} {m : M α} {v : α} {f : α → M β} {g : StM Sem β}
    {X Z : List Node}
    (h : Parses fuel k m (pure v) X Z) (hf : Sim (f v) g)
    (hpost : ∀ o : Outcome β, post o → o.caught) :
    ParsesG post fuel k (m >>= f) g X Z := by
  have := ParsesG_bind_ret (Y := []) (by simpa using h) (ParsesG_of_sim Z hf) hpost
  simpa using this

theorem Parses_at {α : Type} {fuel : Nat} {m : M α} {m' : StM Sem α} {X Z : List Node}
    (P : Parses fuel none m m' X Z) {r : Outcome α × XMLReader} {s s2 : XMLReader}
    (heq : r = m s2) (ha : s2.abs = s.abs) (hG : Good fuel s2) (hP : Pending none s2 (X ++ Z)) :
    r.1 = (m' s.abs).1 ∧ r.2.abs = (m' s.abs).2 ∧
      (Outcome.returns r.1 → Good fuel r.2 ∧ Pending none r.2 Z) := by
  subst heq
  have := P s2 hG hP
  rwa [ha] at this

theorem location_children (env : Env) (fuel : Nat) (l : LocationD) (hl : l.ok)
    (tail : List Node)
    (hF : Follows [TAG_LOCATION, TAG_INIT, TAG_TRANSITION, TAG_TEMPLATE, TAG_INSTANTIATION,
      TAG_SYSTEM] tail) :
    Parses fuel none
      (StM.tryCatch (do
          let l_name ← XMLReader.name env fuel
          let l_invariant ← StM.whileLoop fuel (XMLReader.label env fuel) (fun _ => true) false
          let l_urgent ← XMLReader.urgent fuel
          let l_committed ← XMLReader.committed fuel
          let l_name ← XMLReader.locationName l_name (l.el.attrs.lookup "id")
          XMLReader.setLocation (l.el.attrs.lookup "id") l_name
          XMLReader.notify env (Call.procState l_name l_invariant)
          if l_committed then XMLReader.notify env (Call.procStateCommit l_name) else pure ()
          if l_urgent then XMLReader.notify env (Call.procStateUrgent l_name) else pure ())
        (fun what => XMLReader.handleError what) >>= fun _ => pure true)
      (semLocation env l)
      (renderOpt TAG_NAME l.name ++ (renderEls TAG_LABEL l.labels
        ++ (renderOpt TAG_URGENT l.urgent ++ renderOpt TAG_COMMITTED l.committed)))
      tail := by
  obtain ⟨_, h_name, h_labels, h_urgent, h_committed⟩ := hl
  have hF3 : Follows [TAG_COMMITTED, TAG_LOCATION, TAG_INIT, TAG_TRANSITION, TAG_TEMPLATE,
      TAG_INSTANTIATION, TAG_SYSTEM] (renderOpt TAG_COMMITTED l.committed ++ tail) :=
    Follows_opt TAG_COMMITTED l.committed hF (by simp) (by simp)
  have hF2 : Follows [TAG_URGENT, TAG_COMMITTED, TAG_LOCATION, TAG_INIT, TAG_TRANSITION,
      TAG_TEMPLATE, TAG_INSTANTIATION, TAG_SYSTEM]
      ((renderOpt TAG_URGENT l.urgent ++ renderOpt TAG_COMMITTED l.committed) ++ tail) := by
    simpa using Follows_opt TAG_URGENT l.urgent hF3 (by simp) (by simp)
  have hF1 : Follows [TAG_LABEL, TAG_URGENT, TAG_COMMITTED, TAG_LOCATION, TAG_INIT,
      TAG_TRANSITION, TAG_TEMPLATE, TAG_INSTANTIATION, TAG_SYSTEM]
      ((renderEls TAG_LABEL l.labels
        ++ (renderOpt TAG_URGENT l.urgent ++ renderOpt TAG_COMMITTED l.committed)) ++ tail) := by
    simpa using Follows_els TAG_LABEL l.labels hF2 (by simp) (by simp)
  have hloop := labels_parses env fuel (fun _ => true) false l.labels h_labels _ _ hF2
    (by decide)
  rw [loopResult_anyLabel] at hloop
  unfold semLocation
  refine Parses_bind_sim ?_ (fun _ => Sim_pure true)
  refine Parses_tryCatch ?_ (fun msg => Sim_handleError msg)
  refine ParsesT_bind (name_parses env fuel none (Or.inl rfl) l.name h_name _ _ hF1
    (by decide)) (NoThrow_semName env l.name) (fun l_name => ?_)
  refine ParsesG_bind_val hloop (NoThrow_forEach _ (NoThrow_semLabel env) _) ?_ caught_of_caught
  refine ParsesG_bind_ret (urgent_parses fuel l.urgent h_urgent _ _ hF3 (by decide)) ?_
    caught_of_caught
  refine ParsesG_bind_ret_last (committed_parses fuel l.committed h_committed _ _ hF
    (by decide)) ?_ caught_of_caught
  exact Sim_bind (Sim_locationName l_name (l.el.attrs.lookup "id")) (fun l_name =>
    Sim_bind (Sim_setLocation (l.el.attrs.lookup "id") l_name) (fun _ =>
      Sim_bind (Sim_notify env (Call.procState l_name (anyLabel l.labels))) (fun _ =>
        Sim_ite
          (Sim_bind (Sim_notify env (Call.procStateCommit l_name))
            (fun _ => Sim_ite (Sim_notify env (Call.procStateUrgent l_name)) (Sim_pure ())))
          (Sim_bind (Sim_pure ())
            (fun _ => Sim_ite (Sim_notify env (Call.procStateUrgent l_name)) (Sim_pure ()))))))

theorem location_parses (env : Env) (fuel : Nat) (l : LocationD) (hl : l.ok)
    (tail : List Node)
    (hF : Follows [TAG_LOCATION, TAG_INIT, TAG_TRANSITION, TAG_TEMPLATE, TAG_INSTANTIATION,
      TAG_SYSTEM] tail) :
    Parses fuel none (XMLReader.location env fuel) (semLocation env l) l.render tail := by
  intro s hG hP
  have P := location_children env fuel l hl tail hF
  obtain ⟨h_el, h_name, h_labels, h_urgent, h_committed⟩ := hl
  have hF0 : Follows [TAG_NAME, TAG_LABEL, TAG_URGENT, TAG_COMMITTED, TAG_LOCATION, TAG_INIT,
      TAG_TRANSITION, TAG_TEMPLATE, TAG_INSTANTIATION, TAG_SYSTEM]
      ((renderOpt TAG_NAME l.name ++ (renderEls TAG_LABEL l.labels
        ++ (renderOpt TAG_URGENT l.urgent ++ renderOpt TAG_COMMITTED l.committed))) ++ tail) := by
    have h3 := Follows_opt TAG_COMMITTED l.committed hF
      (R := [TAG_NAME, TAG_LABEL, TAG_URGENT, TAG_COMMITTED, TAG_LOCATION, TAG_INIT,
        TAG_TRANSITION, TAG_TEMPLATE, TAG_INSTANTIATION, TAG_SYSTEM]) (by simp) (by simp)
    have h2 := Follows_opt TAG_URGENT l.urgent h3 (fun _ h => h) (by simp)
    have h1 := Follows_els TAG_LABEL l.labels h2 (fun _ h => h) (by simp)
    simpa using Follows_opt TAG_NAME l.name h1 (fun _ h => h) (by simp)
  obtain ⟨s1, s2, hb, hc, hr, ha, hG1, hread, ha2, hG2, hP2, htext⟩ :=
    enter fuel TAG_LOCATION false none (Or.inl rfl) l.el _ h_el (Or.inl ⟨_, hF0⟩) (by simp) s hG
      (by simpa [LocationD.render] using hP)
  have hattr : XMLReader.getAttribute s1 "id" = l.el.attrs.lookup "id" := by
    simp [XMLReader.getAttribute, hc, El.node]
  refine Parses_at P ?_ ha2 hG2 hP2
  simp only [XMLReader.location, StM.bind_apply, StM.andThen, hb, if_true, StM.tryCatch, hattr,
    hread]

theorem ParsesG_bind_val_last {α β γ : Type} {post : Outcome β → Prop} {fuel : Nat}
    {k : Option tag_t} {m : M α} {n : StM Sem γ} {v : α} {f : α → M β} {g : StM Sem β}
    {X Z : List Node}
    (h : Parses fuel k m (n >>= fun _ => pure v) X Z) (hn : NoThrow n)
    (hf : Sim (f v) g) (hpost : ∀ o : Outcome β, post o → o.caught) :
    ParsesG post fuel k (m >>= f) (n >>= fun _ => g) X Z := by
  have := ParsesG_bind_val (Y := []) (by simpa using h) hn (ParsesG_of_sim Z hf) hpost
  simpa using this

theorem ParsesT_sim_bind {α β : Type} {fuel : Nat} {m : M α} {m' : StM Sem α}
    {f : α → M β} {f' : α → StM Sem β} {X Z : List Node}
    (h : Sim m m') (hn : NoThrow m') (hf : ∀ a, ParsesT fuel none (f a) (f' a) X Z) :
    ParsesT fuel none (m >>= f) (m' >>= f') X Z :=
  ParsesT_bind (X := []) (ParsesG_of_sim (X ++ Z) h) hn hf

theorem nails_skippable (es : List El) (hes : ∀ e ∈ es, e.ok ∧ e.isEmpty = true) :
    ∀ n ∈ renderEls TAG_NAIL es, Skippable (some TAG_NAIL) n := by
  induction es with
  | nil => simp [renderEls]
  | cons e es ih =>
    intro n hn
    simp only [renderEls, El.render, List.cons_append, List.mem_cons, List.mem_append] at hn
    rcases hn with rfl | hn | hn
    · exact Or.inr ⟨(hes e (by simp)).2, TAG_NAIL, rfl, in_word_set_node _ e⟩
    · exact Or.inl ((hes e (by simp)).1 n hn)
    · exact ih (fun x hx => hes x (by simp [hx])) n hn

theorem nails_parses (fuel : Nat) (es : List El) (hes : ∀ e ∈ es, e.ok ∧ e.isEmpty = true)
    (tail : List Node) (S : List tag_t) (hF : Follows S tail) (hS : TAG_NAIL ∉ S) :
    Parses fuel none (StM.whileLoop fuel (XMLReader.begin fuel TAG_NAIL true) id ())
      (pure ()) (renderEls TAG_NAIL es) tail := by
  intro s hG hP
  have hP1 : Pending (some TAG_NAIL) s tail :=
    Pending_absorb (Pending_weaken hP) (nails_skippable es hes)
  obtain ⟨s1, hb, ha, hG1, hP2⟩ := absent_pt fuel TAG_NAIL true (some TAG_NAIL)
    (Or.inr ⟨rfl, rfl⟩) tail S hF hS s hG hP1
  obtain ⟨f, rfl⟩ : ∃ f, fuel = f + 1 := ⟨fuel - 1, by have := hG.2; omega⟩
  simp [StM.whileLoop, StM.andThen, hb, ha, hG1, hP2]

theorem Parses_at_eq {α : Type} {fuel : Nat} {m : M α} {m' g : StM Sem α} {X Z : List Node}
    (P : Parses fuel none m m' X Z) {r : Outcome α × XMLReader} {s s2 : XMLReader}
    (heq : r = m s2) (hsem : g = m') (ha : s2.abs = s.abs) (hG : Good fuel s2)
    (hP : Pending none s2 (X ++ Z)) :
    r.1 = (g s.abs).1 ∧ r.2.abs = (g s.abs).2 ∧
      (Outcome.returns r.1 → Good fuel r.2 ∧ Pending none r.2 Z) := by
  subst hsem
  exact Parses_at P heq ha hG hP

theorem transition_children (env : Env) (fuel : Nat) (t : TransitionD) (ht : t.ok)
    (tail : List Node)
    (hF : Follows [TAG_TRANSITION, TAG_TEMPLATE, TAG_INSTANTIATION, TAG_SYSTEM] tail) :
    ParsesT fuel none
      (do
        let src ← XMLReader.source fuel
        let dst ← XMLReader.target fuel
        StM.whileLoop fuel (XMLReader.label env fuel) id ()
        StM.whileLoop fuel (XMLReader.begin fuel TAG_NAIL true) id ()
        XMLReader.notify env (Call.procEdge src dst))
      (do
        let src ← semEndpoint t.source
        let dst ← semEndpoint t.target
        Sem.forEach (semLabel env) t.labels
        Sem.notify env (Call.procEdge src dst))
      (renderOpt TAG_SOURCE t.source ++ (renderOpt TAG_TARGET t.target
        ++ (renderEls TAG_LABEL t.labels ++ renderEls TAG_NAIL t.nails)))
      tail := by
  obtain ⟨_, h_source, h_target, h_labels, h_nails, _⟩ := ht
  have hF3 : Follows [TAG_NAIL, TAG_TRANSITION, TAG_TEMPLATE, TAG_INSTANTIATION, TAG_SYSTEM]
      (renderEls TAG_NAIL t.nails ++ tail) :=
    Follows_els TAG_NAIL t.nails hF (by simp) (by simp)
  have hF2 : Follows [TAG_LABEL, TAG_NAIL, TAG_TRANSITION, TAG_TEMPLATE, TAG_INSTANTIATION,
      TAG_SYSTEM] ((renderEls TAG_LABEL t.labels ++ renderEls TAG_NAIL t.nails) ++ tail) := by
    simpa using Follows_els TAG_LABEL t.labels hF3 (by simp) (by simp)
  have hF1 : Follows [TAG_TARGET, TAG_LABEL, TAG_NAIL, TAG_TRANSITION, TAG_TEMPLATE,
      TAG_INSTANTIATION, TAG_SYSTEM]
      ((renderOpt TAG_TARGET t.target
        ++ (renderEls TAG_LABEL t.labels ++ renderEls TAG_NAIL t.nails)) ++ tail) := by
    simpa using Follows_opt TAG_TARGET t.target hF2 (by simp) (by simp)
  refine ParsesT_bind (source_parses fuel t.source h_source _ _ hF1 (by decide))
    (NoThrow_semEndpoint _) (fun src => ?_)
  refine ParsesT_bind (target_parses fuel t.target h_target _ _ hF2 (by decide))
    (NoThrow_semEndpoint _) (fun dst => ?_)
  refine ParsesG_bind_val (labels_parses env fuel id () t.labels h_labels _ _ hF3 (by decide))
    (NoThrow_forEach _ (NoThrow_semLabel env) _) ?_ caught_of_caught
  exact ParsesG_bind_ret_last (nails_parses fuel t.nails h_nails _ _ hF (by decide))
    (Sim_notify env _) caught_of_caught

theorem transition_parses (env : Env) (fuel : Nat) (k : Option tag_t)
    (hk : k = none ∨ k = some TAG_TRANSITION) (t : TransitionD) (ht : t.ok)
    (hem : t.el.isEmpty = false) (tail : List Node)
    (hF : Follows [TAG_TRANSITION, TAG_TEMPLATE, TAG_INSTANTIATION, TAG_SYSTEM] tail) :
    Parses fuel k (XMLReader.transition env fuel) (semTransition env t) t.render tail := by
  intro s hG hP
  have P := Parses_bind_sim (Parses_tryCatch (transition_children env fuel t ht tail hF)
    (fun msg => Sim_handleError msg)) (fun _ => Sim_pure true)
  have hF0 : Follows [TAG_SOURCE, TAG_TARGET, TAG_LABEL, TAG_NAIL, TAG_TRANSITION, TAG_TEMPLATE,
      TAG_INSTANTIATION, TAG_SYSTEM]
      ((renderOpt TAG_SOURCE t.source ++ (renderOpt TAG_TARGET t.target
        ++ (renderEls TAG_LABEL t.labels ++ renderEls TAG_NAIL t.nails))) ++ tail) := by
    have h3 := Follows_els TAG_NAIL t.nails hF
      (R := [TAG_SOURCE, TAG_TARGET, TAG_LABEL, TAG_NAIL, TAG_TRANSITION, TAG_TEMPLATE,
        TAG_INSTANTIATION, TAG_SYSTEM]) (by simp) (by simp)
    have h2 := Follows_els TAG_LABEL t.labels h3 (fun _ h => h) (by simp)
    have h1 := Follows_opt TAG_TARGET t.target h2 (fun _ h => h) (by simp)
    simpa using Follows_opt TAG_SOURCE t.source h1 (fun _ h => h) (by simp)
  obtain ⟨s1, s2, hb, hc, hr, ha, hG1, hread, ha2, hG2, hP2, htext⟩ :=
    enter fuel TAG_TRANSITION true k
      (by rcases hk with h | h; exact Or.inl h; exact Or.inr ⟨h, rfl⟩) t.el _ ht.1
      (Or.inl ⟨_, hF0⟩) (by simp [hem]) s hG (by simpa [TransitionD.render] using hP)
  refine Parses_at_eq P ?_ ?_ ha2 hG2 hP2
  · simp only [XMLReader.transition, StM.bind_apply, StM.andThen, hb, if_true, StM.tryCatch,
      hread]
  · simp only [semTransition, hem, Bool.false_eq_true, if_false]

theorem renderLocations_eq (ls : List LocationD) :
    renderLocations ls = renderAll LocationD.render ls := by
  induction ls with
  | nil => rfl
  | cons l ls ih => simp [renderLocations, renderAll, ih]

theorem renderTransitions_eq (ts : List TransitionD) :
    renderTransitions ts = renderAll TransitionD.render ts := by
  induction ts with
  | nil => rfl
  | cons t ts ih => simp [renderTransitions, renderAll, ih]

theorem renderTemplates_eq (ts : List TemplateD) :
    renderTemplates ts = renderAll TemplateD.render ts := by
  induction ts with
  | nil => rfl
  | cons t ts ih => simp [renderTemplates, renderAll, ih]

theorem semLocation_true (env : Env) (l : LocationD) (σ : Sem) :
    (semLocation env l σ).1 ≠ .ok false := by
  simp only [semLocation, StM.bind_apply, StM.andThen]
  split <;> simp

theorem locations_parses (env : Env) (fuel : Nat) (ls : List LocationD)
    (hls : ∀ l ∈ ls, l.ok) (tail : List Node)
    (hF : Follows [TAG_INIT, TAG_TRANSITION, TAG_TEMPLATE, TAG_INSTANTIATION, TAG_SYSTEM] tail) :
    Parses fuel none (StM.whileLoop fuel (XMLReader.location env fuel) id ())
      (Sem.forEach (semLocation env) ls >>= fun _ => pure ())
      (renderLocations ls) tail := by
  rw [renderLocations_eq]
  refine whileLoop_parses fuel none (XMLReader.location env fuel) (semLocation env)
    LocationD.render (fun _ => false) id ()
    (fun l => Follows [TAG_LOCATION, TAG_INIT, TAG_TRANSITION, TAG_TEMPLATE, TAG_INSTANTIATION,
      TAG_SYSTEM] l) tail
    (Follows_mono hF (fun t ht => by simp at ht ⊢; tauto)) (Follows_ne_nil hF) ?_ ls ?_ ?_ ?_ ?_
  · intro s hG hP
    obtain ⟨s1, hb, ha, hG1, hP2⟩ := absent_pt fuel TAG_LOCATION false none
      (Or.inl rfl) tail _ hF (by decide) s hG (by simpa using hP)
    simp [XMLReader.location, StM.bind_apply, StM.andThen, hb, ha, hG1, hP2]
  · intro a _
    simp [LocationD.render, El.render]
  · intro a _ l
    simp only [LocationD.render, List.append_assoc]
    exact Follows_render TAG_LOCATION a.el _ _ (by simp)
  · intro a ha _ tail1 hT
    exact ⟨location_parses env fuel a (hls a ha) tail1 hT, semLocation_true env a⟩
  · intro a _ h
    simp at h

theorem semTransition_true (env : Env) (t : TransitionD) (h : t.el.isEmpty = false) (σ : Sem) :
    (semTransition env t σ).1 ≠ .ok false := by
  simp only [semTransition, h, Bool.false_eq_true, if_false, StM.bind_apply, StM.andThen]
  split <;> simp

theorem transitions_parses (env : Env) (fuel : Nat) (ts : List TransitionD)
    (hts : ∀ t ∈ ts, t.ok) (tail : List Node)
    (hF : Follows [TAG_TEMPLATE, TAG_INSTANTIATION, TAG_SYSTEM] tail) :
    Parses fuel none (StM.whileLoop fuel (XMLReader.transition env fuel) id ())
      (Sem.forEach (semTransition env) ts >>= fun _ => pure ())
      (renderTransitions ts) tail := by
  rw [renderTransitions_eq]
  apply ParsesG_weaken (k := some TAG_TRANSITION)
  refine whileLoop_parses fuel (some TAG_TRANSITION) (XMLReader.transition env fuel)
    (semTransition env) TransitionD.render (fun t => t.el.isEmpty) id ()
    (fun l => Follows [TAG_TRANSITION, TAG_TEMPLATE, TAG_INSTANTIATION, TAG_SYSTEM] l) tail
    (Follows_mono hF (fun t ht => by simp at ht ⊢; tauto)) (Follows_ne_nil hF) ?_ ts ?_ ?_ ?_ ?_
  · intro s hG hP
    obtain ⟨s1, hb, ha, hG1, hP2⟩ := absent_pt fuel TAG_TRANSITION true (some TAG_TRANSITION)
      (Or.inr ⟨rfl, rfl⟩) tail _ hF (by decide) s hG (by simpa using hP)
    simp [XMLReader.transition, StM.bind_apply, StM.andThen, hb, ha, hG1, hP2]
  · intro a _
    simp [TransitionD.render, El.render]
  · intro a _ l
    simp only [TransitionD.render, List.append_assoc]
    exact Follows_render TAG_TRANSITION a.el _ _ (by simp)
  · intro a ha hem tail1 hT
    exact ⟨transition_parses env fuel (some TAG_TRANSITION) (Or.inr rfl) a (hts a ha) hem tail1 hT,
      semTransition_true env a hem⟩
  · intro a ha hem
    obtain ⟨h_el, _, _, _, _, hno⟩ := hts a ha
    obtain ⟨h1, h2, h3, h4⟩ := hno hem
    refine ⟨?_, fun σ => ⟨false, by simp [semTransition, hem]⟩⟩
    intro n hn
    simp only [TransitionD.render, h1, h2, h3, h4, renderOpt, renderEls, List.append_nil,
      El.render, List.mem_cons] at hn
    rcases hn with rfl | hn
    · exact Or.inr ⟨hem, TAG_TRANSITION, rfl, in_word_set_node _ a.el⟩
    · exact Or.inl (h_el n hn)

theorem templ_children (env : Env) (hb : AcceptsBegin env) (fuel : Nat) (t : TemplateD)
    (ht : t.ok) (tail : List Node)
    (hF : Follows [TAG_TEMPLATE, TAG_INSTANTIATION, TAG_SYSTEM] tail) :
    ParsesT fuel none
      (do
        let t_name ← XMLReader.name env fuel
        let p_count ← XMLReader.parameter env fuel
        XMLReader.notify env (Call.procBegin t_name p_count)
        let _ ← XMLReader.declaration env fuel
        StM.whileLoop fuel (XMLReader.location env fuel) id ()
        let _ ← XMLReader.init env fuel
        StM.whileLoop fuel (XMLReader.transition env fuel) id ()
        XMLReader.notify env Call.procEnd)
      (do
        let t_name ← semName env t.name
        let p_count ← semParameter env t.parameter
        Sem.notify env (Call.procBegin t_name p_count)
        let _ ← semDeclaration env t.declaration
        Sem.forEach (semLocation env) t.locations
        let _ ← semInit env t.init
        Sem.forEach (semTransition env) t.transitions
        Sem.notify env Call.procEnd)
      (renderOpt TAG_NAME t.name ++ (renderOpt TAG_PARAMETER t.parameter
        ++ (renderOpt TAG_DECLARATION t.declaration ++ (renderLocations t.locations
          ++ (renderOpt TAG_INIT t.init ++ renderTransitions t.transitions)))))
      tail := by
  obtain ⟨_, h_name, h_param, h_decl, h_locs, h_init, h_trans, _⟩ := ht
  have hF5 : Follows [TAG_TRANSITION, TAG_TEMPLATE, TAG_INSTANTIATION, TAG_SYSTEM]
      (renderTransitions t.transitions ++ tail) := by
    cases htr : t.transitions with
    | nil => simpa [renderTransitions] using Follows_mono hF (fun x hx => by simp at hx ⊢; tauto)
    | cons a l =>
      simp only [renderTransitions, TransitionD.render, List.append_assoc]
      exact Follows_render TAG_TRANSITION a.el _ _ (by simp)
  have hF4 : Follows [TAG_INIT, TAG_TRANSITION, TAG_TEMPLATE, TAG_INSTANTIATION, TAG_SYSTEM]
      ((renderOpt TAG_INIT t.init ++ renderTransitions t.transitions) ++ tail) := by
    simpa using Follows_opt TAG_INIT t.init hF5 (by simp) (by simp)
  have hF3 : Follows [TAG_LOCATION, TAG_INIT, TAG_TRANSITION, TAG_TEMPLATE, TAG_INSTANTIATION,
      TAG_SYSTEM]
      ((renderLocations t.locations
        ++ (renderOpt TAG_INIT t.init ++ renderTransitions t.transitions)) ++ tail) := by
    cases hl : t.locations with
    | nil => simpa [renderLocations] using Follows_mono hF4 (fun x hx => by simp at hx ⊢; tauto)
    | cons a l =>
      simp only [renderLocations, LocationD.render, List.append_assoc]
      exact Follows_render TAG_LOCATION a.el _ _ (by simp)
  have hF2 : Follows [TAG_DECLARATION, TAG_LOCATION, TAG_INIT, TAG_TRANSITION, TAG_TEMPLATE,
      TAG_INSTANTIATION, TAG_SYSTEM]
      ((renderOpt TAG_DECLARATION t.declaration ++ (renderLocations t.locations
        ++ (renderOpt TAG_INIT t.init ++ renderTransitions t.transitions))) ++ tail) := by
    simpa using Follows_opt TAG_DECLARATION t.declaration hF3 (by simp) (by simp)
  have hF1 : Follows [TAG_PARAMETER, TAG_DECLARATION, TAG_LOCATION, TAG_INIT, TAG_TRANSITION,
      TAG_TEMPLATE, TAG_INSTANTIATION, TAG_SYSTEM]
      ((renderOpt TAG_PARAMETER t.parameter ++ (renderOpt TAG_DECLARATION t.declaration
        ++ (renderLocations t.locations
          ++ (renderOpt TAG_INIT t.init ++ renderTransitions t.transitions)))) ++ tail) := by
    simpa using Follows_opt TAG_PARAMETER t.parameter hF2 (by simp) (by simp)
  refine ParsesT_bind (name_parses env fuel none (Or.inl rfl) t.name h_name _ _ hF1
    (by decide)) (NoThrow_semName env _) (fun t_name => ?_)
  refine ParsesT_bind (parameter_parses env fuel none (Or.inl rfl) t.parameter h_param _ _ hF2
    (by decide)) (NoThrow_semParameter env _) (fun p_count => ?_)
  refine ParsesT_sim_bind (Sim_notify env _) (NoThrow_notifyBegin env hb _ _) (fun _ => ?_)
  refine ParsesT_bind (declaration_parses env fuel none (Or.inl rfl) t.declaration h_decl _ _
    hF3 (by decide)) (NoThrow_semDeclaration env _) (fun _ => ?_)
  refine ParsesG_bind_val (locations_parses env fuel t.locations h_locs _ hF4)
    (NoThrow_forEach _ (NoThrow_semLocation env) _) ?_ caught_of_caught
  refine ParsesT_bind (init_parses env fuel t.init h_init _ _ hF5 (by decide))
    (NoThrow_semInit env _) (fun _ => ?_)
  exact ParsesG_bind_val_last (transitions_parses env fuel t.transitions h_trans _ hF)
    (NoThrow_forEach _ (NoThrow_semTransition env) _) (Sim_notify env _) caught_of_caught

theorem templ_parses (env : Env) (hb : AcceptsBegin env) (fuel : Nat) (k : Option tag_t)
    (hk : k = none ∨ k = some TAG_TEMPLATE) (t : TemplateD) (ht : t.ok)
    (hem : t.el.isEmpty = false) (tail : List Node)
    (hF : Follows [TAG_TEMPLATE, TAG_INSTANTIATION, TAG_SYSTEM] tail) :
    Parses fuel k (XMLReader.templ env fuel) (semTemplate env t) t.render tail := by
  intro s hG hP
  have P := Parses_bind_sim (Parses_tryCatch (templ_children env hb fuel t ht tail hF)
    (fun msg => Sim_handleError msg)) (fun _ => Sim_pure true)
  have hF0 : ∃ S, Follows S
      ((renderOpt TAG_NAME t.name ++ (renderOpt TAG_PARAMETER t.parameter
        ++ (renderOpt TAG_DECLARATION t.declaration ++ (renderLocations t.locations
          ++ (renderOpt TAG_INIT t.init ++ renderTransitions t.transitions))))) ++ tail) := by
    refine ⟨[TAG_NAME, TAG_PARAMETER, TAG_DECLARATION, TAG_LOCATION, TAG_INIT, TAG_TRANSITION,
      TAG_TEMPLATE, TAG_INSTANTIATION, TAG_SYSTEM], ?_⟩
    have h5 : Follows [TAG_NAME, TAG_PARAMETER, TAG_DECLARATION, TAG_LOCATION, TAG_INIT,
        TAG_TRANSITION, TAG_TEMPLATE, TAG_INSTANTIATION, TAG_SYSTEM]
        (renderTransitions t.transitions ++ tail) := by
      cases htr : t.transitions with
      | nil =>
        simpa [renderTransitions] using Follows_mono hF (fun x hx => by simp at hx ⊢; tauto)
      | cons a l =>
        simp only [renderTransitions, TransitionD.render, List.append_assoc]
        exact Follows_render TAG_TRANSITION a.el _ _ (by simp)
    have h4 := Follows_opt TAG_INIT t.init h5 (fun _ h => h) (by simp)
    have h3 : Follows [TAG_NAME, TAG_PARAMETER, TAG_DECLARATION, TAG_LOCATION, TAG_INIT,
        TAG_TRANSITION, TAG_TEMPLATE, TAG_INSTANTIATION, TAG_SYSTEM]
        (renderLocations t.locations
          ++ (renderOpt TAG_INIT t.init ++ (renderTransitions t.transitions ++ tail))) := by
      cases hl : t.locations with
      | nil => simpa [renderLocations] using h4
      | cons a l =>
        simp only [renderLocations, LocationD.render, List.append_assoc]
        exact Follows_render TAG_LOCATION a.el _ _ (by simp)
    have h2 := Follows_opt TAG_DECLARATION t.declaration h3 (fun _ h => h) (by simp)
    have h1 := Follows_opt TAG_PARAMETER t.parameter h2 (fun _ h => h) (by simp)
    simpa using Follows_opt TAG_NAME t.name h1 (fun _ h => h) (by simp)
  obtain ⟨s1, s2, hbg, hc, hr, ha, hG1, hread, ha2, hG2, hP2, htext⟩ :=
    enter fuel TAG_TEMPLATE true k
      (by rcases hk with h | h; exact Or.inl h; exact Or.inr ⟨h, rfl⟩) t.el _ ht.1
      (Or.inl hF0) (by simp [hem]) s hG (by simpa [TemplateD.render] using hP)
  refine Parses_at_eq P ?_ ?_ ha2 hG2 hP2
  · simp only [XMLReader.templ, StM.bind_apply, StM.andThen, hbg, if_true, StM.tryCatch, hread]
  · simp only [semTemplate, hem, Bool.false_eq_true, if_false]

theorem semTemplate_true (env : Env) (t : TemplateD) (h : t.el.isEmpty = false) (σ : Sem) :
    (semTemplate env t σ).1 ≠ .ok false := by
  simp only [semTemplate, h, Bool.false_eq_true, if_false, StM.bind_apply, StM.andThen]
  split <;> simp

theorem templates_parses (env : Env) (hb : AcceptsBegin env) (fuel : Nat)
    (ts : List TemplateD) (hts : ∀ t ∈ ts, t.ok) (tail : List Node)
    (hF : Follows [TAG_INSTANTIATION, TAG_SYSTEM] tail) :
    Parses fuel none (StM.whileLoop fuel (XMLReader.templ env fuel) id ())
      (Sem.forEach (semTemplate env) ts >>= fun _ => pure ())
      (renderTemplates ts) tail := by
  rw [renderTemplates_eq]
  apply ParsesG_weaken (k := some TAG_TEMPLATE)
  refine whileLoop_parses fuel (some TAG_TEMPLATE) (XMLReader.templ env fuel)
    (semTemplate env) TemplateD.render (fun t => t.el.isEmpty) id ()
    (fun l => Follows [TAG_TEMPLATE, TAG_INSTANTIATION, TAG_SYSTEM] l) tail
    (Follows_mono hF (fun t ht => by simp at ht ⊢; tauto)) (Follows_ne_nil hF) ?_ ts ?_ ?_ ?_ ?_
  · intro s hG hP
    obtain ⟨s1, hbg, ha, hG1, hP2⟩ := absent_pt fuel TAG_TEMPLATE true (some TAG_TEMPLATE)
      (Or.inr ⟨rfl, rfl⟩) tail _ hF (by decide) s hG (by simpa using hP)
    simp [XMLReader.templ, StM.bind_apply, StM.andThen, hbg, ha, hG1, hP2]
  · intro a _
    simp [TemplateD.render, El.render]
  · intro a _ l
    simp only [TemplateD.render, List.append_assoc]
    exact Follows_render TAG_TEMPLATE a.el _ _ (by simp)
  · intro a ha hem tail1 hT
    exact ⟨templ_parses env hb fuel (some TAG_TEMPLATE) (Or.inr rfl) a (hts a ha) hem tail1 hT,
      semTemplate_true env a hem⟩
  · intro a ha hem
    obtain ⟨h_el, _, _, _, _, _, _, hno⟩ := hts a ha
    obtain ⟨h1, h2, h3, h4, h5, h6⟩ := hno hem
    refine ⟨?_, fun σ => ⟨false, by simp [semTemplate, hem]⟩⟩
    intro n hn
    simp only [TemplateD.render, h1, h2, h3, h4, h5, h6, renderOpt, renderLocations,
      renderTransitions, List.append_nil, El.render, List.mem_cons] at hn
    rcases hn with rfl | hn
    · exact Or.inr ⟨hem, TAG_TEMPLATE, rfl, in_word_set_node _ a.el⟩
    · exact Or.inl (h_el n hn)

theorem NoThrow_semTemplate (env : Env) (t : TemplateD) : NoThrow (semTemplate env t) := by
  unfold UTAP.semTemplate
  exact NoThrow_ite (NoThrow_pure _)
    (NoThrow_bind (NoThrow_tryCatch (fun _ => NoThrow_handleError _)) (fun _ => NoThrow_pure _))

theorem nta_children (env : Env) (hb : AcceptsBegin env) (fuel : Nat) (d : NtaD) (hd : d.ok) :
    Parses fuel none
      (do
        let _ ← XMLReader.declaration env fuel
        StM.whileLoop fuel (XMLReader.templ env fuel) id ()
        let _ ← XMLReader.instantiation env fuel
        let _ ← XMLReader.system env fuel
        XMLReader.notify env Call.done)
      (semNta env d)
      (renderOpt TAG_DECLARATION d.declaration ++ (renderTemplates d.templates
        ++ (renderOpt TAG_INSTANTIATION d.instantiation ++ renderOpt TAG_SYSTEM (some d.system))))
      [] := by
  obtain ⟨_, _, _, h_decl, h_templ, h_inst, h_sys, h_gap, _⟩ := hd
  have hF3 : Follows [TAG_SYSTEM] (renderOpt TAG_SYSTEM (some d.system) ++ []) :=
    Follows_render TAG_SYSTEM d.system _ _ (by simp)
  have hF2 : Follows [TAG_INSTANTIATION, TAG_SYSTEM]
      ((renderOpt TAG_INSTANTIATION d.instantiation ++ renderOpt TAG_SYSTEM (some d.system))
        ++ []) := by
    simpa using Follows_opt TAG_INSTANTIATION d.instantiation hF3 (by simp) (by simp)
  have hF1 : Follows [TAG_TEMPLATE, TAG_INSTANTIATION, TAG_SYSTEM]
      ((renderTemplates d.templates
        ++ (renderOpt TAG_INSTANTIATION d.instantiation ++ renderOpt TAG_SYSTEM (some d.system)))
        ++ []) := by
    cases ht : d.templates with
    | nil =>
      simpa [renderTemplates] using Follows_mono hF2 (fun x hx => by simp at hx ⊢; tauto)
    | cons a l =>
      simp only [renderTemplates, TemplateD.render, List.append_assoc]
      exact Follows_render TAG_TEMPLATE a.el _ _ (by simp)
  unfold semNta
  refine Parses_bind (declaration_parses env fuel none (Or.inl rfl) d.declaration h_decl _ _
    hF1 (by decide)) (fun _ => ?_)
  refine ParsesG_bind_val (templates_parses env hb fuel d.templates h_templ _ hF2)
    (NoThrow_forEach _ (NoThrow_semTemplate env) _) ?_ caught_of_returns
  refine Parses_bind (textpart_parses env fuel TAG_INSTANTIATION S_INST _ rfl d.instantiation
    h_inst _ (Or.inl ⟨_, hF3, by decide⟩)) (fun _ => ?_)
  exact Parses_bind_sim (textpart_parses env fuel TAG_SYSTEM S_SYSTEM _ rfl (some d.system)
    h_sys _ (Or.inr ⟨rfl, d.system, rfl, h_gap⟩)) (fun _ => Sim_notify env _)

theorem Good_new (fuel : Nat) (l : List Node) (hWN : WN [] l = true) (hf : l.length < fuel) :
    Good fuel (XMLReader.new l) :=
  ⟨⟨[], hWN, by simp [XMLReader.new, Path.new, pendingPop, PathOK]⟩, hf⟩

theorem nta_parses (env : Env) (hb : AcceptsBegin env) (fuel : Nat) (d : NtaD) (hd : d.ok)
    (hf : d.render.length < fuel) :
    ((do XMLReader.read; XMLReader.nta env fuel : M Unit) (XMLReader.new d.render)).1
        = (semNta env d Sem.new).1
      ∧ ((do XMLReader.read; XMLReader.nta env fuel : M Unit) (XMLReader.new d.render)).2.abs
        = (semNta env d Sem.new).2 := by
  have P := nta_children env hb fuel d hd
  obtain ⟨h_pre, h_el, h_ne, _, _, _, _, _, hWN⟩ := hd
  have hG0 := Good_new fuel d.render hWN hf
  -- the constructor reads the first node
  obtain ⟨n, r, hnr⟩ : ∃ n r, d.render = n :: r :=
    List.exists_cons_of_ne_nil (by simp [NtaD.render, El.render])
  have hn : n.type = ELEMENT → ∃ t, in_word_set n.localName = some t := by
    intro hty
    cases hp : d.pre with
    | nil =>
      simp [NtaD.render, hp, El.render] at hnr
      rw [← hnr.1]
      exact ⟨_, in_word_set_node TAG_NTA d.el⟩
    | cons a l =>
      simp [NtaD.render, hp] at hnr
      have := h_pre a (by simp [hp])
      rw [hnr.1] at this
      exact absurd hty this
  obtain ⟨p, hread0, hInv0⟩ := XMLReader.read_cons (XMLReader.new d.render) n r hG0.1
    (by simpa [XMLReader.new] using hnr) hn
  have hG0' : Good fuel { XMLReader.new d.render with cur := some n, rest := r, path := p } :=
    ⟨hInv0, by have := hG0.2; simp [XMLReader.new, hnr] at this ⊢; omega⟩
  have hFc : ∃ S, Follows S
      ((renderOpt TAG_DECLARATION d.declaration ++ (renderTemplates d.templates
        ++ (renderOpt TAG_INSTANTIATION d.instantiation
          ++ renderOpt TAG_SYSTEM (some d.system)))) ++ []) := by
    refine ⟨[TAG_DECLARATION, TAG_TEMPLATE, TAG_INSTANTIATION, TAG_SYSTEM], ?_⟩
    have h3 : Follows [TAG_DECLARATION, TAG_TEMPLATE, TAG_INSTANTIATION, TAG_SYSTEM]
        (renderOpt TAG_SYSTEM (some d.system) ++ []) :=
      Follows_render TAG_SYSTEM d.system _ _ (by simp)
    have h2 := Follows_opt TAG_INSTANTIATION d.instantiation h3 (fun _ h => h) (by simp)
    have h1 : Follows [TAG_DECLARATION, TAG_TEMPLATE, TAG_INSTANTIATION, TAG_SYSTEM]
        (renderTemplates d.templates ++ (renderOpt TAG_INSTANTIATION d.instantiation
          ++ (renderOpt TAG_SYSTEM (some d.system) ++ []))) := by
      cases ht : d.templates with
      | nil => simpa [renderTemplates] using h2
      | cons a l =>
        simp only [renderTemplates, TemplateD.render, List.append_assoc]
        exact Follows_render TAG_TEMPLATE a.el _ _ (by simp)
    simpa using Follows_opt TAG_DECLARATION d.declaration h1 (fun _ h => h) (by simp)
  have hP0 : Pending none { XMLReader.new d.render with cur := some n, rest := r, path := p }
      (d.el.render TAG_NTA ++ ((renderOpt TAG_DECLARATION d.declaration
        ++ (renderTemplates d.templates ++ (renderOpt TAG_INSTANTIATION d.instantiation
          ++ renderOpt TAG_SYSTEM (some d.system)))) ++ [])) := by
    refine ⟨d.pre, ?_, NoElem_skippable h_pre⟩
    simp [XMLReader.stream, ← hnr, NtaD.render, renderOpt]
  obtain ⟨s1, s2, hbg, hc, hr, ha, hG1, hread, ha2, hG2, hP2, htext⟩ :=
    enter fuel TAG_NTA true none (Or.inl rfl) d.el _ h_el (Or.inl hFc) (by simp [h_ne]) _
      hG0' hP0
  have h3 := P s2 hG2 hP2
  have habs : s2.abs = Sem.new := by
    rw [ha2]
    rfl
  rw [habs] at h3
  have h1 : (do XMLReader.read; XMLReader.nta env fuel : M Unit) (XMLReader.new d.render)
      = (do
        let _ ← XMLReader.declaration env fuel
        StM.whileLoop fuel (XMLReader.templ env fuel) id ()
        let _ ← XMLReader.instantiation env fuel
        let _ ← XMLReader.system env fuel
        XMLReader.notify env Call.done : M Unit) s2 := by
    simp only [StM.bind_apply, StM.andThen, hread0, XMLReader.nta, hbg, hread,
      Bool.true_eq_false, if_false]
  rw [h1]
  exact ⟨h3.1, h3.2.1⟩

/-- The entry points compute the meaning of a document: on the nodes of a
document of the expected shape, with a builder that accepts every
`procBegin` and with enough fuel, `parseXML` returns what `semParse` returns
and makes the same calls, reports the same messages and registers the same
locations. -/
theorem parseXML_render (env : Env) (hb : AcceptsBegin env) (fuel : Nat) (d : NtaD) (hd : d.ok)
    (hf : d.render.length < fuel) :
    absRun (parseXML env fuel (some d.render)) = semParse env d := by
  obtain ⟨h1, h2⟩ := nta_parses env hb fuel d hd hf
  simp only [absRun, parseXML, semParse]
  rcases hm : (do XMLReader.read; XMLReader.nta env fuel : M Unit) (XMLReader.new d.render)
    with ⟨o, s⟩
  rcases hm' : semNta env d Sem.new with ⟨o', σ⟩
  rw [hm, hm'] at h1 h2
  simp only at h1 h2
  subst h1 h2
  cases o <;> rfl

theorem parseXMLBuffer_render (env : Env) (hb : AcceptsBegin env) (fuel : Nat) (d : NtaD)
    (hd : d.ok) (hf : d.render.length < fuel) :
    absRun (parseXMLBuffer env fuel (some d.render)) = semParse env d :=
  parseXML_render env hb fuel d hd hf

theorem parseXMLFile_render (env : Env) (hb : AcceptsBegin env) (fuel : Nat) (d : NtaD)
    (hd : d.ok) (hf : d.render.length < fuel) :
    absRun (parseXMLFile env fuel (some d.render)) = semParse env d :=
  parseXML_render env hb fuel d hd hf

/-! ### Calls that an effect does not make -/

theorem Quiet_pure {α β : Type} (π : Call → Option β) (a : α) :
    Quiet π (pure a : StM Sem α) := by
  intro σ
  simp

theorem Quiet_bind {α γ β : Type} {π : Call → Option β} {m : StM Sem α} {f : α → StM Sem γ}
    (hm : Quiet π m) (hf : ∀ a, Quiet π (f a)) : Quiet π (m >>= f) := by
  intro σ
  have h1 := hm σ
  simp only [StM.bind_apply, StM.andThen]
  rcases hms : m σ with ⟨o, σ1⟩
  rw [hms] at h1
  cases o with
  | ok a => exact (hf a σ1).trans h1
  | fatal c => exact h1
  | typeException e => exact h1
  | crash => exact h1
  | timeout => exact h1

theorem Quiet_tryCatch {β : Type} {π : Call → Option β} {m : StM Sem Unit}
    {h : String → StM Sem Unit} (hm : Quiet π m) (hh : ∀ msg, Quiet π (h msg)) :
    Quiet π (StM.tryCatch m h) := by
  intro σ
  have h1 := hm σ
  simp only [StM.tryCatch]
  rcases hms : m σ with ⟨o, σ1⟩
  rw [hms] at h1
  cases o with
  | typeException e => exact (hh e σ1).trans h1
  | ok a => exact h1
  | fatal c => exact h1
  | crash => exact h1
  | timeout => exact h1

theorem Quiet_ite {α β : Type} {π : Call → Option β} {c : Prop} [Decidable c]
    {m1 m2 : StM Sem α} (h1 : Quiet π m1) (h2 : Quiet π m2) :
    Quiet π (if c then m1 else m2) := by
  by_cases hc : c <;> simp [hc, h1, h2]

theorem Quiet_forEach {α γ β : Type} {π : Call → Option β} (f : α → StM Sem γ)
    (hf : ∀ a, Quiet π (f a)) (l : List α) : Quiet π (Sem.forEach f l) := by
  induction l with
  | nil => exact Quiet_pure π _
  | cons a l ih => exact Quiet_bind (hf a) (fun _ => ih)

theorem Quiet_handleError {β : Type} (π : Call → Option β) (msg : String) :
    Quiet π (Sem.handleError msg) := by
  intro σ
  simp [Sem.handleError]

theorem Quiet_throwInt {α β : Type} (π : Call → Option β) (c : Int) :
    Quiet π (StM.throwInt c : StM Sem α) := by
  intro σ
  simp [StM.throwInt]

theorem Quiet_crashed {α β : Type} (π : Call → Option β) :
    Quiet π (StM.crashed : StM Sem α) := by
  intro σ
  simp [StM.crashed]

theorem Quiet_parse {β : Type} {π : Call → Option β} (env : Env)
    (hπ : ∀ t n p, π (Call.parseXTA t n p) = none) (text : String) (part : xta_part_t) :
    Quiet π (Sem.parse env text part) := by
  intro σ
  simp [Sem.parse, List.filterMap_append, hπ]

theorem Quiet_notify {β : Type} {π : Call → Option β} (env : Env) (c : Call)
    (hc : π c = none) : Quiet π (Sem.notify env c) := by
  intro σ
  simp only [Sem.notify]
  split <;> simp [List.filterMap_append, hc]

theorem Quiet_getLocation {β : Type} (π : Call → Option β) (id : Option String) :
    Quiet π (Sem.getLocation id) := by
  intro σ
  simp only [Sem.getLocation]
  cases id with
  | none => simp
  | some i =>
    simp only
    split
    · simp
    · split <;> simp

theorem Quiet_setLocation {β : Type} (π : Call → Option β) (id : Option String)
    (name : String) : Quiet π (Sem.setLocation id name) := by
  intro σ
  simp only [Sem.setLocation]
  split
  · simp
  · split
    · simp
    · split <;> simp

theorem Quiet_labelText {β : Type} {π : Call → Option β} (env : Env)
    (hπ : ∀ t n p, π (Call.parseXTA t n p) = none) (kind : Option String) (text : String) :
    Quiet π (Sem.labelText env kind text) := by
  unfold Sem.labelText
  cases kind with
  | none => exact Quiet_crashed π
  | some k =>
    simp only
    repeat' first
      | exact Quiet_pure π _
      | exact Quiet_bind (Quiet_parse env hπ _ _) (fun _ => Quiet_pure π _)
      | apply Quiet_ite

theorem Quiet_locationName {β : Type} (π : Call → Option β) (l_name l_id : Option String) :
    Quiet π (Sem.locationName l_name l_id) := by
  unfold Sem.locationName
  split
  · cases l_id with
    | none => exact Quiet_crashed π
    | some i => exact Quiet_pure π _
  · exact Quiet_pure π _

theorem Quiet_semName {β : Type} (π : Call → Option β) (env : Env) (o : Option El) :
    Quiet π (semName env o) := by
  unfold UTAP.semName
  split
  · split
    · exact Quiet_ite (Quiet_pure π _)
        (Quiet_bind (Quiet_handleError π _) (fun _ => Quiet_pure π _))
    · exact Quiet_bind (Quiet_handleError π _) (fun _ => Quiet_pure π _)
  · exact Quiet_pure π _

theorem Quiet_semParameter {β : Type} {π : Call → Option β} (env : Env)
    (hπ : ∀ t n p, π (Call.parseXTA t n p) = none) (o : Option El) :
    Quiet π (semParameter env o) := by
  unfold UTAP.semParameter
  split
  · exact Quiet_parse env hπ _ _
  · exact Quiet_pure π _

theorem Quiet_semDeclaration {β : Type} {π : Call → Option β} (env : Env)
    (hπ : ∀ t n p, π (Call.parseXTA t n p) = none) (o : Option El) :
    Quiet π (semDeclaration env o) := by
  unfold UTAP.semDeclaration
  split
  · split
    · exact Quiet_bind (Quiet_parse env hπ _ _) (fun _ => Quiet_pure π _)
    · exact Quiet_pure π _
  · exact Quiet_pure π _

theorem Quiet_semLabel {β : Type} {π : Call → Option β} (env : Env)
    (hπ : ∀ t n p, π (Call.parseXTA t n p) = none) (e : El) :
    Quiet π (semLabel env e) := by
  unfold UTAP.semLabel
  split
  · split
    · exact Quiet_bind (Quiet_labelText env hπ _ _) (fun _ => Quiet_pure π _)
    · exact Quiet_pure π _
  · exact Quiet_pure π _

theorem Quiet_semSystem {β : Type} {π : Call → Option β} (env : Env)
    (hπ : ∀ t n p, π (Call.parseXTA t n p) = none) (part : xta_part_t) (o : Option El) :
    Quiet π (semSystem env part o) := by
  unfold UTAP.semSystem
  split
  · exact Quiet_bind (Quiet_parse env hπ _ _) (fun _ => Quiet_pure π _)
  · exact Quiet_pure π _

theorem Quiet_semEndpoint {β : Type} (π : Call → Option β) (o : Option El) :
    Quiet π (semEndpoint o) := by
  cases o with
  | none => exact Quiet_throwInt π _
  | some e => exact Quiet_getLocation π _

theorem Quiet_semLocation {β : Type} {π : Call → Option β} (env : Env)
    (hπ : ∀ t n p, π (Call.parseXTA t n p) = none)
    (h1 : ∀ n i, π (Call.procState n i) = none)
    (h2 : ∀ n, π (Call.procStateCommit n) = none)
    (h3 : ∀ n, π (Call.procStateUrgent n) = none) (l : LocationD) :
    Quiet π (semLocation env l) := by
  unfold UTAP.semLocation
  refine Quiet_bind (Quiet_tryCatch ?_ (fun _ => Quiet_handleError π _)) (fun _ => Quiet_pure π _)
  refine Quiet_bind (Quiet_semName π env _) (fun _ => ?_)
  refine Quiet_bind (Quiet_forEach _ (Quiet_semLabel env hπ) _) (fun _ => ?_)
  refine Quiet_bind (Quiet_locationName π _ _) (fun _ => ?_)
  refine Quiet_bind (Quiet_setLocation π _ _) (fun _ => ?_)
  refine Quiet_bind (Quiet_notify env _ (h1 _ _)) (fun _ => ?_)
  exact Quiet_ite
    (Quiet_bind (Quiet_notify env _ (h2 _))
      (fun _ => Quiet_ite (Quiet_notify env _ (h3 _)) (Quiet_pure π _)))
    (Quiet_bind (Quiet_pure π ())
      (fun _ => Quiet_ite (Quiet_notify env _ (h3 _)) (Quiet_pure π _)))

theorem Quiet_semInit {β : Type} {π : Call → Option β} (env : Env)
    (h1 : ∀ n, π (Call.procStateInit n) = none) (o : Option El) :
    Quiet π (semInit env o) := by
  unfold UTAP.semInit
  split
  · exact Quiet_bind (Quiet_handleError π _) (fun _ => Quiet_pure π _)
  · split
    · exact Quiet_bind (Quiet_getLocation π _)
        (fun _ => Quiet_bind (Quiet_tryCatch (Quiet_notify env _ (h1 _))
          (fun _ => Quiet_handleError π _)) (fun _ => Quiet_pure π _))
    · exact Quiet_bind (Quiet_handleError π _) (fun _ => Quiet_pure π _)

theorem Quiet_semTransition {β : Type} {π : Call → Option β} (env : Env)
    (hπ : ∀ t n p, π (Call.parseXTA t n p) = none)
    (h1 : ∀ a b, π (Call.procEdge a b) = none) (t : TransitionD) :
    Quiet π (semTransition env t) := by
  unfold UTAP.semTransition
  refine Quiet_ite (Quiet_pure π _) ?_
  refine Quiet_bind (Quiet_tryCatch ?_ (fun _ => Quiet_handleError π _)) (fun _ => Quiet_pure π _)
  refine Quiet_bind (Quiet_semEndpoint π _) (fun _ => ?_)
  refine Quiet_bind (Quiet_semEndpoint π _) (fun _ => ?_)
  refine Quiet_bind (Quiet_forEach _ (Quiet_semLabel env hπ) _) (fun _ => ?_)
  exact Quiet_notify env _ (h1 _ _)

/-! ### Calls that an effect makes when it is not aborted -/

theorem Emits_of_Quiet {α β : Type} {π : Call → Option β} {m : StM Sem α} (h : Quiet π m) :
    Emits π m [] := by
  intro σ _
  simpa using h σ

theorem Emits_bind {α γ β : Type} {π : Call → Option β} {m : StM Sem α} {f : α → StM Sem γ}
    {X Y : List β} (hn : NoThrow m) (hm : Emits π m X) (hf : ∀ a, Emits π (f a) Y) :
    Emits π (m >>= f) (X ++ Y) := by
  intro σ hc
  rcases hms : m σ with ⟨o, σ1⟩
  have h1 := hm σ
  have h2 := hn σ
  simp only [StM.bind_apply, StM.andThen, hms] at hc h1 h2 ⊢
  cases o with
  | ok a =>
    simp only at hc ⊢
    rw [hf a σ1 hc, h1 trivial, List.append_assoc]
  | typeException e => exact absurd rfl (h2 e)
  | fatal c => exact absurd hc (by simp [Outcome.caught])
  | crash => exact absurd hc (by simp [Outcome.caught])
  | timeout => exact absurd hc (by simp [Outcome.caught])

theorem Emits_bind_left {α γ β : Type} {π : Call → Option β} {m : StM Sem α}
    {f : α → StM Sem γ} {X : List β} (hn : NoThrow m) (hm : Emits π m X)
    (hf : ∀ a, Quiet π (f a)) : Emits π (m >>= f) X := by
  have h := Emits_bind hn hm (fun a => Emits_of_Quiet (hf a))
  simpa using h

theorem Emits_bind_right {α γ β : Type} {π : Call → Option β} {m : StM Sem α}
    {f : α → StM Sem γ} {Y : List β} (hn : NoThrow m) (hm : Quiet π m)
    (hf : ∀ a, Emits π (f a) Y) : Emits π (m >>= f) Y := by
  have h := Emits_bind hn (Emits_of_Quiet hm) hf
  simpa using h

theorem Emits_bind_val {α γ β : Type} {π : Call → Option β} {m : StM Sem α}
    {f : α → StM Sem γ} {Y : List β} (v : α) (hv : ∀ σ, ∃ σ1, m σ = (.ok v, σ1))
    (hm : Quiet π m) (hf : Emits π (f v) Y) : Emits π (m >>= f) Y := by
  intro σ hc
  obtain ⟨σ1, h1⟩ := hv σ
  have h2 := hm σ
  rw [h1] at h2
  rw [StM.bind_ok h1] at hc ⊢
  rw [hf σ1 hc, h2]

theorem Emits_notify {β : Type} {π : Call → Option β} (env : Env) (c : Call) (b : β)
    (hc : π c = some b) : Emits π (Sem.notify env c) [b] := by
  intro σ _
  simp only [Sem.notify]
  split <;> simp [List.filterMap_append, hc]

theorem Emits_tryCatch {β : Type} {π : Call → Option β} {m : StM Sem Unit}
    {h : String → StM Sem Unit} {X : List β} (hm : Emits π m X)
    (hh : ∀ msg, Quiet π (h msg)) : Emits π (StM.tryCatch m h) X := by
  intro σ hc
  rcases hms : m σ with ⟨o, σ1⟩
  have h1 := hm σ
  simp only [StM.tryCatch, hms] at hc h1 ⊢
  cases o with
  | typeException e =>
    simp only at hc ⊢
    rw [hh e σ1, h1 trivial]
  | ok a => exact h1 trivial
  | fatal c => exact absurd hc (by simp [Outcome.caught])
  | crash => exact absurd hc (by simp [Outcome.caught])
  | timeout => exact absurd hc (by simp [Outcome.caught])

/-- The method `name` returns `nameOf`. -/
theorem semName_val (env : Env) (o : Option El) (σ : Sem) :
    ∃ σ1, semName env o σ = (.ok (nameOf env o), σ1) := by
  unfold UTAP.semName nameOf
  cases (found o).bind El.text with
  | none => exact ⟨σ, rfl⟩
  | some name =>
    simp only
    cases symbol (some name) with
    | error str => exact ⟨_, rfl⟩
    | ok id =>
      simp only
      by_cases hk : (!env.isKeyword id (SYNTAX_OLD ||| SYNTAX_PROPERTY)) = true
      · simp only [hk, if_true]
        exact ⟨σ, rfl⟩
      · simp only [hk, if_false]
        exact ⟨_, rfl⟩

theorem NoThrow_semSystem (env : Env) (part : xta_part_t) (o : Option El) :
    NoThrow (semSystem env part o) := by
  unfold UTAP.semSystem
  split
  · exact NoThrow_bind (NoThrow_parse env _ _) (fun _ => NoThrow_pure _)
  · exact NoThrow_pure _

theorem templateCall_parseXTA (t : String) (n : Bool) (p : xta_part_t) :
    templateCall (Call.parseXTA t n p) = none := rfl

theorem Emits_semTemplate (env : Env) (hb : AcceptsBegin env) (t : TemplateD)
    (hne : t.el.isEmpty = false) :
    Emits templateCall (semTemplate env t) [some (nameOf env t.name), none] := by
  unfold UTAP.semTemplate
  simp only [hne, Bool.false_eq_true, if_false]
  refine Emits_bind_left (NoThrow_tryCatch (fun _ => NoThrow_handleError _))
    (Emits_tryCatch ?_ (fun _ => Quiet_handleError _ _)) (fun _ => Quiet_pure _ _)
  refine Emits_bind_val _ (semName_val env t.name) (Quiet_semName _ env _) ?_
  refine Emits_bind_right (NoThrow_semParameter env _)
    (Quiet_semParameter env templateCall_parseXTA _) (fun c => ?_)
  refine Emits_bind (X := [some (nameOf env t.name)]) (Y := [none])
    (NoThrow_notifyBegin env hb _ _) (Emits_notify env _ _ rfl) (fun _ => ?_)
  refine Emits_bind_right (NoThrow_semDeclaration env _)
    (Quiet_semDeclaration env templateCall_parseXTA _) (fun _ => ?_)
  refine Emits_bind_right (NoThrow_forEach _ (NoThrow_semLocation env) _)
    (Quiet_forEach _ (Quiet_semLocation env templateCall_parseXTA (fun _ _ => rfl)
      (fun _ => rfl) (fun _ => rfl)) _) (fun _ => ?_)
  refine Emits_bind_right (NoThrow_semInit env _)
    (Quiet_semInit env (fun _ => rfl) _) (fun _ => ?_)
  refine Emits_bind_right (NoThrow_forEach _ (NoThrow_semTransition env) _)
    (Quiet_forEach _ (Quiet_semTransition env templateCall_parseXTA (fun _ _ => rfl)) _)
    (fun _ => ?_)
  exact Emits_notify env _ _ rfl

theorem Emits_templates (env : Env) (hb : AcceptsBegin env) (ts : List TemplateD) :
    Emits templateCall (Sem.forEach (semTemplate env) ts) (pairsOf env ts) := by
  induction ts with
  | nil => exact Emits_of_Quiet (Quiet_pure _ _)
  | cons t ts ih =>
    cases hne : t.el.isEmpty with
    | true =>
      have hq : Quiet templateCall (semTemplate env t) := by
        unfold UTAP.semTemplate
        simp only [hne, if_true]
        exact Quiet_pure _ _
      have h := Emits_bind_right (NoThrow_semTemplate env t) hq (fun _ => ih)
      simpa [pairsOf, hne, Sem.forEach] using h
    | false =>
      have h := Emits_bind (NoThrow_semTemplate env t) (Emits_semTemplate env hb t hne)
        (fun _ => ih)
      simpa [pairsOf, hne, Sem.forEach] using h

theorem Emits_semNta (env : Env) (hb : AcceptsBegin env) (d : NtaD) :
    Emits templateCall (semNta env d) (pairsOf env d.templates) := by
  unfold UTAP.semNta
  refine Emits_bind_right (NoThrow_semDeclaration env _)
    (Quiet_semDeclaration env templateCall_parseXTA _) (fun _ => ?_)
  refine Emits_bind_left (NoThrow_forEach _ (NoThrow_semTemplate env) _)
    (Emits_templates env hb _) (fun _ => ?_)
  refine Quiet_bind (Quiet_semSystem env templateCall_parseXTA _ _) (fun _ => ?_)
  refine Quiet_bind (Quiet_semSystem env templateCall_parseXTA _ _) (fun _ => ?_)
  exact Quiet_notify env _ rfl

/-! ### The only `int` thrown is -1 -/

theorem ThrowsMinusOne_pure {α : Type} (a : α) : ThrowsMinusOne (pure a : StM Sem α) := by
  intro σ c h
  simp at h

theorem ThrowsMinusOne_bind {α β : Type} {m : StM Sem α} {f : α → StM Sem β}
    (hm : ThrowsMinusOne m) (hf : ∀ a, ThrowsMinusOne (f a)) : ThrowsMinusOne (m >>= f) := by
  intro σ c h
  rcases hms : m σ with ⟨o, σ1⟩
  have h1 := hm σ
  simp only [StM.bind_apply, StM.andThen, hms] at h h1
  cases o with
  | ok a => exact hf a σ1 c h
  | fatal c1 =>
    simp only [Outcome.fatal.injEq] at h
    exact h ▸ h1 c1 rfl
  | typeException e => simp at h
  | crash => simp at h
  | timeout => simp at h

theorem ThrowsMinusOne_tryCatch {m : StM Sem Unit} {h : String → StM Sem Unit}
    (hm : ThrowsMinusOne m) (hh : ∀ msg, ThrowsMinusOne (h msg)) :
    ThrowsMinusOne (StM.tryCatch m h) := by
  intro σ c hc
  rcases hms : m σ with ⟨o, σ1⟩
  have h1 := hm σ
  simp only [StM.tryCatch, hms] at hc h1
  cases o with
  | typeException e => exact hh e σ1 c hc
  | ok a => simp at hc
  | fatal c1 =>
    simp only [Outcome.fatal.injEq] at hc
    exact hc ▸ h1 c1 rfl
  | crash => simp at hc
  | timeout => simp at hc

theorem ThrowsMinusOne_ite {α : Type} {c : Prop} [Decidable c] {m1 m2 : StM Sem α}
    (h1 : ThrowsMinusOne m1) (h2 : ThrowsMinusOne m2) :
    ThrowsMinusOne (if c then m1 else m2) := by
  by_cases hc : c <;> simp [hc, h1, h2]

theorem ThrowsMinusOne_forEach {α β : Type} (f : α → StM Sem β)
    (hf : ∀ a, ThrowsMinusOne (f a)) (l : List α) : ThrowsMinusOne (Sem.forEach f l) := by
  induction l with
  | nil => exact ThrowsMinusOne_pure _
  | cons a l ih => exact ThrowsMinusOne_bind (hf a) (fun _ => ih)

theorem ThrowsMinusOne_handleError (msg : String) : ThrowsMinusOne (Sem.handleError msg) := by
  intro σ c h
  simp [Sem.handleError] at h

theorem ThrowsMinusOne_crashed {α : Type} : ThrowsMinusOne (StM.crashed : StM Sem α) := by
  intro σ c h
  simp [StM.crashed] at h

theorem ThrowsMinusOne_throwInt {α : Type} :
    ThrowsMinusOne (StM.throwInt (-1) : StM Sem α) := by
  intro σ c h
  simp only [StM.throwInt, Outcome.fatal.injEq] at h
  exact h.symm

theorem ThrowsMinusOne_parse (env : Env) (text : String) (part : xta_part_t) :
    ThrowsMinusOne (Sem.parse env text part) := by
  intro σ c h
  simp [Sem.parse] at h

theorem ThrowsMinusOne_notify (env : Env) (call : Call) :
    ThrowsMinusOne (Sem.notify env call) := by
  intro σ c h
  simp only [Sem.notify] at h
  split at h <;> simp at h

theorem ThrowsMinusOne_getLocation (id : Option String) :
    ThrowsMinusOne (Sem.getLocation id) := by
  intro σ c h
  simp only [Sem.getLocation] at h
  cases id with
  | none =>
    simp only [Outcome.fatal.injEq] at h
    exact h.symm
  | some i =>
    simp only at h
    split at h
    · simp at h
    · split at h
      · simp at h
      · simp only [Outcome.fatal.injEq] at h
        exact h.symm

theorem ThrowsMinusOne_setLocation (id : Option String) (name : String) :
    ThrowsMinusOne (Sem.setLocation id name) := by
  intro σ c h
  simp only [Sem.setLocation] at h
  split at h
  · simp at h
  · split at h
    · simp at h
    · split at h <;> simp at h

theorem ThrowsMinusOne_labelText (env : Env) (kind : Option String) (text : String) :
    ThrowsMinusOne (Sem.labelText env kind text) := by
  unfold Sem.labelText
  cases kind with
  | none => exact ThrowsMinusOne_crashed
  | some k =>
    simp only
    repeat' first
      | exact ThrowsMinusOne_pure _
      | exact ThrowsMinusOne_bind (ThrowsMinusOne_parse env _ _) (fun _ => ThrowsMinusOne_pure _)
      | apply ThrowsMinusOne_ite

theorem ThrowsMinusOne_locationName (l_name l_id : Option String) :
    ThrowsMinusOne (Sem.locationName l_name l_id) := by
  unfold Sem.locationName
  split
  · cases l_id with
    | none => exact ThrowsMinusOne_crashed
    | some i => exact ThrowsMinusOne_pure _
  · exact ThrowsMinusOne_pure _

theorem ThrowsMinusOne_semName (env : Env) (o : Option El) :
    ThrowsMinusOne (semName env o) := by
  unfold UTAP.semName
  split
  · split
    · exact ThrowsMinusOne_ite (ThrowsMinusOne_pure _)
        (ThrowsMinusOne_bind (ThrowsMinusOne_handleError _) (fun _ => ThrowsMinusOne_pure _))
    · exact ThrowsMinusOne_bind (ThrowsMinusOne_handleError _) (fun _ => ThrowsMinusOne_pure _)
  · exact ThrowsMinusOne_pure _

theorem ThrowsMinusOne_semParameter (env : Env) (o : Option El) :
    ThrowsMinusOne (semParameter env o) := by
  unfold UTAP.semParameter
  split
  · exact ThrowsMinusOne_parse env _ _
  · exact ThrowsMinusOne_pure _

theorem ThrowsMinusOne_semDeclaration (env : Env) (o : Option El) :
    ThrowsMinusOne (semDeclaration env o) := by
  unfold UTAP.semDeclaration
  split
  · split
    · exact ThrowsMinusOne_bind (ThrowsMinusOne_parse env _ _) (fun _ => ThrowsMinusOne_pure _)
    · exact ThrowsMinusOne_pure _
  · exact ThrowsMinusOne_pure _

theorem ThrowsMinusOne_semLabel (env : Env) (e : El) : ThrowsMinusOne (semLabel env e) := by
  unfold UTAP.semLabel
  split
  · split
    · exact ThrowsMinusOne_bind (ThrowsMinusOne_labelText env _ _)
        (fun _ => ThrowsMinusOne_pure _)
    · exact ThrowsMinusOne_pure _
  · exact ThrowsMinusOne_pure _

theorem ThrowsMinusOne_semSystem (env : Env) (part : xta_part_t) (o : Option El) :
    ThrowsMinusOne (semSystem env part o) := by
  unfold UTAP.semSystem
  split
  · exact ThrowsMinusOne_bind (ThrowsMinusOne_parse env _ _) (fun _ => ThrowsMinusOne_pure _)
  · exact ThrowsMinusOne_pure _

theorem ThrowsMinusOne_semEndpoint (o : Option El) : ThrowsMinusOne (semEndpoint o) := by
  cases o with
  | none => exact ThrowsMinusOne_throwInt
  | some e => exact ThrowsMinusOne_getLocation _

theorem ThrowsMinusOne_semLocation (env : Env) (l : LocationD) :
    ThrowsMinusOne (semLocation env l) := by
  unfold UTAP.semLocation
  refine ThrowsMinusOne_bind (ThrowsMinusOne_tryCatch ?_ (fun _ => ThrowsMinusOne_handleError _))
    (fun _ => ThrowsMinusOne_pure _)
  refine ThrowsMinusOne_bind (ThrowsMinusOne_semName env _) (fun _ => ?_)
  refine ThrowsMinusOne_bind (ThrowsMinusOne_forEach _ (ThrowsMinusOne_semLabel env) _)
    (fun _ => ?_)
  refine ThrowsMinusOne_bind (ThrowsMinusOne_locationName _ _) (fun _ => ?_)
  refine ThrowsMinusOne_bind (ThrowsMinusOne_setLocation _ _) (fun _ => ?_)
  refine ThrowsMinusOne_bind (ThrowsMinusOne_notify env _) (fun _ => ?_)
  exact ThrowsMinusOne_ite
    (ThrowsMinusOne_bind (ThrowsMinusOne_notify env _)
      (fun _ => ThrowsMinusOne_ite (ThrowsMinusOne_notify env _) (ThrowsMinusOne_pure _)))
    (ThrowsMinusOne_bind (ThrowsMinusOne_pure ())
      (fun _ => ThrowsMinusOne_ite (ThrowsMinusOne_notify env _) (ThrowsMinusOne_pure _)))

theorem ThrowsMinusOne_semInit (env : Env) (o : Option El) :
    ThrowsMinusOne (semInit env o) := by
  unfold UTAP.semInit
  split
  · exact ThrowsMinusOne_bind (ThrowsMinusOne_handleError _) (fun _ => ThrowsMinusOne_pure _)
  · split
    · exact ThrowsMinusOne_bind (ThrowsMinusOne_getLocation _)
        (fun _ => ThrowsMinusOne_bind (ThrowsMinusOne_tryCatch (ThrowsMinusOne_notify env _)
          (fun _ => ThrowsMinusOne_handleError _)) (fun _ => ThrowsMinusOne_pure _))
    · exact ThrowsMinusOne_bind (ThrowsMinusOne_handleError _) (fun _ => ThrowsMinusOne_pure _)

theorem ThrowsMinusOne_semTransition (env : Env) (t : TransitionD) :
    ThrowsMinusOne (semTransition env t) := by
  unfold UTAP.semTransition
  refine ThrowsMinusOne_ite (ThrowsMinusOne_pure _) ?_
  refine ThrowsMinusOne_bind (ThrowsMinusOne_tryCatch ?_ (fun _ => ThrowsMinusOne_handleError _))
    (fun _ => ThrowsMinusOne_pure _)
  refine ThrowsMinusOne_bind (ThrowsMinusOne_semEndpoint _) (fun _ => ?_)
  refine ThrowsMinusOne_bind (ThrowsMinusOne_semEndpoint _) (fun _ => ?_)
  refine ThrowsMinusOne_bind (ThrowsMinusOne_forEach _ (ThrowsMinusOne_semLabel env) _)
    (fun _ => ?_)
  exact ThrowsMinusOne_notify env _

theorem ThrowsMinusOne_semTemplate (env : Env) (t : TemplateD) :
    ThrowsMinusOne (semTemplate env t) := by
  unfold UTAP.semTemplate
  refine ThrowsMinusOne_ite (ThrowsMinusOne_pure _) ?_
  refine ThrowsMinusOne_bind (ThrowsMinusOne_tryCatch ?_ (fun _ => ThrowsMinusOne_handleError _))
    (fun _ => ThrowsMinusOne_pure _)
  refine ThrowsMinusOne_bind (ThrowsMinusOne_semName env _) (fun _ => ?_)
  refine ThrowsMinusOne_bind (ThrowsMinusOne_semParameter env _) (fun _ => ?_)
  refine ThrowsMinusOne_bind (ThrowsMinusOne_notify env _) (fun _ => ?_)
  refine ThrowsMinusOne_bind (ThrowsMinusOne_semDeclaration env _) (fun _ => ?_)
  refine ThrowsMinusOne_bind (ThrowsMinusOne_forEach _ (ThrowsMinusOne_semLocation env) _)
    (fun _ => ?_)
  refine ThrowsMinusOne_bind (ThrowsMinusOne_semInit env _) (fun _ => ?_)
  refine ThrowsMinusOne_bind (ThrowsMinusOne_forEach _ (ThrowsMinusOne_semTransition env) _)
    (fun _ => ?_)
  exact ThrowsMinusOne_notify env _

theorem ThrowsMinusOne_semNta (env : Env) (d : NtaD) : ThrowsMinusOne (semNta env d) := by
  unfold UTAP.semNta
  refine ThrowsMinusOne_bind (ThrowsMinusOne_semDeclaration env _) (fun _ => ?_)
  refine ThrowsMinusOne_bind (ThrowsMinusOne_forEach _ (ThrowsMinusOne_semTemplate env) _)
    (fun _ => ?_)
  refine ThrowsMinusOne_bind (ThrowsMinusOne_semSystem env _ _) (fun _ => ?_)
  refine ThrowsMinusOne_bind (ThrowsMinusOne_semSystem env _ _) (fun _ => ?_)
  exact ThrowsMinusOne_notify env _

/-- The entry points return 0 only if `nta` returns. -/
theorem semParse_zero (env : Env) (d : NtaD) (h : (semParse env d).1 = .ok 0) :
    (semNta env d Sem.new).1.returns ∧ (semParse env d).2 = (semNta env d Sem.new).2 := by
  have h1 := ThrowsMinusOne_semNta env d Sem.new
  unfold semParse at h ⊢
  rcases hms : semNta env d Sem.new with ⟨o, σ1⟩
  simp only [hms] at h h1 ⊢
  cases o with
  | ok a => exact ⟨trivial, rfl⟩
  | fatal c =>
    simp only [Outcome.ok.injEq] at h
    have := h1 c rfl
    omega
  | typeException e => simp at h
  | crash => simp at h
  | timeout => simp at h

theorem countP_isBegin (log : List Call) :
    log.countP Call.isBegin = (templateCalls log).countP (fun x => x.isSome) := by
  induction log with
  | nil => rfl
  | cons c l ih =>
    cases c <;> simp_all [templateCalls, templateCall, Call.isBegin, List.countP_cons]

theorem countP_isEnd (log : List Call) :
    log.countP Call.isEnd = (templateCalls log).countP (fun x => x.isNone) := by
  induction log with
  | nil => rfl
  | cons c l ih =>
    cases c <;> simp_all [templateCalls, templateCall, Call.isEnd, List.countP_cons]

theorem pairsOf_begins (env : Env) (ts : List TemplateD) :
    (pairsOf env ts).countP (fun x => x.isSome) = countTemplates ts := by
  induction ts with
  | nil => rfl
  | cons t ts ih =>
    cases h : t.el.isEmpty <;> simp_all [pairsOf, countTemplates, List.countP_cons]

theorem pairsOf_ends (env : Env) (ts : List TemplateD) :
    (pairsOf env ts).countP (fun x => x.isNone) = countTemplates ts := by
  induction ts with
  | nil => rfl
  | cons t ts ih =>
    cases h : t.el.isEmpty <;> simp_all [pairsOf, countTemplates, List.countP_cons]

/-- C1, as amended: for a document of the expected shape, which has a
`system` element, read with a builder that accepts every `procBegin`: if the
parse returns 0, the calls of `procBegin` and `procEnd` it made are, in this
order, one `procBegin` (with the name of the template) and then one `procEnd`
for each template not written `<template/>`, in document order; so there are
as many of each as there are such templates. -/
theorem C1_template_pairs (env : Env) (hb : AcceptsBegin env) (fuel : Nat) (d : NtaD)
    (hd : d.ok) (hf : d.render.length < fuel)
    (h0 : (parseXMLBuffer env fuel (some d.render)).1 = .ok 0) :
    templateCalls (parseXMLBuffer env fuel (some d.render)).2.log = pairsOf env d.templates
      ∧ (parseXMLBuffer env fuel (some d.render)).2.log.countP Call.isBegin
          = countTemplates d.templates
      ∧ (parseXMLBuffer env fuel (some d.render)).2.log.countP Call.isEnd
          = countTemplates d.templates := by
  have hr := parseXMLBuffer_render env hb fuel d hd hf
  have h1 : (parseXMLBuffer env fuel (some d.render)).1 = (semParse env d).1 :=
    congrArg Prod.fst hr
  have h2 : (parseXMLBuffer env fuel (some d.render)).2.log = (semParse env d).2.log :=
    congrArg (fun r => r.2.log) hr
  rw [h1] at h0
  obtain ⟨h3, h4⟩ := semParse_zero env d h0
  have h5 := Emits_semNta env hb d Sem.new (caught_of_returns _ h3)
  have h6 : templateCalls (parseXMLBuffer env fuel (some d.render)).2.log
      = pairsOf env d.templates := by
    rw [h2, h4]
    simpa [templateCalls, Sem.new] using h5
  refine ⟨h6, ?_, ?_⟩
  · rw [countP_isBegin, h6, pairsOf_begins]
  · rw [countP_isEnd, h6, pairsOf_ends]

theorem C1_template_pairs_witness :
    (AcceptsBegin acceptAll ∧ twoTemplates.ok ∧ twoTemplates.render.length < 40
      ∧ (parseXMLBuffer acceptAll 40 (some twoTemplates.render)).1 = .ok 0)
    ∧ templateCalls (parseXMLBuffer acceptAll 40 (some twoTemplates.render)).2.log
        = [some (some "T"), none, some (some "U"), none] :=
  ⟨⟨fun _ _ _ => rfl, by decide!, by decide!, by decide!⟩,
    (C1_template_pairs acceptAll (fun _ _ _ => rfl) 40 twoTemplates (by decide!) (by decide!)
      (by decide!)).1.trans (by decide!)⟩

/-- C1 as stated fails.  A document without a `system` element whose one
template is complete: the parse returns -1 after `procBegin` and never calls
`procEnd`.  A document with a `system` element read with a builder that
rejects `procBegin`: the parse returns 0 with one `procBegin` and no
`procEnd`. -/
theorem C1_counterexample :
    ((parseXMLBuffer acceptAll 40 (some noSystem)).1 = .ok (-1)
      ∧ (parseXMLBuffer acceptAll 40 (some noSystem)).2.log
          = [Call.procBegin (some "T") 0, Call.procState "_a" false, Call.procStateInit "_a"])
    ∧ ((parseXMLBuffer rejectBegin 40 (some oneTemplate.render)).1 = .ok 0
      ∧ (parseXMLBuffer rejectBegin 40 (some oneTemplate.render)).2.log
          = [Call.procBegin (some "T") 0, Call.done]) := by
  decide!

/-! ### Where a parse is aborted -/

theorem bind_ok_inv {σ α β : Type} {m : StM σ α} {f : α → StM σ β} {s s2 : σ} {b : β}
    (h : (m >>= f) s = (.ok b, s2)) : ∃ a s1, m s = (.ok a, s1) ∧ f a s1 = (.ok b, s2) := by
  rcases hms : m s with ⟨o, s1⟩
  simp only [StM.bind_apply, StM.andThen, hms] at h
  cases o with
  | ok a => exact ⟨a, s1, rfl, h⟩
  | fatal c => simp at h
  | typeException e => simp at h
  | crash => simp at h
  | timeout => simp at h

theorem bind_fatal {σ α β : Type} {m : StM σ α} {f : α → StM σ β} {s s1 : σ} {c : Int}
    (h : m s = (.fatal c, s1)) : (m >>= f) s = (.fatal c, s1) := by
  simp [StM.bind_apply, StM.andThen, h]

theorem tryCatch_fatal {σ : Type} {m : StM σ Unit} {h : String → StM σ Unit} {s s1 : σ}
    {c : Int} (hm : m s = (.fatal c, s1)) : StM.tryCatch m h s = (.fatal c, s1) := by
  simp [StM.tryCatch, hm]

theorem forEach_fatal {α β : Type} (f : α → StM Sem β) (l1 : List α) (a : α) (l2 : List α)
    {σ σ1 σ2 : Sem} {c : Int} (h1 : Sem.forEach f l1 σ = (.ok (), σ1))
    (h2 : f a σ1 = (.fatal c, σ2)) : Sem.forEach f (l1 ++ a :: l2) σ = (.fatal c, σ2) := by
  induction l1 generalizing σ with
  | nil =>
    simp only [Sem.forEach, StM.pure_apply, Prod.mk.injEq, true_and] at h1
    subst h1
    simp only [List.nil_append, Sem.forEach]
    exact bind_fatal h2
  | cons b l ih =>
    simp only [Sem.forEach] at h1
    obtain ⟨v, σ3, h3, h4⟩ := bind_ok_inv h1
    simp only [List.cons_append, Sem.forEach]
    rw [StM.bind_ok h3]
    exact ih h4

theorem getLocation_unset (σ : Sem) (hk : KeysSet σ) (r : String)
    (h : σ.locations.lookup (some r) = none) :
    Sem.getLocation (some r) σ = (.fatal (-1), σ) := by
  have hk1 : σ.locations.any (fun kv => kv.1 = none) = false := by
    simp only [List.any_eq_false, decide_eq_true_eq]
    exact fun kv hkv => hk kv hkv
  simp [Sem.getLocation, hk1, h]

theorem getLocation_set (σ : Sem) (hk : KeysSet σ) (r l : String)
    (h : σ.locations.lookup (some r) = some l) :
    Sem.getLocation (some r) σ = (.ok l, σ) := by
  have hk1 : σ.locations.any (fun kv => kv.1 = none) = false := by
    simp only [List.any_eq_false, decide_eq_true_eq]
    exact fun kv hkv => hk kv hkv
  simp [Sem.getLocation, hk1, h]

theorem semEndpoint_bad (σ : Sem) (hk : KeysSet σ) (o : Option El) (h : resolve σ o = none) :
    semEndpoint o σ = (.fatal (-1), σ) := by
  cases o with
  | none => rfl
  | some e =>
    simp only [resolve] at h
    simp only [semEndpoint]
    cases hr : e.attrs.lookup "ref" with
    | none => rfl
    | some r =>
      simp only [hr] at h
      exact getLocation_unset σ hk r h

theorem semEndpoint_good (σ : Sem) (hk : KeysSet σ) (o : Option El) (l : String)
    (h : resolve σ o = some l) : semEndpoint o σ = (.ok l, σ) := by
  cases o with
  | none => simp [resolve] at h
  | some e =>
    simp only [resolve] at h
    simp only [semEndpoint]
    cases hr : e.attrs.lookup "ref" with
    | none => simp [hr] at h
    | some r =>
      simp only [hr] at h
      exact getLocation_set σ hk r l h

theorem semTransition_bad (env : Env) (x : TransitionD) (hxe : x.el.isEmpty = false) (σ : Sem)
    (hk : KeysSet σ) (hbad : resolve σ x.source = none ∨ resolve σ x.target = none) :
    semTransition env x σ = (.fatal (-1), σ) := by
  simp only [semTransition, hxe, Bool.false_eq_true, if_false]
  refine bind_fatal (tryCatch_fatal ?_)
  cases hs : resolve σ x.source with
  | none => exact bind_fatal (semEndpoint_bad σ hk _ hs)
  | some l =>
    rw [StM.bind_ok (semEndpoint_good σ hk _ l hs)]
    have ht : resolve σ x.target = none := by
      rcases hbad with h | h
      · rw [hs] at h
        cases h
      · exact h
    exact bind_fatal (semEndpoint_bad σ hk _ ht)

/-- A thrown -1 is what the entry points return. -/
theorem semParse_fatal (env : Env) (d : NtaD) (σ : Sem)
    (h : semNta env d Sem.new = (.fatal (-1), σ)) : semParse env d = (.ok (-1), σ) := by
  simp [semParse, h]

theorem semTemplate_split (env : Env) (t : TemplateD) (hne : t.el.isEmpty = false) :
    semTemplate env t = (do
      StM.tryCatch (semTemplateHead env t >>= fun _ => semTemplateTail env t)
        (fun what => Sem.handleError what)
      pure true) := by
  simp only [semTemplate, hne, Bool.false_eq_true, if_false, semTemplateHead, semTemplateTail,
    StM.bind_assoc]

/-- An `int` thrown in a template after its locations ends the parse. -/
theorem semNta_abort (env : Env) (d : NtaD) (before after : List TemplateD) (t : TemplateD)
    (ht : d.templates = before ++ t :: after) (hne : t.el.isEmpty = false) (σh σ : Sem)
    (c : Int) (hpre : semUpToInit env d before t Sem.new = (.ok (), σh))
    (htail : semTemplateTail env t σh = (.fatal c, σ)) :
    semNta env d Sem.new = (.fatal c, σ) := by
  simp only [semUpToInit] at hpre
  obtain ⟨v1, σa, h1, hpre⟩ := bind_ok_inv hpre
  obtain ⟨v2, σb, h2, h3⟩ := bind_ok_inv hpre
  have h4 : semTemplate env t σb = (.fatal c, σ) := by
    rw [semTemplate_split env t hne]
    refine bind_fatal (tryCatch_fatal ?_)
    rw [StM.bind_ok h3]
    exact htail
  simp only [semNta, ht]
  rw [StM.bind_ok h1]
  exact bind_fatal (forEach_fatal _ before t after h2 h4)

/-- C2, as amended: in a document of the expected shape read with a builder
that accepts every `procBegin`, take a transition not written
`<transition/>` of a template not written `<template/>`.  If the parse comes
to this transition (what precedes it is processed normally and leaves the
state `σ`, in which no key of the map of locations is null) and its `source`
or its `target` element is missing, has no `ref`, or has a `ref` that is not
registered in `σ`, the parse returns -1 and leaves the calls, the messages
and the locations of `σ`: nothing is called for the transition, so
`procEdge` is not. -/
theorem C2_unresolved_endpoint_is_fatal (env : Env) (hb : AcceptsBegin env) (fuel : Nat)
    (d : NtaD) (hd : d.ok) (hf : d.render.length < fuel)
    (before after : List TemplateD) (t : TemplateD)
    (ht : d.templates = before ++ t :: after) (hne : t.el.isEmpty = false)
    (xs ys : List TransitionD) (x : TransitionD)
    (hx : t.transitions = xs ++ x :: ys) (hxe : x.el.isEmpty = false)
    (σ : Sem) (hpre : semUpToTransition env d before t xs Sem.new = (.ok (), σ))
    (hk : KeysSet σ)
    (hbad : resolve σ x.source = none ∨ resolve σ x.target = none) :
    absRun (parseXMLBuffer env fuel (some d.render)) = (.ok (-1), σ) := by
  rw [parseXMLBuffer_render env hb fuel d hd hf]
  apply semParse_fatal
  simp only [semUpToTransition] at hpre
  obtain ⟨v1, σh, h1, hpre⟩ := bind_ok_inv hpre
  obtain ⟨v2, σi, h2, h3⟩ := bind_ok_inv hpre
  refine semNta_abort env d before after t ht hne σh σ (-1) h1 ?_
  simp only [semTemplateTail, hx]
  rw [StM.bind_ok h2]
  exact bind_fatal (forEach_fatal _ xs x ys h3 (semTransition_bad env x hxe σ hk hbad))

theorem C2_unresolved_endpoint_is_fatal_witness :
    ((docOf [danglingTarget]).ok ∧ (docOf [danglingTarget]).render.length < 40
      ∧ semUpToTransition acceptAll (docOf [danglingTarget]) [] danglingTarget
          [⟨⟨[], false, []⟩, some ⟨[("ref", "a")], true, []⟩,
            some ⟨[("ref", "a")], true, [endTag "transition"]⟩, [], []⟩] Sem.new
          = (.ok (), ⟨[(some "a", "_a")],
              [Call.procBegin (some "T") 0, Call.procState "_a" false,
                Call.procStateInit "_a", Call.procEdge "_a" "_a"], []⟩))
    ∧ absRun (parseXMLBuffer acceptAll 40 (some (docOf [danglingTarget]).render))
        = (.ok (-1), ⟨[(some "a", "_a")],
            [Call.procBegin (some "T") 0, Call.procState "_a" false,
              Call.procStateInit "_a", Call.procEdge "_a" "_a"], []⟩) :=
  ⟨⟨by decide!, by decide!, by decide!⟩,
    C2_unresolved_endpoint_is_fatal acceptAll (fun _ _ _ => rfl) 40 (docOf [danglingTarget])
      (by decide!) (by decide!) [] [] danglingTarget rfl rfl
      [⟨⟨[], false, []⟩, some ⟨[("ref", "a")], true, []⟩,
        some ⟨[("ref", "a")], true, [endTag "transition"]⟩, [], []⟩]
      []
      ⟨⟨[], false, []⟩, some ⟨[("ref", "a")], true, []⟩,
        some ⟨[("ref", "zz")], true, [endTag "transition", endTag "template"]⟩, [], []⟩
      rfl rfl _ (by decide!) (by decide!) (Or.inr (by decide!))⟩

/-- C2 as stated fails for a transition written `<transition/>`, which has
neither a `source` nor a `target`: the parse passes over it, reports no
error and returns 0. -/
theorem C2_counterexample :
    (parseXMLBuffer acceptAll 40 (some selfClosingTransition)).1 = .ok 0
      ∧ (parseXMLBuffer acceptAll 40 (some selfClosingTransition)).2.errors = []
      ∧ (parseXMLBuffer acceptAll 40 (some selfClosingTransition)).2.log
          = [Call.procBegin (some "T") 0, Call.procState "_a" false, Call.procStateInit "_a",
              Call.procEnd, Call.parseXTA "system T;" true S_SYSTEM, Call.done] := by
  decide!

theorem tryCatch_bind_ok {σ α : Type} {m : StM σ α} {f : α → StM σ Unit}
    {h : String → StM σ Unit} {s s1 : σ} {a : α} (hm : m s = (.ok a, s1)) :
    StM.tryCatch (m >>= f) h s = StM.tryCatch (f a) h s1 := by
  simp only [StM.tryCatch, StM.bind_ok hm]

theorem forEach_append {α β : Type} (f : α → StM Sem β) (l1 l2 : List α) (σ : Sem) :
    Sem.forEach f (l1 ++ l2) σ = (Sem.forEach f l1 >>= fun _ => Sem.forEach f l2) σ := by
  induction l1 generalizing σ with
  | nil => rfl
  | cons a l ih =>
    simp only [List.cons_append, Sem.forEach, StM.bind_assoc]
    rcases hms : f a σ with ⟨o, σ1⟩
    cases o with
    | ok v =>
      rw [StM.bind_ok hms, StM.bind_ok hms]
      exact ih σ1
    | fatal c => simp [StM.bind_apply, StM.andThen, hms]
    | typeException e => simp [StM.bind_apply, StM.andThen, hms]
    | crash => simp [StM.bind_apply, StM.andThen, hms]
    | timeout => simp [StM.bind_apply, StM.andThen, hms]

theorem semParse_eq_finishParse (env : Env) (d : NtaD) :
    semParse env d = finishParse (semNta env d Sem.new) := rfl

theorem semInit_missing (env : Env) (o : Option El)
    (hi : o = none ∨ ∃ e, o = some e ∧ e.attrs.lookup "ref" = none) (σ : Sem) :
    ∃ b, semInit env o σ = (.ok b, { σ with msgs := σ.msgs ++ ["Missing initial state"] }) := by
  rcases hi with h | ⟨e, h, hr⟩
  · subst h
    exact ⟨false, rfl⟩
  · subst h
    refine ⟨true, ?_⟩
    simp only [semInit, hr]
    rfl

/-- A missing initial location is reported and the parse goes on: in a
document of the expected shape, which has a `system` element, read with a builder that accepts every `procBegin`, take a
template not written `<template/>` whose `init` element is absent or has no
`ref`.  If the parse comes to that place (what precedes it is processed
normally and leaves the state `σ`), it goes on from `σ` with the one message
"Missing initial state" added and no call made, and does what follows: the
transitions of the template and `procEnd`, then the remaining templates, the
instantiation, the system and `done`. -/
theorem missing_init_is_reported (env : Env) (hb : AcceptsBegin env) (fuel : Nat)
    (d : NtaD) (hd : d.ok) (hf : d.render.length < fuel)
    (before after : List TemplateD) (t : TemplateD)
    (ht : d.templates = before ++ t :: after) (hne : t.el.isEmpty = false)
    (hi : t.init = none ∨ ∃ e, t.init = some e ∧ e.attrs.lookup "ref" = none)
    (σ : Sem) (hpre : semUpToInit env d before t Sem.new = (.ok (), σ)) :
    absRun (parseXMLBuffer env fuel (some d.render)) =
      finishParse ((do
          StM.tryCatch (do
              Sem.forEach (semTransition env) t.transitions
              Sem.notify env Call.procEnd)
            (fun what => Sem.handleError what)
          Sem.forEach (semTemplate env) after
          let _ ← semSystem env S_INST d.instantiation
          let _ ← semSystem env S_SYSTEM (some d.system)
          Sem.notify env Call.done : StM Sem Unit)
        { σ with msgs := σ.msgs ++ ["Missing initial state"] }) := by
  rw [parseXMLBuffer_render env hb fuel d hd hf, semParse_eq_finishParse]
  congr 1
  simp only [semUpToInit] at hpre
  obtain ⟨v1, σa, h1, hpre⟩ := bind_ok_inv hpre
  obtain ⟨v2, σb, h2, h3⟩ := bind_ok_inv hpre
  obtain ⟨b, h4⟩ := semInit_missing env t.init hi σ
  simp only [semNta, ht]
  rw [StM.bind_ok h1]
  simp only [StM.bind_apply (Sem.forEach (semTemplate env) (before ++ t :: after)),
    StM.andThen, forEach_append, StM.bind_ok h2, Sem.forEach, semTemplate_split env t hne,
    StM.bind_assoc]
  simp only [StM.bind_apply (StM.tryCatch _ _), StM.andThen, tryCatch_bind_ok h3,
    semTemplateTail, tryCatch_bind_ok h4, StM.pure_bind]
  generalize StM.tryCatch _ _ _ = r
  rcases r with ⟨o, s1⟩
  cases o <;> rfl

theorem missing_init_is_reported_example :
    ((docOf [withoutInit]).ok ∧ (docOf [withoutInit]).render.length < 40
      ∧ semUpToInit acceptAll (docOf [withoutInit]) [] withoutInit Sem.new
          = (.ok (), ⟨[(some "a", "_a")],
              [Call.procBegin (some "T") 0, Call.procState "_a" false], []⟩))
    ∧ absRun (parseXMLBuffer acceptAll 40 (some (docOf [withoutInit]).render))
        = (.ok 0, ⟨[(some "a", "_a")],
            [Call.procBegin (some "T") 0, Call.procState "_a" false, Call.procEdge "_a" "_a",
              Call.procEnd, Call.parseXTA "system T;" true S_SYSTEM, Call.done],
            ["Missing initial state"]⟩) :=
  ⟨⟨by decide!, by decide!, by decide!⟩,
    (missing_init_is_reported acceptAll (fun _ _ _ => rfl) 40 (docOf [withoutInit])
      (by decide!) (by decide!) [] [] withoutInit rfl rfl (Or.inl rfl)
      ⟨[(some "a", "_a")], [Call.procBegin (some "T") 0, Call.procState "_a" false], []⟩
      (by decide!)).trans (by decide!)⟩

/-- C4, on a document in which no start tag follows the template.  The
template of `noInitNoSystem` has no `init`: "Missing initial state" is
reported once, no `procStateInit` is made and `init` does not abort, but the
parse then returns -1 at the end of the input, without `procEdge` for the
transition and without `procEnd`.  The missing `init` is not the cause: with
the `init` put back (`initNoSystem`) the parse ends in the same way, after
`procStateInit`.  In both documents the search for a further label of the
transition reads to the end of the input.  With a `system` element after the
template the transition of the template without `init` is parsed and
`procEnd` is sent. -/
theorem C4_missing_init_then_end_of_input :
    absRun (parseXMLBuffer acceptAll 40 (some noInitNoSystem))
        = (.ok (-1), ⟨[(some "a", "_a")],
            [Call.procBegin (some "T") 0, Call.procState "_a" false],
            ["Missing initial state"]⟩)
      ∧ absRun (parseXMLBuffer acceptAll 40 (some initNoSystem))
        = (.ok (-1), ⟨[(some "a", "_a")],
            [Call.procBegin (some "T") 0, Call.procState "_a" false, Call.procStateInit "_a"],
            []⟩)
      ∧ absRun (parseXMLBuffer acceptAll 40 (some (docOf [withoutInit]).render))
        = (.ok 0, ⟨[(some "a", "_a")],
            [Call.procBegin (some "T") 0, Call.procState "_a" false, Call.procEdge "_a" "_a",
              Call.procEnd, Call.parseXTA "system T;" true S_SYSTEM, Call.done],
            ["Missing initial state"]⟩) := by
  decide!

/-! ### The name of a location -/

theorem isAlpha_isIdChr (c : Char) (h : isAlpha c = true) : isIdChr c = true := by
  simp only [isAlpha, isIdChr, isalnum, Bool.or_eq_true] at h ⊢
  rcases h with h | h
  · exact Or.inl (Or.inl (Or.inl (Or.inl h)))
  · exact Or.inl (Or.inl (Or.inr h))

theorem isAlpha_not_isspace (c : Char) (h : isAlpha c = true) : isspace c = false := by
  have h32 : (Char.ofNat 32).toNat = 32 := by decide
  have h95 : (Char.ofNat 95).toNat = 95 := by decide
  simp only [isAlpha, isalpha, Bool.or_eq_true, Bool.and_eq_true, decide_eq_true_eq] at h
  simp only [isspace, Bool.or_eq_false_iff, Bool.and_eq_false_iff, decide_eq_false_iff_not]
  have hn : c.toNat ≠ 32 ∧ ¬ (9 ≤ c.toNat ∧ c.toNat ≤ 13) := by
    rcases h with (h | h) | h
    · omega
    · omega
    · rw [h, h95]
      omega
  refine ⟨fun hc => hn.1 (by rw [hc, h32]), ?_⟩
  by_cases h9 : 9 ≤ c.toNat
  · exact Or.inr (fun h13 => hn.2 ⟨h9, h13⟩)
  · exact Or.inl h9

/-- An identifier that `symbol` returns is not blank. -/
theorem symbol_not_isempty (str : Option String) (id : String) (h : symbol str = .ok id) :
    isempty (some id) = false := by
  unfold symbol at h
  cases str with
  | none => simp at h
  | some s =>
    simp only at h
    split at h
    · simp at h
    · rename_i c cs hd
      by_cases ha : isAlpha c = true
      · simp only [ha, Bool.not_true, Bool.false_eq_true, if_false] at h
        split at h
        · simp at h
        · simp only [Except.ok.injEq] at h
          subst h
          simp [isempty, List.takeWhile, isAlpha_isIdChr c ha, isAlpha_not_isspace c ha]
      · simp [ha] at h

theorem nameOf_not_isempty (env : Env) (o : Option El) (id : String)
    (h : nameOf env o = some id) : isempty (some id) = false := by
  unfold nameOf at h
  split at h
  · split at h
    · rename_i id1 hs
      split at h
      · simp only [Option.some.injEq] at h
        subst h
        exact symbol_not_isempty _ _ hs
      · simp at h
    · simp at h
  · simp at h

theorem locationName_val (env : Env) (o : Option El) (i : String) (σ : Sem) :
    Sem.locationName (nameOf env o) (some i) σ = (.ok ((nameOf env o).getD ("_" ++ i)), σ) := by
  unfold Sem.locationName
  cases h : nameOf env o with
  | none => rfl
  | some id => simp [nameOf_not_isempty env o id h]

theorem semName_state (env : Env) (o : Option El) (σ : Sem) :
    ∃ σ1, semName env o σ = (.ok (nameOf env o), σ1) ∧ σ1.locations = σ.locations
      ∧ σ1.log = σ.log := by
  unfold UTAP.semName nameOf
  cases (found o).bind El.text with
  | none => exact ⟨σ, rfl, rfl, rfl⟩
  | some name =>
    simp only
    cases symbol (some name) with
    | error str => exact ⟨_, rfl, rfl, rfl⟩
    | ok id =>
      simp only
      by_cases hk : (!env.isKeyword id (SYNTAX_OLD ||| SYNTAX_PROPERTY)) = true
      · simp only [hk, if_true]
        exact ⟨σ, rfl, rfl, rfl⟩
      · simp only [hk, if_false]
        exact ⟨_, rfl, rfl, rfl⟩

theorem labelText_state (env : Env) (k text : String) (σ : Sem) :
    ∃ σ1 pre, Sem.labelText env (some k) text σ = (.ok (), σ1) ∧ σ1.locations = σ.locations
      ∧ σ1.log = σ.log ++ pre ∧ ∀ c ∈ pre, c.isParse = true := by
  unfold Sem.labelText
  simp only
  split
  · exact ⟨_, [_], rfl, rfl, rfl, by simp [Call.isParse]⟩
  · split
    · exact ⟨_, [_], rfl, rfl, rfl, by simp [Call.isParse]⟩
    · split
      · exact ⟨_, [_], rfl, rfl, rfl, by simp [Call.isParse]⟩
      · split
        · exact ⟨_, [_], rfl, rfl, rfl, by simp [Call.isParse]⟩
        · exact ⟨σ, [], rfl, rfl, by simp, by simp⟩

theorem semLabel_state (env : Env) (e : El)
    (hk : e.isEmpty = false → e.text ≠ none → e.attrs.lookup "kind" ≠ none) (σ : Sem) :
    ∃ v σ1 pre, semLabel env e σ = (.ok v, σ1) ∧ σ1.locations = σ.locations
      ∧ σ1.log = σ.log ++ pre ∧ ∀ c ∈ pre, c.isParse = true := by
  unfold UTAP.semLabel
  cases he : e.isEmpty with
  | true => exact ⟨false, σ, [], by simp [found, he], rfl, by simp, by simp⟩
  | false =>
    simp only [found, he, Bool.false_eq_true, if_false]
    cases ht : e.text with
    | none => exact ⟨true, σ, [], rfl, rfl, by simp, by simp⟩
    | some text =>
      simp only
      cases hkind : e.attrs.lookup "kind" with
      | none => exact absurd hkind (hk he (by simp [ht]))
      | some k =>
        obtain ⟨σ1, pre, h1, h2, h3, h4⟩ := labelText_state env k text σ
        exact ⟨true, σ1, pre, by rw [StM.bind_ok h1]; rfl, h2, h3, h4⟩

theorem labels_state (env : Env) (labels : List El) (hk : LabelKinds labels) (σ : Sem) :
    ∃ σ1 pre, Sem.forEach (semLabel env) labels σ = (.ok (), σ1)
      ∧ σ1.locations = σ.locations ∧ σ1.log = σ.log ++ pre
      ∧ ∀ c ∈ pre, c.isParse = true := by
  induction labels generalizing σ with
  | nil => exact ⟨σ, [], rfl, rfl, by simp, by simp⟩
  | cons e l ih =>
    obtain ⟨v, σ1, pre1, h1, h2, h3, h4⟩ :=
      semLabel_state env e (hk e (List.mem_cons_self _ _)) σ
    obtain ⟨σ2, pre2, g1, g2, g3, g4⟩ :=
      ih (fun e1 he1 => hk e1 (List.mem_cons_of_mem _ he1)) σ1
    refine ⟨σ2, pre1 ++ pre2, ?_, g2.trans h2, ?_, ?_⟩
    · simp only [Sem.forEach]
      rw [StM.bind_ok h1]
      exact g1
    · rw [g3, h3, List.append_assoc]
    · intro c hc
      rcases List.mem_append.mp hc with h | h
      · exact h4 c h
      · exact g4 c h

theorem lookup_map_update (l : List (Option String × String)) (i name : String)
    (ha : l.any (fun kv => kv.1 = some i) = true) :
    (l.map fun kv => if kv.1 = some i then (kv.1, name) else kv).lookup (some i)
      = some name := by
  induction l with
  | nil => simp at ha
  | cons kv l ih =>
    obtain ⟨k, v⟩ := kv
    by_cases hkv : k = some i
    · subst hkv
      rw [List.map_cons, if_pos rfl, List.lookup_cons]
      simp
    · have hne : (some i == k) = false := by
        simp only [beq_eq_false_iff_ne, ne_eq]
        exact fun h => hkv h.symm
      simp only [List.any_cons, hkv, decide_False, Bool.false_or] at ha
      rw [List.map_cons, if_neg hkv, List.lookup_cons, hne]
      exact ih ha

theorem lookup_append_new (l : List (Option String × String)) (i name : String)
    (ha : l.any (fun kv => kv.1 = some i) = false) :
    (l ++ [(some i, name)]).lookup (some i) = some name := by
  induction l with
  | nil => simp [List.lookup]
  | cons kv l ih =>
    simp only [List.any_cons, Bool.or_eq_false_iff, decide_eq_false_iff_not] at ha
    have hne : (some i == kv.1) = false := by
      simp only [beq_eq_false_iff_ne, ne_eq]
      exact fun h => ha.1 h.symm
    simp only [List.cons_append, List.lookup, hne]
    exact ih ha.2

theorem setLocation_state (i name : String) (σ : Sem) (hk : KeysSet σ) :
    ∃ σ1, Sem.setLocation (some i) name σ = (.ok (), σ1)
      ∧ σ1.locations.lookup (some i) = some name ∧ σ1.log = σ.log := by
  have hk1 : σ.locations.any (fun kv => kv.1 = none) = false := by
    simp only [List.any_eq_false, decide_eq_true_eq]
    exact fun kv hkv => hk kv hkv
  unfold Sem.setLocation
  by_cases he : σ.locations = []
  · simp only [he, if_true]
    exact ⟨_, rfl, by simp [List.lookup], rfl⟩
  · simp only [he, if_false, hk1, Bool.false_eq_true, or_false, reduceCtorEq]
    cases ha : σ.locations.any (fun kv => kv.1 = some i) with
    | true =>
      simp only [if_true]
      exact ⟨_, rfl, lookup_map_update _ i name ha, rfl⟩
    | false =>
      simp only [Bool.false_eq_true, if_false]
      exact ⟨_, rfl, lookup_append_new _ i name ha, rfl⟩

theorem notify_state (env : Env) (c : Call) (σ : Sem) :
    ∃ o σ1, Sem.notify env c σ = (o, σ1) ∧ o.caught ∧ σ1.locations = σ.locations
      ∧ σ1.log = σ.log ++ [c] := by
  unfold Sem.notify
  split
  · exact ⟨_, _, rfl, trivial, rfl, rfl⟩
  · exact ⟨_, _, rfl, trivial, rfl, rfl⟩

theorem caught_finish (body : StM Sem Unit) (σ σ5 : Sem) (o : Outcome Unit)
    (h : body σ = (o, σ5)) (hc : o.caught) :
    ∃ σ6, (do
        StM.tryCatch body (fun what => Sem.handleError what)
        pure true : StM Sem Bool) σ = (.ok true, σ6)
      ∧ σ6.locations = σ5.locations ∧ σ6.log = σ5.log := by
  cases o with
  | ok a =>
    refine ⟨σ5, ?_, rfl, rfl⟩
    have h1 : StM.tryCatch body (fun what => Sem.handleError what) σ = (.ok (), σ5) := by
      simp [StM.tryCatch, h]
    rw [StM.bind_ok h1]
    rfl
  | typeException e =>
    refine ⟨{ σ5 with msgs := σ5.msgs ++ [e] }, ?_, rfl, rfl⟩
    have h1 : StM.tryCatch body (fun what => Sem.handleError what) σ
        = (.ok (), { σ5 with msgs := σ5.msgs ++ [e] }) := by
      simp [StM.tryCatch, h, Sem.handleError]
    rw [StM.bind_ok h1]
    rfl
  | fatal c => exact absurd hc (by simp [Outcome.caught])
  | crash => exact absurd hc (by simp [Outcome.caught])
  | timeout => exact absurd hc (by simp [Outcome.caught])

/-- The calls of `location` after `procState`. -/
theorem flags_state (env : Env) (nm : String) (committed urgent : Bool) (σ : Sem) :
    ∃ o σ1 post, (do
        if committed then Sem.notify env (Call.procStateCommit nm) else pure ()
        if urgent then Sem.notify env (Call.procStateUrgent nm) else pure () : StM Sem Unit) σ
        = (o, σ1) ∧ o.caught ∧ σ1.locations = σ.locations ∧ σ1.log = σ.log ++ post
      ∧ ∀ c ∈ post, c = Call.procStateCommit nm ∨ c = Call.procStateUrgent nm := by
  obtain ⟨o1, σ1, h1, h2, h3, h4⟩ := notify_state env (Call.procStateCommit nm) σ
  cases committed with
  | false =>
    simp only [Bool.false_eq_true, if_false, StM.pure_bind]
    cases urgent with
    | false => exact ⟨_, σ, [], rfl, trivial, rfl, by simp, by simp⟩
    | true =>
      obtain ⟨o2, σ2, g1, g2, g3, g4⟩ := notify_state env (Call.procStateUrgent nm) σ
      exact ⟨o2, σ2, [_], g1, g2, g3, g4, by simp⟩
  | true =>
    simp only [if_true]
    cases o1 with
    | ok a =>
      rw [StM.bind_ok h1]
      cases urgent with
      | false =>
        exact ⟨_, σ1, [_], rfl, trivial, h3, h4, by simp⟩
      | true =>
        obtain ⟨o2, σ2, g1, g2, g3, g4⟩ := notify_state env (Call.procStateUrgent nm) σ1
        refine ⟨o2, σ2, [Call.procStateCommit nm, Call.procStateUrgent nm], g1, g2,
          g3.trans h3, ?_, by simp⟩
        rw [g4, h4]
        simp
    | typeException e =>
      refine ⟨.typeException e, σ1, [_], ?_, trivial, h3, h4, by simp⟩
      simp [StM.bind_apply, StM.andThen, h1]
    | fatal c => exact absurd h2 (by simp [Outcome.caught])
    | crash => exact absurd h2 (by simp [Outcome.caught])
    | timeout => exact absurd h2 (by simp [Outcome.caught])

/-- What `location` does on a location with an id, in a map without null
keys, when every label with a text has a kind. -/
theorem semLocation_named (env : Env) (l : LocationD) (i : String)
    (hid : l.el.attrs.lookup "id" = some i) (hkinds : LabelKinds l.labels) (σ : Sem)
    (hk : KeysSet σ) :
    ∃ σ6 pre post, semLocation env l σ = (.ok true, σ6)
      ∧ σ6.locations.lookup (some i) = some (locationNameOf env l i)
      ∧ σ6.log = σ.log ++ pre ++ Call.procState (locationNameOf env l i) (anyLabel l.labels)
          :: post
      ∧ (∀ c ∈ pre, c.isParse = true)
      ∧ ∀ c ∈ post, c = Call.procStateCommit (locationNameOf env l i)
          ∨ c = Call.procStateUrgent (locationNameOf env l i) := by
  obtain ⟨σ1, h1, h1a, h1b⟩ := semName_state env l.name σ
  obtain ⟨σ2, pre, h2, h2a, h2b, h2c⟩ := labels_state env l.labels hkinds σ1
  have h3 := locationName_val env l.name i σ2
  have hk2 : KeysSet σ2 := by
    unfold KeysSet
    rw [h2a, h1a]
    exact hk
  obtain ⟨σ3, h4, h4a, h4b⟩ := setLocation_state i (locationNameOf env l i) σ2 hk2
  obtain ⟨o4, σ4, h5, h5a, h5b, h5c⟩ :=
    notify_state env (Call.procState (locationNameOf env l i) (anyLabel l.labels)) σ3
  have hlog4 : σ4.log = σ.log ++ pre
      ++ [Call.procState (locationNameOf env l i) (anyLabel l.labels)] := by
    rw [h5c, h4b, h2b, h1b]
  have hloc4 : σ4.locations.lookup (some i) = some (locationNameOf env l i) := by
    rw [h5b]
    exact h4a
  have hbody : ∃ o σ5 post, (do
        let l_name ← semName env l.name
        Sem.forEach (semLabel env) l.labels
        let l_name ← Sem.locationName l_name (l.el.attrs.lookup "id")
        Sem.setLocation (l.el.attrs.lookup "id") l_name
        Sem.notify env (Call.procState l_name (anyLabel l.labels))
        if l.committed.isSome then Sem.notify env (Call.procStateCommit l_name) else pure ()
        if l.urgent.isSome then Sem.notify env (Call.procStateUrgent l_name) else pure ()
          : StM Sem Unit) σ = (o, σ5) ∧ o.caught
      ∧ σ5.locations.lookup (some i) = some (locationNameOf env l i)
      ∧ σ5.log = σ.log ++ pre ++ Call.procState (locationNameOf env l i) (anyLabel l.labels)
          :: post
      ∧ ∀ c ∈ post, c = Call.procStateCommit (locationNameOf env l i)
          ∨ c = Call.procStateUrgent (locationNameOf env l i) := by
    rw [StM.bind_ok h1, StM.bind_ok h2, hid, StM.bind_ok h3]
    rw [show (nameOf env l.name).getD ("_" ++ i) = locationNameOf env l i from rfl]
    rw [StM.bind_ok h4]
    cases o4 with
    | ok a =>
      rw [StM.bind_ok h5]
      obtain ⟨o, σ5, post, g1, g2, g3, g4, g5⟩ :=
        flags_state env (locationNameOf env l i) l.committed.isSome l.urgent.isSome σ4
      refine ⟨o, σ5, post, g1, g2, by rw [g3]; exact hloc4, ?_, g5⟩
      rw [g4, hlog4]
      simp
    | typeException e =>
      refine ⟨.typeException e, σ4, [], ?_, trivial, hloc4, by rw [hlog4], by simp⟩
      simp [StM.bind_apply, StM.andThen, h5]
    | fatal c => exact absurd h5a (by simp [Outcome.caught])
    | crash => exact absurd h5a (by simp [Outcome.caught])
    | timeout => exact absurd h5a (by simp [Outcome.caught])
  obtain ⟨o, σ5, post, g1, g2, g3, g4, g5⟩ := hbody
  obtain ⟨σ6, f1, f2, f3⟩ := caught_finish _ σ σ5 o g1 g2
  exact ⟨σ6, pre, post, f1, by rw [f2]; exact g3, by rw [f3]; exact g4, h2c, g5⟩

theorem symbol_blank (text : String) (h : isempty (some text) = true) :
    symbol (some text) = .error "Identifier expected" := by
  simp only [isempty, List.all_eq_true] at h
  have h1 : text.data.dropWhile isspace = [] := by
    rw [List.dropWhile_eq_nil_iff]
    exact h
  simp [symbol, h1]

theorem symbol_identifier (id : String) (h : identifier id = true) : symbol (some id) = .ok id := by
  unfold identifier at h
  cases hd : id.data with
  | nil => simp [hd] at h
  | cons c cs =>
    simp only [hd, Bool.and_eq_true, List.all_eq_true] at h
    obtain ⟨hc, hcs⟩ := h
    have hall : ∀ x ∈ c :: cs, isIdChr x = true := by
      intro x hx
      rcases List.mem_cons.mp hx with h | h
      · rw [h]
        exact isAlpha_isIdChr c hc
      · exact hcs x h
    have h1 : (c :: cs).dropWhile isspace = c :: cs := by
      simp [List.dropWhile, isAlpha_not_isspace c hc]
    have h2 : (c :: cs).dropWhile isIdChr = [] := by
      rw [List.dropWhile_eq_nil_iff]
      exact hall
    have h3 : (c :: cs).takeWhile isIdChr = c :: cs := by
      rw [List.takeWhile_eq_self_iff]
      exact hall
    have h4 : String.mk (c :: cs) = id := by
      rw [← hd]
    simp only [symbol, hd, h1, hc, Bool.not_true, Bool.false_eq_true, if_false, h2,
      List.dropWhile_nil, ne_eq, not_true_eq_false, h3, h4]

/-- C5: `location` on a location element with id `i` (read from a good
state, in a map without null keys, when every label with a text has a kind)
returns true, registers `i` under the name `locationNameOf` and passes that
name to `procState`, the only call it makes apart from calls of the embedded
grammar before it and `procStateCommit` and `procStateUrgent` with the same
name after it.  That name is `"_"` followed by `i` when `name` returns
nothing, in particular when the `name` element is absent or its text is
blank, and it is the text of the `name` element, unchanged, when this is an
identifier and not a keyword. -/
theorem C5_location_name (env : Env) (fuel : Nat) (l : LocationD) (hl : l.ok) (i : String)
    (hid : l.el.attrs.lookup "id" = some i) (hkinds : LabelKinds l.labels)
    (tail : List Node)
    (hF : Follows [TAG_LOCATION, TAG_INIT, TAG_TRANSITION, TAG_TEMPLATE, TAG_INSTANTIATION,
      TAG_SYSTEM] tail)
    (s : XMLReader) (hG : Good fuel s) (hP : Pending none s (l.render ++ tail))
    (hk : ∀ kv ∈ s.locations, kv.1 ≠ none) :
    ((XMLReader.location env fuel s).1 = .ok true
      ∧ (XMLReader.location env fuel s).2.locations.lookup (some i)
          = some (locationNameOf env l i)
      ∧ ∃ pre post, (XMLReader.location env fuel s).2.log
            = s.log ++ pre ++ Call.procState (locationNameOf env l i) (anyLabel l.labels) :: post
          ∧ (∀ c ∈ pre, c.isParse = true)
          ∧ ∀ c ∈ post, c = Call.procStateCommit (locationNameOf env l i)
              ∨ c = Call.procStateUrgent (locationNameOf env l i))
    ∧ (nameOf env l.name = none → locationNameOf env l i = "_" ++ i)
    ∧ (l.name = none → locationNameOf env l i = "_" ++ i)
    ∧ (∀ e text, l.name = some e → e.text = some text → isempty (some text) = true →
        locationNameOf env l i = "_" ++ i)
    ∧ (∀ e id, l.name = some e → e.isEmpty = false → e.text = some id → identifier id = true →
        env.isKeyword id (SYNTAX_OLD ||| SYNTAX_PROPERTY) = false →
        locationNameOf env l i = id) := by
  refine ⟨?_, ?_, ?_, ?_, ?_⟩
  · obtain ⟨h1, h2, _⟩ := location_parses env fuel l hl tail hF s hG hP
    obtain ⟨σ6, pre, post, g1, g2, g3, g4, g5⟩ :=
      semLocation_named env l i hid hkinds s.abs hk
    rw [g1] at h1 h2
    have hloc : (XMLReader.location env fuel s).2.locations = σ6.locations :=
      congrArg Sem.locations h2
    have hlog : (XMLReader.location env fuel s).2.log = σ6.log := congrArg Sem.log h2
    exact ⟨h1, by rw [hloc]; exact g2, pre, post, by rw [hlog]; exact g3, g4, g5⟩
  · intro h
    simp [locationNameOf, h]
  · intro h
    simp [locationNameOf, nameOf, found, h]
  · intro e text he ht hb
    have : nameOf env (some e) = none := by
      unfold nameOf
      cases hem : e.isEmpty with
      | true => simp [found, hem]
      | false => simp [found, hem, ht, symbol_blank text hb]
    simp [locationNameOf, he, this]
  · intro e id he hem ht hi hkw
    have : nameOf env (some e) = some id := by
      simp [nameOf, found, hem, ht, symbol_identifier id hi, hkw]
    simp [locationNameOf, he, this]

theorem C5_location_name_witness :
    (namedLocation.ok ∧ LabelKinds namedLocation.labels
      ∧ Good 10 (XMLReader.new (namedLocation.render ++ [emptyTag "init" [("ref", "a")]]))
      ∧ Pending none (XMLReader.new (namedLocation.render ++ [emptyTag "init" [("ref", "a")]]))
          (namedLocation.render ++ [emptyTag "init" [("ref", "a")]]))
    ∧ (XMLReader.location acceptAll 10
          (XMLReader.new (namedLocation.render ++ [emptyTag "init" [("ref", "a")]]))).2.locations.lookup
        (some "a") = some "idle" :=
  have hG : Good 10 (XMLReader.new (namedLocation.render ++ [emptyTag "init" [("ref", "a")]])) :=
    ⟨⟨[], by decide, by simp [PathOK, pendingPop, XMLReader.new, Path.new]⟩, by decide⟩
  have hP : Pending none
      (XMLReader.new (namedLocation.render ++ [emptyTag "init" [("ref", "a")]]))
      (namedLocation.render ++ [emptyTag "init" [("ref", "a")]]) :=
    ⟨[], rfl, by simp⟩
  ⟨⟨by decide, by decide, hG, hP⟩,
    (C5_location_name acceptAll 10 namedLocation (by decide) "a" rfl (by decide)
      [emptyTag "init" [("ref", "a")]]
      ⟨emptyTag "init" [("ref", "a")], [], TAG_INIT, rfl, rfl, rfl, by simp⟩
      (XMLReader.new (namedLocation.render ++ [emptyTag "init" [("ref", "a")]])) hG hP
      (by simp [XMLReader.new])).1.2.1.trans (by decide!)⟩

/-- C7 fails for a label of a location.  The documents differ only in the
label `<label kind="comments">hi</label>` of the location: with the label
`procState` is called with the flag true, without it with the flag false.
(The same label in the transition changes nothing.) -/
theorem C7_unknown_kind_sets_flag :
    absRun (parseXMLBuffer acceptAll 40 (some (docOf [commentedTemplate]).render))
        = (.ok 0, ⟨[(some "a", "_a")],
            [Call.procBegin (some "T") 0, Call.procState "_a" true, Call.procStateInit "_a",
              Call.procEdge "_a" "_a", Call.procEnd, Call.parseXTA "system T;" true S_SYSTEM,
              Call.done], []⟩)
      ∧ absRun (parseXMLBuffer acceptAll 40 (some (docOf [loopTemplate "T" "a"]).render))
        = (.ok 0, ⟨[(some "a", "_a")],
            [Call.procBegin (some "T") 0, Call.procState "_a" false, Call.procStateInit "_a",
              Call.procEdge "_a" "_a", Call.procEnd, Call.parseXTA "system T;" true S_SYSTEM,
              Call.done], []⟩)
      ∧ absRun (parseXMLBuffer acceptAll 40 (some (docOf [commentedTransition]).render))
        = absRun (parseXMLBuffer acceptAll 40 (some (docOf [loopTemplate "T" "a"]).render)) := by
  decide!

/-- C8 fails: `location` on
`<location id="a"><label kind="comments">hi</label></location>`, which has
no label of kind `invariant`, calls `procState` with the flag true. -/
theorem C8_flag_without_invariant :
    (∀ e ∈ commentedLocation.labels, e.attrs.lookup "kind" ≠ some "invariant")
      ∧ (XMLReader.location acceptAll 10
          (XMLReader.new (commentedLocation.render ++ [emptyTag "init" [("ref", "a")]]))).1
        = .ok true
      ∧ (XMLReader.location acceptAll 10
          (XMLReader.new (commentedLocation.render ++ [emptyTag "init" [("ref", "a")]]))).2.log
        = [Call.procState "_a" true] := by
  decide!

/-! ### The ordinal of a sibling -/

theorem readPop_settled (s : XMLReader) (F : List (List tag_t)) (hS : Settled s F) :
    XMLReader.readPop s = (.ok (), { s with path := Path.mk F }) := by
  obtain ⟨cur, rest, locs, path, log, errs⟩ := s
  rcases hS with ⟨h1, h2⟩ | ⟨n, c, t, back, below, h1, h2, h3, h4, h5, h6⟩
  · simp only at h1 h2
    obtain ⟨frames⟩ := path
    simp only at h2
    subst h2
    have hc : ¬ (XMLReader.getNodeType ⟨cur, rest, locs, ⟨frames⟩, log, errs⟩ = END_ELEMENT
        ∨ (XMLReader.getNodeType ⟨cur, rest, locs, ⟨frames⟩, log, errs⟩ = ELEMENT
          ∧ XMLReader.isEmpty ⟨cur, rest, locs, ⟨frames⟩, log, errs⟩ = true)) := by
      cases cur with
      | none => simp [XMLReader.getNodeType]
      | some n =>
        intro h
        simp only [XMLReader.getNodeType, XMLReader.isEmpty, Bool.and_eq_true,
          decide_eq_true_eq] at h
        have : n.type = END_ELEMENT ∨ (n.type = ELEMENT ∧ n.isEmpty = true) := by
          rcases h with h | ⟨_, h⟩
          · exact Or.inl h
          · exact Or.inr h
        simp [pendingPop, this] at h1
    unfold XMLReader.readPop
    rw [if_neg hc]
  · simp only at h1 h4
    obtain ⟨frames⟩ := path
    simp only at h4
    subst h1 h4 h5
    have hc : XMLReader.getNodeType ⟨some n, rest, locs, ⟨c :: back :: below⟩, log, errs⟩
          = END_ELEMENT
        ∨ (XMLReader.getNodeType ⟨some n, rest, locs, ⟨c :: back :: below⟩, log, errs⟩ = ELEMENT
          ∧ XMLReader.isEmpty ⟨some n, rest, locs, ⟨c :: back :: below⟩, log, errs⟩ = true) := by
      simp only [XMLReader.getNodeType, XMLReader.isEmpty, Bool.and_eq_true, decide_eq_true_eq]
      rcases h2 with h | h
      · exact Or.inl h
      · exact Or.inr ⟨h.1, h⟩
    unfold XMLReader.readPop
    rw [if_pos hc]
    simp [StM.bind_apply, StM.andThen, XMLReader.popPath, Path.pop, h6, XMLReader.getElement, h3]

/-- One `read` from a settled state. -/
theorem read_settled (s : XMLReader) (top : List tag_t) (below : List (List tag_t))
    (hS : Settled s (top :: below)) (n : Node) (r : List Node) (hr : s.rest = n :: r) :
    (n.type ≠ ELEMENT →
      ∃ s1, XMLReader.read s = (.ok (), s1) ∧ s1.cur = some n ∧ s1.rest = r
        ∧ s1.path.path = top :: below)
    ∧ (∀ t, n.type = ELEMENT → in_word_set n.localName = some t →
      ∃ s1, XMLReader.read s = (.ok (), s1) ∧ s1.cur = some n ∧ s1.rest = r
        ∧ s1.path.path = [] :: (top ++ [t]) :: below) := by
  have hpop := readPop_settled s _ hS
  obtain ⟨cur, rest, locs, path, log, errs⟩ := s
  simp only at hr hpop
  subst hr
  constructor
  · intro hne
    refine ⟨⟨some n, r, locs, ⟨top :: below⟩, log, errs⟩, ?_, rfl, rfl, rfl⟩
    simp [XMLReader.read, StM.bind_apply, StM.andThen, hpop, XMLReader.xmlTextReaderRead,
      XMLReader.readPush, XMLReader.getNodeType, hne]
  · intro t hel ht
    refine ⟨⟨some n, r, locs, ⟨[] :: (top ++ [t]) :: below⟩, log, errs⟩, ?_, rfl, rfl, rfl⟩
    simp [XMLReader.read, StM.bind_apply, StM.andThen, hpop, XMLReader.xmlTextReaderRead,
      XMLReader.readPush, XMLReader.getNodeType, hel, XMLReader.getElement, ht, Path.push]

theorem readN_succ (n : Nat) (s s1 : XMLReader) (h : XMLReader.read s = (.ok (), s1)) :
    XMLReader.readN (n + 1) s = XMLReader.readN n s1 := by
  simp only [XMLReader.readN]
  exact StM.bind_ok h

theorem readN_add (a b : Nat) (s s1 : XMLReader) (h : XMLReader.readN a s = (.ok (), s1)) :
    XMLReader.readN (a + b) s = XMLReader.readN b s1 := by
  induction a generalizing s with
  | zero =>
    simp only [XMLReader.readN, StM.pure_apply, Prod.mk.injEq, true_and] at h
    subst h
    simp
  | succ a ih =>
    rw [show a + 1 + b = (a + b) + 1 by omega]
    simp only [XMLReader.readN] at h ⊢
    obtain ⟨v, s2, h1, h2⟩ := bind_ok_inv h
    rw [StM.bind_ok h1]
    exact ih s2 h2

/-- Reading through a sequence of complete elements adds their tags to the
innermost frame. -/
theorem readN_siblings (X : List Node) (ts : List tag_t) (hX : Siblings X ts) :
    ∀ (s : XMLReader) (top : List tag_t) (below : List (List tag_t)) (r : List Node),
      Settled s (top :: below) → s.rest = X ++ r →
      ∃ s1, XMLReader.readN X.length s = (.ok (), s1) ∧ s1.rest = r
        ∧ Settled s1 ((top ++ ts) :: below) := by
  induction hX with
  | nil =>
    intro s top below r hS hr
    exact ⟨s, rfl, by simpa using hr, by simpa using hS⟩
  | other n X ts h1 h2 _ ih =>
    intro s top below r hS hr
    obtain ⟨s0, hread, c1, c2, c3⟩ := (read_settled s top below hS n (X ++ r) hr).1 h1
    obtain ⟨s1, g1, g2, g3⟩ := ih s0 top below r
      (Or.inl ⟨by rw [c1]; simp [pendingPop, h1, h2], c3⟩) c2
    exact ⟨s1, by rw [List.length_cons, readN_succ _ _ _ hread]; exact g1, g2, g3⟩
  | empty n t X ts h1 h2 h3 _ ih =>
    intro s top below r hS hr
    obtain ⟨s0, hread, c1, c2, c3⟩ := (read_settled s top below hS n (X ++ r) hr).2 t h1 h3
    obtain ⟨s1, g1, g2, g3⟩ := ih s0 (top ++ [t]) below r
      (Or.inr ⟨n, [], t, top ++ [t], below, c1, Or.inr ⟨h1, h2⟩, h3, c3, rfl, by simp⟩) c2
    refine ⟨s1, by rw [List.length_cons, readN_succ _ _ _ hread]; exact g1, g2, ?_⟩
    simpa using g3
  | elem n e t C cs X ts h1 h2 h3 h4 h5 _ _ ihC ihX =>
    intro s top below r hS hr
    have hr1 : s.rest = n :: (C ++ (e :: (X ++ r))) := by simpa using hr
    obtain ⟨s0, hread, c1, c2, c3⟩ := (read_settled s top below hS n _ hr1).2 t h1 h3
    obtain ⟨s1, g1, g2, g3⟩ := ihC s0 [] ((top ++ [t]) :: below) (e :: (X ++ r))
      (Or.inl ⟨by rw [c1]; simp [pendingPop, h1, h2], c3⟩) c2
    have hne : e.type ≠ ELEMENT := by
      rw [h4]
      decide
    obtain ⟨s2, hread2, d1, d2, d3⟩ :=
      (read_settled s1 ([] ++ cs) ((top ++ [t]) :: below) g3 e (X ++ r) g2).1 hne
    obtain ⟨s3, f1, f2, f3⟩ := ihX s2 (top ++ [t]) below r
      (Or.inr ⟨e, [] ++ cs, t, top ++ [t], below, d1, Or.inl h4, by rw [h5]; exact h3, d3,
        rfl, by simp⟩) d2
    refine ⟨s3, ?_, f2, by simpa using f3⟩
    have hlen : (n :: (C ++ e :: X)).length = (C.length + (X.length + 1)) + 1 := by
      simp only [List.length_cons, List.length_append]
    rw [hlen, readN_succ _ _ _ hread, readN_add _ _ _ _ g1, readN_succ _ _ _ hread2]
    exact f1

theorem getFrom_append (A B : List (List tag_t)) (hA : ∀ f ∈ A, f ≠ []) :
    Path.getFrom (A ++ B) = Path.getFrom A ++ Path.getFrom B := by
  induction A with
  | nil => simp [Path.getFrom]
  | cons f A ih =>
    have hf : f ≠ [] := hA f (List.mem_cons_self _ _)
    obtain ⟨t, ht⟩ : ∃ t, f.getLast? = some t := by
      cases h : f.getLast? with
      | none => exact absurd (List.getLast?_eq_none_iff.mp h) hf
      | some t => exact ⟨t, rfl⟩
    simp only [List.cons_append, Path.getFrom, ht]
    rw [String.append_assoc]
    exact congrArg _ (ih (fun g hg => hA g (List.mem_cons_of_mem _ hg)))

/-- C9: let the current node be neither an end tag nor an empty element
(say, the start tag of the parent) and let `top`, the innermost frame of the
path, hold the tags of the children of the parent read so far.  If complete
elements with the tags `ts` lie ahead, followed by the start tag `n` of a
repeatable tag `t`, then reading up to `n` succeeds and `Path::get` then
renders the path of the parent followed by `/t[k]`, with `k` one more than
the number of the children with tag `t` before `n`: the `k`-th start of `t`
within the parent has ordinal `k`. -/
theorem C9_kth_start_renders_k (s : XMLReader) (top : List tag_t)
    (below : List (List tag_t)) (X : List Node) (ts : List tag_t) (n : Node) (r : List Node)
    (t : tag_t) (hcur : pendingPop s.cur = []) (hpath : s.path.path = top :: below)
    (hbelow : ∀ f ∈ below, f ≠ []) (hrest : s.rest = X ++ n :: r) (hX : Siblings X ts)
    (hn : n.type = ELEMENT) (ht : in_word_set n.localName = some t)
    (hrep : repeatable t = true) :
    ∃ s1, XMLReader.readN (X.length + 1) s = (.ok (), s1) ∧ s1.cur = some n
      ∧ s1.path.get = Path.getFrom below.reverse
          ++ ("/" ++ tagName t ++ "[" ++ toString ((top ++ ts).count t + 1) ++ "]") := by
  obtain ⟨s0, h1, h2, h3⟩ := readN_siblings X ts hX s top below (n :: r) (Or.inl ⟨hcur, hpath⟩)
    hrest
  obtain ⟨s1, hread, c1, _, c3⟩ := (read_settled s0 (top ++ ts) below h3 n r h2).2 t hn ht
  refine ⟨s1, ?_, c1, ?_⟩
  · rw [readN_add _ _ _ _ h1, readN_succ _ _ _ hread]
    rfl
  · have hrev : s1.path.path.reverse = below.reverse ++ [top ++ ts ++ [t], []] := by
      rw [c3]
      simp
    have hlast : (top ++ ts ++ [t]).getLast? = some t := by simp
    have hseg : Path.getFrom [top ++ ts ++ [t], []]
        = "/" ++ tagName t ++ "[" ++ toString ((top ++ ts).count t + 1) ++ "]" := by
      simp only [Path.getFrom, hlast, segment_eq_spec, specSegment, hrep, if_true,
        List.getLast?_nil, String.append_empty, List.count_append, List.count_singleton_self]
    unfold Path.get
    rw [hrev, getFrom_append _ _ (fun f hf => hbelow f (List.mem_reverse.mp hf)), hseg]

theorem C9_kth_start_renders_k_witness :
    (∃ s1, XMLReader.readN 1 atTemplate = (.ok (), s1)
        ∧ s1.cur = some (startTag "location" [("id", "a")])
        ∧ s1.path.get = "/nta/template[1]/location[1]")
    ∧ (∃ s1, XMLReader.readN 3 atTemplate = (.ok (), s1)
        ∧ s1.cur = some (emptyTag "location" [("id", "b")])
        ∧ s1.path.get = "/nta/template[1]/location[2]")
    ∧ (∃ s1, XMLReader.readN 5 atTemplate = (.ok (), s1)
        ∧ s1.cur = some (startTag "location" [("id", "c")])
        ∧ s1.path.get = "/nta/template[1]/location[3]") :=
  have h1 : Siblings [startTag "location" [("id", "a")], endTag "location"] [TAG_LOCATION] :=
    Siblings.elem (startTag "location" [("id", "a")]) (endTag "location") TAG_LOCATION [] [] []
      [] rfl rfl rfl rfl rfl Siblings.nil Siblings.nil
  have h2 : Siblings [startTag "location" [("id", "a")], endTag "location",
      emptyTag "location" [("id", "b")], textNode " "] [TAG_LOCATION, TAG_LOCATION] :=
    Siblings.elem (startTag "location" [("id", "a")]) (endTag "location") TAG_LOCATION [] []
      [emptyTag "location" [("id", "b")], textNode " "] [TAG_LOCATION] rfl rfl rfl rfl rfl
      Siblings.nil
      (Siblings.empty (emptyTag "location" [("id", "b")]) TAG_LOCATION [textNode " "] [] rfl rfl
        rfl (Siblings.other (textNode " ") [] [] (by decide) (by decide) Siblings.nil))
  ⟨(C9_kth_start_renders_k atTemplate [] [[TAG_TEMPLATE], [TAG_NTA]] [] []
      (startTag "location" [("id", "a")]) _ TAG_LOCATION rfl rfl (by decide) rfl Siblings.nil
      rfl rfl rfl).imp (fun _ h => ⟨h.1, h.2.1, h.2.2.trans (by decide!)⟩),
    (C9_kth_start_renders_k atTemplate [] [[TAG_TEMPLATE], [TAG_NTA]]
      [startTag "location" [("id", "a")], endTag "location"] [TAG_LOCATION]
      (emptyTag "location" [("id", "b")])
      [textNode " ", startTag "location" [("id", "c")]] TAG_LOCATION rfl rfl (by decide) rfl h1
      rfl rfl rfl).imp (fun _ h => ⟨h.1, h.2.1, h.2.2.trans (by decide!)⟩),
    (C9_kth_start_renders_k atTemplate [] [[TAG_TEMPLATE], [TAG_NTA]]
      [startTag "location" [("id", "a")], endTag "location",
        emptyTag "location" [("id", "b")], textNode " "] [TAG_LOCATION, TAG_LOCATION]
      (startTag "location" [("id", "c")]) [] TAG_LOCATION rfl rfl (by decide) rfl h2
      rfl rfl rfl).imp (fun _ h => ⟨h.1, h.2.1, h.2.2.trans (by decide!)⟩)⟩

/-! ### An unknown start tag that is read ends the parse -/

theorem StopsAtUnknown_of_rest {α : Type} (nodes : List Node) (m : M α)
    (h : ∀ s, (m s).2.rest = s.rest) : StopsAtUnknown nodes m := by
  intro s pre hpre hk
  exact ⟨pre, by rw [h s]; exact hpre, Or.inl hk⟩

theorem StopsAtUnknown_pure {α : Type} (nodes : List Node) (a : α) :
    StopsAtUnknown nodes (pure a : M α) :=
  StopsAtUnknown_of_rest nodes _ (fun _ => rfl)

theorem StopsAtUnknown_bind {α β : Type} {nodes : List Node} {m : M α} {f : α → M β}
    (hm : StopsAtUnknown nodes m) (hf : ∀ a, StopsAtUnknown nodes (f a)) :
    StopsAtUnknown nodes (m >>= f) := by
  intro s pre hpre hk
  obtain ⟨pre1, h1, h2⟩ := hm s pre hpre hk
  rcases hms : m s with ⟨o, s1⟩
  simp only [StM.bind_apply, StM.andThen, hms] at h1 h2 ⊢
  cases o with
  | ok a =>
    have hk1 : ∀ n ∈ pre1, ¬ Unknown n := by
      rcases h2 with h | h
      · exact h
      · cases h
    exact hf a s1 pre1 h1 hk1
  | fatal c =>
    refine ⟨pre1, h1, ?_⟩
    rcases h2 with h | h
    · exact Or.inl h
    · simp only [Outcome.fatal.injEq] at h
      exact Or.inr (by rw [h])
  | typeException e =>
    refine ⟨pre1, h1, Or.inl ?_⟩
    rcases h2 with h | h
    · exact h
    · cases h
  | crash =>
    refine ⟨pre1, h1, Or.inl ?_⟩
    rcases h2 with h | h
    · exact h
    · cases h
  | timeout =>
    refine ⟨pre1, h1, Or.inl ?_⟩
    rcases h2 with h | h
    · exact h
    · cases h

theorem StopsAtUnknown_tryCatch {nodes : List Node} {m : M Unit} {h : String → M Unit}
    (hm : StopsAtUnknown nodes m) (hh : ∀ msg, StopsAtUnknown nodes (h msg)) :
    StopsAtUnknown nodes (StM.tryCatch m h) := by
  intro s pre hpre hk
  obtain ⟨pre1, h1, h2⟩ := hm s pre hpre hk
  rcases hms : m s with ⟨o, s1⟩
  simp only [StM.tryCatch, hms] at h1 h2 ⊢
  cases o with
  | typeException e =>
    have hk1 : ∀ n ∈ pre1, ¬ Unknown n := by
      rcases h2 with h | h
      · exact h
      · cases h
    exact hh e s1 pre1 h1 hk1
  | ok a => exact ⟨pre1, h1, h2⟩
  | fatal c => exact ⟨pre1, h1, h2⟩
  | crash => exact ⟨pre1, h1, h2⟩
  | timeout => exact ⟨pre1, h1, h2⟩

theorem StopsAtUnknown_ite {α : Type} {nodes : List Node} {c : Prop} [Decidable c]
    {m1 m2 : M α} (h1 : StopsAtUnknown nodes m1) (h2 : StopsAtUnknown nodes m2) :
    StopsAtUnknown nodes (if c then m1 else m2) := by
  by_cases hc : c <;> simp [hc, h1, h2]

theorem StopsAtUnknown_throwInt {α : Type} (nodes : List Node) (c : Int) :
    StopsAtUnknown nodes (StM.throwInt c : M α) :=
  StopsAtUnknown_of_rest nodes _ (fun _ => rfl)

theorem StopsAtUnknown_crashed {α : Type} (nodes : List Node) :
    StopsAtUnknown nodes (StM.crashed : M α) :=
  StopsAtUnknown_of_rest nodes _ (fun _ => rfl)

theorem StopsAtUnknown_whileLoop {β : Type} {nodes : List Node} (cond : M Bool)
    (hc : StopsAtUnknown nodes cond) (body : β → β) (fuel : Nat) (b : β) :
    StopsAtUnknown nodes (StM.whileLoop fuel cond body b) := by
  induction fuel generalizing b with
  | zero => exact StopsAtUnknown_of_rest nodes _ (fun _ => rfl)
  | succ fuel ih =>
    simp only [StM.whileLoop]
    exact StopsAtUnknown_bind hc (fun c => StopsAtUnknown_ite (ih _) (StopsAtUnknown_pure nodes _))

theorem StopsAtUnknown_popPath (nodes : List Node) : StopsAtUnknown nodes XMLReader.popPath := by
  refine StopsAtUnknown_of_rest nodes _ (fun s => ?_)
  simp only [XMLReader.popPath]
  split <;> rfl

theorem StopsAtUnknown_getElement (nodes : List Node) :
    StopsAtUnknown nodes XMLReader.getElement := by
  refine StopsAtUnknown_of_rest nodes _ (fun s => ?_)
  simp only [XMLReader.getElement]
  split
  · rfl
  · split <;> rfl

theorem StopsAtUnknown_readPop (nodes : List Node) : StopsAtUnknown nodes XMLReader.readPop := by
  intro s pre hpre hk
  unfold XMLReader.readPop
  split
  · exact StopsAtUnknown_bind (StopsAtUnknown_popPath nodes)
      (fun t => StopsAtUnknown_bind (StopsAtUnknown_getElement nodes)
        (fun e => StopsAtUnknown_ite (StopsAtUnknown_throwInt nodes _)
          (StopsAtUnknown_pure nodes _))) s pre hpre hk
  · exact ⟨pre, hpre, Or.inl hk⟩

/-- The method `read` throws -1 when the node it reads is a start tag with
an unknown name. -/
theorem StopsAtUnknown_read (nodes : List Node) : StopsAtUnknown nodes XMLReader.read := by
  unfold XMLReader.read
  refine StopsAtUnknown_bind (StopsAtUnknown_readPop nodes) (fun _ => ?_)
  intro s pre hpre hk
  obtain ⟨cur, rest, locs, path, log, errs⟩ := s
  simp only at hpre
  cases rest with
  | nil =>
    refine ⟨pre, ?_, Or.inl hk⟩
    simp [StM.bind_apply, StM.andThen, XMLReader.xmlTextReaderRead, StM.throwInt, hpre]
  | cons n r =>
    by_cases hel : n.type = ELEMENT
    · cases ht : in_word_set n.localName with
      | none =>
        refine ⟨pre ++ [n], ?_, Or.inr ?_⟩
        · simp [StM.bind_apply, StM.andThen, XMLReader.xmlTextReaderRead, XMLReader.readPush,
            XMLReader.getNodeType, hel, XMLReader.getElement, ht, hpre]
        · simp [StM.bind_apply, StM.andThen, XMLReader.xmlTextReaderRead, XMLReader.readPush,
            XMLReader.getNodeType, hel, XMLReader.getElement, ht]
      | some t =>
        refine ⟨pre ++ [n], ?_, Or.inl ?_⟩
        · simp [StM.bind_apply, StM.andThen, XMLReader.xmlTextReaderRead, XMLReader.readPush,
            XMLReader.getNodeType, hel, XMLReader.getElement, ht, hpre]
        · intro x hx
          rcases List.mem_append.mp hx with h | h
          · exact hk x h
          · simp only [List.mem_singleton] at h
            subst h
            intro hu
            rw [hu.2] at ht
            cases ht
    · refine ⟨pre ++ [n], ?_, Or.inl ?_⟩
      · simp [StM.bind_apply, StM.andThen, XMLReader.xmlTextReaderRead, XMLReader.readPush,
          XMLReader.getNodeType, hel, hpre]
      · intro x hx
        rcases List.mem_append.mp hx with h | h
        · exact hk x h
        · simp only [List.mem_singleton] at h
          subst h
          exact fun hu => hel hu.1

theorem StopsAtUnknown_begin (nodes : List Node) (fuel : Nat) (tag : tag_t) (skipEmpty : Bool) :
    StopsAtUnknown nodes (XMLReader.begin fuel tag skipEmpty) := by
  induction fuel with
  | zero => exact StopsAtUnknown_of_rest nodes _ (fun _ => rfl)
  | succ fuel ih =>
    intro s pre hpre hk
    unfold XMLReader.begin
    split
    · exact StopsAtUnknown_bind (StopsAtUnknown_read nodes) (fun _ => ih) s pre hpre hk
    · refine StopsAtUnknown_bind (StopsAtUnknown_getElement nodes) (fun e => ?_) s pre hpre hk
      refine StopsAtUnknown_ite (StopsAtUnknown_pure nodes _) ?_
      intro s1 pre1 hpre1 hk1
      simp only
      split
      · exact ⟨pre1, hpre1, Or.inl hk1⟩
      · exact StopsAtUnknown_bind (StopsAtUnknown_read nodes) (fun _ => ih) s1 pre1 hpre1 hk1

theorem StopsAtUnknown_getLocation (nodes : List Node) (id : Option String) :
    StopsAtUnknown nodes (XMLReader.getLocation id) := by
  refine StopsAtUnknown_of_rest nodes _ (fun s => ?_)
  simp only [XMLReader.getLocation]
  cases id with
  | none => rfl
  | some i =>
    simp only
    split
    · rfl
    · split <;> rfl

theorem StopsAtUnknown_setLocation (nodes : List Node) (id : Option String) (name : String) :
    StopsAtUnknown nodes (XMLReader.setLocation id name) := by
  refine StopsAtUnknown_of_rest nodes _ (fun s => ?_)
  simp only [XMLReader.setLocation]
  split
  · rfl
  · split
    · rfl
    · split <;> rfl

theorem StopsAtUnknown_handleError (nodes : List Node) (msg : String) :
    StopsAtUnknown nodes (XMLReader.handleError msg) :=
  StopsAtUnknown_of_rest nodes _ (fun _ => rfl)

theorem StopsAtUnknown_parse (nodes : List Node) (env : Env) (text : String)
    (part : xta_part_t) : StopsAtUnknown nodes (XMLReader.parse env text part) :=
  StopsAtUnknown_of_rest nodes _ (fun _ => rfl)

theorem StopsAtUnknown_notify (nodes : List Node) (env : Env) (c : Call) :
    StopsAtUnknown nodes (XMLReader.notify env c) := by
  refine StopsAtUnknown_of_rest nodes _ (fun s => ?_)
  simp only [XMLReader.notify]
  split <;> rfl

theorem StopsAtUnknown_labelText (nodes : List Node) (env : Env) (kind : Option String)
    (text : String) : StopsAtUnknown nodes (XMLReader.labelText env kind text) := by
  unfold XMLReader.labelText
  cases kind with
  | none => exact StopsAtUnknown_crashed nodes
  | some k =>
    simp only
    repeat' first
      | exact StopsAtUnknown_pure nodes _
      | exact StopsAtUnknown_bind (StopsAtUnknown_parse nodes env _ _)
          (fun _ => StopsAtUnknown_pure nodes _)
      | apply StopsAtUnknown_ite

theorem StopsAtUnknown_locationName (nodes : List Node) (l_name l_id : Option String) :
    StopsAtUnknown nodes (XMLReader.locationName l_name l_id) := by
  unfold XMLReader.locationName
  split
  · cases l_id with
    | none => exact StopsAtUnknown_crashed nodes
    | some i => exact StopsAtUnknown_pure nodes _
  · exact StopsAtUnknown_pure nodes _

theorem StopsAtUnknown_declaration (nodes : List Node) (env : Env) (fuel : Nat) :
    StopsAtUnknown nodes (XMLReader.declaration env fuel) := by
  unfold XMLReader.declaration
  refine StopsAtUnknown_bind (StopsAtUnknown_begin nodes _ _ _)
    (fun c => StopsAtUnknown_ite ?_ (StopsAtUnknown_pure nodes _))
  refine StopsAtUnknown_bind (StopsAtUnknown_read nodes) (fun _ => ?_)
  refine StopsAtUnknown_bind (StopsAtUnknown_of_rest nodes _ (fun _ => rfl))
    (fun x => StopsAtUnknown_ite ?_ (StopsAtUnknown_pure nodes _))
  exact StopsAtUnknown_bind (StopsAtUnknown_of_rest nodes _ (fun _ => rfl))
    (fun text => StopsAtUnknown_bind (StopsAtUnknown_parse nodes env _ _)
      (fun _ => StopsAtUnknown_pure nodes _))

theorem StopsAtUnknown_label (nodes : List Node) (env : Env) (fuel : Nat) :
    StopsAtUnknown nodes (XMLReader.label env fuel) := by
  unfold XMLReader.label
  refine StopsAtUnknown_bind (StopsAtUnknown_begin nodes _ _ _)
    (fun c => StopsAtUnknown_ite ?_ (StopsAtUnknown_pure nodes _))
  refine StopsAtUnknown_bind (StopsAtUnknown_of_rest nodes _ (fun _ => rfl)) (fun kind => ?_)
  refine StopsAtUnknown_bind (StopsAtUnknown_read nodes) (fun _ => ?_)
  refine StopsAtUnknown_bind (StopsAtUnknown_of_rest nodes _ (fun _ => rfl))
    (fun x => StopsAtUnknown_ite ?_ (StopsAtUnknown_pure nodes _))
  exact StopsAtUnknown_bind (StopsAtUnknown_of_rest nodes _ (fun _ => rfl))
    (fun text => StopsAtUnknown_bind (StopsAtUnknown_labelText nodes env _ _)
      (fun _ => StopsAtUnknown_pure nodes _))

theorem StopsAtUnknown_name (nodes : List Node) (env : Env) (fuel : Nat) :
    StopsAtUnknown nodes (XMLReader.name env fuel) := by
  unfold XMLReader.name
  refine StopsAtUnknown_bind (StopsAtUnknown_begin nodes _ _ _)
    (fun c => StopsAtUnknown_ite ?_ (StopsAtUnknown_pure nodes _))
  refine StopsAtUnknown_bind (StopsAtUnknown_read nodes) (fun _ => ?_)
  refine StopsAtUnknown_bind (StopsAtUnknown_of_rest nodes _ (fun _ => rfl))
    (fun x => StopsAtUnknown_ite ?_ (StopsAtUnknown_pure nodes _))
  refine StopsAtUnknown_bind (StopsAtUnknown_of_rest nodes _ (fun _ => rfl)) (fun text => ?_)
  split
  · exact StopsAtUnknown_ite (StopsAtUnknown_pure nodes _)
      (StopsAtUnknown_bind (StopsAtUnknown_handleError nodes _)
        (fun _ => StopsAtUnknown_pure nodes _))
  · exact StopsAtUnknown_bind (StopsAtUnknown_handleError nodes _)
      (fun _ => StopsAtUnknown_pure nodes _)

theorem StopsAtUnknown_committed (nodes : List Node) (fuel : Nat) :
    StopsAtUnknown nodes (XMLReader.committed fuel) := by
  unfold XMLReader.committed
  exact StopsAtUnknown_bind (StopsAtUnknown_begin nodes _ _ _)
    (fun c => StopsAtUnknown_ite
      (StopsAtUnknown_bind (StopsAtUnknown_read nodes) (fun _ => StopsAtUnknown_pure nodes _))
      (StopsAtUnknown_pure nodes _))

theorem StopsAtUnknown_urgent (nodes : List Node) (fuel : Nat) :
    StopsAtUnknown nodes (XMLReader.urgent fuel) := by
  unfold XMLReader.urgent
  exact StopsAtUnknown_bind (StopsAtUnknown_begin nodes _ _ _)
    (fun c => StopsAtUnknown_ite
      (StopsAtUnknown_bind (StopsAtUnknown_read nodes) (fun _ => StopsAtUnknown_pure nodes _))
      (StopsAtUnknown_pure nodes _))

theorem StopsAtUnknown_parameter (nodes : List Node) (env : Env) (fuel : Nat) :
    StopsAtUnknown nodes (XMLReader.parameter env fuel) := by
  unfold XMLReader.parameter
  refine StopsAtUnknown_bind (StopsAtUnknown_begin nodes _ _ _)
    (fun c => StopsAtUnknown_ite ?_ (StopsAtUnknown_pure nodes _))
  refine StopsAtUnknown_bind (StopsAtUnknown_read nodes) (fun _ => ?_)
  refine StopsAtUnknown_bind (StopsAtUnknown_of_rest nodes _ (fun _ => rfl))
    (fun x => StopsAtUnknown_ite ?_ (StopsAtUnknown_pure nodes _))
  exact StopsAtUnknown_bind (StopsAtUnknown_of_rest nodes _ (fun _ => rfl))
    (fun text => StopsAtUnknown_parse nodes env _ _)

theorem StopsAtUnknown_location (nodes : List Node) (env : Env) (fuel : Nat) :
    StopsAtUnknown nodes (XMLReader.location env fuel) := by
  unfold XMLReader.location
  refine StopsAtUnknown_bind (StopsAtUnknown_begin nodes _ _ _)
    (fun c => StopsAtUnknown_ite ?_ (StopsAtUnknown_pure nodes _))
  refine StopsAtUnknown_bind (StopsAtUnknown_tryCatch ?_
    (fun _ => StopsAtUnknown_handleError nodes _)) (fun _ => StopsAtUnknown_pure nodes _)
  refine StopsAtUnknown_bind (StopsAtUnknown_of_rest nodes _ (fun _ => rfl)) (fun l_id => ?_)
  refine StopsAtUnknown_bind (StopsAtUnknown_read nodes) (fun _ => ?_)
  refine StopsAtUnknown_bind (StopsAtUnknown_name nodes env fuel) (fun l_name => ?_)
  refine StopsAtUnknown_bind
    (StopsAtUnknown_whileLoop _ (StopsAtUnknown_label nodes env fuel) _ _ _) (fun _ => ?_)
  refine StopsAtUnknown_bind (StopsAtUnknown_urgent nodes fuel) (fun l_urgent => ?_)
  refine StopsAtUnknown_bind (StopsAtUnknown_committed nodes fuel) (fun l_committed => ?_)
  refine StopsAtUnknown_bind (StopsAtUnknown_locationName nodes _ _) (fun _ => ?_)
  refine StopsAtUnknown_bind (StopsAtUnknown_setLocation nodes _ _) (fun _ => ?_)
  refine StopsAtUnknown_bind (StopsAtUnknown_notify nodes env _) (fun _ => ?_)
  exact StopsAtUnknown_ite
    (StopsAtUnknown_bind (StopsAtUnknown_notify nodes env _)
      (fun _ => StopsAtUnknown_ite (StopsAtUnknown_notify nodes env _)
        (StopsAtUnknown_pure nodes _)))
    (StopsAtUnknown_bind (StopsAtUnknown_pure nodes ())
      (fun _ => StopsAtUnknown_ite (StopsAtUnknown_notify nodes env _)
        (StopsAtUnknown_pure nodes _)))

theorem StopsAtUnknown_init (nodes : List Node) (env : Env) (fuel : Nat) :
    StopsAtUnknown nodes (XMLReader.init env fuel) := by
  unfold XMLReader.init
  refine StopsAtUnknown_bind (StopsAtUnknown_begin nodes _ _ _)
    (fun c => StopsAtUnknown_ite ?_
      (StopsAtUnknown_bind (StopsAtUnknown_handleError nodes _)
        (fun _ => StopsAtUnknown_pure nodes _)))
  refine StopsAtUnknown_bind (StopsAtUnknown_of_rest nodes _ (fun _ => rfl)) (fun ref => ?_)
  cases ref with
  | none =>
    exact StopsAtUnknown_bind (StopsAtUnknown_handleError nodes _)
      (fun _ => StopsAtUnknown_bind (StopsAtUnknown_read nodes)
        (fun _ => StopsAtUnknown_pure nodes _))
  | some r =>
    exact StopsAtUnknown_bind (StopsAtUnknown_getLocation nodes _)
      (fun _ => StopsAtUnknown_bind
        (StopsAtUnknown_tryCatch (StopsAtUnknown_notify nodes env _)
          (fun _ => StopsAtUnknown_handleError nodes _))
        (fun _ => StopsAtUnknown_bind (StopsAtUnknown_read nodes)
          (fun _ => StopsAtUnknown_pure nodes _)))

theorem StopsAtUnknown_source (nodes : List Node) (fuel : Nat) :
    StopsAtUnknown nodes (XMLReader.source fuel) := by
  unfold XMLReader.source
  refine StopsAtUnknown_bind (StopsAtUnknown_begin nodes _ _ _)
    (fun c => StopsAtUnknown_ite ?_ (StopsAtUnknown_throwInt nodes _))
  refine StopsAtUnknown_bind (StopsAtUnknown_of_rest nodes _ (fun _ => rfl)) (fun id => ?_)
  refine StopsAtUnknown_bind (StopsAtUnknown_getLocation nodes _) (fun name => ?_)
  exact StopsAtUnknown_bind (StopsAtUnknown_read nodes) (fun _ => StopsAtUnknown_pure nodes _)

theorem StopsAtUnknown_target (nodes : List Node) (fuel : Nat) :
    StopsAtUnknown nodes (XMLReader.target fuel) := by
  unfold XMLReader.target
  refine StopsAtUnknown_bind (StopsAtUnknown_begin nodes _ _ _)
    (fun c => StopsAtUnknown_ite ?_ (StopsAtUnknown_throwInt nodes _))
  refine StopsAtUnknown_bind (StopsAtUnknown_of_rest nodes _ (fun _ => rfl)) (fun id => ?_)
  refine StopsAtUnknown_bind (StopsAtUnknown_getLocation nodes _) (fun name => ?_)
  exact StopsAtUnknown_bind (StopsAtUnknown_read nodes) (fun _ => StopsAtUnknown_pure nodes _)

theorem StopsAtUnknown_transition (nodes : List Node) (env : Env) (fuel : Nat) :
    StopsAtUnknown nodes (XMLReader.transition env fuel) := by
  unfold XMLReader.transition
  refine StopsAtUnknown_bind (StopsAtUnknown_begin nodes _ _ _)
    (fun c => StopsAtUnknown_ite ?_ (StopsAtUnknown_pure nodes _))
  refine StopsAtUnknown_bind (StopsAtUnknown_tryCatch ?_
    (fun _ => StopsAtUnknown_handleError nodes _)) (fun _ => StopsAtUnknown_pure nodes _)
  refine StopsAtUnknown_bind (StopsAtUnknown_read nodes) (fun _ => ?_)
  refine StopsAtUnknown_bind (StopsAtUnknown_source nodes fuel) (fun src => ?_)
  refine StopsAtUnknown_bind (StopsAtUnknown_target nodes fuel) (fun dst => ?_)
  refine StopsAtUnknown_bind
    (StopsAtUnknown_whileLoop _ (StopsAtUnknown_label nodes env fuel) _ _ _) (fun _ => ?_)
  refine StopsAtUnknown_bind
    (StopsAtUnknown_whileLoop _ (StopsAtUnknown_begin nodes _ _ _) _ _ _) (fun _ => ?_)
  exact StopsAtUnknown_notify nodes env _

theorem StopsAtUnknown_templ (nodes : List Node) (env : Env) (fuel : Nat) :
    StopsAtUnknown nodes (XMLReader.templ env fuel) := by
  unfold XMLReader.templ
  refine StopsAtUnknown_bind (StopsAtUnknown_begin nodes _ _ _)
    (fun c => StopsAtUnknown_ite ?_ (StopsAtUnknown_pure nodes _))
  refine StopsAtUnknown_bind (StopsAtUnknown_read nodes) (fun _ => ?_)
  refine StopsAtUnknown_bind (StopsAtUnknown_tryCatch ?_
    (fun _ => StopsAtUnknown_handleError nodes _)) (fun _ => StopsAtUnknown_pure nodes _)
  refine StopsAtUnknown_bind (StopsAtUnknown_name nodes env fuel) (fun t_name => ?_)
  refine StopsAtUnknown_bind (StopsAtUnknown_parameter nodes env fuel) (fun p_count => ?_)
  refine StopsAtUnknown_bind (StopsAtUnknown_notify nodes env _) (fun _ => ?_)
  refine StopsAtUnknown_bind (StopsAtUnknown_declaration nodes env fuel) (fun _ => ?_)
  refine StopsAtUnknown_bind
    (StopsAtUnknown_whileLoop _ (StopsAtUnknown_location nodes env fuel) _ _ _) (fun _ => ?_)
  refine StopsAtUnknown_bind (StopsAtUnknown_init nodes env fuel) (fun _ => ?_)
  refine StopsAtUnknown_bind
    (StopsAtUnknown_whileLoop _ (StopsAtUnknown_transition nodes env fuel) _ _ _) (fun _ => ?_)
  exact StopsAtUnknown_notify nodes env _

theorem StopsAtUnknown_instantiation (nodes : List Node) (env : Env) (fuel : Nat) :
    StopsAtUnknown nodes (XMLReader.instantiation env fuel) := by
  unfold XMLReader.instantiation
  refine StopsAtUnknown_bind (StopsAtUnknown_begin nodes _ _ _)
    (fun c => StopsAtUnknown_ite ?_ (StopsAtUnknown_pure nodes _))
  refine StopsAtUnknown_bind (StopsAtUnknown_read nodes) (fun _ => ?_)
  refine StopsAtUnknown_bind (StopsAtUnknown_of_rest nodes _ (fun _ => rfl)) (fun text => ?_)
  exact StopsAtUnknown_bind (StopsAtUnknown_parse nodes env _ _)
    (fun _ => StopsAtUnknown_pure nodes _)

theorem StopsAtUnknown_system (nodes : List Node) (env : Env) (fuel : Nat) :
    StopsAtUnknown nodes (XMLReader.system env fuel) := by
  unfold XMLReader.system
  refine StopsAtUnknown_bind (StopsAtUnknown_begin nodes _ _ _)
    (fun c => StopsAtUnknown_ite ?_ (StopsAtUnknown_pure nodes _))
  refine StopsAtUnknown_bind (StopsAtUnknown_read nodes) (fun _ => ?_)
  refine StopsAtUnknown_bind (StopsAtUnknown_of_rest nodes _ (fun _ => rfl)) (fun text => ?_)
  exact StopsAtUnknown_bind (StopsAtUnknown_parse nodes env _ _)
    (fun _ => StopsAtUnknown_pure nodes _)

theorem StopsAtUnknown_nta (nodes : List Node) (env : Env) (fuel : Nat) :
    StopsAtUnknown nodes (XMLReader.nta env fuel) := by
  unfold XMLReader.nta
  refine StopsAtUnknown_bind (StopsAtUnknown_begin nodes _ _ _)
    (fun c => StopsAtUnknown_ite (StopsAtUnknown_throwInt nodes _) ?_)
  refine StopsAtUnknown_bind (StopsAtUnknown_read nodes) (fun _ => ?_)
  refine StopsAtUnknown_bind (StopsAtUnknown_declaration nodes env fuel) (fun _ => ?_)
  refine StopsAtUnknown_bind
    (StopsAtUnknown_whileLoop _ (StopsAtUnknown_templ nodes env fuel) _ _ _) (fun _ => ?_)
  refine StopsAtUnknown_bind (StopsAtUnknown_instantiation nodes env fuel) (fun _ => ?_)
  refine StopsAtUnknown_bind (StopsAtUnknown_system nodes env fuel) (fun _ => ?_)
  exact StopsAtUnknown_notify nodes env _

/-- C6, as amended: if a start tag whose name is not in the table of tags is
among the nodes that the parse has read, at whatever depth and position, the
parse returns -1. -/
theorem C6_unknown_tag_read_is_fatal (env : Env) (fuel : Nat) (nodes : List Node) (n : Node)
    (hn : n ∈ consumed nodes (parseXMLBuffer env fuel (some nodes)).2)
    (hel : n.type = ELEMENT) (hu : in_word_set n.localName = none) :
    (parseXMLBuffer env fuel (some nodes)).1 = .ok (-1) := by
  have hS : StopsAtUnknown nodes (do XMLReader.read; XMLReader.nta env fuel : M Unit) :=
    StopsAtUnknown_bind (StopsAtUnknown_read nodes) (fun _ => StopsAtUnknown_nta nodes env fuel)
  obtain ⟨pre1, h1, h2⟩ := hS (XMLReader.new nodes) [] rfl (by simp)
  simp only [parseXMLBuffer, parseXML] at hn ⊢
  rcases hm : (do XMLReader.read; XMLReader.nta env fuel : M Unit) (XMLReader.new nodes)
    with ⟨o, s1⟩
  rw [hm] at h1 h2 hn
  have hpre : consumed nodes s1 = pre1 := by
    unfold consumed
    conv_lhs => rw [h1]
    simp
  have hbad : ¬ ∀ x ∈ pre1, ¬ Unknown x := by
    intro h
    cases o <;> exact h n (by simpa [hpre] using hn) ⟨hel, hu⟩
  rcases h2 with h | h
  · exact absurd h hbad
  · simp only at h
    subst h
    rfl

theorem C6_unknown_tag_read_is_fatal_witness :
    (emptyTag "gadget" [] ∈ consumed unknownInTemplate
        (parseXMLBuffer acceptAll 40 (some unknownInTemplate)).2
      ∧ (emptyTag "gadget" []).type = ELEMENT
      ∧ in_word_set (emptyTag "gadget" []).localName = none)
    ∧ (parseXMLBuffer acceptAll 40 (some unknownInTemplate)).1 = .ok (-1) :=
  ⟨⟨by decide!, rfl, by decide⟩,
    C6_unknown_tag_read_is_fatal acceptAll 40 unknownInTemplate (emptyTag "gadget" [])
      (by decide!) rfl (by decide)⟩

/-- C6 as stated fails for a start tag with an unknown name that the parse
never reads: `nta` stops reading at the text of the `system` element, and
with `<gadget/>` after `</system>` the parse returns 0. -/
theorem C6_counterexample :
    (∃ n ∈ unknownAfterSystem, n.type = ELEMENT ∧ in_word_set n.localName = none)
      ∧ (parseXMLBuffer acceptAll 40 (some unknownAfterSystem)).1 = .ok 0
      ∧ consumed unknownAfterSystem (parseXMLBuffer acceptAll 40 (some unknownAfterSystem)).2
          = [startTag "nta" [], startTag "system" [], textNode "system T;"] := by
  decide!

/-! ### Calls that an effect adds -/

theorem Adds_mono {α : Type} {P Q : Call → Prop} {m : StM Sem α} (h : Adds P m)
    (hPQ : ∀ c, P c → Q c) : Adds Q m := by
  intro σ
  obtain ⟨l, h1, h2⟩ := h σ
  exact ⟨l, h1, fun c hc => hPQ c (h2 c hc)⟩

theorem Adds_of_log {α : Type} (P : Call → Prop) (m : StM Sem α)
    (h : ∀ σ, (m σ).2.log = σ.log) : Adds P m := by
  intro σ
  exact ⟨[], by simp [h σ], by simp⟩

theorem Adds_pure {α : Type} (P : Call → Prop) (a : α) : Adds P (pure a : StM Sem α) :=
  Adds_of_log P _ (fun _ => rfl)

theorem Adds_bind {α β : Type} {P : Call → Prop} {m : StM Sem α} {f : α → StM Sem β}
    (hm : Adds P m) (hf : ∀ a, Adds P (f a)) : Adds P (m >>= f) := by
  intro σ
  obtain ⟨l1, h1, h2⟩ := hm σ
  rcases hms : m σ with ⟨o, σ1⟩
  simp only [StM.bind_apply, StM.andThen, hms] at h1 ⊢
  cases o with
  | ok a =>
    obtain ⟨l2, g1, g2⟩ := hf a σ1
    refine ⟨l1 ++ l2, by rw [g1, h1, List.append_assoc], ?_⟩
    intro c hc
    rcases List.mem_append.mp hc with h | h
    · exact h2 c h
    · exact g2 c h
  | fatal c => exact ⟨l1, h1, h2⟩
  | typeException e => exact ⟨l1, h1, h2⟩
  | crash => exact ⟨l1, h1, h2⟩
  | timeout => exact ⟨l1, h1, h2⟩

theorem Adds_tryCatch {P : Call → Prop} {m : StM Sem Unit} {h : String → StM Sem Unit}
    (hm : Adds P m) (hh : ∀ msg, Adds P (h msg)) : Adds P (StM.tryCatch m h) := by
  intro σ
  obtain ⟨l1, h1, h2⟩ := hm σ
  rcases hms : m σ with ⟨o, σ1⟩
  simp only [StM.tryCatch, hms] at h1 ⊢
  cases o with
  | typeException e =>
    obtain ⟨l2, g1, g2⟩ := hh e σ1
    refine ⟨l1 ++ l2, by rw [g1, h1, List.append_assoc], ?_⟩
    intro c hc
    rcases List.mem_append.mp hc with h | h
    · exact h2 c h
    · exact g2 c h
  | ok a => exact ⟨l1, h1, h2⟩
  | fatal c => exact ⟨l1, h1, h2⟩
  | crash => exact ⟨l1, h1, h2⟩
  | timeout => exact ⟨l1, h1, h2⟩

theorem Adds_ite {α : Type} {P : Call → Prop} {c : Prop} [Decidable c] {m1 m2 : StM Sem α}
    (h1 : Adds P m1) (h2 : Adds P m2) : Adds P (if c then m1 else m2) := by
  by_cases hc : c <;> simp [hc, h1, h2]

theorem Adds_forEach {α β : Type} {P : Call → Prop} (f : α → StM Sem β)
    (hf : ∀ a, Adds P (f a)) (l : List α) : Adds P (Sem.forEach f l) := by
  induction l with
  | nil => exact Adds_pure P _
  | cons a l ih => exact Adds_bind (hf a) (fun _ => ih)

theorem Adds_handleError (P : Call → Prop) (msg : String) : Adds P (Sem.handleError msg) :=
  Adds_of_log P _ (fun _ => rfl)

theorem Adds_throwInt {α : Type} (P : Call → Prop) (c : Int) :
    Adds P (StM.throwInt c : StM Sem α) :=
  Adds_of_log P _ (fun _ => rfl)

theorem Adds_crashed {α : Type} (P : Call → Prop) : Adds P (StM.crashed : StM Sem α) :=
  Adds_of_log P _ (fun _ => rfl)

theorem Adds_parse {P : Call → Prop} (env : Env) (text : String) (part : xta_part_t)
    (hp : P (Call.parseXTA text env.newxta part)) : Adds P (Sem.parse env text part) := by
  intro σ
  exact ⟨[Call.parseXTA text env.newxta part], rfl, by simpa using hp⟩

theorem Adds_notify {P : Call → Prop} (env : Env) (c : Call) (hp : P c) :
    Adds P (Sem.notify env c) := by
  intro σ
  refine ⟨[c], ?_, by simpa using hp⟩
  simp only [Sem.notify]
  split <;> rfl

theorem Adds_getLocation (P : Call → Prop) (id : Option String) :
    Adds P (Sem.getLocation id) := by
  refine Adds_of_log P _ (fun σ => ?_)
  simp only [Sem.getLocation]
  cases id with
  | none => rfl
  | some i =>
    simp only
    split
    · rfl
    · split <;> rfl

theorem Adds_setLocation (P : Call → Prop) (id : Option String) (name : String) :
    Adds P (Sem.setLocation id name) := by
  refine Adds_of_log P _ (fun σ => ?_)
  simp only [Sem.setLocation]
  split
  · rfl
  · split
    · rfl
    · split <;> rfl

theorem Adds_locationName (P : Call → Prop) (l_name l_id : Option String) :
    Adds P (Sem.locationName l_name l_id) := by
  unfold Sem.locationName
  split
  · cases l_id with
    | none => exact Adds_crashed P
    | some i => exact Adds_pure P _
  · exact Adds_pure P _

theorem Adds_labelText {P : Call → Prop} (env : Env)
    (hp : ∀ t p, p = S_INVARIANT ∨ p = S_GUARD ∨ p = S_SYNC ∨ p = S_ASSIGN →
      P (Call.parseXTA t env.newxta p))
    (kind : Option String) (text : String) : Adds P (Sem.labelText env kind text) := by
  unfold Sem.labelText
  cases kind with
  | none => exact Adds_crashed P
  | some k =>
    simp only
    refine Adds_ite (Adds_bind (Adds_parse env _ _ (hp _ _ (Or.inl rfl)))
      (fun _ => Adds_pure P _)) ?_
    refine Adds_ite (Adds_bind (Adds_parse env _ _ (hp _ _ (Or.inr (Or.inl rfl))))
      (fun _ => Adds_pure P _)) ?_
    refine Adds_ite (Adds_bind (Adds_parse env _ _ (hp _ _ (Or.inr (Or.inr (Or.inl rfl)))))
      (fun _ => Adds_pure P _)) ?_
    exact Adds_ite (Adds_bind (Adds_parse env _ _ (hp _ _ (Or.inr (Or.inr (Or.inr rfl)))))
      (fun _ => Adds_pure P _)) (Adds_pure P _)

theorem Adds_semName (P : Call → Prop) (env : Env) (o : Option El) :
    Adds P (semName env o) := by
  unfold UTAP.semName
  split
  · split
    · exact Adds_ite (Adds_pure P _)
        (Adds_bind (Adds_handleError P _) (fun _ => Adds_pure P _))
    · exact Adds_bind (Adds_handleError P _) (fun _ => Adds_pure P _)
  · exact Adds_pure P _

theorem Adds_semParameter {P : Call → Prop} (env : Env)
    (hp : ∀ t, P (Call.parseXTA t env.newxta S_PARAMETERS)) (o : Option El) :
    Adds P (semParameter env o) := by
  unfold UTAP.semParameter
  split
  · exact Adds_parse env _ _ (hp _)
  · exact Adds_pure P _

theorem Adds_semDeclaration {P : Call → Prop} (env : Env)
    (hp : ∀ t, P (Call.parseXTA t env.newxta S_DECLARATION)) (o : Option El) :
    Adds P (semDeclaration env o) := by
  unfold UTAP.semDeclaration
  split
  · split
    · exact Adds_bind (Adds_parse env _ _ (hp _)) (fun _ => Adds_pure P _)
    · exact Adds_pure P _
  · exact Adds_pure P _

theorem Adds_semLabel {P : Call → Prop} (env : Env)
    (hp : ∀ t p, p = S_INVARIANT ∨ p = S_GUARD ∨ p = S_SYNC ∨ p = S_ASSIGN →
      P (Call.parseXTA t env.newxta p)) (e : El) : Adds P (semLabel env e) := by
  unfold UTAP.semLabel
  split
  · split
    · exact Adds_bind (Adds_labelText env hp _ _) (fun _ => Adds_pure P _)
    · exact Adds_pure P _
  · exact Adds_pure P _

theorem Adds_semSystem {P : Call → Prop} (env : Env) (part : xta_part_t)
    (hp : ∀ t, P (Call.parseXTA t env.newxta part)) (o : Option El) :
    Adds P (semSystem env part o) := by
  unfold UTAP.semSystem
  split
  · exact Adds_bind (Adds_parse env _ _ (hp _)) (fun _ => Adds_pure P _)
  · exact Adds_pure P _

theorem Adds_semEndpoint (P : Call → Prop) (o : Option El) : Adds P (semEndpoint o) := by
  cases o with
  | none => exact Adds_throwInt P _
  | some e => exact Adds_getLocation P _

theorem early_label (env : Env) (t : String) (p : xta_part_t)
    (h : p = S_INVARIANT ∨ p = S_GUARD ∨ p = S_SYNC ∨ p = S_ASSIGN) :
    (Call.parseXTA t env.newxta p).early = true := by
  rcases h with h | h | h | h <;> subst h <;> rfl

theorem Adds_semLocation (env : Env) (l : LocationD) :
    Adds (fun c => c.early = true) (semLocation env l) := by
  unfold UTAP.semLocation
  refine Adds_bind (Adds_tryCatch ?_ (fun _ => Adds_handleError _ _)) (fun _ => Adds_pure _ _)
  refine Adds_bind (Adds_semName _ env _) (fun _ => ?_)
  refine Adds_bind (Adds_forEach _ (Adds_semLabel env (early_label env)) _) (fun _ => ?_)
  refine Adds_bind (Adds_locationName _ _ _) (fun _ => ?_)
  refine Adds_bind (Adds_setLocation _ _ _) (fun _ => ?_)
  refine Adds_bind (Adds_notify env _ rfl) (fun _ => ?_)
  exact Adds_ite
    (Adds_bind (Adds_notify env _ rfl)
      (fun _ => Adds_ite (Adds_notify env _ rfl) (Adds_pure _ _)))
    (Adds_bind (Adds_pure _ ())
      (fun _ => Adds_ite (Adds_notify env _ rfl) (Adds_pure _ _)))

theorem Adds_semInit (env : Env) (o : Option El) :
    Adds (fun c => c.early = true) (semInit env o) := by
  unfold UTAP.semInit
  split
  · exact Adds_bind (Adds_handleError _ _) (fun _ => Adds_pure _ _)
  · split
    · exact Adds_bind (Adds_getLocation _ _)
        (fun _ => Adds_bind (Adds_tryCatch (Adds_notify env _ rfl)
          (fun _ => Adds_handleError _ _)) (fun _ => Adds_pure _ _))
    · exact Adds_bind (Adds_handleError _ _) (fun _ => Adds_pure _ _)

theorem Adds_semTransition (env : Env) (t : TransitionD) :
    Adds (fun c => c.early = true) (semTransition env t) := by
  unfold UTAP.semTransition
  refine Adds_ite (Adds_pure _ _) ?_
  refine Adds_bind (Adds_tryCatch ?_ (fun _ => Adds_handleError _ _)) (fun _ => Adds_pure _ _)
  refine Adds_bind (Adds_semEndpoint _ _) (fun _ => ?_)
  refine Adds_bind (Adds_semEndpoint _ _) (fun _ => ?_)
  refine Adds_bind (Adds_forEach _ (Adds_semLabel env (early_label env)) _) (fun _ => ?_)
  exact Adds_notify env _ rfl

theorem Adds_semTemplateTail (env : Env) (t : TemplateD) :
    Adds (fun c => c.early = true) (semTemplateTail env t) := by
  unfold semTemplateTail
  refine Adds_bind (Adds_semInit env _) (fun _ => ?_)
  refine Adds_bind (Adds_forEach _ (Adds_semTransition env) _) (fun _ => ?_)
  exact Adds_notify env _ rfl

theorem Adds_semTemplateHead (env : Env) (t : TemplateD) :
    Adds (fun c => c.early = true) (semTemplateHead env t) := by
  unfold semTemplateHead
  refine Adds_bind (Adds_semName _ env _) (fun _ => ?_)
  refine Adds_bind (Adds_semParameter (P := fun c => c.early = true) env (fun _ => rfl) _)
    (fun _ => ?_)
  refine Adds_bind (Adds_notify env _ rfl) (fun _ => ?_)
  refine Adds_bind (Adds_semDeclaration (P := fun c => c.early = true) env (fun _ => rfl) _)
    (fun _ => ?_)
  exact Adds_forEach _ (Adds_semLocation env) _

theorem Adds_semTemplate (env : Env) (t : TemplateD) :
    Adds (fun c => c.early = true) (semTemplate env t) := by
  cases hne : t.el.isEmpty with
  | true =>
    unfold UTAP.semTemplate
    simp only [hne, if_true]
    exact Adds_pure _ _
  | false =>
    rw [semTemplate_split env t hne]
    exact Adds_bind (Adds_tryCatch
      (Adds_bind (Adds_semTemplateHead env t) (fun _ => Adds_semTemplateTail env t))
      (fun _ => Adds_handleError _ _)) (fun _ => Adds_pure _ _)

theorem Adds_semNta (env : Env) (d : NtaD) : Adds (fun _ => True) (semNta env d) := by
  unfold UTAP.semNta
  refine Adds_bind (Adds_semDeclaration env (fun _ => trivial) _) (fun _ => ?_)
  refine Adds_bind (Adds_mono (Adds_forEach _ (Adds_semTemplate env) _) (fun _ _ => trivial))
    (fun _ => ?_)
  refine Adds_bind (Adds_semSystem env _ (fun _ => trivial) _) (fun _ => ?_)
  refine Adds_bind (Adds_semSystem env _ (fun _ => trivial) _) (fun _ => ?_)
  exact Adds_notify env _ trivial

/-! ### The instantiation, the system and `done` -/

theorem early_not_isInst (c : Call) (h : c.early = true) : c.isInst = false := by
  cases c <;> simp_all [Call.early, Call.isInst]

theorem early_not_isSystem (c : Call) (h : c.early = true) : c.isSystem = false := by
  cases c <;> simp_all [Call.early, Call.isSystem]

theorem early_not_done (c : Call) (h : c.early = true) : c ≠ Call.done := by
  cases c <;> simp_all [Call.early]

/-- The calls made before the instantiation is reached. -/
theorem semUpToInstantiation_early (env : Env) (d : NtaD) (σ : Sem) (o : Outcome Unit)
    (h : semUpToInstantiation env d Sem.new = (o, σ)) : ∀ c ∈ σ.log, c.early = true := by
  have hA : Adds (fun c => c.early = true) (semUpToInstantiation env d) :=
    Adds_bind (Adds_semDeclaration (P := fun c => c.early = true) env (fun _ => rfl) _)
      (fun _ => Adds_forEach _ (Adds_semTemplate env) _)
  obtain ⟨l, h1, h2⟩ := hA Sem.new
  rw [h] at h1
  simp only [Sem.new, List.nil_append] at h1
  rw [h1]
  exact h2

/-- What `nta` does once the declaration and the templates are processed. -/
theorem semNta_tail (env : Env) (d : NtaD) (σ : Sem)
    (hpre : semUpToInstantiation env d Sem.new = (.ok (), σ)) :
    ∃ σ1, semNta env d Sem.new
        = (match env.builder (σ.log ++ instCalls env d
              ++ [Call.parseXTA (d.system.text.getD "") env.newxta S_SYSTEM]) Call.done with
            | none => .ok ()
            | some msg => .typeException msg, σ1)
      ∧ σ1.log = σ.log ++ instCalls env d
          ++ [Call.parseXTA (d.system.text.getD "") env.newxta S_SYSTEM, Call.done] := by
  simp only [semUpToInstantiation] at hpre
  obtain ⟨v1, σa, h1, h2⟩ := bind_ok_inv hpre
  simp only [semNta]
  rw [StM.bind_ok h1, StM.bind_ok h2]
  cases hi : d.instantiation with
  | none =>
    simp only [semSystem, instCalls, hi, StM.pure_bind, StM.bind_assoc, List.append_nil]
    simp only [StM.bind_apply, StM.andThen, Sem.parse, Sem.notify]
    split <;> exact ⟨_, rfl, by simp⟩
  | some e =>
    simp only [semSystem, instCalls, hi, StM.pure_bind, StM.bind_assoc]
    simp only [StM.bind_apply, StM.andThen, Sem.parse, Sem.notify, List.append_assoc]
    split <;> exact ⟨_, rfl, by simp⟩

/-- The end of the parse after the templates: for a document of the expected shape, which has a `system`
element and may or may not have an instantiation, read with a builder that
accepts every `procBegin` and `done`: if the declaration and the templates
are processed normally, leaving the state `σ`, the parse returns 0 and the
last call it makes is `done`, after the calls for the instantiation, if
present, and for the system. -/
theorem done_after_system (env : Env) (hb : AcceptsBegin env) (hdone : AcceptsDone env)
    (fuel : Nat) (d : NtaD) (hd : d.ok) (hf : d.render.length < fuel) (σ : Sem)
    (hpre : semUpToInstantiation env d Sem.new = (.ok (), σ)) :
    (parseXMLBuffer env fuel (some d.render)).1 = .ok 0
      ∧ (parseXMLBuffer env fuel (some d.render)).2.log.getLast? = some Call.done
      ∧ (parseXMLBuffer env fuel (some d.render)).2.log = σ.log ++ instCalls env d
          ++ [Call.parseXTA (d.system.text.getD "") env.newxta S_SYSTEM, Call.done] := by
  have hr := parseXMLBuffer_render env hb fuel d hd hf
  have h1 : (parseXMLBuffer env fuel (some d.render)).1 = (semParse env d).1 :=
    congrArg Prod.fst hr
  have h2 : (parseXMLBuffer env fuel (some d.render)).2.log = (semParse env d).2.log :=
    congrArg (fun r => r.2.log) hr
  obtain ⟨σ1, g1, g2⟩ := semNta_tail env d σ hpre
  rw [hdone] at g1
  have h3 : semParse env d = (.ok 0, σ1) := by
    simp [semParse, g1]
  rw [h3] at h1 h2
  refine ⟨h1, ?_, by rw [h2]; exact g2⟩
  rw [h2]
  simp only [g2]
  simp

theorem done_after_system_example :
    (AcceptsBegin acceptAll ∧ AcceptsDone acceptAll ∧ oneTemplate.ok
      ∧ oneTemplate.render.length < 40
      ∧ semUpToInstantiation acceptAll oneTemplate Sem.new
          = (.ok (), ⟨[(some "a", "_a")],
              [Call.procBegin (some "T") 0, Call.procState "_a" false, Call.procStateInit "_a",
                Call.procEdge "_a" "_a", Call.procEnd], []⟩))
    ∧ (parseXMLBuffer acceptAll 40 (some oneTemplate.render)).1 = .ok 0
    ∧ (parseXMLBuffer acceptAll 40 (some oneTemplate.render)).2.log.getLast? = some Call.done :=
  have h := done_after_system acceptAll (fun _ _ _ => rfl) (fun _ => rfl) 40 oneTemplate
    (by decide!) (by decide!)
    ⟨[(some "a", "_a")],
      [Call.procBegin (some "T") 0, Call.procState "_a" false, Call.procStateInit "_a",
        Call.procEdge "_a" "_a", Call.procEnd], []⟩ (by decide!)
  ⟨⟨fun _ _ _ => rfl, fun _ => rfl, by decide!, by decide!, by decide!⟩, h.1, h.2.1⟩

/-- C11, on documents without instantiation and without `system`.  For
`<nta></nta>` the parse returns -1 and nothing is called; for `noSystem`,
which has one template, it returns -1 after `procStateInit`, and `done` is not
called: the search for the next start tag reads to the end of the input.  For
`<nta><imports/></nta>`, where that search stops at a start tag, the parse
returns 0 and calls `done`, and so does the parse of a document with a
`system` element after the template. -/
theorem C11_end_of_input_without_system :
    absRun (parseXMLBuffer acceptAll 40 (some rootOnly)) = (.ok (-1), ⟨[], [], []⟩)
      ∧ absRun (parseXMLBuffer acceptAll 40 (some noSystem))
        = (.ok (-1), ⟨[(some "a", "_a")],
            [Call.procBegin (some "T") 0, Call.procState "_a" false, Call.procStateInit "_a"],
            []⟩)
      ∧ Call.done ∉ (parseXMLBuffer acceptAll 40 (some noSystem)).2.log
      ∧ absRun (parseXMLBuffer acceptAll 40 (some importsOnly)) = (.ok 0, ⟨[], [Call.done], []⟩)
      ∧ absRun (parseXMLBuffer acceptAll 40 (some oneTemplate.render))
        = (.ok 0, ⟨[(some "a", "_a")],
            [Call.procBegin (some "T") 0, Call.procState "_a" false, Call.procStateInit "_a",
              Call.procEdge "_a" "_a", Call.procEnd, Call.parseXTA "system T;" true S_SYSTEM,
              Call.done], []⟩) := by
  decide!

theorem begin_other (fuel : Nat) (tag t : tag_t) (skipEmpty : Bool) (s : XMLReader) (n : Node)
    (hc : s.cur = some n) (hn : n.type = ELEMENT) (ht : in_word_set n.localName = some t)
    (hne : t ≠ tag) : XMLReader.begin (fuel + 1) tag skipEmpty s = (.ok false, s) := by
  obtain ⟨cur, rest, locs, path, log, errs⟩ := s
  simp only at hc
  subst hc
  simp [XMLReader.begin, XMLReader.getNodeType, hn, StM.bind_apply, StM.andThen,
    XMLReader.getElement, ht, hne]

/-- C12, as amended: for a document of the expected shape, which has a
`system` element, read with a builder that accepts every `procBegin`: if the
declaration and the templates are processed normally, the embedded grammar
is called for the instantiation exactly once if the element is present, with
its text or the empty string, and not at all if it is absent; it is called
exactly once for the system, with its text or the empty string.  And when
`instantiation` or `system` is called at a start tag with another known tag,
that is, when its element is absent, it returns false and does nothing. -/
theorem C12_grammar_calls_at_the_end (env : Env) (hb : AcceptsBegin env) (fuel : Nat)
    (d : NtaD) (hd : d.ok) (hf : d.render.length < fuel) (σ : Sem)
    (hpre : semUpToInstantiation env d Sem.new = (.ok (), σ)) :
    ((parseXMLBuffer env fuel (some d.render)).2.log.filter Call.isInst
        = (match d.instantiation with
          | some e => [Call.parseXTA (e.text.getD "") env.newxta S_INST]
          | none => [])
      ∧ (parseXMLBuffer env fuel (some d.render)).2.log.filter Call.isSystem
        = [Call.parseXTA (d.system.text.getD "") env.newxta S_SYSTEM])
    ∧ (∀ (s : XMLReader) (n : Node) (t : tag_t), s.cur = some n → n.type = ELEMENT →
        in_word_set n.localName = some t →
        (t ≠ TAG_INSTANTIATION → XMLReader.instantiation env fuel s = (.ok false, s))
        ∧ (t ≠ TAG_SYSTEM → XMLReader.system env fuel s = (.ok false, s))) := by
  constructor
  · have hr := parseXMLBuffer_render env hb fuel d hd hf
    have h2 : (parseXMLBuffer env fuel (some d.render)).2.log = (semParse env d).2.log :=
      congrArg (fun r => r.2.log) hr
    obtain ⟨σ1, g1, g2⟩ := semNta_tail env d σ hpre
    have h3 : (semParse env d).2 = σ1 := by
      rw [semParse_eq_finishParse, g1]
      generalize env.builder _ Call.done = b
      cases b <;> rfl
    rw [h2, h3, g2]
    have he := semUpToInstantiation_early env d σ _ hpre
    have h4 : σ.log.filter Call.isInst = [] := by
      rw [List.filter_eq_nil_iff]
      intro c hc
      simp [early_not_isInst c (he c hc)]
    have h5 : σ.log.filter Call.isSystem = [] := by
      rw [List.filter_eq_nil_iff]
      intro c hc
      simp [early_not_isSystem c (he c hc)]
    cases hi : d.instantiation with
    | none => simp [List.filter_append, h4, h5, instCalls, hi, Call.isInst, Call.isSystem]
    | some e => simp [List.filter_append, h4, h5, instCalls, hi, Call.isInst, Call.isSystem]
  · intro s n t hc hn ht
    obtain ⟨f, rfl⟩ : ∃ f, fuel = f + 1 := ⟨fuel - 1, by omega⟩
    constructor
    · intro hne
      simp only [XMLReader.instantiation]
      rw [StM.bind_ok (begin_other f TAG_INSTANTIATION t false s n hc hn ht hne)]
      rfl
    · intro hne
      simp only [XMLReader.system]
      rw [StM.bind_ok (begin_other f TAG_SYSTEM t false s n hc hn ht hne)]
      rfl

theorem C12_grammar_calls_at_the_end_witness :
    (AcceptsBegin acceptAll ∧ withInstantiation.ok ∧ withInstantiation.render.length < 40
      ∧ semUpToInstantiation acceptAll withInstantiation Sem.new
          = (.ok (), ⟨[(some "a", "_a")],
              [Call.procBegin (some "T") 0, Call.procState "_a" false, Call.procStateInit "_a",
                Call.procEdge "_a" "_a", Call.procEnd], []⟩))
    ∧ (parseXMLBuffer acceptAll 40 (some withInstantiation.render)).2.log.filter Call.isInst
        = [Call.parseXTA "P = T();" true S_INST]
    ∧ (parseXMLBuffer acceptAll 40 (some withInstantiation.render)).2.log.filter Call.isSystem
        = [Call.parseXTA "system T;" true S_SYSTEM] :=
  have h := C12_grammar_calls_at_the_end acceptAll (fun _ _ _ => rfl) 40 withInstantiation
    (by decide!) (by decide!)
    ⟨[(some "a", "_a")],
      [Call.procBegin (some "T") 0, Call.procState "_a" false, Call.procStateInit "_a",
        Call.procEdge "_a" "_a", Call.procEnd], []⟩ (by decide!)
  ⟨⟨fun _ _ _ => rfl, by decide!, by decide!, by decide!⟩,
    h.1.1.trans (by decide!), h.1.2.trans (by decide!)⟩

/-- C12 as stated fails for an absent instantiation: the document has a
`system` element and no instantiation element, the parse returns 0 after the
call for the system and `done`, and the embedded grammar is never called for
the instantiation. -/
theorem C12_counterexample :
    oneTemplate.instantiation = none
      ∧ absRun (parseXMLBuffer acceptAll 40 (some oneTemplate.render))
        = (.ok 0, ⟨[(some "a", "_a")],
            [Call.procBegin (some "T") 0, Call.procState "_a" false, Call.procStateInit "_a",
              Call.procEdge "_a" "_a", Call.procEnd, Call.parseXTA "system T;" true S_SYSTEM,
              Call.done], []⟩)
      ∧ (parseXMLBuffer acceptAll 40 (some oneTemplate.render)).2.log.filter Call.isInst
        = [] := by
  decide!

/-! ### A document without the root tag -/

/-- Looking for the root tag from before the first start tag, when that is
not `nta` or does not exist: `begin` throws -1 or returns false, and nothing
is called, reported or registered. -/
theorem begin_no_root (rest : List Node)
    (hrest : rest = [] ∨ ∃ n r, rest = n :: r ∧ n.type = ELEMENT
      ∧ in_word_set n.localName ≠ some TAG_NTA)
    (pre : List Node) :
    ∀ (fuel : Nat) (s : XMLReader), (∀ x ∈ pre, x.type ≠ ELEMENT ∧ x.type ≠ END_ELEMENT) →
      pre.length + 1 < fuel → s.rest = pre ++ rest → pendingPop s.cur = [] →
      XMLReader.getNodeType s ≠ ELEMENT → s.path.path = [[]] → s.abs = Sem.new →
      ∃ s1, s1.abs = Sem.new
        ∧ (XMLReader.begin fuel TAG_NTA true s = (.fatal (-1), s1)
          ∨ XMLReader.begin fuel TAG_NTA true s = (.ok false, s1)) := by
  induction pre with
  | nil =>
    intro fuel s _ hf hr hpp hty hpath habs
    obtain ⟨f, rfl⟩ : ∃ f, fuel = f + 1 + 1 := ⟨fuel - 2, by simp at hf; omega⟩
    have hS : Settled s ([] :: []) := Or.inl ⟨hpp, hpath⟩
    have hb : XMLReader.begin (f + 1 + 1) TAG_NTA true s
        = (do XMLReader.read; XMLReader.begin (f + 1) TAG_NTA true : M Bool) s := by
      rw [XMLReader.begin]
      simp only [hty, ne_eq, not_false_eq_true, if_true]
    rw [hb]
    simp only [List.nil_append] at hr
    rcases hrest with h | ⟨n, r, h, hn, ht⟩
    · subst h
      have hpop := readPop_settled s _ hS
      refine ⟨{ s with path := Path.mk ([] :: []) }, habs, Or.inl ?_⟩
      simp [XMLReader.read, StM.bind_apply, StM.andThen, hpop, XMLReader.xmlTextReaderRead, hr,
        StM.throwInt]
    · subst h
      cases hk : in_word_set n.localName with
      | none =>
        have hpop := readPop_settled s _ hS
        refine ⟨{ s with path := Path.mk ([] :: []), cur := some n, rest := r }, habs, Or.inl ?_⟩
        simp [XMLReader.read, StM.bind_apply, StM.andThen, hpop, XMLReader.xmlTextReaderRead, hr,
          XMLReader.readPush, XMLReader.getNodeType, hn, XMLReader.getElement, hk]
      | some t =>
        obtain ⟨s1, hread, c1, c2, c3⟩ := (read_settled s [] [] hS n r hr).2 t hn hk
        have habs1 : s1.abs = Sem.new := by
          have := congrArg (fun x : Outcome Unit × XMLReader => x.2.abs) hread
          simp only at this
          rw [← this]
          have hq : (XMLReader.read s).2.abs = s.abs := by
            have hpop := readPop_settled s _ hS
            simp [XMLReader.read, StM.bind_apply, StM.andThen, hpop,
              XMLReader.xmlTextReaderRead, hr, XMLReader.readPush, XMLReader.getNodeType, hn,
              XMLReader.getElement, hk, XMLReader.abs]
          rw [hq]
          exact habs
        refine ⟨s1, habs1, Or.inr ?_⟩
        rw [StM.bind_ok hread]
        have hne : t ≠ TAG_NTA := by
          intro h
          exact ht (by rw [hk, h])
        exact begin_other f TAG_NTA t true s1 n c1 hn hk hne
  | cons x pre ih =>
    intro fuel s hpre hf hr hpp hty hpath habs
    obtain ⟨f, rfl⟩ : ∃ f, fuel = f + 1 := ⟨fuel - 1, by simp at hf; omega⟩
    have hS : Settled s ([] :: []) := Or.inl ⟨hpp, hpath⟩
    have hb : XMLReader.begin (f + 1) TAG_NTA true s
        = (do XMLReader.read; XMLReader.begin f TAG_NTA true : M Bool) s := by
      rw [XMLReader.begin]
      simp only [hty, ne_eq, not_false_eq_true, if_true]
    rw [hb]
    have hx := hpre x (List.mem_cons_self _ _)
    obtain ⟨s1, hread, c1, c2, c3⟩ := (read_settled s [] [] hS x (pre ++ rest) hr).1 hx.1
    have habs1 : s1.abs = Sem.new := by
      have hq : (XMLReader.read s).2.abs = s.abs := by
        have hpop := readPop_settled s _ hS
        have hr1 : s.rest = x :: (pre ++ rest) := hr
        simp [XMLReader.read, StM.bind_apply, StM.andThen, hpop, XMLReader.xmlTextReaderRead,
          hr1, XMLReader.readPush, XMLReader.getNodeType, hx.1, XMLReader.abs]
      rw [hread] at hq
      rw [hq]
      exact habs
    rw [StM.bind_ok hread]
    exact ih f s1 (fun y hy => hpre y (List.mem_cons_of_mem _ hy))
      (by simp at hf ⊢; omega) c2 (by rw [c1]; simp [pendingPop, hx.1, hx.2])
      (by simp [XMLReader.getNodeType, c1, hx.1]) c3 habs1

/-- C13: if the nodes before the first start tag are neither start tags nor
end tags and the first start tag is not `nta`, or there is no start tag and
the input ends, both entry points return -1 and nothing is called on the
builder or on the embedded grammar, reported or registered. -/
theorem C13_missing_root_is_fatal (env : Env) (fuel : Nat) (pre rest : List Node)
    (hpre : ∀ x ∈ pre, x.type ≠ ELEMENT ∧ x.type ≠ END_ELEMENT)
    (hrest : rest = [] ∨ ∃ n r, rest = n :: r ∧ n.type = ELEMENT
      ∧ in_word_set n.localName ≠ some TAG_NTA)
    (hf : pre.length < fuel) :
    absRun (parseXMLFile env fuel (some (pre ++ rest))) = (.ok (-1), Sem.new)
      ∧ absRun (parseXMLBuffer env fuel (some (pre ++ rest))) = (.ok (-1), Sem.new) := by
  have key : absRun (parseXML env fuel (some (pre ++ rest))) = (.ok (-1), Sem.new) := by
    obtain ⟨s1, habs, h⟩ := begin_no_root rest hrest pre (fuel + 1) (XMLReader.new (pre ++ rest))
      hpre (by omega) rfl rfl (by simp [XMLReader.getNodeType, XMLReader.new]) rfl rfl
    have hb : XMLReader.begin (fuel + 1) TAG_NTA true (XMLReader.new (pre ++ rest))
        = (do XMLReader.read; XMLReader.begin fuel TAG_NTA true : M Bool)
            (XMLReader.new (pre ++ rest)) := by
      rw [XMLReader.begin]
      simp [XMLReader.getNodeType, XMLReader.new]
    rw [hb] at h
    have hrun : (do XMLReader.read; XMLReader.nta env fuel : M Unit) (XMLReader.new (pre ++ rest))
        = (.fatal (-1), s1) := by
      rcases hread : XMLReader.read (XMLReader.new (pre ++ rest)) with ⟨o, s2⟩
      simp only [StM.bind_apply, StM.andThen, hread] at h ⊢
      cases o with
      | ok a =>
        simp only at h ⊢
        simp only [XMLReader.nta]
        rcases h with h | h
        · exact bind_fatal h
        · rw [StM.bind_ok h]
          rfl
      | fatal c =>
        simp only at h ⊢
        rcases h with h | h
        · simp only [Prod.mk.injEq, Outcome.fatal.injEq] at h ⊢
          exact h
        · simp at h
      | typeException e => simp at h
      | crash => simp at h
      | timeout => simp at h
    simp only [absRun, parseXML, hrun, habs]
  exact ⟨key, key⟩

theorem C13_missing_root_is_fatal_witness :
    ((∀ x ∈ [textNode " "], x.type ≠ ELEMENT ∧ x.type ≠ END_ELEMENT)
      ∧ [textNode " "].length < 5)
    ∧ absRun (parseXMLFile acceptAll 5
        (some ([textNode " "] ++ [startTag "template" [], endTag "template"])))
        = (.ok (-1), Sem.new)
    ∧ absRun (parseXMLBuffer acceptAll 5
        (some ([textNode " "] ++ [startTag "template" [], endTag "template"])))
        = (.ok (-1), Sem.new) :=
  ⟨⟨by decide, by decide⟩,
    C13_missing_root_is_fatal acceptAll 5 [textNode " "]
      [startTag "template" [], endTag "template"] (by decide)
      (Or.inr ⟨startTag "template" [], [endTag "template"], rfl, rfl, by decide⟩) (by decide)⟩

/-- C14 fails in the code.  The document has the templates `T` and `U`,
an `instantiation` and a `system` element; the builder rejects the
`procBegin` of `T` only.  The parse returns 0 after `procBegin` of `T` and
`done`: the template `U` gets no `procBegin` and the grammar is called
neither for the instantiation nor for the system text.  With a builder that
accepts everything the same document gives the calls of both templates and
both grammar calls. -/
theorem C14_rejected_template_ends_traversal :
    absRun (parseXMLBuffer rejectT 60 (some twoTemplatesInst.render))
        = (.ok 0, ⟨[], [Call.procBegin (some "T") 0, Call.done], ["rejected"]⟩)
      ∧ absRun (parseXMLBuffer acceptAll 60 (some twoTemplatesInst.render))
        = (.ok 0, ⟨[(some "a", "_a"), (some "b", "_b")],
            [Call.procBegin (some "T") 0, Call.procState "_a" false, Call.procStateInit "_a",
              Call.procEdge "_a" "_a", Call.procEnd,
              Call.procBegin (some "U") 0, Call.procState "_b" false, Call.procStateInit "_b",
              Call.procEdge "_b" "_b", Call.procEnd,
              Call.parseXTA "P = T();" true S_INST, Call.parseXTA "system T;" true S_SYSTEM,
              Call.done], []⟩) := by
  decide!

/-! ### A template whose `procBegin` is rejected -/

theorem templ_body (env : Env) (fuel : Nat) (t : TemplateD)
    (ht : t.ok) (tail : List Node)
    (hF : Follows [TAG_TEMPLATE, TAG_INSTANTIATION, TAG_SYSTEM] tail) :
    Parses fuel none
      (do
        let t_name ← XMLReader.name env fuel
        let p_count ← XMLReader.parameter env fuel
        XMLReader.notify env (Call.procBegin t_name p_count)
        let _ ← XMLReader.declaration env fuel
        StM.whileLoop fuel (XMLReader.location env fuel) id ()
        let _ ← XMLReader.init env fuel
        StM.whileLoop fuel (XMLReader.transition env fuel) id ()
        XMLReader.notify env Call.procEnd)
      (do
        let t_name ← semName env t.name
        let p_count ← semParameter env t.parameter
        Sem.notify env (Call.procBegin t_name p_count)
        let _ ← semDeclaration env t.declaration
        Sem.forEach (semLocation env) t.locations
        let _ ← semInit env t.init
        Sem.forEach (semTransition env) t.transitions
        Sem.notify env Call.procEnd)
      (renderOpt TAG_NAME t.name ++ (renderOpt TAG_PARAMETER t.parameter
        ++ (renderOpt TAG_DECLARATION t.declaration ++ (renderLocations t.locations
          ++ (renderOpt TAG_INIT t.init ++ renderTransitions t.transitions)))))
      tail := by
  obtain ⟨_, h_name, h_param, h_decl, h_locs, h_init, h_trans, _⟩ := ht
  have hF5 : Follows [TAG_TRANSITION, TAG_TEMPLATE, TAG_INSTANTIATION, TAG_SYSTEM]
      (renderTransitions t.transitions ++ tail) := by
    cases htr : t.transitions with
    | nil => simpa [renderTransitions] using Follows_mono hF (fun x hx => by simp at hx ⊢; tauto)
    | cons a l =>
      simp only [renderTransitions, TransitionD.render, List.append_assoc]
      exact Follows_render TAG_TRANSITION a.el _ _ (by simp)
  have hF4 : Follows [TAG_INIT, TAG_TRANSITION, TAG_TEMPLATE, TAG_INSTANTIATION, TAG_SYSTEM]
      ((renderOpt TAG_INIT t.init ++ renderTransitions t.transitions) ++ tail) := by
    simpa using Follows_opt TAG_INIT t.init hF5 (by simp) (by simp)
  have hF3 : Follows [TAG_LOCATION, TAG_INIT, TAG_TRANSITION, TAG_TEMPLATE, TAG_INSTANTIATION,
      TAG_SYSTEM]
      ((renderLocations t.locations
        ++ (renderOpt TAG_INIT t.init ++ renderTransitions t.transitions)) ++ tail) := by
    cases hl : t.locations with
    | nil => simpa [renderLocations] using Follows_mono hF4 (fun x hx => by simp at hx ⊢; tauto)
    | cons a l =>
      simp only [renderLocations, LocationD.render, List.append_assoc]
      exact Follows_render TAG_LOCATION a.el _ _ (by simp)
  have hF2 : Follows [TAG_DECLARATION, TAG_LOCATION, TAG_INIT, TAG_TRANSITION, TAG_TEMPLATE,
      TAG_INSTANTIATION, TAG_SYSTEM]
      ((renderOpt TAG_DECLARATION t.declaration ++ (renderLocations t.locations
        ++ (renderOpt TAG_INIT t.init ++ renderTransitions t.transitions))) ++ tail) := by
    simpa using Follows_opt TAG_DECLARATION t.declaration hF3 (by simp) (by simp)
  have hF1 : Follows [TAG_PARAMETER, TAG_DECLARATION, TAG_LOCATION, TAG_INIT, TAG_TRANSITION,
      TAG_TEMPLATE, TAG_INSTANTIATION, TAG_SYSTEM]
      ((renderOpt TAG_PARAMETER t.parameter ++ (renderOpt TAG_DECLARATION t.declaration
        ++ (renderLocations t.locations
          ++ (renderOpt TAG_INIT t.init ++ renderTransitions t.transitions)))) ++ tail) := by
    simpa using Follows_opt TAG_PARAMETER t.parameter hF2 (by simp) (by simp)
  refine Parses_bind (name_parses env fuel none (Or.inl rfl) t.name h_name _ _ hF1
    (by decide)) (fun t_name => ?_)
  refine Parses_bind (parameter_parses env fuel none (Or.inl rfl) t.parameter h_param _ _ hF2
    (by decide)) (fun p_count => ?_)
  refine Parses_bind (X := []) (ParsesG_of_sim _ (Sim_notify env _)) (fun _ => ?_)
  apply ParsesT_toParses
  refine ParsesT_bind (declaration_parses env fuel none (Or.inl rfl) t.declaration h_decl _ _
    hF3 (by decide)) (NoThrow_semDeclaration env _) (fun _ => ?_)
  refine ParsesG_bind_val (locations_parses env fuel t.locations h_locs _ hF4)
    (NoThrow_forEach _ (NoThrow_semLocation env) _) ?_ caught_of_caught
  refine ParsesT_bind (init_parses env fuel t.init h_init _ _ hF5 (by decide))
    (NoThrow_semInit env _) (fun _ => ?_)
  exact ParsesG_bind_val_last (transitions_parses env fuel t.transitions h_trans _ hF)
    (NoThrow_forEach _ (NoThrow_semTransition env) _) (Sim_notify env _) caught_of_caught

theorem tryCatch_agrees {m : M Unit} {m' : StM Sem Unit} {s : XMLReader} {σ : Sem}
    (h1 : (m s).1 = (m' σ).1) (h2 : (m s).2.abs = (m' σ).2) :
    ((StM.tryCatch m (fun what => XMLReader.handleError what) >>= fun _ => pure true) s).1
        = ((StM.tryCatch m' (fun what => Sem.handleError what) >>= fun _ => pure true) σ).1
      ∧ ((StM.tryCatch m (fun what => XMLReader.handleError what) >>= fun _ => pure true) s).2.abs
        = ((StM.tryCatch m' (fun what => Sem.handleError what) >>= fun _ => pure true) σ).2 := by
  simp only [StM.bind_apply, StM.andThen, StM.tryCatch]
  rcases hms : m s with ⟨o, s1⟩
  rcases hms' : m' σ with ⟨o', σ1⟩
  rw [hms, hms'] at h1 h2
  simp only at h1 h2
  subst h1 h2
  cases o with
  | typeException msg =>
    obtain ⟨g1, g2, _⟩ := Sim_handleError msg s1
    simp only [XMLReader.handleError, Sem.handleError] at g1 g2 ⊢
    exact ⟨rfl, g2⟩
  | ok a => exact ⟨rfl, rfl⟩
  | fatal c => exact ⟨rfl, rfl⟩
  | crash => exact ⟨rfl, rfl⟩
  | timeout => exact ⟨rfl, rfl⟩

/-- Whatever the builder answers, `templ` on a template ends as
`semTemplate` does, with the same calls, messages and locations. -/
theorem templ_agrees (env : Env) (fuel : Nat) (k : Option tag_t)
    (hk : k = none ∨ k = some TAG_TEMPLATE) (t : TemplateD) (ht : t.ok)
    (hem : t.el.isEmpty = false) (tail : List Node)
    (hF : Follows [TAG_TEMPLATE, TAG_INSTANTIATION, TAG_SYSTEM] tail)
    (s : XMLReader) (hG : Good fuel s) (hP : Pending k s (t.render ++ tail)) :
    (XMLReader.templ env fuel s).1 = (semTemplate env t s.abs).1
      ∧ (XMLReader.templ env fuel s).2.abs = (semTemplate env t s.abs).2 := by
  have hF0 : ∃ S, Follows S
      ((renderOpt TAG_NAME t.name ++ (renderOpt TAG_PARAMETER t.parameter
        ++ (renderOpt TAG_DECLARATION t.declaration ++ (renderLocations t.locations
          ++ (renderOpt TAG_INIT t.init ++ renderTransitions t.transitions))))) ++ tail) := by
    refine ⟨[TAG_NAME, TAG_PARAMETER, TAG_DECLARATION, TAG_LOCATION, TAG_INIT, TAG_TRANSITION,
      TAG_TEMPLATE, TAG_INSTANTIATION, TAG_SYSTEM], ?_⟩
    have h5 : Follows [TAG_NAME, TAG_PARAMETER, TAG_DECLARATION, TAG_LOCATION, TAG_INIT,
        TAG_TRANSITION, TAG_TEMPLATE, TAG_INSTANTIATION, TAG_SYSTEM]
        (renderTransitions t.transitions ++ tail) := by
      cases htr : t.transitions with
      | nil =>
        simpa [renderTransitions] using Follows_mono hF (fun x hx => by simp at hx ⊢; tauto)
      | cons a l =>
        simp only [renderTransitions, TransitionD.render, List.append_assoc]
        exact Follows_render TAG_TRANSITION a.el _ _ (by simp)
    have h4 := Follows_opt TAG_INIT t.init h5 (fun _ h => h) (by simp)
    have h3 : Follows [TAG_NAME, TAG_PARAMETER, TAG_DECLARATION, TAG_LOCATION, TAG_INIT,
        TAG_TRANSITION, TAG_TEMPLATE, TAG_INSTANTIATION, TAG_SYSTEM]
        (renderLocations t.locations
          ++ (renderOpt TAG_INIT t.init ++ (renderTransitions t.transitions ++ tail))) := by
      cases hl : t.locations with
      | nil => simpa [renderLocations] using h4
      | cons a l =>
        simp only [renderLocations, LocationD.render, List.append_assoc]
        exact Follows_render TAG_LOCATION a.el _ _ (by simp)
    have h2 := Follows_opt TAG_DECLARATION t.declaration h3 (fun _ h => h) (by simp)
    have h1 := Follows_opt TAG_PARAMETER t.parameter h2 (fun _ h => h) (by simp)
    simpa using Follows_opt TAG_NAME t.name h1 (fun _ h => h) (by simp)
  obtain ⟨s1, s2, hbg, hc, hr, ha, hG1, hread, ha2, hG2, hP2, htext⟩ :=
    enter fuel TAG_TEMPLATE true k
      (by rcases hk with h | h; exact Or.inl h; exact Or.inr ⟨h, rfl⟩) t.el _ ht.1
      (Or.inl hF0) (by simp [hem]) s hG (by simpa [TemplateD.render] using hP)
  obtain ⟨b1, b2, _⟩ := templ_body env fuel t ht tail hF s2 hG2 hP2
  rw [ha2] at b1 b2
  have key := tryCatch_agrees b1 b2
  have e1 : XMLReader.templ env fuel s = (StM.tryCatch (do
        let t_name ← XMLReader.name env fuel
        let p_count ← XMLReader.parameter env fuel
        XMLReader.notify env (Call.procBegin t_name p_count)
        let _ ← XMLReader.declaration env fuel
        StM.whileLoop fuel (XMLReader.location env fuel) id ()
        let _ ← XMLReader.init env fuel
        StM.whileLoop fuel (XMLReader.transition env fuel) id ()
        XMLReader.notify env Call.procEnd) (fun what => XMLReader.handleError what)
        >>= fun _ => pure true) s2 := by
    simp only [XMLReader.templ, StM.bind_apply, StM.andThen, hbg, if_true, StM.tryCatch, hread]
  have e2 : semTemplate env t = (StM.tryCatch (do
        let t_name ← semName env t.name
        let p_count ← semParameter env t.parameter
        Sem.notify env (Call.procBegin t_name p_count)
        let _ ← semDeclaration env t.declaration
        Sem.forEach (semLocation env) t.locations
        let _ ← semInit env t.init
        Sem.forEach (semTransition env) t.transitions
        Sem.notify env Call.procEnd) (fun what => Sem.handleError what)
        >>= fun _ => pure true) := by
    simp only [semTemplate, hem, Bool.false_eq_true, if_false]
  rw [e1, e2]
  exact key

theorem semTemplate_rejected (env : Env) (t : TemplateD) (hem : t.el.isEmpty = false)
    (σ σ1 : Sem) (nm : Option String) (cnt : Int) (msg : String)
    (hpre : semTemplateNames env t σ = (.ok (nm, cnt), σ1))
    (hrej : env.builder σ1.log (Call.procBegin nm cnt) = some msg) :
    semTemplate env t σ
      = (.ok true, ⟨σ1.locations, σ1.log ++ [Call.procBegin nm cnt], σ1.msgs ++ [msg]⟩) := by
  obtain ⟨n, σ0, h1, h2⟩ := bind_ok_inv hpre
  obtain ⟨c, σ2, h3, h4⟩ := bind_ok_inv h2
  simp only [StM.pure_apply, Prod.mk.injEq, Outcome.ok.injEq] at h4
  obtain ⟨⟨rfl, rfl⟩, rfl⟩ := h4
  simp [semTemplate, hem, StM.bind_apply, StM.andThen, StM.tryCatch, h1, h3, Sem.notify, hrej,
    Sem.handleError]

theorem semTemplateNames_log (env : Env) (t : TemplateD) :
    Adds (fun c => c.isParse = true) (semTemplateNames env t) := by
  unfold semTemplateNames
  refine Adds_bind (Adds_semName _ env _) (fun _ => ?_)
  refine Adds_bind (Adds_semParameter (P := fun c => c.isParse = true) env (fun _ => rfl) _)
    (fun _ => Adds_pure _ _)

/-- C15: `templ` on a template, read from a good state, when the builder
rejects `procBegin` with message `msg` in the state `σ1` that the name and
the parameters leave: `templ` returns true, and after the name and the
parameters, which call nothing but the embedded grammar and leave the map of
locations as it was, its only call is the rejected `procBegin` and its only
error message is `msg`. -/
theorem C15_rejected_begin_is_reported (env : Env) (fuel : Nat) (t : TemplateD) (ht : t.ok)
    (hem : t.el.isEmpty = false) (tail : List Node)
    (hF : Follows [TAG_TEMPLATE, TAG_INSTANTIATION, TAG_SYSTEM] tail)
    (s : XMLReader) (hG : Good fuel s) (hP : Pending none s (t.render ++ tail))
    (nm : Option String) (cnt : Int) (σ1 : Sem) (msg : String)
    (hpre : semTemplateNames env t s.abs = (.ok (nm, cnt), σ1))
    (hrej : env.builder σ1.log (Call.procBegin nm cnt) = some msg) :
    (XMLReader.templ env fuel s).1 = .ok true
      ∧ (XMLReader.templ env fuel s).2.log = σ1.log ++ [Call.procBegin nm cnt]
      ∧ (XMLReader.templ env fuel s).2.abs.msgs = σ1.msgs ++ [msg]
      ∧ (XMLReader.templ env fuel s).2.locations = s.locations
      ∧ ∃ l, σ1.log = s.log ++ l ∧ ∀ c ∈ l, c.isParse = true := by
  obtain ⟨h1, h2⟩ := templ_agrees env fuel none (Or.inl rfl) t ht hem tail hF s hG hP
  rw [semTemplate_rejected env t hem s.abs σ1 nm cnt msg hpre hrej] at h1 h2
  have hlocs : σ1.locations = s.locations := by
    obtain ⟨n, σ0, g1, g2⟩ := bind_ok_inv hpre
    obtain ⟨c, σ2, g3, g4⟩ := bind_ok_inv g2
    simp only [StM.pure_apply, Prod.mk.injEq, Outcome.ok.injEq] at g4
    obtain ⟨_, rfl⟩ := g4
    obtain ⟨σ0', k1, k2, _⟩ := semName_state env t.name s.abs
    rw [k1] at g1
    simp only [Prod.mk.injEq, Outcome.ok.injEq] at g1
    obtain ⟨_, rfl⟩ := g1
    have : σ2.locations = σ0'.locations := by
      have := congrArg (fun r => r.2.locations) g3
      simp only [semParameter] at this
      rw [← this]
      cases (found t.parameter).bind El.text <;> rfl
    rw [this, k2]
    rfl
  obtain ⟨l, g1, g2⟩ := semTemplateNames_log env t s.abs
  rw [hpre] at g1
  exact ⟨h1, congrArg Sem.log h2, congrArg Sem.msgs h2, (congrArg Sem.locations h2).trans hlocs,
    l, g1, g2⟩

theorem C15_rejected_begin_is_reported_witness :
    ((loopTemplate "T" "a").ok
      ∧ Good 20 (XMLReader.new ((loopTemplate "T" "a").render ++ [startTag "system" []]))
      ∧ Pending none (XMLReader.new ((loopTemplate "T" "a").render ++ [startTag "system" []]))
          ((loopTemplate "T" "a").render ++ [startTag "system" []])
      ∧ semTemplateNames rejectBegin (loopTemplate "T" "a")
          (XMLReader.new ((loopTemplate "T" "a").render ++ [startTag "system" []])).abs
          = (.ok (some "T", 0), Sem.new)
      ∧ rejectBegin.builder Sem.new.log (Call.procBegin (some "T") 0) = some "rejected")
    ∧ (XMLReader.templ rejectBegin 20
          (XMLReader.new ((loopTemplate "T" "a").render ++ [startTag "system" []]))).1 = .ok true
    ∧ (XMLReader.templ rejectBegin 20
          (XMLReader.new ((loopTemplate "T" "a").render ++ [startTag "system" []]))).2.log
        = [Call.procBegin (some "T") 0]
    ∧ (XMLReader.templ rejectBegin 20
          (XMLReader.new ((loopTemplate "T" "a").render ++ [startTag "system" []]))).2.abs.msgs
        = ["rejected"] :=
  have hG : Good 20 (XMLReader.new ((loopTemplate "T" "a").render ++ [startTag "system" []])) :=
    ⟨⟨[], by decide, by simp [PathOK, pendingPop, XMLReader.new, Path.new]⟩, by decide⟩
  have hP : Pending none
      (XMLReader.new ((loopTemplate "T" "a").render ++ [startTag "system" []]))
      ((loopTemplate "T" "a").render ++ [startTag "system" []]) :=
    ⟨[], rfl, by simp⟩
  have hpre : semTemplateNames rejectBegin (loopTemplate "T" "a")
      (XMLReader.new ((loopTemplate "T" "a").render ++ [startTag "system" []])).abs
      = (.ok (some "T", 0), Sem.new) := by decide!
  have h := C15_rejected_begin_is_reported rejectBegin 20 (loopTemplate "T" "a") (by decide) rfl
    [startTag "system" []] ⟨startTag "system" [], [], TAG_SYSTEM, rfl, rfl, rfl, by simp⟩
    (XMLReader.new ((loopTemplate "T" "a").render ++ [startTag "system" []])) hG hP
    (some "T") 0 Sem.new "rejected" hpre rfl
  ⟨⟨by decide, hG, hP, hpre, rfl⟩, h.1, h.2.1, h.2.2.1⟩

/-! ### The calls of a template after `procBegin` -/

theorem inBody_label (env : Env) (t : String) (p : xta_part_t)
    (h : p = S_INVARIANT ∨ p = S_GUARD ∨ p = S_SYNC ∨ p = S_ASSIGN) :
    (Call.parseXTA t env.newxta p).inBody = true := by
  rcases h with h | h | h | h <;> subst h <;> rfl

theorem inBody_semLocation (env : Env) (l : LocationD) :
    Adds (fun c => c.inBody = true) (semLocation env l) := by
  unfold UTAP.semLocation
  refine Adds_bind (Adds_tryCatch ?_ (fun _ => Adds_handleError _ _)) (fun _ => Adds_pure _ _)
  refine Adds_bind (Adds_semName _ env _) (fun _ => ?_)
  refine Adds_bind (Adds_forEach _ (Adds_semLabel env (inBody_label env)) _) (fun _ => ?_)
  refine Adds_bind (Adds_locationName _ _ _) (fun _ => ?_)
  refine Adds_bind (Adds_setLocation _ _ _) (fun _ => ?_)
  refine Adds_bind (Adds_notify env _ rfl) (fun _ => ?_)
  exact Adds_ite
    (Adds_bind (Adds_notify env _ rfl)
      (fun _ => Adds_ite (Adds_notify env _ rfl) (Adds_pure _ _)))
    (Adds_bind (Adds_pure _ ())
      (fun _ => Adds_ite (Adds_notify env _ rfl) (Adds_pure _ _)))

theorem inBody_semInit (env : Env) (o : Option El) :
    Adds (fun c => c.inBody = true) (semInit env o) := by
  unfold UTAP.semInit
  split
  · exact Adds_bind (Adds_handleError _ _) (fun _ => Adds_pure _ _)
  · split
    · exact Adds_bind (Adds_getLocation _ _)
        (fun _ => Adds_bind (Adds_tryCatch (Adds_notify env _ rfl)
          (fun _ => Adds_handleError _ _)) (fun _ => Adds_pure _ _))
    · exact Adds_bind (Adds_handleError _ _) (fun _ => Adds_pure _ _)

theorem inBody_semTransition (env : Env) (t : TransitionD) :
    Adds (fun c => c.inBody = true) (semTransition env t) := by
  unfold UTAP.semTransition
  refine Adds_ite (Adds_pure _ _) ?_
  refine Adds_bind (Adds_tryCatch ?_ (fun _ => Adds_handleError _ _)) (fun _ => Adds_pure _ _)
  refine Adds_bind (Adds_semEndpoint _ _) (fun _ => ?_)
  refine Adds_bind (Adds_semEndpoint _ _) (fun _ => ?_)
  refine Adds_bind (Adds_forEach _ (Adds_semLabel env (inBody_label env)) _) (fun _ => ?_)
  exact Adds_notify env _ rfl

theorem caught_log (m : StM Sem Unit) (σ : Sem) :
    ((StM.tryCatch m (fun what => Sem.handleError what) >>= fun _ => pure true) σ).2.log
      = (m σ).2.log := by
  simp only [StM.bind_apply, StM.andThen, StM.tryCatch]
  rcases m σ with ⟨o, σ1⟩
  cases o <;> rfl

theorem notify_then {α : Type} {P : Call → Prop} (env : Env) (c : Call)
    (K : Unit → StM Sem α) (hK : ∀ u, Adds P (K u)) (σ : Sem) :
    ∃ rest, ((Sem.notify env c >>= K) σ).2.log = σ.log ++ c :: rest ∧ ∀ x ∈ rest, P x := by
  simp only [StM.bind_apply, StM.andThen, Sem.notify]
  cases env.builder σ.log c with
  | none =>
    obtain ⟨l, h1, h2⟩ := hK () { σ with log := σ.log ++ [c] }
    exact ⟨l, by simp only [h1, List.append_assoc, List.singleton_append], h2⟩
  | some msg => exact ⟨[], rfl, by simp⟩

theorem semTemplate_begin (env : Env) (t : TemplateD) (hem : t.el.isEmpty = false) (σ : Sem) :
    ∃ rest, (semTemplate env t σ).2.log
        = (match (found t.parameter).bind El.text with
          | some text =>
            σ.log ++ [Call.parseXTA text env.newxta S_PARAMETERS,
              Call.procBegin (nameOf env t.name)
                (env.parseXTA σ.log text env.newxta S_PARAMETERS).1]
          | none => σ.log ++ [Call.procBegin (nameOf env t.name) 0]) ++ rest
      ∧ ∀ c ∈ rest, c.inBody = true := by
  have e2 : semTemplate env t = (StM.tryCatch (do
        let t_name ← semName env t.name
        let p_count ← semParameter env t.parameter
        Sem.notify env (Call.procBegin t_name p_count)
        let _ ← semDeclaration env t.declaration
        Sem.forEach (semLocation env) t.locations
        let _ ← semInit env t.init
        Sem.forEach (semTransition env) t.transitions
        Sem.notify env Call.procEnd) (fun what => Sem.handleError what)
        >>= fun _ => pure true) := by
    simp only [semTemplate, hem, Bool.false_eq_true, if_false]
  rw [e2, caught_log]
  obtain ⟨σ0, k1, _, k3⟩ := semName_state env t.name σ
  rw [StM.bind_ok k1]
  have hK : ∀ u : Unit, Adds (fun c => c.inBody = true) (do
        let _ ← semDeclaration env t.declaration
        Sem.forEach (semLocation env) t.locations
        let _ ← semInit env t.init
        Sem.forEach (semTransition env) t.transitions
        Sem.notify env Call.procEnd) := by
    intro _
    refine Adds_bind (Adds_semDeclaration (P := fun c => c.inBody = true) env (fun _ => rfl) _)
      (fun _ => ?_)
    refine Adds_bind (Adds_forEach _ (inBody_semLocation env) _) (fun _ => ?_)
    refine Adds_bind (inBody_semInit env _) (fun _ => ?_)
    refine Adds_bind (Adds_forEach _ (inBody_semTransition env) _) (fun _ => ?_)
    exact Adds_notify env _ rfl
  cases hp : (found t.parameter).bind El.text with
  | none =>
    have k4 : semParameter env t.parameter σ0 = (.ok 0, σ0) := by
      simp only [semParameter, hp]
      rfl
    rw [StM.bind_ok k4]
    obtain ⟨rest, g1, g2⟩ := notify_then env (Call.procBegin (nameOf env t.name) 0) _ hK σ0
    refine ⟨rest, ?_, g2⟩
    rw [g1, k3]
    simp
  | some text =>
    have k4 : semParameter env t.parameter σ0
        = (.ok (env.parseXTA σ.log text env.newxta S_PARAMETERS).1,
            { σ0 with
              log := σ0.log ++ [Call.parseXTA text env.newxta S_PARAMETERS],
              msgs := σ0.msgs ++ (env.parseXTA σ.log text env.newxta S_PARAMETERS).2 }) := by
      simp only [semParameter, hp, Sem.parse, k3]
    rw [StM.bind_ok k4]
    obtain ⟨rest, g1, g2⟩ := notify_then env (Call.procBegin (nameOf env t.name)
      (env.parseXTA σ.log text env.newxta S_PARAMETERS).1) _ hK
      { σ0 with
        log := σ0.log ++ [Call.parseXTA text env.newxta S_PARAMETERS],
        msgs := σ0.msgs ++ (env.parseXTA σ.log text env.newxta S_PARAMETERS).2 }
    refine ⟨rest, ?_, g2⟩
    rw [g1, k3]
    simp

/-- C16: `templ` on a template, read from a good state.  When the
`parameter` element is present, not written `<parameter/>`, and followed by
a text, the calls of `templ` start with one call of the embedded grammar for
that text with `S_PARAMETERS` and then `procBegin` with the name that `name`
extracts and the count this grammar call returns.  Otherwise they start with
`procBegin` with that name and the count 0.  Every later call of `templ` is
a grammar call for a declaration or a label or a notification other than
`procBegin`, so the grammar is called for parameters at most this once. -/
theorem C16_begin_template_arguments (env : Env) (fuel : Nat) (t : TemplateD) (ht : t.ok)
    (hem : t.el.isEmpty = false) (tail : List Node)
    (hF : Follows [TAG_TEMPLATE, TAG_INSTANTIATION, TAG_SYSTEM] tail)
    (s : XMLReader) (hG : Good fuel s) (hP : Pending none s (t.render ++ tail)) :
    (∀ text, (found t.parameter).bind El.text = some text →
      ∃ rest, (XMLReader.templ env fuel s).2.log
          = s.log ++ [Call.parseXTA text env.newxta S_PARAMETERS,
              Call.procBegin (nameOf env t.name)
                (env.parseXTA s.log text env.newxta S_PARAMETERS).1] ++ rest
        ∧ ∀ c ∈ rest, c.inBody = true)
      ∧ ((found t.parameter).bind El.text = none →
        ∃ rest, (XMLReader.templ env fuel s).2.log
            = s.log ++ [Call.procBegin (nameOf env t.name) 0] ++ rest
          ∧ ∀ c ∈ rest, c.inBody = true) := by
  obtain ⟨_, h2⟩ := templ_agrees env fuel none (Or.inl rfl) t ht hem tail hF s hG hP
  have hlog : (XMLReader.templ env fuel s).2.log = (semTemplate env t s.abs).2.log :=
    congrArg Sem.log h2
  obtain ⟨rest, g1, g2⟩ := semTemplate_begin env t hem s.abs
  rw [← hlog] at g1
  constructor
  · intro text hp
    rw [hp] at g1
    exact ⟨rest, g1, g2⟩
  · intro hp
    rw [hp] at g1
    exact ⟨rest, g1, g2⟩

theorem C16_begin_template_arguments_witness :
    (paramTemplate.ok
      ∧ Good 20 (XMLReader.new (paramTemplate.render ++ [startTag "system" []]))
      ∧ Pending none (XMLReader.new (paramTemplate.render ++ [startTag "system" []]))
          (paramTemplate.render ++ [startTag "system" []])
      ∧ (found paramTemplate.parameter).bind El.text = some "int x")
    ∧ ∃ rest, (XMLReader.templ acceptAll 20
          (XMLReader.new (paramTemplate.render ++ [startTag "system" []]))).2.log
        = (XMLReader.new (paramTemplate.render ++ [startTag "system" []])).log
          ++ [Call.parseXTA "int x" acceptAll.newxta S_PARAMETERS,
            Call.procBegin (nameOf acceptAll paramTemplate.name)
              (acceptAll.parseXTA
                (XMLReader.new (paramTemplate.render ++ [startTag "system" []])).log
                "int x" acceptAll.newxta S_PARAMETERS).1] ++ rest
      ∧ ∀ c ∈ rest, c.inBody = true :=
  have hG : Good 20 (XMLReader.new (paramTemplate.render ++ [startTag "system" []])) :=
    ⟨⟨[], by decide, by simp [PathOK, pendingPop, XMLReader.new, Path.new]⟩, by decide⟩
  have hP : Pending none
      (XMLReader.new (paramTemplate.render ++ [startTag "system" []]))
      (paramTemplate.render ++ [startTag "system" []]) :=
    ⟨[], rfl, by simp⟩
  ⟨⟨by decide, hG, hP, by decide⟩,
    (C16_begin_template_arguments acceptAll 20 paramTemplate (by decide) rfl
      [startTag "system" []] ⟨startTag "system" [], [], TAG_SYSTEM, rfl, rfl, rfl, by simp⟩
      (XMLReader.new (paramTemplate.render ++ [startTag "system" []])) hG hP).1 "int x"
      (by decide)⟩

/-- C17: `label` on a label element that is not written `<label/>`, read
from a good state.  If a text follows the start tag, the embedded grammar is
called once, with that text, for the kinds `invariant`, `guard`,
`synchronisation` and `assignment`, with `S_INVARIANT`, `S_GUARD`, `S_SYNC`
and `S_ASSIGN`, which differ from each other, and it is not called for any
other kind.  If no text follows the start tag, nothing is called. -/
theorem C17_label_grammar_call (env : Env) (fuel : Nat) (e : El) (he : e.ok)
    (hem : e.isEmpty = false) (tail : List Node) (S : List tag_t) (hF : Follows S tail)
    (s : XMLReader) (hG : Good fuel s) (hP : Pending none s (e.render TAG_LABEL ++ tail)) :
    (∀ text, e.text = some text →
      (e.attrs.lookup "kind" = some "invariant" →
        (XMLReader.label env fuel s).2.log
          = s.log ++ [Call.parseXTA text env.newxta S_INVARIANT])
      ∧ (e.attrs.lookup "kind" = some "guard" →
        (XMLReader.label env fuel s).2.log = s.log ++ [Call.parseXTA text env.newxta S_GUARD])
      ∧ (e.attrs.lookup "kind" = some "synchronisation" →
        (XMLReader.label env fuel s).2.log = s.log ++ [Call.parseXTA text env.newxta S_SYNC])
      ∧ (e.attrs.lookup "kind" = some "assignment" →
        (XMLReader.label env fuel s).2.log = s.log ++ [Call.parseXTA text env.newxta S_ASSIGN])
      ∧ (∀ k, e.attrs.lookup "kind" = some k → k ≠ "invariant" → k ≠ "guard" →
          k ≠ "synchronisation" → k ≠ "assignment" →
          (XMLReader.label env fuel s).2.log = s.log))
      ∧ (e.text = none → (XMLReader.label env fuel s).2.log = s.log)
      ∧ (S_GUARD ≠ S_SYNC ∧ S_GUARD ≠ S_ASSIGN ∧ S_SYNC ≠ S_ASSIGN ∧ S_INVARIANT ≠ S_GUARD
        ∧ S_INVARIANT ≠ S_SYNC ∧ S_INVARIANT ≠ S_ASSIGN) := by
  obtain ⟨_, h2, _⟩ := label_parses env fuel none (Or.inl rfl) e he hem tail S hF s hG hP
  have hlog : (XMLReader.label env fuel s).2.log = (semLabel env e s.abs).2.log :=
    congrArg Sem.log h2
  have hfo : found (some e) = some e := by simp [found, hem]
  refine ⟨fun text hte => ⟨?_, ?_, ?_, ?_, ?_⟩, ?_, by decide⟩
  · intro hk
    rw [hlog]
    simp [semLabel, hfo, hte, hk, Sem.labelText, Sem.parse, StM.bind_apply, StM.andThen,
      XMLReader.abs]
  · intro hk
    rw [hlog]
    simp [semLabel, hfo, hte, hk, Sem.labelText, Sem.parse, StM.bind_apply, StM.andThen,
      XMLReader.abs]
  · intro hk
    rw [hlog]
    simp [semLabel, hfo, hte, hk, Sem.labelText, Sem.parse, StM.bind_apply, StM.andThen,
      XMLReader.abs]
  · intro hk
    rw [hlog]
    simp [semLabel, hfo, hte, hk, Sem.labelText, Sem.parse, StM.bind_apply, StM.andThen,
      XMLReader.abs]
  · intro k hk n1 n2 n3 n4
    rw [hlog]
    simp [semLabel, hfo, hte, hk, Sem.labelText, n1, n2, n3, n4, StM.bind_apply, StM.andThen,
      XMLReader.abs]
  · intro hte
    rw [hlog]
    simp [semLabel, hfo, hte, XMLReader.abs]

theorem C17_label_grammar_call_witness :
    (guardLabel.ok
      ∧ Good 10 (XMLReader.new (guardLabel.render TAG_LABEL ++ [startTag "system" []]))
      ∧ Pending none (XMLReader.new (guardLabel.render TAG_LABEL ++ [startTag "system" []]))
          (guardLabel.render TAG_LABEL ++ [startTag "system" []])
      ∧ guardLabel.text = some "x > 0" ∧ guardLabel.attrs.lookup "kind" = some "guard")
    ∧ (XMLReader.label acceptAll 10
          (XMLReader.new (guardLabel.render TAG_LABEL ++ [startTag "system" []]))).2.log
        = (XMLReader.new (guardLabel.render TAG_LABEL ++ [startTag "system" []])).log
          ++ [Call.parseXTA "x > 0" acceptAll.newxta S_GUARD] :=
  have hG : Good 10 (XMLReader.new (guardLabel.render TAG_LABEL ++ [startTag "system" []])) :=
    ⟨⟨[], by decide, by simp [PathOK, pendingPop, XMLReader.new, Path.new]⟩, by decide⟩
  have hP : Pending none
      (XMLReader.new (guardLabel.render TAG_LABEL ++ [startTag "system" []]))
      (guardLabel.render TAG_LABEL ++ [startTag "system" []]) :=
    ⟨[], rfl, by simp⟩
  ⟨⟨by decide, hG, hP, by decide, by decide⟩,
    ((C17_label_grammar_call acceptAll 10 guardLabel (by decide) rfl
      [startTag "system" []] [TAG_SYSTEM]
      ⟨startTag "system" [], [], TAG_SYSTEM, rfl, rfl, rfl, by simp⟩
      (XMLReader.new (guardLabel.render TAG_LABEL ++ [startTag "system" []])) hG hP).1
      "x > 0" (by decide)).2.1 (by decide)⟩

/-! ### The identifier of a text -/

theorem isspace_not_isIdChr (c : Char) (h : isspace c = true) : isIdChr c = false := by
  have h32 : (Char.ofNat 32).toNat = 32 := by decide
  have h95 : (Char.ofNat 95).toNat = 95 := by decide
  have h36 : (Char.ofNat 36).toNat = 36 := by decide
  have h35 : (Char.ofNat 35).toNat = 35 := by decide
  simp only [isspace, Bool.or_eq_true, Bool.and_eq_true, decide_eq_true_eq] at h
  have hn : c.toNat = 32 ∨ (9 ≤ c.toNat ∧ c.toNat ≤ 13) := by
    rcases h with h | h
    · left
      rw [h, h32]
    · exact Or.inr h
  have hne : ∀ d : Char, d.toNat ≠ c.toNat → c ≠ d := fun d hd hcd => hd (by rw [hcd])
  have e95 : c ≠ Char.ofNat 95 := hne _ (by rw [h95]; omega)
  have e36 : c ≠ Char.ofNat 36 := hne _ (by rw [h36]; omega)
  have e35 : c ≠ Char.ofNat 35 := hne _ (by rw [h35]; omega)
  simp only [isIdChr, isalnum, isalpha, Bool.or_eq_false_iff, Bool.and_eq_false_iff,
    decide_eq_false_iff_not, e95, e36, e35, not_false_eq_true, and_true]
  refine ⟨⟨?_, ?_⟩, ?_⟩ <;> omega

theorem dropWhile_append_all {α : Type} (p : α → Bool) (l1 l2 : List α)
    (h : ∀ x ∈ l1, p x = true) : (l1 ++ l2).dropWhile p = l2.dropWhile p := by
  induction l1 with
  | nil => rfl
  | cons a l ih =>
    have ha : p a = true := h a (by simp)
    simp only [List.cons_append, List.dropWhile_cons, ha, if_true]
    exact ih (fun x hx => h x (by simp [hx]))

theorem takeWhile_append_all {α : Type} (p : α → Bool) (l1 l2 : List α)
    (h : ∀ x ∈ l1, p x = true) : (l1 ++ l2).takeWhile p = l1 ++ l2.takeWhile p := by
  induction l1 with
  | nil => rfl
  | cons a l ih =>
    have ha : p a = true := h a (by simp)
    simp only [List.cons_append, List.takeWhile_cons, ha, if_true]
    rw [ih (fun x hx => h x (by simp [hx]))]

theorem dropWhile_none {α : Type} (p : α → Bool) (l : List α) (h : ∀ x ∈ l, p x = false) :
    l.dropWhile p = l := by
  cases l with
  | nil => rfl
  | cons a l => simp [List.dropWhile_cons, h a (by simp)]

theorem takeWhile_none {α : Type} (p : α → Bool) (l : List α) (h : ∀ x ∈ l, p x = false) :
    l.takeWhile p = [] := by
  cases l with
  | nil => rfl
  | cons a l => simp [List.takeWhile_cons, h a (by simp)]

theorem dropWhile_all {α : Type} (p : α → Bool) (l : List α) (h : ∀ x ∈ l, p x = true) :
    l.dropWhile p = [] := by
  have := dropWhile_append_all p l [] h
  simpa using this

/-- The identifier of a text that is an identifier between white space. -/
theorem symbol_trim (ws1 ws2 : List Char) (id : String)
    (h1 : ∀ c ∈ ws1, isspace c = true) (h2 : ∀ c ∈ ws2, isspace c = true)
    (hid : identifier id = true) :
    symbol (some (String.mk (ws1 ++ id.data ++ ws2))) = .ok id := by
  unfold identifier at hid
  cases hd : id.data with
  | nil => simp [hd] at hid
  | cons c cs =>
    simp only [hd, Bool.and_eq_true, List.all_eq_true] at hid
    obtain ⟨hc, hcs⟩ := hid
    have hall : ∀ x ∈ c :: cs, isIdChr x = true := by
      intro x hx
      rcases List.mem_cons.mp hx with h | h
      · rw [h]
        exact isAlpha_isIdChr c hc
      · exact hcs x h
    have e1 : (ws1 ++ (c :: cs) ++ ws2).dropWhile isspace = c :: (cs ++ ws2) := by
      rw [List.append_assoc, dropWhile_append_all isspace ws1 _ h1]
      simp [List.dropWhile_cons, isAlpha_not_isspace c hc]
    have e2 : (c :: (cs ++ ws2)).dropWhile isIdChr = ws2 := by
      have := dropWhile_append_all isIdChr (c :: cs) ws2 hall
      rw [List.cons_append] at this
      rw [this]
      exact dropWhile_none isIdChr ws2 (fun x hx => isspace_not_isIdChr x (h2 x hx))
    have e3 : (c :: (cs ++ ws2)).takeWhile isIdChr = c :: cs := by
      have := takeWhile_append_all isIdChr (c :: cs) ws2 hall
      rw [List.cons_append] at this
      rw [this, takeWhile_none isIdChr ws2 (fun x hx => isspace_not_isIdChr x (h2 x hx))]
      simp
    have e4 : String.mk (c :: cs) = id := by
      rw [← hd]
    simp only [symbol, e1, hc, Bool.not_true, Bool.false_eq_true, if_false, e2,
      dropWhile_all isspace ws2 h2, ne_eq, not_true_eq_false, e3, e4]

/-- A text of which `symbol` returns `id` is `id` between white space, and
`id` is an identifier. -/
theorem symbol_ok_inv (text id : String) (h : symbol (some text) = .ok id) :
    ∃ ws1 ws2, text.data = ws1 ++ id.data ++ ws2 ∧ (∀ c ∈ ws1, isspace c = true)
      ∧ (∀ c ∈ ws2, isspace c = true) ∧ identifier id = true := by
  unfold symbol at h
  simp only at h
  split at h
  · simp at h
  · rename_i c cs hd
    by_cases ha : isAlpha c = true
    · simp only [ha, Bool.not_true, Bool.false_eq_true, if_false] at h
      split at h
      · simp at h
      · rename_i hp
        simp only [ne_eq, not_not] at hp
        simp only [Except.ok.injEq] at h
        subst h
        refine ⟨text.data.takeWhile isspace, (c :: cs).dropWhile isIdChr, ?_, ?_, ?_, ?_⟩
        · simp only [List.append_assoc, List.takeWhile_append_dropWhile]
          rw [← hd, List.takeWhile_append_dropWhile]
        · intro x hx
          exact List.mem_takeWhile_imp hx
        · exact List.dropWhile_eq_nil_iff.mp hp
        · simp only [identifier, List.takeWhile_cons, isAlpha_isIdChr c ha, if_true, ha,
            Bool.true_and, List.all_eq_true]
          intro x hx
          exact List.mem_takeWhile_imp hx
    · simp [ha] at h

theorem symbol_invalid (text : String) (hb : isempty (some text) = false)
    (hn : ∀ id, symbol (some text) ≠ .ok id) :
    symbol (some text) = .error "Invalid identifier" := by
  have hne : text.data.dropWhile isspace ≠ [] := by
    intro h
    rw [List.dropWhile_eq_nil_iff] at h
    have : isempty (some text) = true := by
      simp only [isempty, List.all_eq_true]
      exact h
    rw [this] at hb
    exact Bool.noConfusion hb
  unfold symbol at hn ⊢
  simp only at hn ⊢
  split
  · rename_i h
    exact absurd h hne
  · rename_i c cs hd
    simp only [hd] at hn
    by_cases ha : isAlpha c = true
    · simp only [ha, Bool.not_true, Bool.false_eq_true, if_false] at hn ⊢
      split
      · rfl
      · rename_i hp
        exact absurd (by rw [if_neg hp]) (hn (String.mk (List.takeWhile isIdChr (c :: cs))))
    · simp [ha]

theorem semName_text (env : Env) (e : El) (hem : e.isEmpty = false) (text : String)
    (hte : e.text = some text) (σ : Sem) :
    semName env (some e) σ
      = (match symbol (some text) with
        | .ok id =>
          if env.isKeyword id (SYNTAX_OLD ||| SYNTAX_PROPERTY) = false then (.ok (some id), σ)
          else (.ok none, { σ with msgs := σ.msgs ++ ["Keywords are not allowed here"] })
        | .error str => (.ok none, { σ with msgs := σ.msgs ++ [str] })) := by
  have hfo : found (some e) = some e := by simp [found, hem]
  simp only [semName, hfo, hte, Option.bind]
  cases symbol (some text) with
  | error str => rfl
  | ok id =>
    simp only
    cases env.isKeyword id (SYNTAX_OLD ||| SYNTAX_PROPERTY) <;> rfl

theorem semName_no_text (env : Env) (e : El) (h : e.isEmpty = true ∨ e.text = none) (σ : Sem) :
    semName env (some e) σ = (.ok none, σ) := by
  have hfo : (found (some e)).bind El.text = none := by
    rcases h with h | h
    · simp [found, h]
    · cases hem : e.isEmpty <;> simp [found, hem, h]
  simp only [semName, hfo]
  rfl

/-- C20, as amended: `name` on a `name` element, read from a good
state.  It returns normally and calls nothing.  If the element is written
`<name/>` or is not directly followed by a text node (it has no text, or its
text is all white space, which the text reader does not deliver as a text
node), `name` returns null and reports nothing.  If it is followed by a text
node whose text is not blank: for a text of which `symbol` finds no identifier
`name` returns null and reports `Invalid identifier`; for an identifier that
is a keyword it returns null and reports `Keywords are not allowed here`; for
an identifier that is no keyword it returns the identifier and reports
nothing.  In each case of an error one message is added.  `symbol` finds the
identifier `id` exactly in the texts that are the identifier `id` between
white space. -/
theorem C20_name_reports (env : Env) (fuel : Nat) (e : El) (he : e.ok)
    (tail : List Node) (S : List tag_t) (hF : Follows S tail)
    (hS : TAG_NAME ∉ S) (s : XMLReader) (hG : Good fuel s)
    (hP : Pending none s (e.render TAG_NAME ++ tail)) :
    (∃ r, (XMLReader.name env fuel s).1 = .ok r)
      ∧ (XMLReader.name env fuel s).2.log = s.log
      ∧ (e.isEmpty = true ∨ e.text = none →
          (XMLReader.name env fuel s).1 = .ok none
          ∧ (XMLReader.name env fuel s).2.abs.msgs = s.abs.msgs)
      ∧ (∀ text, e.isEmpty = false → e.text = some text → isempty (some text) = false →
          ((∀ id, symbol (some text) ≠ .ok id) →
            (XMLReader.name env fuel s).1 = .ok none
            ∧ (XMLReader.name env fuel s).2.abs.msgs = s.abs.msgs ++ ["Invalid identifier"])
          ∧ (∀ id, symbol (some text) = .ok id →
              env.isKeyword id (SYNTAX_OLD ||| SYNTAX_PROPERTY) = true →
              (XMLReader.name env fuel s).1 = .ok none
              ∧ (XMLReader.name env fuel s).2.abs.msgs
                  = s.abs.msgs ++ ["Keywords are not allowed here"])
          ∧ (∀ id, symbol (some text) = .ok id →
              env.isKeyword id (SYNTAX_OLD ||| SYNTAX_PROPERTY) = false →
              (XMLReader.name env fuel s).1 = .ok (some id)
              ∧ (XMLReader.name env fuel s).2.abs.msgs = s.abs.msgs))
      ∧ (∀ text id, symbol (some text) = .ok id ↔
          ∃ ws1 ws2, text.data = ws1 ++ id.data ++ ws2 ∧ (∀ c ∈ ws1, isspace c = true)
            ∧ (∀ c ∈ ws2, isspace c = true) ∧ identifier id = true) := by
  obtain ⟨h1, h2, _⟩ := name_parses env fuel none (Or.inl rfl) (some e) he tail S hF hS s hG hP
  have hmsgs : (XMLReader.name env fuel s).2.abs.msgs = (semName env (some e) s.abs).2.msgs :=
    congrArg Sem.msgs h2
  have hlog : (XMLReader.name env fuel s).2.log = (semName env (some e) s.abs).2.log :=
    congrArg Sem.log h2
  refine ⟨?_, ?_, ?_, ?_, ?_⟩
  · obtain ⟨σ1, g⟩ := semName_val env (some e) s.abs
    exact ⟨_, by rw [h1, g]⟩
  · obtain ⟨σ1, g, _, g3⟩ := semName_state env (some e) s.abs
    rw [hlog, g]
    exact g3
  · intro hn
    rw [h1, hmsgs, semName_no_text env e hn s.abs]
    exact ⟨rfl, rfl⟩
  · intro text hem hte hb
    have hsem := semName_text env e hem text hte s.abs
    refine ⟨?_, ?_, ?_⟩
    · intro hn
      rw [symbol_invalid text hb hn] at hsem
      rw [h1, hmsgs, hsem]
      exact ⟨rfl, rfl⟩
    · intro id hs hk
      rw [hs] at hsem
      simp only [hk, Bool.true_eq_false, if_false] at hsem
      rw [h1, hmsgs, hsem]
      exact ⟨rfl, rfl⟩
    · intro id hs hk
      rw [hs] at hsem
      simp only [hk, if_true] at hsem
      rw [h1, hmsgs, hsem]
      exact ⟨rfl, rfl⟩
  · intro text id
    constructor
    · exact symbol_ok_inv text id
    · rintro ⟨ws1, ws2, g1, g2, g3, g4⟩
      have := symbol_trim ws1 ws2 id g2 g3 g4
      rw [← g1] at this
      exact this

theorem C20_name_reports_witness :
    (blankName.ok
      ∧ Good 10 (XMLReader.new (blankName.render TAG_NAME ++ [startTag "system" []]))
      ∧ Pending none (XMLReader.new (blankName.render TAG_NAME ++ [startTag "system" []]))
          (blankName.render TAG_NAME ++ [startTag "system" []])
      ∧ blankName.text = none)
    ∧ (XMLReader.name acceptAll 10
          (XMLReader.new (blankName.render TAG_NAME ++ [startTag "system" []]))).1
        = .ok none
    ∧ (XMLReader.name acceptAll 10
          (XMLReader.new (blankName.render TAG_NAME ++ [startTag "system" []]))).2.abs.msgs
        = (XMLReader.new (blankName.render TAG_NAME ++ [startTag "system" []])).abs.msgs :=
  have hG : Good 10 (XMLReader.new (blankName.render TAG_NAME ++ [startTag "system" []])) :=
    ⟨⟨[], by decide, by simp [PathOK, pendingPop, XMLReader.new, Path.new]⟩, by decide⟩
  have hP : Pending none
      (XMLReader.new (blankName.render TAG_NAME ++ [startTag "system" []]))
      (blankName.render TAG_NAME ++ [startTag "system" []]) :=
    ⟨[], rfl, by simp⟩
  ⟨⟨by decide, hG, hP, by decide⟩,
    (C20_name_reports acceptAll 10 blankName (by decide)
      [startTag "system" []] [TAG_SYSTEM]
      ⟨startTag "system" [], [], TAG_SYSTEM, rfl, rfl, rfl, by simp⟩ (by decide)
      (XMLReader.new (blankName.render TAG_NAME ++ [startTag "system" []])) hG hP).2.2.1
      (Or.inr (by decide))⟩

/-- C20 as stated fails for a blank text.  On `<name> </name>`, whose blank
text the text reader delivers as a node of white space, and on
`<name></name>`, `name` returns null and reports no error: the message
`Identifier expected` is not reported.  On `<name> idle </name>` it returns
`idle` and reports nothing, on `<name>1st</name>` it returns null and reports
`Invalid identifier`, and on `<name>commit</name>` with `commit` a keyword it
returns null and reports `Keywords are not allowed here`. -/
theorem C20_counterexample :
    (XMLReader.name acceptAll 10
          (XMLReader.new (blankName.render TAG_NAME ++ [startTag "system" []]))).1 = .ok none
    ∧ (XMLReader.name acceptAll 10
          (XMLReader.new (blankName.render TAG_NAME ++ [startTag "system" []]))).2.errors = []
    ∧ (XMLReader.name acceptAll 10
          (XMLReader.new (emptyName.render TAG_NAME ++ [startTag "system" []]))).1 = .ok none
    ∧ (XMLReader.name acceptAll 10
          (XMLReader.new (emptyName.render TAG_NAME ++ [startTag "system" []]))).2.errors = []
    ∧ (XMLReader.name acceptAll 10
          (XMLReader.new (spacedName.render TAG_NAME ++ [startTag "system" []]))).1
        = .ok (some "idle")
    ∧ (XMLReader.name acceptAll 10
          (XMLReader.new (spacedName.render TAG_NAME ++ [startTag "system" []]))).2.errors = []
    ∧ (XMLReader.name acceptAll 10
          (XMLReader.new (digitName.render TAG_NAME ++ [startTag "system" []]))).1 = .ok none
    ∧ ((XMLReader.name acceptAll 10
          (XMLReader.new (digitName.render TAG_NAME ++ [startTag "system" []]))).2.errors.map
        (fun e => e.msg)) = ["Invalid identifier"]
    ∧ (XMLReader.name oldKeyword 10
          (XMLReader.new (commitName.render TAG_NAME ++ [startTag "system" []]))).1 = .ok none
    ∧ ((XMLReader.name oldKeyword 10
          (XMLReader.new (commitName.render TAG_NAME ++ [startTag "system" []]))).2.errors.map
        (fun e => e.msg)) = ["Keywords are not allowed here"] := by
  decide!

/-- C19, as amended: `name` asks `isKeyword` with the mask
`SYNTAX_OLD | SYNTAX_PROPERTY` only.  On a `name` element whose text holds the
identifier `id`, read from a good state: if `id` is a keyword under this mask,
`name` returns null and reports `Keywords are not allowed here`; if it is not,
`name` returns `id` and reports nothing.  Collaborators whose keyword table
agrees with this one on this mask, whatever their dialect flag `newxta` and
their keywords under other masks, give the same run of `name` from every
state; in particular a change of the dialect flag alone changes nothing. -/
theorem C19_keyword_mask_is_fixed (env : Env) (fuel : Nat) (e : El) (he : e.ok)
    (hem : e.isEmpty = false) (tail : List Node) (S : List tag_t) (hF : Follows S tail)
    (hS : TAG_NAME ∉ S) (s : XMLReader) (hG : Good fuel s)
    (hP : Pending none s (e.render TAG_NAME ++ tail))
    (text : String) (hte : e.text = some text) (id : String)
    (hid : symbol (some text) = .ok id) :
    (env.isKeyword id (SYNTAX_OLD ||| SYNTAX_PROPERTY) = true →
        (XMLReader.name env fuel s).1 = .ok none
        ∧ (XMLReader.name env fuel s).2.abs.msgs
            = s.abs.msgs ++ ["Keywords are not allowed here"])
      ∧ (env.isKeyword id (SYNTAX_OLD ||| SYNTAX_PROPERTY) = false →
        (XMLReader.name env fuel s).1 = .ok (some id)
        ∧ (XMLReader.name env fuel s).2.abs.msgs = s.abs.msgs)
      ∧ (∀ env2 : Env,
          (∀ w, env2.isKeyword w (SYNTAX_OLD ||| SYNTAX_PROPERTY)
            = env.isKeyword w (SYNTAX_OLD ||| SYNTAX_PROPERTY)) →
          XMLReader.name env2 fuel = XMLReader.name env fuel)
      ∧ (∀ b : Bool, XMLReader.name { env with newxta := b } fuel = XMLReader.name env fuel) := by
  obtain ⟨h1, h2, _⟩ := name_parses env fuel none (Or.inl rfl) (some e) he tail S hF hS s hG hP
  have hmsgs : (XMLReader.name env fuel s).2.abs.msgs = (semName env (some e) s.abs).2.msgs :=
    congrArg Sem.msgs h2
  have hsem := semName_text env e hem text hte s.abs
  rw [hid] at hsem
  refine ⟨?_, ?_, ?_, ?_⟩
  · intro hk
    simp only [hk, Bool.true_eq_false, if_false] at hsem
    rw [h1, hmsgs, hsem]
    exact ⟨rfl, rfl⟩
  · intro hk
    simp only [hk, if_true] at hsem
    rw [h1, hmsgs, hsem]
    exact ⟨rfl, rfl⟩
  · intro env2 h
    simp only [XMLReader.name, h]
  · intro b
    rfl

theorem C19_keyword_mask_is_fixed_witness :
    (commitName.ok
      ∧ Good 10 (XMLReader.new (commitName.render TAG_NAME ++ [startTag "system" []]))
      ∧ Pending none (XMLReader.new (commitName.render TAG_NAME ++ [startTag "system" []]))
          (commitName.render TAG_NAME ++ [startTag "system" []])
      ∧ commitName.text = some "commit" ∧ symbol (some "commit") = .ok "commit"
      ∧ oldKeyword.newxta = true
      ∧ oldKeyword.isKeyword "commit" SYNTAX_NEW = false
      ∧ oldKeyword.isKeyword "commit" (SYNTAX_OLD ||| SYNTAX_PROPERTY) = true)
    ∧ (XMLReader.name oldKeyword 10
          (XMLReader.new (commitName.render TAG_NAME ++ [startTag "system" []]))).1
        = .ok none
    ∧ (XMLReader.name oldKeyword 10
          (XMLReader.new (commitName.render TAG_NAME ++ [startTag "system" []]))).2.abs.msgs
        = (XMLReader.new (commitName.render TAG_NAME ++ [startTag "system" []])).abs.msgs
          ++ ["Keywords are not allowed here"] :=
  have hG : Good 10 (XMLReader.new (commitName.render TAG_NAME ++ [startTag "system" []])) :=
    ⟨⟨[], by decide, by simp [PathOK, pendingPop, XMLReader.new, Path.new]⟩, by decide⟩
  have hP : Pending none
      (XMLReader.new (commitName.render TAG_NAME ++ [startTag "system" []]))
      (commitName.render TAG_NAME ++ [startTag "system" []]) :=
    ⟨[], rfl, by simp⟩
  have hs : symbol (some "commit") = .ok "commit" := by rfl
  ⟨⟨by decide, hG, hP, by decide, hs, rfl, by decide, by decide⟩,
    (C19_keyword_mask_is_fixed oldKeyword 10 commitName (by decide) rfl
      [startTag "system" []] [TAG_SYSTEM]
      ⟨startTag "system" [], [], TAG_SYSTEM, rfl, rfl, rfl, by simp⟩ (by decide)
      (XMLReader.new (commitName.render TAG_NAME ++ [startTag "system" []])) hG hP
      "commit" (by decide) "commit" hs).1 (by decide)⟩

/-- C19 as stated fails.  In the keyword table of `newKeyword` the word
`broadcast` is a keyword of the new syntax and not of the old one, and the
dialect flag `newxta` is set; `name` on `<name>broadcast</name>` returns
`broadcast` and reports nothing. -/
theorem C19_counterexample :
    newKeyword.newxta = true
      ∧ newKeyword.isKeyword "broadcast" SYNTAX_NEW = true
      ∧ newKeyword.isKeyword "broadcast" SYNTAX_OLD = false
      ∧ (XMLReader.name newKeyword 10
          (XMLReader.new (broadcastName.render TAG_NAME ++ [startTag "system" []]))).1
        = .ok (some "broadcast")
      ∧ (XMLReader.name newKeyword 10
          (XMLReader.new (broadcastName.render TAG_NAME ++ [startTag "system" []]))).2.errors
        = [] := by
  decide!

/-! ### The map of locations is never cleared -/

theorem Keeps_of_locations {α : Type} (i nm : String) (m : StM Sem α)
    (h : ∀ σ, (m σ).2.locations = σ.locations) : Keeps i nm m := by
  intro σ hk hl
  refine ⟨?_, by rw [h σ]; exact hl⟩
  intro kv hkv
  rw [h σ] at hkv
  exact hk kv hkv

theorem Keeps_pure {α : Type} (i nm : String) (a : α) : Keeps i nm (pure a : StM Sem α) :=
  Keeps_of_locations i nm _ (fun _ => rfl)

theorem Keeps_bind {α β : Type} {i nm : String} {m : StM Sem α} {f : α → StM Sem β}
    (hm : Keeps i nm m) (hf : ∀ a, Keeps i nm (f a)) : Keeps i nm (m >>= f) := by
  intro σ hk hl
  obtain ⟨h1, h2⟩ := hm σ hk hl
  rcases hms : m σ with ⟨o, σ1⟩
  simp only [StM.bind_apply, StM.andThen, hms] at h1 h2 ⊢
  cases o with
  | ok a => exact hf a σ1 h1 h2
  | fatal c => exact ⟨h1, h2⟩
  | typeException e => exact ⟨h1, h2⟩
  | crash => exact ⟨h1, h2⟩
  | timeout => exact ⟨h1, h2⟩

theorem Keeps_tryCatch {i nm : String} {m : StM Sem Unit} {h : String → StM Sem Unit}
    (hm : Keeps i nm m) (hh : ∀ msg, Keeps i nm (h msg)) : Keeps i nm (StM.tryCatch m h) := by
  intro σ hk hl
  obtain ⟨h1, h2⟩ := hm σ hk hl
  rcases hms : m σ with ⟨o, σ1⟩
  simp only [StM.tryCatch, hms] at h1 h2 ⊢
  cases o with
  | typeException e => exact hh e σ1 h1 h2
  | ok a => exact ⟨h1, h2⟩
  | fatal c => exact ⟨h1, h2⟩
  | crash => exact ⟨h1, h2⟩
  | timeout => exact ⟨h1, h2⟩

theorem Keeps_ite {α : Type} {i nm : String} {c : Prop} [Decidable c] {m1 m2 : StM Sem α}
    (h1 : Keeps i nm m1) (h2 : Keeps i nm m2) : Keeps i nm (if c then m1 else m2) := by
  by_cases hc : c <;> simp [hc, h1, h2]

theorem Keeps_forEach {α β : Type} {i nm : String} (f : α → StM Sem β) (l : List α)
    (hf : ∀ a ∈ l, Keeps i nm (f a)) : Keeps i nm (Sem.forEach f l) := by
  induction l with
  | nil => exact Keeps_pure i nm _
  | cons a l ih =>
    exact Keeps_bind (hf a (by simp)) (fun _ => ih (fun x hx => hf x (by simp [hx])))

theorem Keeps_handleError (i nm msg : String) : Keeps i nm (Sem.handleError msg) :=
  Keeps_of_locations i nm _ (fun _ => rfl)

theorem Keeps_throwInt {α : Type} (i nm : String) (c : Int) :
    Keeps i nm (StM.throwInt c : StM Sem α) :=
  Keeps_of_locations i nm _ (fun _ => rfl)

theorem Keeps_crashed {α : Type} (i nm : String) : Keeps i nm (StM.crashed : StM Sem α) :=
  Keeps_of_locations i nm _ (fun _ => rfl)

theorem Keeps_parse (i nm : String) (env : Env) (text : String) (part : xta_part_t) :
    Keeps i nm (Sem.parse env text part) :=
  Keeps_of_locations i nm _ (fun _ => rfl)

theorem Keeps_notify (i nm : String) (env : Env) (c : Call) : Keeps i nm (Sem.notify env c) := by
  refine Keeps_of_locations i nm _ (fun σ => ?_)
  simp only [Sem.notify]
  split <;> rfl

theorem Keeps_getLocation (i nm : String) (id : Option String) :
    Keeps i nm (Sem.getLocation id) := by
  refine Keeps_of_locations i nm _ (fun σ => ?_)
  simp only [Sem.getLocation]
  cases id with
  | none => rfl
  | some j =>
    simp only
    split
    · rfl
    · split <;> rfl

theorem Keeps_locationName (i nm : String) (l_name l_id : Option String) :
    Keeps i nm (Sem.locationName l_name l_id) := by
  unfold Sem.locationName
  refine Keeps_ite ?_ (Keeps_pure i nm _)
  cases l_id with
  | none => exact Keeps_crashed i nm
  | some j => exact Keeps_pure i nm _

theorem Keeps_labelText (i nm : String) (env : Env) (kind : Option String) (text : String) :
    Keeps i nm (Sem.labelText env kind text) := by
  unfold Sem.labelText
  cases kind with
  | none => exact Keeps_crashed i nm
  | some k =>
    simp only
    refine Keeps_ite (Keeps_bind (Keeps_parse i nm env _ _) (fun _ => Keeps_pure i nm _)) ?_
    refine Keeps_ite (Keeps_bind (Keeps_parse i nm env _ _) (fun _ => Keeps_pure i nm _)) ?_
    refine Keeps_ite (Keeps_bind (Keeps_parse i nm env _ _) (fun _ => Keeps_pure i nm _)) ?_
    exact Keeps_ite (Keeps_bind (Keeps_parse i nm env _ _) (fun _ => Keeps_pure i nm _))
      (Keeps_pure i nm _)

theorem lookup_map_other (l : List (Option String × String)) (k j : Option String)
    (name : String) (hkj : j ≠ k) :
    (l.map fun kv => if kv.1 = j then (kv.1, name) else kv).lookup k = l.lookup k := by
  induction l with
  | nil => rfl
  | cons kv l ih =>
    obtain ⟨a, v⟩ := kv
    by_cases ha : a = j
    · subst ha
      have hne : (k == a) = false := by
        simp only [beq_eq_false_iff_ne, ne_eq]
        exact fun h => hkj h.symm
      rw [List.map_cons, if_pos rfl, List.lookup_cons, List.lookup_cons]
      simp only [hne]
      exact ih
    · rw [List.map_cons, if_neg ha, List.lookup_cons, List.lookup_cons]
      cases (k == a)
      · exact ih
      · rfl

theorem lookup_append_found (l : List (Option String × String)) (k : Option String)
    (v : String) (x : Option String × String) (h : l.lookup k = some v) :
    (l ++ [x]).lookup k = some v := by
  induction l with
  | nil => simp [List.lookup] at h
  | cons kv l ih =>
    obtain ⟨a, w⟩ := kv
    rw [List.cons_append, List.lookup_cons]
    rw [List.lookup_cons] at h
    cases hka : (k == a)
    · simp only [hka] at h
      exact ih h
    · simp only [hka] at h
      exact h

theorem Keeps_setLocation (i nm : String) (id : Option String) (name : String)
    (hid : id ≠ some i) : Keeps i nm (Sem.setLocation id name) := by
  intro σ hk hl
  have hne : σ.locations ≠ [] := by
    intro h
    rw [h] at hl
    simp [List.lookup] at hl
  unfold Sem.setLocation
  rw [if_neg hne]
  split
  · exact ⟨hk, hl⟩
  · rename_i hcr
    have hidn : id ≠ none := fun h => hcr (Or.inl h)
    split
    · refine ⟨?_, ?_⟩
      · intro kv hkv
        simp only [List.mem_map] at hkv
        obtain ⟨kv0, hm, rfl⟩ := hkv
        split
        · exact hk kv0 hm
        · exact hk kv0 hm
      · simp only
        rw [lookup_map_other σ.locations (some i) id name hid]
        exact hl
    · refine ⟨?_, ?_⟩
      · intro kv hkv
        simp only [List.mem_append, List.mem_singleton] at hkv
        rcases hkv with h | h
        · exact hk kv h
        · rw [h]
          exact hidn
      · exact lookup_append_found σ.locations (some i) nm _ hl

theorem Keeps_semName (i nm : String) (env : Env) (o : Option El) :
    Keeps i nm (semName env o) := by
  unfold UTAP.semName
  split
  · split
    · exact Keeps_ite (Keeps_pure i nm _)
        (Keeps_bind (Keeps_handleError i nm _) (fun _ => Keeps_pure i nm _))
    · exact Keeps_bind (Keeps_handleError i nm _) (fun _ => Keeps_pure i nm _)
  · exact Keeps_pure i nm _

theorem Keeps_semParameter (i nm : String) (env : Env) (o : Option El) :
    Keeps i nm (semParameter env o) := by
  unfold UTAP.semParameter
  split
  · exact Keeps_parse i nm env _ _
  · exact Keeps_pure i nm _

theorem Keeps_semDeclaration (i nm : String) (env : Env) (o : Option El) :
    Keeps i nm (semDeclaration env o) := by
  unfold UTAP.semDeclaration
  split
  · split
    · exact Keeps_bind (Keeps_parse i nm env _ _) (fun _ => Keeps_pure i nm _)
    · exact Keeps_pure i nm _
  · exact Keeps_pure i nm _

theorem Keeps_semLabel (i nm : String) (env : Env) (e : El) : Keeps i nm (semLabel env e) := by
  unfold UTAP.semLabel
  split
  · split
    · exact Keeps_bind (Keeps_labelText i nm env _ _) (fun _ => Keeps_pure i nm _)
    · exact Keeps_pure i nm _
  · exact Keeps_pure i nm _

theorem Keeps_semEndpoint (i nm : String) (o : Option El) : Keeps i nm (semEndpoint o) := by
  cases o with
  | none => exact Keeps_throwInt i nm _
  | some e => exact Keeps_getLocation i nm _

theorem Keeps_semLocation (i nm : String) (env : Env) (l : LocationD)
    (hid : l.el.attrs.lookup "id" ≠ some i) : Keeps i nm (semLocation env l) := by
  unfold UTAP.semLocation
  refine Keeps_bind (Keeps_tryCatch ?_ (fun _ => Keeps_handleError i nm _))
    (fun _ => Keeps_pure i nm _)
  refine Keeps_bind (Keeps_semName i nm env _) (fun _ => ?_)
  refine Keeps_bind (Keeps_forEach _ _ (fun e _ => Keeps_semLabel i nm env e)) (fun _ => ?_)
  refine Keeps_bind (Keeps_locationName i nm _ _) (fun _ => ?_)
  refine Keeps_bind (Keeps_setLocation i nm _ _ hid) (fun _ => ?_)
  refine Keeps_bind (Keeps_notify i nm env _) (fun _ => ?_)
  exact Keeps_ite
    (Keeps_bind (Keeps_notify i nm env _)
      (fun _ => Keeps_ite (Keeps_notify i nm env _) (Keeps_pure i nm _)))
    (Keeps_bind (Keeps_pure i nm ())
      (fun _ => Keeps_ite (Keeps_notify i nm env _) (Keeps_pure i nm _)))

theorem Keeps_semInit (i nm : String) (env : Env) (o : Option El) :
    Keeps i nm (semInit env o) := by
  unfold UTAP.semInit
  split
  · exact Keeps_bind (Keeps_handleError i nm _) (fun _ => Keeps_pure i nm _)
  · split
    · exact Keeps_bind (Keeps_getLocation i nm _)
        (fun _ => Keeps_bind (Keeps_tryCatch (Keeps_notify i nm env _)
          (fun _ => Keeps_handleError i nm _)) (fun _ => Keeps_pure i nm _))
    · exact Keeps_bind (Keeps_handleError i nm _) (fun _ => Keeps_pure i nm _)

theorem Keeps_semTransition (i nm : String) (env : Env) (t : TransitionD) :
    Keeps i nm (semTransition env t) := by
  unfold UTAP.semTransition
  refine Keeps_ite (Keeps_pure i nm _) ?_
  refine Keeps_bind (Keeps_tryCatch ?_ (fun _ => Keeps_handleError i nm _))
    (fun _ => Keeps_pure i nm _)
  refine Keeps_bind (Keeps_semEndpoint i nm _) (fun _ => ?_)
  refine Keeps_bind (Keeps_semEndpoint i nm _) (fun _ => ?_)
  refine Keeps_bind (Keeps_forEach _ _ (fun e _ => Keeps_semLabel i nm env e)) (fun _ => ?_)
  exact Keeps_notify i nm env _

theorem Keeps_semTemplateTail (i nm : String) (env : Env) (t : TemplateD) :
    Keeps i nm (semTemplateTail env t) := by
  unfold semTemplateTail
  refine Keeps_bind (Keeps_semInit i nm env _) (fun _ => ?_)
  refine Keeps_bind (Keeps_forEach _ _ (fun x _ => Keeps_semTransition i nm env x))
    (fun _ => ?_)
  exact Keeps_notify i nm env _

theorem Keeps_semTemplateHead (i nm : String) (env : Env) (t : TemplateD)
    (hid : ∀ l ∈ t.locations, l.el.attrs.lookup "id" ≠ some i) :
    Keeps i nm (semTemplateHead env t) := by
  unfold semTemplateHead
  refine Keeps_bind (Keeps_semName i nm env _) (fun _ => ?_)
  refine Keeps_bind (Keeps_semParameter i nm env _) (fun _ => ?_)
  refine Keeps_bind (Keeps_notify i nm env _) (fun _ => ?_)
  refine Keeps_bind (Keeps_semDeclaration i nm env _) (fun _ => ?_)
  exact Keeps_forEach _ _ (fun l hl => Keeps_semLocation i nm env l (hid l hl))

theorem Keeps_semTemplate (i nm : String) (env : Env) (t : TemplateD)
    (hid : ∀ l ∈ t.locations, l.el.attrs.lookup "id" ≠ some i) :
    Keeps i nm (semTemplate env t) := by
  cases hne : t.el.isEmpty with
  | true =>
    unfold UTAP.semTemplate
    simp only [hne, if_true]
    exact Keeps_pure i nm _
  | false =>
    rw [semTemplate_split env t hne]
    exact Keeps_bind (Keeps_tryCatch
      (Keeps_bind (Keeps_semTemplateHead i nm env t hid) (fun _ => Keeps_semTemplateTail i nm env t))
      (fun _ => Keeps_handleError i nm _)) (fun _ => Keeps_pure i nm _)

theorem later_init (env : Env) (d : NtaD) (before mid : List TemplateD) (t1 t2 : TemplateD)
    (hne1 : t1.el.isEmpty = false) (σ0 σ : Sem)
    (hpre0 : semUpToInit env d before t1 Sem.new = (.ok (), σ0))
    (hpre : semUpToInit env d (before ++ t1 :: mid) t2 Sem.new = (.ok (), σ)) :
    ((StM.tryCatch (semTemplateTail env t1) (fun what => Sem.handleError what)
        >>= fun _ => Sem.forEach (semTemplate env) mid)
      >>= fun _ => semTemplateHead env t2) σ0 = (.ok (), σ) := by
  simp only [semUpToInit] at hpre0 hpre
  obtain ⟨v1, σa, h1, r0⟩ := bind_ok_inv hpre0
  obtain ⟨v2, σb, h2, h3⟩ := bind_ok_inv r0
  rw [StM.bind_ok h1] at hpre
  obtain ⟨v3, σc, h4, h5⟩ := bind_ok_inv hpre
  rw [forEach_append, StM.bind_ok h2] at h4
  simp only [Sem.forEach] at h4
  rw [semTemplate_split env t1 hne1] at h4
  obtain ⟨v4, σd, h6, h7⟩ := bind_ok_inv h4
  obtain ⟨v5, σe, h8, h9⟩ := bind_ok_inv h6
  rw [tryCatch_bind_ok h3] at h8
  simp only [StM.pure_apply, Prod.mk.injEq, Outcome.ok.injEq] at h9
  obtain ⟨_, rfl⟩ := h9
  have g1 : (StM.tryCatch (semTemplateTail env t1) (fun what => Sem.handleError what)
      >>= fun _ => Sem.forEach (semTemplate env) mid) σ0 = (.ok v3, σc) := by
    rw [StM.bind_ok h8]
    exact h7
  rw [StM.bind_ok g1]
  exact h5

theorem semInit_good (env : Env) (e : El) (i nm : String)
    (hr : e.attrs.lookup "ref" = some i) (σ : Sem) (hk : KeysSet σ)
    (hl : σ.locations.lookup (some i) = some nm) :
    ∃ σ1, semInit env (some e) σ = (.ok true, σ1)
      ∧ σ1.log = σ.log ++ [Call.procStateInit nm] := by
  simp only [semInit, hr, StM.bind_apply, StM.andThen, getLocation_set σ hk i nm hl,
    StM.tryCatch, Sem.notify]
  cases env.builder σ.log (Call.procStateInit nm) with
  | none => exact ⟨_, rfl, rfl⟩
  | some msg => exact ⟨_, rfl, rfl⟩

theorem semNta_from_init (env : Env) (d : NtaD) (before after : List TemplateD)
    (t : TemplateD) (ht : d.templates = before ++ t :: after) (hne : t.el.isEmpty = false)
    (σ : Sem) (hpre : semUpToInit env d before t Sem.new = (.ok (), σ)) :
    semNta env d Sem.new
      = (do
          StM.tryCatch (semTemplateTail env t) (fun what => Sem.handleError what)
          Sem.forEach (semTemplate env) after
          let _ ← semSystem env S_INST d.instantiation
          let _ ← semSystem env S_SYSTEM (some d.system)
          Sem.notify env Call.done : StM Sem Unit) σ := by
  simp only [semUpToInit] at hpre
  obtain ⟨v1, σa, h1, hpre⟩ := bind_ok_inv hpre
  obtain ⟨v2, σb, h2, h3⟩ := bind_ok_inv hpre
  simp only [semNta, ht]
  rw [StM.bind_ok h1]
  simp only [StM.bind_apply (Sem.forEach (semTemplate env) (before ++ t :: after)),
    StM.andThen, forEach_append, StM.bind_ok h2, Sem.forEach, semTemplate_split env t hne,
    StM.bind_assoc]
  simp only [StM.bind_apply (StM.tryCatch _ _), StM.andThen, tryCatch_bind_ok h3,
    StM.pure_bind]
  generalize StM.tryCatch _ _ _ = r
  rcases r with ⟨o, s1⟩
  cases o <;> rfl

theorem finishParse_log (r : Outcome Unit × Sem) : (finishParse r).2 = r.2 := by
  rcases r with ⟨o, s⟩
  cases o <;> rfl

theorem init_then_log (env : Env) (d : NtaD) (after : List TemplateD) (t : TemplateD)
    (e : El) (i nm : String) (hi : t.init = some e) (hr : e.attrs.lookup "ref" = some i)
    (σ : Sem) (hk : KeysSet σ) (hl : σ.locations.lookup (some i) = some nm) :
    ∃ rest, ((do
          StM.tryCatch (semTemplateTail env t) (fun what => Sem.handleError what)
          Sem.forEach (semTemplate env) after
          let _ ← semSystem env S_INST d.instantiation
          let _ ← semSystem env S_SYSTEM (some d.system)
          Sem.notify env Call.done : StM Sem Unit) σ).2.log
        = σ.log ++ Call.procStateInit nm :: rest := by
  obtain ⟨σ1, g1, g2⟩ := semInit_good env e i nm hr σ hk hl
  have hA : Adds (fun _ => True) (do
      StM.tryCatch (do
          Sem.forEach (semTransition env) t.transitions
          Sem.notify env Call.procEnd) (fun what => Sem.handleError what)
      Sem.forEach (semTemplate env) after
      let _ ← semSystem env S_INST d.instantiation
      let _ ← semSystem env S_SYSTEM (some d.system)
      Sem.notify env Call.done : StM Sem Unit) := by
    refine Adds_bind (Adds_tryCatch (Adds_bind
      (Adds_mono (Adds_forEach _ (Adds_semTransition env) _) (fun _ _ => trivial))
      (fun _ => Adds_notify env _ trivial)) (fun _ => Adds_handleError _ _)) (fun _ => ?_)
    refine Adds_bind (Adds_mono (Adds_forEach _ (Adds_semTemplate env) _) (fun _ _ => trivial))
      (fun _ => ?_)
    refine Adds_bind (Adds_semSystem env _ (fun _ => trivial) _) (fun _ => ?_)
    refine Adds_bind (Adds_semSystem env _ (fun _ => trivial) _) (fun _ => ?_)
    exact Adds_notify env _ trivial
  obtain ⟨l, a1, _⟩ := hA σ1
  refine ⟨l, ?_⟩
  rw [← List.singleton_append, ← List.append_assoc, ← g2, ← a1]
  simp only [semTemplateTail, hi]
  simp only [StM.bind_apply (StM.tryCatch _ _), StM.andThen, tryCatch_bind_ok g1]

theorem bind_caught_inv {α β : Type} {m : StM Sem α} {f : α → StM Sem β} {s s2 : Sem}
    {o : Outcome β} (h : (m >>= f) s = (o, s2)) (hc : o.caught)
    (hn : ∀ msg, (m s).1 ≠ .typeException msg) :
    ∃ a s1, m s = (.ok a, s1) ∧ f a s1 = (o, s2) := by
  rcases hms : m s with ⟨o1, s1⟩
  rw [hms] at hn
  simp only [StM.bind_apply, StM.andThen, hms] at h
  cases o1 with
  | ok a => exact ⟨a, s1, rfl, h⟩
  | typeException e => exact absurd rfl (hn e)
  | fatal c =>
    simp only [Prod.mk.injEq] at h
    rw [← h.1] at hc
    exact hc.elim
  | crash =>
    simp only [Prod.mk.injEq] at h
    rw [← h.1] at hc
    exact hc.elim
  | timeout =>
    simp only [Prod.mk.injEq] at h
    rw [← h.1] at hc
    exact hc.elim

theorem setLocation_keys (id : Option String) (name : String) (σ : Sem) (hk : KeysSet σ)
    (hid : id ≠ none) : KeysSet (Sem.setLocation id name σ).2 := by
  unfold Sem.setLocation
  split
  · intro kv hkv
    simp only [List.mem_singleton] at hkv
    rw [hkv]
    exact hid
  · split
    · exact hk
    · split
      · intro kv hkv
        simp only [List.mem_map] at hkv
        obtain ⟨kv0, hm, rfl⟩ := hkv
        split
        · exact hk kv0 hm
        · exact hk kv0 hm
      · intro kv hkv
        simp only [List.mem_append, List.mem_singleton] at hkv
        rcases hkv with h | h
        · exact hk kv h
        · rw [h]
          exact hid

theorem setLocation_ok (i name : String) (σ σ1 : Sem) (u : Unit)
    (h : Sem.setLocation (some i) name σ = (.ok u, σ1)) :
    KeysSet σ1 ∧ σ1.locations.lookup (some i) = some name := by
  have hk : KeysSet σ := by
    by_cases he : σ.locations = []
    · intro kv hkv
      rw [he] at hkv
      cases hkv
    · by_contra hnk
      have hany : σ.locations.any (fun kv => kv.1 = none) = true := by
        simp only [KeysSet, ne_eq, not_forall, not_not] at hnk
        obtain ⟨kv, hkv, hkn⟩ := hnk
        simp only [List.any_eq_true, decide_eq_true_eq]
        exact ⟨kv, hkv, hkn⟩
      have : Sem.setLocation (some i) name σ = (.crash, σ) := by
        simp [Sem.setLocation, he, hany]
      rw [this] at h
      simp at h
  obtain ⟨σ2, g1, g2, _⟩ := setLocation_state i name σ hk
  have hk1 := setLocation_keys (some i) name σ hk (by simp)
  rw [h] at g1 hk1
  simp only [Prod.mk.injEq] at g1
  rw [g1.2]
  rw [g1.2] at hk1
  exact ⟨hk1, g2⟩

theorem semLocation_registers (env : Env) (l : LocationD) (i : String)
    (hid : l.el.attrs.lookup "id" = some i) (σ σ1 : Sem) (v : Bool)
    (h : semLocation env l σ = (.ok v, σ1)) :
    KeysSet σ1 ∧ σ1.locations.lookup (some i) = some (locationNameOf env l i) := by
  have hbody : ∀ (o : Outcome Unit) (σ5 : Sem), (do
        let l_name ← semName env l.name
        Sem.forEach (semLabel env) l.labels
        let l_name ← Sem.locationName l_name (l.el.attrs.lookup "id")
        Sem.setLocation (l.el.attrs.lookup "id") l_name
        Sem.notify env (Call.procState l_name (anyLabel l.labels))
        if l.committed.isSome then Sem.notify env (Call.procStateCommit l_name) else pure ()
        if l.urgent.isSome then Sem.notify env (Call.procStateUrgent l_name) else pure ()
          : StM Sem Unit) σ = (o, σ5) → o.caught →
      KeysSet σ5 ∧ σ5.locations.lookup (some i) = some (locationNameOf env l i) := by
    intro o σ5 hB hc
    obtain ⟨n, σa, e1, hB⟩ := bind_caught_inv hB hc (NoThrow_semName env _ σ)
    obtain ⟨σa', hv⟩ := semName_val env l.name σ
    rw [hv] at e1
    simp only [Prod.mk.injEq, Outcome.ok.injEq] at e1
    obtain ⟨rfl, rfl⟩ := e1
    obtain ⟨_, σb, e2, hB⟩ :=
      bind_caught_inv hB hc (NoThrow_forEach _ (NoThrow_semLabel env) _ σa')
    rw [hid, StM.bind_ok (locationName_val env l.name i σb)] at hB
    rw [show (nameOf env l.name).getD ("_" ++ i) = locationNameOf env l i from rfl] at hB
    obtain ⟨u, σc, e4, hB⟩ := bind_caught_inv hB hc (by
      intro msg
      unfold Sem.setLocation
      split
      · simp
      · split
        · simp
        · split <;> simp)
    obtain ⟨k1, k2⟩ := setLocation_ok i _ σb σc u e4
    have hK : Keeps i (locationNameOf env l i) (do
        Sem.notify env (Call.procState (locationNameOf env l i) (anyLabel l.labels))
        if l.committed.isSome then Sem.notify env (Call.procStateCommit (locationNameOf env l i))
          else pure ()
        if l.urgent.isSome then Sem.notify env (Call.procStateUrgent (locationNameOf env l i))
          else pure () : StM Sem Unit) := by
      refine Keeps_bind (Keeps_notify _ _ env _) (fun _ => ?_)
      exact Keeps_ite
        (Keeps_bind (Keeps_notify _ _ env _)
          (fun _ => Keeps_ite (Keeps_notify _ _ env _) (Keeps_pure _ _ _)))
        (Keeps_bind (Keeps_pure _ _ ())
          (fun _ => Keeps_ite (Keeps_notify _ _ env _) (Keeps_pure _ _ _)))
    have := hK σc k1 k2
    rw [hB] at this
    exact this
  unfold UTAP.semLocation at h
  obtain ⟨u, σt, ht, hp⟩ := bind_ok_inv h
  simp only [StM.pure_apply, Prod.mk.injEq, Outcome.ok.injEq] at hp
  obtain ⟨_, rfl⟩ := hp
  simp only [StM.tryCatch] at ht
  split at ht
  · rename_i msg s1 hB
    have := hbody _ _ hB trivial
    simp only [Sem.handleError, Prod.mk.injEq] at ht
    rw [← ht.2]
    exact this
  · rename_i r hnot
    rcases hB : (do
        let l_name ← semName env l.name
        Sem.forEach (semLabel env) l.labels
        let l_name ← Sem.locationName l_name (l.el.attrs.lookup "id")
        Sem.setLocation (l.el.attrs.lookup "id") l_name
        Sem.notify env (Call.procState l_name (anyLabel l.labels))
        if l.committed.isSome then Sem.notify env (Call.procStateCommit l_name) else pure ()
        if l.urgent.isSome then Sem.notify env (Call.procStateUrgent l_name) else pure ()
          : StM Sem Unit) σ with ⟨o, σ5⟩
    rw [hB] at ht
    simp only [Prod.mk.injEq] at ht
    obtain ⟨rfl, rfl⟩ := ht
    exact hbody _ _ hB trivial

theorem getLocation_code (s : XMLReader) (i nm : String) (hk : KeysSet s.abs)
    (hl : s.abs.locations.lookup (some i) = some nm) :
    (XMLReader.getLocation (some i) s).1 = .ok nm := by
  have := (Sim_getLocation (some i) s).1
  rw [this, getLocation_set s.abs hk i nm hl]

/-- C18: in a document of the expected shape read with a builder that
accepts every `procBegin`, let a location of template `t1` have the id `i`,
and let no later location of `t1`, of the templates `mid` between `t1` and a
later template `t2`, and of `t2` have this id.  If the parse comes to the
`init` element of `t1` (state `σ0`) and to the `init` element of `t2` (state
`σ`), then `i` is registered in `σ0` under the name `location` gave it, and
it still is in `σ`, where `getLocation` returns this name; if the `init` of
`t2` refers to `i`, the parse goes on from `σ` with `procStateInit` for this
name; and at every transition of `t2` to which the parse comes, `i` is
registered under this name and `getLocation` returns it. -/
theorem C18_locations_outlive_templates (env : Env) (hb : AcceptsBegin env) (fuel : Nat)
    (d : NtaD) (hd : d.ok) (hf : d.render.length < fuel)
    (before mid after : List TemplateD) (t1 t2 : TemplateD)
    (ht : d.templates = before ++ t1 :: (mid ++ t2 :: after))
    (hne1 : t1.el.isEmpty = false) (hne2 : t2.el.isEmpty = false)
    (ls1 ls2 : List LocationD) (l : LocationD) (i : String)
    (hl : t1.locations = ls1 ++ l :: ls2) (hid : l.el.attrs.lookup "id" = some i)
    (hls2 : ∀ x ∈ ls2, x.el.attrs.lookup "id" ≠ some i)
    (hmid : ∀ t ∈ mid, ∀ x ∈ t.locations, x.el.attrs.lookup "id" ≠ some i)
    (ht2 : ∀ x ∈ t2.locations, x.el.attrs.lookup "id" ≠ some i)
    (σ0 : Sem) (hpre0 : semUpToInit env d before t1 Sem.new = (.ok (), σ0))
    (σ : Sem) (hpre : semUpToInit env d (before ++ t1 :: mid) t2 Sem.new = (.ok (), σ)) :
    σ0.locations.lookup (some i) = some (locationNameOf env l i)
      ∧ σ.locations.lookup (some i) = some (locationNameOf env l i)
      ∧ (∀ s : XMLReader, s.abs = σ →
          (XMLReader.getLocation (some i) s).1 = .ok (locationNameOf env l i))
      ∧ (∀ e, t2.init = some e → e.attrs.lookup "ref" = some i →
          ∃ rest, (absRun (parseXMLBuffer env fuel (some d.render))).2.log
            = σ.log ++ Call.procStateInit (locationNameOf env l i) :: rest)
      ∧ (∀ xs σx, semUpToTransition env d (before ++ t1 :: mid) t2 xs Sem.new = (.ok (), σx) →
          σx.locations.lookup (some i) = some (locationNameOf env l i)
          ∧ ∀ s : XMLReader, s.abs = σx →
            (XMLReader.getLocation (some i) s).1 = .ok (locationNameOf env l i)) := by
  have reg0 : KeysSet σ0 ∧ σ0.locations.lookup (some i) = some (locationNameOf env l i) := by
    have h0 := hpre0
    simp only [semUpToInit] at h0
    obtain ⟨_, σa, _, h0⟩ := bind_ok_inv h0
    obtain ⟨_, σb, _, h0⟩ := bind_ok_inv h0
    simp only [semTemplateHead] at h0
    obtain ⟨_, σc, _, h0⟩ := bind_ok_inv h0
    obtain ⟨_, σd, _, h0⟩ := bind_ok_inv h0
    obtain ⟨_, σe, _, h0⟩ := bind_ok_inv h0
    obtain ⟨_, σf, _, h0⟩ := bind_ok_inv h0
    rw [hl, forEach_append] at h0
    obtain ⟨_, σp, _, h0⟩ := bind_ok_inv h0
    simp only [Sem.forEach] at h0
    obtain ⟨v, σq, hq, h0⟩ := bind_ok_inv h0
    obtain ⟨k1, k2⟩ := semLocation_registers env l i hid σp σq v hq
    have := @Keeps_forEach _ _ i (locationNameOf env l i) (semLocation env) ls2
      (fun x hx => Keeps_semLocation i _ env x (hls2 x hx)) σq k1 k2
    rw [h0] at this
    exact this
  have regσ : KeysSet σ ∧ σ.locations.lookup (some i) = some (locationNameOf env l i) := by
    have hL := later_init env d before mid t1 t2 hne1 σ0 σ hpre0 hpre
    have hK : Keeps i (locationNameOf env l i)
        ((StM.tryCatch (semTemplateTail env t1) (fun what => Sem.handleError what)
          >>= fun _ => Sem.forEach (semTemplate env) mid)
        >>= fun _ => semTemplateHead env t2) :=
      Keeps_bind (Keeps_bind
        (Keeps_tryCatch (Keeps_semTemplateTail i _ env t1) (fun _ => Keeps_handleError i _ _))
        (fun _ => Keeps_forEach _ _ (fun t htm => Keeps_semTemplate i _ env t (hmid t htm))))
        (fun _ => Keeps_semTemplateHead i _ env t2 ht2)
    have := hK σ0 reg0.1 reg0.2
    rw [hL] at this
    exact this
  refine ⟨reg0.2, regσ.2, ?_, ?_, ?_⟩
  · intro s hs
    exact getLocation_code s i _ (by rw [hs]; exact regσ.1) (by rw [hs]; exact regσ.2)
  · intro e hi hr
    rw [parseXMLBuffer_render env hb fuel d hd hf, semParse_eq_finishParse, finishParse_log,
      semNta_from_init env d (before ++ t1 :: mid) after t2 (by rw [ht]; simp) hne2 σ hpre]
    exact init_then_log env d after t2 e i _ hi hr σ regσ.1 regσ.2
  · intro xs σx hx
    simp only [semUpToTransition] at hx
    obtain ⟨_, σ1, h1, h2⟩ := bind_ok_inv hx
    rw [hpre] at h1
    simp only [Prod.mk.injEq, Outcome.ok.injEq] at h1
    obtain ⟨_, rfl⟩ := h1
    have hK : Keeps i (locationNameOf env l i) (do
        let _ ← semInit env t2.init
        Sem.forEach (semTransition env) xs) :=
      Keeps_bind (Keeps_semInit i _ env _)
        (fun _ => Keeps_forEach _ _ (fun x _ => Keeps_semTransition i _ env x))
    have := hK σ regσ.1 regσ.2
    rw [h2] at this
    refine ⟨this.2, fun s hs => ?_⟩
    exact getLocation_code s i _ (by rw [hs]; exact this.1) (by rw [hs]; exact this.2)

theorem C18_locations_outlive_templates_witness :
    (crossDoc.ok ∧ crossDoc.render.length < 60
      ∧ crossDoc.templates = [] ++ loopTemplate "T" "a" :: ([] ++ crossTemplate :: [])
      ∧ semUpToInit acceptAll crossDoc [] (loopTemplate "T" "a") Sem.new
          = (.ok (), ⟨[(some "a", "_a")],
              [Call.procBegin (some "T") 0, Call.procState "_a" false], []⟩)
      ∧ semUpToInit acceptAll crossDoc ([] ++ loopTemplate "T" "a" :: []) crossTemplate Sem.new
          = (.ok (), ⟨[(some "a", "_a"), (some "b", "_b")],
              [Call.procBegin (some "T") 0, Call.procState "_a" false,
                Call.procStateInit "_a", Call.procEdge "_a" "_a", Call.procEnd,
                Call.procBegin (some "U") 0, Call.procState "_b" false], []⟩))
    ∧ ∃ rest, (absRun (parseXMLBuffer acceptAll 60 (some crossDoc.render))).2.log
        = [Call.procBegin (some "T") 0, Call.procState "_a" false,
            Call.procStateInit "_a", Call.procEdge "_a" "_a", Call.procEnd,
            Call.procBegin (some "U") 0, Call.procState "_b" false]
          ++ Call.procStateInit "_a" :: rest :=
  ⟨⟨by decide!, by decide!, rfl, by decide!, by decide!⟩,
    (C18_locations_outlive_templates acceptAll (fun _ _ _ => rfl) 60 crossDoc (by decide!)
      (by decide!) [] [] [] (loopTemplate "T" "a") crossTemplate rfl rfl rfl
      [] [] ⟨⟨[("id", "a")], false, [endTag "location"]⟩, none, [], none, none⟩ "a" rfl rfl
      (by simp) (by simp) (by decide)
      ⟨[(some "a", "_a")], [Call.procBegin (some "T") 0, Call.procState "_a" false], []⟩
      (by decide!)
      ⟨[(some "a", "_a"), (some "b", "_b")],
        [Call.procBegin (some "T") 0, Call.procState "_a" false,
          Call.procStateInit "_a", Call.procEdge "_a" "_a", Call.procEnd,
          Call.procBegin (some "U") 0, Call.procState "_b" false], []⟩
      (by decide!)).2.2.2.1 ⟨[("ref", "a")], true, []⟩ rfl rfl⟩

/-! ### `Path::push` and `Path::pop` -/

/-- C26: `pop` succeeds exactly on a path with a top frame `c` above a frame
`back` that is not empty; it discards `c` and returns the last tag of `back`,
which is the new top frame.  Hence on every path with a top frame `top`, as
the constructor, `push` and `pop` make them, `pop` right after `push t`
returns `t` and leaves the frames of the path with `t` appended to `top`;
this is not the path before the `push`. -/
theorem C26_pop_after_push (top : List tag_t) (below : List (List tag_t)) (t : tag_t) :
    (∀ (q q1 : Path) (u : tag_t), q.pop = some (u, q1) ↔
        ∃ c back rest, q.path = c :: back :: rest ∧ back.getLast? = some u
          ∧ q1 = ⟨back :: rest⟩)
      ∧ (Path.push ⟨top :: below⟩ t).pop = some (t, ⟨(top ++ [t]) :: below⟩)
      ∧ (Path.push ⟨top :: below⟩ t).pop ≠ some (t, ⟨top :: below⟩)
      ∧ Path.new.path = [[]]
      ∧ (Path.push ⟨top :: below⟩ t).path = [] :: (top ++ [t]) :: below := by
  refine ⟨?_, ?_, ?_, rfl, rfl⟩
  · intro q q1 u
    obtain ⟨frames⟩ := q
    constructor
    · intro h
      match frames, h with
      | c :: back :: rest, h =>
        simp only [Path.pop] at h
        cases hb : back.getLast? with
        | none => simp [hb] at h
        | some v =>
          simp only [hb, Option.some.injEq, Prod.mk.injEq] at h
          exact ⟨c, back, rest, rfl, by rw [hb, h.1], h.2.symm⟩
      | [], h => simp [Path.pop] at h
      | [_], h => simp [Path.pop] at h
    · rintro ⟨c, back, rest, h1, h2, h3⟩
      simp only at h1
      subst h1 h3
      simp [Path.pop, h2]
  · simp [Path.push, Path.pop]
  · simp [Path.push, Path.pop]

/-! ### What `symbol` accepts -/

theorem identifier_no_space (id : String) (h : identifier id = true) :
    id.data ≠ [] ∧ ∀ c ∈ id.data, isspace c = false := by
  unfold identifier at h
  cases hd : id.data with
  | nil => simp [hd] at h
  | cons c cs =>
    simp only [hd, Bool.and_eq_true, List.all_eq_true] at h
    refine ⟨by simp, ?_⟩
    intro x hx
    have hx1 : isIdChr x = true := by
      rcases List.mem_cons.mp hx with e | e
      · rw [e]
        exact isAlpha_isIdChr c h.1
      · exact h.2 x e
    cases hs : isspace x with
    | false => rfl
    | true =>
      rw [isspace_not_isIdChr x hs] at hx1
      exact Bool.noConfusion hx1

/-- C28: `symbol` returns `id` for a text exactly when the text is white
space, `id`, white space, where `id` is an identifier: a letter or `_`
followed by letters, digits, `_`, `$` and `#`.  The identifier returned is
not empty, holds no white space, and `symbol` returns it unchanged when
applied to it.  A null, empty or blank input fails with
`Identifier expected`, any other input for which `symbol` returns no
identifier with `Invalid identifier`. -/
theorem C28_symbol_accepts_trimmed_identifiers (text : String) :
    (∀ id, symbol (some text) = .ok id ↔
        ∃ ws1 ws2, text.data = ws1 ++ id.data ++ ws2 ∧ (∀ c ∈ ws1, isspace c = true)
          ∧ (∀ c ∈ ws2, isspace c = true) ∧ identifier id = true)
      ∧ (∀ id : String, identifier id = true ↔
          ∃ c cs, id.data = c :: cs ∧ (isalpha c = true ∨ c = '_')
            ∧ ∀ x ∈ cs, isalpha x = true ∨ (48 ≤ x.toNat ∧ x.toNat ≤ 57) ∨ x = '_' ∨ x = '$'
              ∨ x = '#')
      ∧ (∀ id, symbol (some text) = .ok id →
          id.data ≠ [] ∧ (∀ c ∈ id.data, isspace c = false) ∧ symbol (some id) = .ok id)
      ∧ symbol none = .error "Identifier expected"
      ∧ (isempty (some text) = true → symbol (some text) = .error "Identifier expected")
      ∧ (isempty (some text) = false → (∀ id, symbol (some text) ≠ .ok id) →
          symbol (some text) = .error "Invalid identifier")
      ∧ (text.data = [] → isempty (some text) = true) := by
  refine ⟨?_, ?_, ?_, rfl, symbol_blank text, symbol_invalid text, ?_⟩
  · intro id
    constructor
    · exact symbol_ok_inv text id
    · rintro ⟨ws1, ws2, g1, g2, g3, g4⟩
      have := symbol_trim ws1 ws2 id g2 g3 g4
      rw [← g1] at this
      exact this
  · intro id
    have hA : ∀ c : Char, isAlpha c = true ↔ (isalpha c = true ∨ c = '_') := by
      intro c
      have h95 : Char.ofNat 95 = '_' := rfl
      simp only [isAlpha, Bool.or_eq_true, decide_eq_true_eq, h95]
    have hI : ∀ x : Char, isIdChr x = true ↔ (isalpha x = true
        ∨ (48 ≤ x.toNat ∧ x.toNat ≤ 57) ∨ x = '_' ∨ x = '$' ∨ x = '#') := by
      intro x
      have h95 : Char.ofNat 95 = '_' := rfl
      have h36 : Char.ofNat 36 = '$' := rfl
      have h35 : Char.ofNat 35 = '#' := rfl
      simp only [isIdChr, isalnum, Bool.or_eq_true, Bool.and_eq_true, decide_eq_true_eq, h95,
        h36, h35]
      tauto
    unfold identifier
    cases hd : id.data with
    | nil => simp
    | cons c cs =>
      simp only [Bool.and_eq_true, List.all_eq_true]
      constructor
      · rintro ⟨h1, h2⟩
        exact ⟨c, cs, rfl, (hA c).mp h1, fun x hx => (hI x).mp (h2 x hx)⟩
      · rintro ⟨c1, cs1, e, h1, h2⟩
        simp only [List.cons.injEq] at e
        obtain ⟨rfl, rfl⟩ := e
        exact ⟨(hA c).mpr h1, fun x hx => (hI x).mpr (h2 x hx)⟩
  · intro id h
    obtain ⟨ws1, ws2, _, _, _, hid⟩ := symbol_ok_inv text id h
    obtain ⟨k1, k2⟩ := identifier_no_space id hid
    exact ⟨k1, k2, symbol_identifier id hid⟩
  · intro h
    simp [isempty, h]

/-! ### The `default` branch of `Path::get` -/

theorem code_injective (a b : tag_t) (h : a.code = b.code) : a = b := by
  cases a <;> cases b <;> first | rfl | exact absurd h (by decide)

theorem count_code (i : List tag_t) (t : tag_t) :
    (i.map tag_t.code).count t.code = i.count t := by
  induction i with
  | nil => rfl
  | cons a l ih =>
    simp only [List.map_cons, List.count_cons, ih]
    by_cases h : a = t
    · subst h
      simp
    · have : a.code ≠ t.code := fun e => h (code_injective a t e)
      simp [h, this]

theorem switchSegment_code (i : List tag_t) (t : tag_t) :
    Path.switchSegment (i.map tag_t.code) t.code = .ok (Path.segment i t) := by
  cases t
  all_goals first
    | rfl
    | (simp only [tag_t.code, Path.switchSegment, Path.segment]
       first
         | rw [show (3 : Nat) = TAG_TEMPLATE.code from rfl, count_code]
         | rw [show (8 : Nat) = TAG_LOCATION.code from rfl, count_code]
         | rw [show (10 : Nat) = TAG_TRANSITION.code from rfl, count_code]
         | rw [show (15 : Nat) = TAG_LABEL.code from rfl, count_code]
         | rw [show (16 : Nat) = TAG_NAIL.code from rfl, count_code])

theorem getFromCodes_ok (l : List (List tag_t)) :
    Path.getFromCodes (l.map (fun frame => frame.map tag_t.code)) = .ok (Path.getFrom l) := by
  induction l with
  | nil => rfl
  | cons f fs ih =>
    simp only [List.map_cons, Path.getFromCodes, Path.getFrom]
    cases hf : f.getLast? with
    | none =>
      have : f = [] := List.getLast?_eq_none_iff.mp hf
      subst this
      rfl
    | some t =>
      have h1 : (f.map tag_t.code).getLast? = some t.code := by
        rw [List.getLast?_map, hf]
        rfl
      simp only [h1, switchSegment_code, ih]

/-- C30: on every path, whose frames hold values of `tag_t`, `Path::get`
with the `default` branch of its `switch` returns normally, with the string
that the seventeen cases of the `switch` make up: the `default` branch, which
throws -1, is not taken.  Each of the seventeen tags has a case. -/
theorem C30_get_never_takes_default (p : Path) :
    p.getChecked = .ok p.get
      ∧ (∀ (i : List tag_t) (t : tag_t),
          Path.switchSegment (i.map tag_t.code) t.code = .ok (Path.segment i t))
      ∧ (∀ n : Nat, (∃ t : tag_t, t.code = n) ↔ n < 17)
      ∧ (∀ (i : List Nat) (n : Nat), 17 ≤ n → Path.switchSegment i n = .error (-1)) := by
  refine ⟨?_, switchSegment_code, ?_, ?_⟩
  · unfold Path.getChecked Path.get
    exact getFromCodes_ok _
  · intro n
    constructor
    · rintro ⟨t, rfl⟩
      cases t <;> decide
    · intro h
      interval_cases n
      · exact ⟨TAG_NTA, rfl⟩
      · exact ⟨TAG_IMPORTS, rfl⟩
      · exact ⟨TAG_DECLARATION, rfl⟩
      · exact ⟨TAG_TEMPLATE, rfl⟩
      · exact ⟨TAG_INSTANTIATION, rfl⟩
      · exact ⟨TAG_SYSTEM, rfl⟩
      · exact ⟨TAG_NAME, rfl⟩
      · exact ⟨TAG_PARAMETER, rfl⟩
      · exact ⟨TAG_LOCATION, rfl⟩
      · exact ⟨TAG_INIT, rfl⟩
      · exact ⟨TAG_TRANSITION, rfl⟩
      · exact ⟨TAG_URGENT, rfl⟩
      · exact ⟨TAG_COMMITTED, rfl⟩
      · exact ⟨TAG_SOURCE, rfl⟩
      · exact ⟨TAG_TARGET, rfl⟩
      · exact ⟨TAG_LABEL, rfl⟩
      · exact ⟨TAG_NAIL, rfl⟩
  · intro i n h
    unfold Path.switchSegment
    split <;> first | omega | rfl

/-! ### What one `read` does -/

theorem pop_inv (q q1 : Path) (u : tag_t) (h : q.pop = some (u, q1)) :
    ∃ c back rest, q.path = c :: back :: rest ∧ back.getLast? = some u
      ∧ q1 = ⟨back :: rest⟩ := by
  obtain ⟨frames⟩ := q
  match frames, h with
  | c :: back :: rest, h =>
    simp only [Path.pop] at h
    cases hb : back.getLast? with
    | none => simp [hb] at h
    | some v =>
      simp only [hb, Option.some.injEq, Prod.mk.injEq] at h
      exact ⟨c, back, rest, rfl, by rw [hb, h.1], h.2.symm⟩
  | [], h => simp [Path.pop] at h
  | [_], h => simp [Path.pop] at h

theorem push_length (p : Path) (t : tag_t) : (p.push t).path.length = p.path.length + 1 := by
  obtain ⟨frames⟩ := p
  cases frames <;> simp [Path.push]

theorem readPop_inv (s s1 : XMLReader) (u : Unit) (h : XMLReader.readPop s = (.ok u, s1)) :
    s1.cur = s.cur ∧ s1.rest = s.rest ∧ s1.locations = s.locations ∧ s1.log = s.log
      ∧ s1.errors = s.errors
      ∧ s1.path.path.length + (pendingPop s.cur).length = s.path.path.length := by
  unfold XMLReader.readPop at h
  by_cases hc : XMLReader.getNodeType s = END_ELEMENT
      ∨ (XMLReader.getNodeType s = ELEMENT ∧ XMLReader.isEmpty s = true)
  · rw [if_pos hc] at h
    obtain ⟨t, sa, h1, k1⟩ := bind_ok_inv h
    obtain ⟨e, sb, h2, k2⟩ := bind_ok_inv k1
    have hsb : sb = sa := by
      unfold XMLReader.getElement at h2
      split at h2
      · simp at h2
      · split at h2
        · simp at h2
        · simp only [Prod.mk.injEq] at h2
          exact h2.2.symm
    subst hsb
    have hs1 : s1 = sb := by
      by_cases hte : t ≠ e
      · rw [if_pos hte] at k2
        simp [StM.throwInt] at k2
      · rw [if_neg hte] at k2
        simp only [StM.pure_apply, Prod.mk.injEq] at k2
        exact k2.2.symm
    subst hs1
    unfold XMLReader.popPath at h1
    cases hp : s.path.pop with
    | none => simp [hp] at h1
    | some r =>
      obtain ⟨t1, p⟩ := r
      simp only [hp, Prod.mk.injEq, Outcome.ok.injEq] at h1
      obtain ⟨_, rfl⟩ := h1
      obtain ⟨c, back, rest, g1, _, g3⟩ := pop_inv _ _ _ hp
      have hpp : (pendingPop s.cur).length = 1 := by
        cases hcur : s.cur with
        | none => simp [XMLReader.getNodeType, XMLReader.isEmpty, hcur] at hc
        | some n =>
          have : n.type = END_ELEMENT ∨ (n.type = ELEMENT ∧ n.isEmpty = true) := by
            simp only [XMLReader.getNodeType, XMLReader.isEmpty, hcur, Bool.and_eq_true,
              decide_eq_true_eq] at hc
            tauto
          simp [pendingPop, this]
      refine ⟨rfl, rfl, rfl, rfl, rfl, ?_⟩
      simp only [g3, g1, hpp, List.length_cons]
  · rw [if_neg hc] at h
    simp only [Prod.mk.injEq] at h
    obtain ⟨_, rfl⟩ := h
    have hpp : (pendingPop s.cur).length = 0 := by
      cases hcur : s.cur with
      | none => simp [pendingPop]
      | some n =>
        have : ¬ (n.type = END_ELEMENT ∨ (n.type = ELEMENT ∧ n.isEmpty = true)) := by
          simp only [XMLReader.getNodeType, XMLReader.isEmpty, hcur, Bool.and_eq_true,
            decide_eq_true_eq] at hc
          tauto
        simp [pendingPop, this]
    exact ⟨rfl, rfl, rfl, rfl, rfl, by omega⟩

theorem readPush_inv (s s1 : XMLReader) (u : Unit) (h : XMLReader.readPush s = (.ok u, s1)) :
    s1.cur = s.cur ∧ s1.rest = s.rest ∧ s1.locations = s.locations ∧ s1.log = s.log
      ∧ s1.errors = s.errors
      ∧ s1.path.path.length
          = s.path.path.length + (if XMLReader.getNodeType s = ELEMENT then 1 else 0) := by
  unfold XMLReader.readPush at h
  by_cases hc : XMLReader.getNodeType s = ELEMENT
  · rw [if_pos hc] at h
    obtain ⟨e, sb, h2, k2⟩ := bind_ok_inv h
    have hsb : sb = s := by
      unfold XMLReader.getElement at h2
      split at h2
      · simp at h2
      · split at h2
        · simp at h2
        · simp only [Prod.mk.injEq] at h2
          exact h2.2.symm
    subst hsb
    simp only [Prod.mk.injEq] at k2
    obtain ⟨_, rfl⟩ := k2
    exact ⟨rfl, rfl, rfl, rfl, rfl, by simp [push_length, hc]⟩
  · rw [if_neg hc] at h
    simp only [Prod.mk.injEq] at h
    obtain ⟨_, rfl⟩ := h
    exact ⟨rfl, rfl, rfl, rfl, rfl, by simp [hc]⟩

/-- A `read` that returns has moved to the next node, has left the map, the
calls and the errors as they were, and has popped and pushed the path as the
node left and the node reached ask for. -/
theorem read_ok_inv (s s1 : XMLReader) (u : Unit) (h : XMLReader.read s = (.ok u, s1)) :
    ∃ n r, s.rest = n :: r ∧ s1.cur = some n ∧ s1.rest = r ∧ s1.locations = s.locations
      ∧ s1.log = s.log ∧ s1.errors = s.errors
      ∧ s1.path.path.length + (pendingPop s.cur).length
          = s.path.path.length + (if n.type = ELEMENT then 1 else 0) := by
  unfold XMLReader.read at h
  obtain ⟨_, sa, h1, k1⟩ := bind_ok_inv h
  obtain ⟨b, sb, h2, k2⟩ := bind_ok_inv k1
  obtain ⟨a1, a2, a3, a4, a5, a6⟩ := readPop_inv s sa _ h1
  unfold XMLReader.xmlTextReaderRead at h2
  cases hr : sa.rest with
  | nil =>
    simp only [hr, Prod.mk.injEq, Outcome.ok.injEq] at h2
    obtain ⟨rfl, rfl⟩ := h2
    simp [StM.throwInt] at k2
  | cons n r =>
    simp only [hr, Prod.mk.injEq, Outcome.ok.injEq] at h2
    obtain ⟨rfl, rfl⟩ := h2
    simp only [Bool.true_eq_false, if_false] at k2
    obtain ⟨b1, b2, b3, b4, b5, b6⟩ := readPush_inv _ s1 _ k2
    refine ⟨n, r, by rw [← a2, hr], b1, b2, by rw [b3]; exact a3, by rw [b4]; exact a4,
      by rw [b5]; exact a5, ?_⟩
    simp only [XMLReader.getNodeType] at b6
    rw [b6]
    omega

/-! ### The number of frames -/

theorem pendingPop_length (cur : Option Node) :
    (pendingPop cur).length = cur.toList.countP Node.closes := by
  cases cur with
  | none => rfl
  | some n =>
    by_cases h : n.type = END_ELEMENT ∨ (n.type = ELEMENT ∧ n.isEmpty = true)
    · have : n.closes = true := by
        simp only [Node.closes, Bool.or_eq_true, Bool.and_eq_true, decide_eq_true_eq]
        exact h
      simp [pendingPop, h, this]
    · have : n.closes = false := by
        cases hc : n.closes with
        | false => rfl
        | true =>
          simp only [Node.closes, Bool.or_eq_true, Bool.and_eq_true, decide_eq_true_eq] at hc
          exact absurd hc h
      simp [pendingPop, h, this]

/-- After `k` calls of `read` that return, the frames of the path have grown
by the start tags reached and shrunk by the end tags and empty elements
left. -/
theorem readN_frames (k : Nat) :
    ∀ (s s1 : XMLReader), XMLReader.readN k s = (.ok (), s1) →
      k ≤ s.rest.length ∧ s1.rest = s.rest.drop k
        ∧ s1.cur = (s.cur.toList ++ s.rest.take k).getLast?
        ∧ s1.locations = s.locations ∧ s1.log = s.log ∧ s1.errors = s.errors
        ∧ s1.path.path.length + ((s.cur.toList ++ s.rest.take k).dropLast).countP Node.closes
            = s.path.path.length + (s.rest.take k).countP Node.opens := by
  induction k with
  | zero =>
    intro s s1 h
    simp only [XMLReader.readN, StM.pure_apply, Prod.mk.injEq, true_and] at h
    subst h
    refine ⟨by simp, by simp, ?_, rfl, rfl, rfl, ?_⟩
    · cases s.cur <;> simp
    · cases s.cur <;> simp
  | succ k ih =>
    intro s s1 h
    simp only [XMLReader.readN] at h
    obtain ⟨u, s0, h1, h2⟩ := bind_ok_inv h
    obtain ⟨n, r, a1, a2, a3, a4, a5, a6, a7⟩ := read_ok_inv s s0 u h1
    obtain ⟨b1, b2, b3, b4, b5, b6, b7⟩ := ih s0 s1 h2
    rw [a2, a3] at b3 b7
    rw [a3] at b1 b2
    have hne : n :: r.take k ≠ [] := by simp
    refine ⟨by rw [a1]; simp; omega, by rw [b2, a1]; simp, ?_, b4.trans a4, b5.trans a5,
      b6.trans a6, ?_⟩
    · rw [b3, a1]
      simp only [Option.toList, List.singleton_append, List.take_succ_cons]
      rw [List.getLast?_append_of_ne_nil _ hne]
    · rw [a1]
      simp only [List.take_succ_cons]
      rw [List.dropLast_append_of_ne_nil _ hne, List.countP_append, List.countP_cons,
        ← pendingPop_length]
      simp only [Option.toList, List.singleton_append] at b7
      have hop : (if n.opens = true then 1 else 0) = (if n.type = ELEMENT then 1 else 0) := by
        simp [Node.opens]
      rw [hop]
      omega

/-- On a well-nested sequence of nodes whose start tags are known, every
`read` returns and keeps the invariant of the reader. -/
theorem readN_wellnested (k : Nat) :
    ∀ (s : XMLReader), Inv s →
      (∀ n ∈ s.rest, n.type = ELEMENT → ∃ t, in_word_set n.localName = some t) →
      k ≤ s.rest.length → ∃ s1, XMLReader.readN k s = (.ok (), s1) ∧ Inv s1 := by
  induction k with
  | zero =>
    intro s hI _ _
    exact ⟨s, rfl, hI⟩
  | succ k ih =>
    intro s hI hkn hk
    cases hr : s.rest with
    | nil => simp [hr] at hk
    | cons n r =>
      obtain ⟨p, h1, h2⟩ := XMLReader.read_cons s n r hI hr (hkn n (by simp [hr]))
      obtain ⟨s1, g1, g2⟩ := ih _ h2 (fun x hx => hkn x (by simp only [hr]; exact List.mem_cons_of_mem _ hx))
        (by simp only [hr, List.length_cons] at hk; simpa using hk)
      exact ⟨s1, by rw [readN_succ k s _ h1]; exact g1, g2⟩

/-- C29: on a well-nested sequence of nodes whose start tags are in the tag
table, each of the first calls of `read`, as many as there are nodes,
returns.  In the state it leaves, the first statement of the next `read`,
which holds the check of the path, passes; and if the current node is an end
tag or an empty element, the path has at least two frames and `pop` returns
the tag of this node. -/
theorem C29_path_check_never_fails (nodes : List Node) (hWN : WN [] nodes = true)
    (hknown : ∀ n ∈ nodes, n.type = ELEMENT → ∃ t, in_word_set n.localName = some t)
    (k : Nat) (hk : k ≤ nodes.length) :
    ∃ s, XMLReader.readN k (XMLReader.new nodes) = (.ok (), s)
      ∧ s.rest = nodes.drop k ∧ s.cur = (nodes.take k).getLast?
      ∧ (∃ p, XMLReader.readPop s = (.ok (), { s with path := p }))
      ∧ (∀ n, s.cur = some n → n.closes = true →
          2 ≤ s.path.path.length
          ∧ ∃ t p, s.path.pop = some (t, p) ∧ in_word_set n.localName = some t) := by
  have hI : Inv (XMLReader.new nodes) :=
    ⟨[], hWN, by simp [XMLReader.new, Path.new, pendingPop, PathOK]⟩
  obtain ⟨s, h1, h2⟩ := readN_wellnested k (XMLReader.new nodes) hI hknown hk
  obtain ⟨_, b2, b3, _, _, _, _⟩ := readN_frames k _ s h1
  obtain ⟨st, _, hP⟩ := h2
  obtain ⟨p, hpop, _⟩ := XMLReader.readPop_ok s st hP
  refine ⟨s, h1, b2, by simpa [XMLReader.new] using b3, ⟨p, hpop⟩, ?_⟩
  intro n hn hc
  have hcl : n.type = END_ELEMENT ∨ (n.type = ELEMENT ∧ n.isEmpty = true) := by
    simpa [Node.closes] using hc
  rw [hn] at hP
  simp only [pendingPop, hcl, if_true, List.singleton_append] at hP
  rcases hpath : s.path with ⟨frames⟩
  simp only [hpath] at hP
  match frames, hP with
  | c :: f :: fs, hP =>
    simp only [PathOK] at hP
    obtain ⟨⟨t, ht, hf⟩, _⟩ := hP
    exact ⟨by simp, t, ⟨f :: fs⟩, by simp [Path.pop, hf], ht⟩
  | [], hP => simp [PathOK] at hP
  | [_], hP => simp [PathOK] at hP

theorem C29_path_check_never_fails_witness :
    (WN [] oneTemplate.render = true
      ∧ (∀ n ∈ oneTemplate.render, n.type = ELEMENT → ∃ t, in_word_set n.localName = some t)
      ∧ 9 ≤ oneTemplate.render.length)
    ∧ ∃ s, XMLReader.readN 9 (XMLReader.new oneTemplate.render) = (.ok (), s)
      ∧ s.rest = oneTemplate.render.drop 9 ∧ s.cur = (oneTemplate.render.take 9).getLast?
      ∧ (∃ p, XMLReader.readPop s = (.ok (), { s with path := p }))
      ∧ (∀ n, s.cur = some n → n.closes = true →
          2 ≤ s.path.path.length
          ∧ ∃ t p, s.path.pop = some (t, p) ∧ in_word_set n.localName = some t) :=
  have hk : ∀ n ∈ oneTemplate.render, n.type = ELEMENT → ∃ t, in_word_set n.localName = some t := by
    intro n hn _
    have : ∀ m ∈ oneTemplate.render, (in_word_set m.localName).isSome = true
        ∨ m.type ≠ ELEMENT := by decide
    rcases this n hn with h | h
    · exact Option.isSome_iff_exists.mp h
    · contradiction
  ⟨⟨by decide, hk, by decide⟩,
    C29_path_check_never_fails oneTemplate.render (by decide) hk 9 (by decide)⟩

theorem run_depth (ops : List PathOp) :
    ∀ (p : Path) (d : Nat), p.path.length = d + 1 → (∀ f ∈ p.path.tail, f ≠ []) →
      (∀ j, (ops.take j).countP PathOp.isPop ≤ d + (ops.take j).countP PathOp.isPush) →
      ∃ q, Path.run ops p = some q
        ∧ q.path.length + ops.countP PathOp.isPop = d + 1 + ops.countP PathOp.isPush := by
  induction ops with
  | nil =>
    intro p d hd _ _
    exact ⟨p, rfl, by simp [hd]⟩
  | cons op ops ih =>
    intro p d hd ht hb
    obtain ⟨frames⟩ := p
    cases op with
    | push t =>
      cases frames with
      | nil => simp at hd
      | cons top below =>
        simp only [List.length_cons] at hd
        have hb1 : ∀ j, (ops.take j).countP PathOp.isPop
            ≤ (d + 1) + (ops.take j).countP PathOp.isPush := by
          intro j
          have := hb (j + 1)
          simp only [List.take_succ_cons, List.countP_cons, PathOp.isPop, PathOp.isPush,
            Bool.false_eq_true, if_false, if_true] at this
          omega
        obtain ⟨q, g1, g2⟩ := ih ⟨[] :: (top ++ [t]) :: below⟩ (d + 1)
          (by simp only [List.length_cons]; omega)
          (by
            intro f hf
            simp only [List.tail_cons, List.mem_cons] at hf
            rcases hf with h | h
            · rw [h]
              simp
            · exact ht f (by simpa using h))
          hb1
        refine ⟨q, by simpa [Path.run, Path.push] using g1, ?_⟩
        simp only [List.countP_cons, PathOp.isPop, PathOp.isPush, Bool.false_eq_true, if_false,
          if_true]
        omega
    | pop =>
      have hd1 : 1 ≤ d := by
        have := hb 1
        simp only [List.take_succ_cons, List.take_zero, List.countP_cons, List.countP_nil,
          PathOp.isPop, PathOp.isPush, if_true, Bool.false_eq_true, if_false] at this
        omega
      match frames, hd, ht with
      | [], hd, _ => simp at hd
      | [_], hd, _ =>
        simp only [List.length_cons, List.length_nil] at hd
        omega
      | c :: back :: rest, hd, ht =>
        simp only [List.length_cons] at hd
        have hne : back ≠ [] := ht back (by simp)
        obtain ⟨u, hu⟩ : ∃ u, back.getLast? = some u := by
          cases hg : back.getLast? with
          | none => exact absurd (List.getLast?_eq_none_iff.mp hg) hne
          | some u => exact ⟨u, rfl⟩
        have hb1 : ∀ j, (ops.take j).countP PathOp.isPop
            ≤ (d - 1) + (ops.take j).countP PathOp.isPush := by
          intro j
          have := hb (j + 1)
          simp only [List.take_succ_cons, List.countP_cons, PathOp.isPop, PathOp.isPush,
            Bool.false_eq_true, if_false, if_true] at this
          omega
        obtain ⟨q, g1, g2⟩ := ih ⟨back :: rest⟩ (d - 1)
          (by simp only [List.length_cons]; omega)
          (by
            intro f hf
            exact ht f (by simp only [List.tail_cons] at hf ⊢; exact List.mem_cons_of_mem _ hf))
          hb1
        refine ⟨q, by simpa [Path.run, Path.pop, hu] using g1, ?_⟩
        simp only [List.countP_cons, PathOp.isPop, PathOp.isPush, Bool.false_eq_true, if_false,
          if_true]
        omega

/-- C27: a fresh path has one frame.  After calls of `push` and `pop` of
which no prefix holds more calls of `pop` than of `push`, every `pop` has
found its frames and the path has one frame, plus one for each `push`, less
one for each `pop`.  As `read` drives the path over a well-nested sequence
of nodes whose start tags are in the tag table, after each of the first
calls of `read`, as many as there are nodes, the path has one frame more
than there are open elements. -/
theorem C27_frames_count_open_elements :
    Path.new.path.length = 1
      ∧ (∀ ops : List PathOp, Balanced ops →
          ∃ p, Path.run ops Path.new = some p
            ∧ (p.path.length : Int)
              = 1 + (ops.countP PathOp.isPush : Int) - (ops.countP PathOp.isPop : Int))
      ∧ (∀ nodes : List Node, WN [] nodes = true →
          (∀ n ∈ nodes, n.type = ELEMENT → ∃ t, in_word_set n.localName = some t) →
          ∀ k, k ≤ nodes.length →
            ∃ s, XMLReader.readN k (XMLReader.new nodes) = (.ok (), s)
              ∧ (s.path.path.length : Int) = 1 + openElements (nodes.take k)) := by
  refine ⟨rfl, ?_, ?_⟩
  · intro ops hb
    obtain ⟨q, g1, g2⟩ := run_depth ops Path.new 0 rfl (by simp [Path.new])
      (fun j => by simpa using hb j)
    exact ⟨q, g1, by omega⟩
  · intro nodes hWN hknown k hk
    have hI : Inv (XMLReader.new nodes) :=
      ⟨[], hWN, by simp [XMLReader.new, Path.new, pendingPop, PathOK]⟩
    obtain ⟨s, h1, _⟩ := readN_wellnested k (XMLReader.new nodes) hI hknown hk
    obtain ⟨_, _, _, _, _, _, b7⟩ := readN_frames k _ s h1
    refine ⟨s, h1, ?_⟩
    simp only [XMLReader.new, Option.toList, List.nil_append, Path.new, List.length_cons,
      List.length_nil] at b7
    unfold openElements
    omega

/-! ### What `begin` does -/

theorem getElement_inv (s sa : XMLReader) (e : tag_t)
    (h : XMLReader.getElement s = (.ok e, sa)) :
    sa = s ∧ ∃ n, s.cur = some n ∧ in_word_set n.localName = some e := by
  unfold XMLReader.getElement at h
  cases hc : s.cur with
  | none => simp [hc] at h
  | some n =>
    simp only [hc] at h
    cases hw : in_word_set n.localName with
    | none => simp [hw] at h
    | some t =>
      simp only [hw, Prod.mk.injEq, Outcome.ok.injEq] at h
      exact ⟨h.2.symm, n, rfl, by rw [hw, h.1]⟩

theorem read_no_timeout (s : XMLReader) : (XMLReader.read s).1 ≠ .timeout := by
  have hbind : ∀ {α β : Type} (m : M α) (f : α → M β) (s : XMLReader),
      (m s).1 ≠ .timeout → (∀ a s1, (f a s1).1 ≠ .timeout) → ((m >>= f) s).1 ≠ .timeout := by
    intro α β m f s hm hf
    simp only [StM.bind_apply, StM.andThen]
    rcases hms : m s with ⟨o, s1⟩
    rw [hms] at hm
    cases o with
    | ok a => exact hf a s1
    | fatal c => simp
    | typeException e => simp
    | crash => simp
    | timeout => exact absurd rfl hm
  have hget : ∀ s : XMLReader, (XMLReader.getElement s).1 ≠ .timeout := by
    intro s
    unfold XMLReader.getElement
    split
    · simp
    · split <;> simp
  have hpop : ∀ s : XMLReader, (XMLReader.readPop s).1 ≠ .timeout := by
    intro s
    unfold XMLReader.readPop
    split
    · refine hbind _ _ s ?_ (fun t s1 => hbind _ _ s1 (hget s1) (fun e s2 => ?_))
      · unfold XMLReader.popPath
        split <;> simp
      · by_cases hte : t ≠ e
        · rw [if_pos hte]
          simp [StM.throwInt]
        · rw [if_neg hte]
          simp
    · simp
  have hpush : ∀ s : XMLReader, (XMLReader.readPush s).1 ≠ .timeout := by
    intro s
    unfold XMLReader.readPush
    split
    · exact hbind _ _ s (hget s) (fun e s1 => by simp)
    · simp
  unfold XMLReader.read
  refine hbind _ _ s (hpop s) (fun _ s1 => hbind _ _ s1 ?_ (fun b s2 => ?_))
  · unfold XMLReader.xmlTextReaderRead
    split <;> simp
  · cases b
    · simp [StM.throwInt]
    · simpa using hpush s2

theorem begin_returns (tag : tag_t) (skipEmpty : Bool) (fuel : Nat) :
    ∀ (s s1 : XMLReader) (b : Bool), XMLReader.begin fuel tag skipEmpty s = (.ok b, s1) →
      ∃ skip n k, s.stream = skip ++ s1.stream
        ∧ (∀ x ∈ skip, Skippable (if skipEmpty = true then some tag else none) x)
        ∧ s1.cur = some n ∧ n.type = ELEMENT
        ∧ (b = true → in_word_set n.localName = some tag
            ∧ (skipEmpty = true → n.isEmpty = false))
        ∧ (b = false → ∃ t, in_word_set n.localName = some t ∧ t ≠ tag)
        ∧ XMLReader.readN k s = (.ok (), s1) := by
  induction fuel with
  | zero =>
    intro s s1 b h
    simp [XMLReader.begin] at h
  | succ f ih =>
    intro s s1 b h
    have hread :
        (∀ x ∈ s.cur.toList, Skippable (if skipEmpty = true then some tag else none) x) →
        (do XMLReader.read; XMLReader.begin f tag skipEmpty : M Bool) s = (.ok b, s1) →
        ∃ skip n k, s.stream = skip ++ s1.stream
          ∧ (∀ x ∈ skip, Skippable (if skipEmpty = true then some tag else none) x)
          ∧ s1.cur = some n ∧ n.type = ELEMENT
          ∧ (b = true → in_word_set n.localName = some tag
              ∧ (skipEmpty = true → n.isEmpty = false))
          ∧ (b = false → ∃ t, in_word_set n.localName = some t ∧ t ≠ tag)
          ∧ XMLReader.readN k s = (.ok (), s1) := by
      intro hsk hrun
      obtain ⟨u, s0, h1, h2⟩ := bind_ok_inv hrun
      obtain ⟨n0, r, a1, a2, a3, _⟩ := read_ok_inv s s0 u h1
      obtain ⟨skip, n, k, g1, g2, g3, g4, g5, g6, g7⟩ := ih s0 s1 b h2
      refine ⟨s.cur.toList ++ skip, n, k + 1, ?_, ?_, g3, g4, g5, g6, ?_⟩
      · have : s0.stream = n0 :: r := by simp [XMLReader.stream, a2, a3]
        rw [List.append_assoc, ← g1, this]
        simp [XMLReader.stream, a1]
      · intro x hx
        rcases List.mem_append.mp hx with h | h
        · exact hsk x h
        · exact g2 x h
      · rw [readN_succ k s s0 h1]
        exact g7
    unfold XMLReader.begin at h
    by_cases hty : XMLReader.getNodeType s ≠ ELEMENT
    · rw [if_pos hty] at h
      refine hread ?_ h
      intro x hx
      cases hc : s.cur with
      | none => simp [hc] at hx
      | some c =>
        simp only [hc, Option.toList, List.mem_singleton] at hx
        subst hx
        simp only [XMLReader.getNodeType, hc] at hty
        exact Or.inl hty
    · rw [if_neg hty] at h
      have hty1 : XMLReader.getNodeType s = ELEMENT := not_not.mp hty
      obtain ⟨e, sa, h1, h2⟩ := bind_ok_inv h
      obtain ⟨rfl, n, hc, hw⟩ := getElement_inv s sa e h1
      have hnt : n.type = ELEMENT := by simpa [XMLReader.getNodeType, hc] using hty1
      by_cases hte : e ≠ tag
      · rw [if_pos hte] at h2
        simp only [StM.pure_apply, Prod.mk.injEq, Outcome.ok.injEq] at h2
        obtain ⟨rfl, rfl⟩ := h2
        exact ⟨[], n, 0, by simp, by simp, hc, hnt, by simp, fun _ => ⟨e, hw, hte⟩, rfl⟩
      · rw [if_neg hte] at h2
        have hte1 : e = tag := not_not.mp hte
        subst hte1
        by_cases hse : (!skipEmpty || !XMLReader.isEmpty sa) = true
        · simp only [hse, if_true, Prod.mk.injEq, Outcome.ok.injEq] at h2
          obtain ⟨rfl, rfl⟩ := h2
          refine ⟨[], n, 0, by simp, by simp, hc, hnt, fun _ => ⟨hw, fun hs => ?_⟩, by simp, rfl⟩
          simpa [hs, XMLReader.isEmpty, hc, hnt] using hse
        · simp only [hse, Bool.false_eq_true, if_false] at h2
          refine hread ?_ h2
          intro x hx
          simp only [hc, Option.toList, List.mem_singleton] at hx
          subst hx
          have hs : skipEmpty = true ∧ x.isEmpty = true := by
            simpa [XMLReader.isEmpty, hc, hnt] using hse
          exact Or.inr ⟨hs.2, e, by simp [hs.1], hw⟩

theorem begin_no_timeout (tag : tag_t) (skipEmpty : Bool) (fuel : Nat) :
    ∀ s : XMLReader, s.rest.length < fuel →
      (XMLReader.begin fuel tag skipEmpty s).1 ≠ .timeout := by
  induction fuel with
  | zero =>
    intro s h
    omega
  | succ f ih =>
    intro s hlen
    have hread : ((do XMLReader.read; XMLReader.begin f tag skipEmpty : M Bool) s).1
        ≠ .timeout := by
      simp only [StM.bind_apply, StM.andThen]
      rcases hms : XMLReader.read s with ⟨o, s0⟩
      have hnt := read_no_timeout s
      rw [hms] at hnt
      cases o with
      | ok u =>
        obtain ⟨n0, r, a1, _, a3, _⟩ := read_ok_inv s s0 u hms
        refine ih s0 ?_
        rw [a3]
        rw [a1] at hlen
        simpa using hlen
      | fatal c => simp
      | typeException e => simp
      | crash => simp
      | timeout => exact absurd rfl hnt
    unfold XMLReader.begin
    by_cases hty : XMLReader.getNodeType s ≠ ELEMENT
    · rw [if_pos hty]
      exact hread
    · rw [if_neg hty]
      simp only [StM.bind_apply, StM.andThen]
      rcases hg : XMLReader.getElement s with ⟨o, sa⟩
      cases o with
      | ok e =>
        obtain ⟨rfl, _⟩ := getElement_inv s sa e hg
        simp only
        by_cases hte : e ≠ tag
        · rw [if_pos hte]
          simp
        · rw [if_neg hte]
          by_cases hse : (!skipEmpty || !XMLReader.isEmpty sa) = true
          · simp [hse]
          · simp only [hse, Bool.false_eq_true, if_false]
            exact hread
      | fatal c => simp
      | typeException e => simp
      | crash => simp
      | timeout =>
        exfalso
        unfold XMLReader.getElement at hg
        split at hg
        · simp at hg
        · split at hg <;> simp at hg

/-- C24: when `begin` returns, the current node is a start tag, reached from
the state before by calls of `read` only; the nodes passed over are nodes
other than start tags and, if `skipEmpty` is set, empty elements with the
tag asked for; `begin` returns true if the tag of the start tag reached is
the one asked for, and then the element is not empty if `skipEmpty` is set,
and false if it is another tag.  With more fuel than there are nodes left
`begin` comes to an end.  At a start tag with another tag `begin` returns
false and at one with the tag asked for that is not to be skipped it returns
true, in both cases without a `read`; at one that is to be skipped, and at a
node that is no start tag, it calls `read` and goes on. -/
theorem C24_begin_stops_at_start_tag (fuel : Nat) (tag : tag_t) (skipEmpty : Bool)
    (s : XMLReader) :
    (∀ (b : Bool) (s1 : XMLReader), XMLReader.begin fuel tag skipEmpty s = (.ok b, s1) →
        ∃ skip n k, s.stream = skip ++ s1.stream
          ∧ (∀ x ∈ skip, Skippable (if skipEmpty = true then some tag else none) x)
          ∧ s1.cur = some n ∧ n.type = ELEMENT
          ∧ (b = true → in_word_set n.localName = some tag
              ∧ (skipEmpty = true → n.isEmpty = false))
          ∧ (b = false → ∃ t, in_word_set n.localName = some t ∧ t ≠ tag)
          ∧ XMLReader.readN k s = (.ok (), s1))
      ∧ (s.rest.length < fuel → (XMLReader.begin fuel tag skipEmpty s).1 ≠ .timeout)
      ∧ (∀ (n : Node) (t : tag_t), s.cur = some n → n.type = ELEMENT →
          in_word_set n.localName = some t →
          (t ≠ tag → XMLReader.begin (fuel + 1) tag skipEmpty s = (.ok false, s))
          ∧ (t = tag → (skipEmpty = false ∨ n.isEmpty = false) →
              XMLReader.begin (fuel + 1) tag skipEmpty s = (.ok true, s))
          ∧ (t = tag → skipEmpty = true → n.isEmpty = true →
              XMLReader.begin (fuel + 1) tag skipEmpty s
                = (do XMLReader.read; XMLReader.begin fuel tag skipEmpty : M Bool) s))
      ∧ (XMLReader.getNodeType s ≠ ELEMENT →
          XMLReader.begin (fuel + 1) tag skipEmpty s
            = (do XMLReader.read; XMLReader.begin fuel tag skipEmpty : M Bool) s) := by
  refine ⟨fun b s1 h => begin_returns tag skipEmpty fuel s s1 b h,
    begin_no_timeout tag skipEmpty fuel s, ?_, ?_⟩
  · intro n t hc hn ht
    refine ⟨fun hne => begin_other fuel tag t skipEmpty s n hc hn ht hne, ?_, ?_⟩
    · intro hte hse
      subst hte
      obtain ⟨cur, rest, locs, path, log, errs⟩ := s
      simp only at hc
      subst hc
      rcases hse with h | h
      · simp [XMLReader.begin, XMLReader.getNodeType, hn, StM.bind_apply, StM.andThen,
          XMLReader.getElement, ht, h]
      · simp [XMLReader.begin, XMLReader.getNodeType, hn, StM.bind_apply, StM.andThen,
          XMLReader.getElement, ht, h, XMLReader.isEmpty]
    · intro hte hs he
      subst hte
      obtain ⟨cur, rest, locs, path, log, errs⟩ := s
      simp only at hc
      subst hc
      rw [XMLReader.begin]
      simp [XMLReader.getNodeType, hn, StM.bind_apply, StM.andThen,
        XMLReader.getElement, ht, hs, he, XMLReader.isEmpty]
  · intro hty
    rw [XMLReader.begin]
    simp [hty]

/-! ### An empty element and a start tag with its end tag -/

theorem readPop_rest (s : XMLReader) (X : List Node) :
    XMLReader.readPop { s with rest := X }
      = ((XMLReader.readPop s).1, { (XMLReader.readPop s).2 with rest := X }) := by
  obtain ⟨cur, rest, locs, path, log, errs⟩ := s
  unfold XMLReader.readPop
  simp only [XMLReader.getNodeType, XMLReader.isEmpty]
  split
  · simp only [StM.bind_apply, StM.andThen, XMLReader.popPath]
    cases hp : path.pop with
    | none => rfl
    | some r =>
      obtain ⟨t, p⟩ := r
      simp only [XMLReader.getElement]
      cases cur with
      | none => rfl
      | some n =>
        simp only
        cases hw : in_word_set n.localName with
        | none => rfl
        | some e =>
          by_cases hte : t ≠ e
          · simp only [if_pos hte]
            rfl
          · simp only [if_neg hte]
            rfl
  · rfl

theorem readPush_rest (s : XMLReader) (X : List Node) :
    XMLReader.readPush { s with rest := X }
      = ((XMLReader.readPush s).1, { (XMLReader.readPush s).2 with rest := X }) := by
  obtain ⟨cur, rest, locs, path, log, errs⟩ := s
  unfold XMLReader.readPush
  simp only [XMLReader.getNodeType]
  split
  · simp only [StM.bind_apply, StM.andThen, XMLReader.getElement]
    cases cur with
    | none => rfl
    | some n =>
      simp only
      cases hw : in_word_set n.localName with
      | none => rfl
      | some e => rfl
  · rfl

theorem bind_stop {σ α β : Type} {m : StM σ α} {f : α → StM σ β} {s s1 : σ} {o : Outcome α}
    (h : m s = (o, s1)) (ho : ∀ a, o ≠ .ok a) :
    ((m >>= f) s).2 = s1 ∧ (∀ b, ((m >>= f) s).1 ≠ .ok b)
      ∧ (∀ g : α → StM σ β, (m >>= g) s = (m >>= f) s) := by
  simp only [StM.bind_apply, StM.andThen, h]
  cases o with
  | ok a => exact absurd rfl (ho a)
  | fatal c => exact ⟨rfl, by simp, fun _ => rfl⟩
  | typeException e => exact ⟨rfl, by simp, fun _ => rfl⟩
  | crash => exact ⟨rfl, by simp, fun _ => rfl⟩
  | timeout => exact ⟨rfl, by simp, fun _ => rfl⟩

theorem readPop_keeps_rest (s : XMLReader) : (XMLReader.readPop s).2.rest = s.rest := by
  have h := readPop_rest s s.rest
  have e : ({ s with rest := s.rest } : XMLReader) = s := rfl
  rw [e] at h
  have := congrArg (fun x => x.2.rest) h
  simpa using this

theorem readPush_keeps_rest (s : XMLReader) : (XMLReader.readPush s).2.rest = s.rest := by
  have h := readPush_rest s s.rest
  have e : ({ s with rest := s.rest } : XMLReader) = s := rfl
  rw [e] at h
  have := congrArg (fun x => x.2.rest) h
  simpa using this

/-- The method `read` written out for a state with a node to read. -/
theorem read_eq (s : XMLReader) (n : Node) (r : List Node) (h : s.rest = n :: r) :
    XMLReader.read s
      = (match XMLReader.readPop s with
        | (.ok _, sa) => XMLReader.readPush { sa with cur := some n, rest := r }
        | (.fatal c, sa) => (.fatal c, sa)
        | (.typeException e, sa) => (.typeException e, sa)
        | (.crash, sa) => (.crash, sa)
        | (.timeout, sa) => (.timeout, sa)) := by
  have hr := readPop_keeps_rest s
  unfold XMLReader.read
  simp only [StM.bind_apply, StM.andThen]
  rcases hpop : XMLReader.readPop s with ⟨o, sa⟩
  rw [hpop] at hr
  simp only at hr
  cases o with
  | ok u =>
    simp only [XMLReader.xmlTextReaderRead, hr, h, Bool.true_eq_false, if_false]
  | fatal c => rfl
  | typeException e => rfl
  | crash => rfl
  | timeout => rfl

theorem read_rest (s : XMLReader) (n : Node) (r r2 : List Node) (h : s.rest = n :: r) :
    ∃ mid, (XMLReader.read s).2.rest = mid ++ r
      ∧ XMLReader.read { s with rest := n :: r2 }
        = ((XMLReader.read s).1, { (XMLReader.read s).2 with rest := mid ++ r2 })
      ∧ ((XMLReader.read s).1 = .ok () → mid = []) := by
  have hr := readPop_keeps_rest s
  have hp2 := readPop_rest s (n :: r2)
  rw [read_eq s n r h, read_eq { s with rest := n :: r2 } n r2 rfl, hp2]
  rcases hpop : XMLReader.readPop s with ⟨o, sa⟩
  rw [hpop] at hr
  simp only at hr
  cases o with
  | ok u =>
    simp only
    have h1 := readPush_rest { sa with cur := some n, rest := r } r2
    have h2 := readPush_keeps_rest { sa with cur := some n, rest := r }
    exact ⟨[], by simpa using h2, by simpa using h1, fun _ => rfl⟩
  | fatal c => exact ⟨[n], by simp [hr, h], by simp, by simp⟩
  | typeException e => exact ⟨[n], by simp [hr, h], by simp, by simp⟩
  | crash => exact ⟨[n], by simp [hr, h], by simp, by simp⟩
  | timeout => exact ⟨[n], by simp [hr, h], by simp, by simp⟩

theorem readN_fail (a b : Nat) :
    ∀ (s s1 : XMLReader) (o : Outcome Unit), XMLReader.readN a s = (o, s1) → o ≠ .ok () →
      XMLReader.readN (a + b) s = (o, s1) := by
  induction a with
  | zero =>
    intro s s1 o h ho
    simp only [XMLReader.readN, StM.pure_apply, Prod.mk.injEq] at h
    exact absurd h.1.symm ho
  | succ a ih =>
    intro s s1 o h ho
    rw [show a + 1 + b = (a + b) + 1 by omega]
    simp only [XMLReader.readN] at h ⊢
    rcases hrd : XMLReader.read s with ⟨o1, s0⟩
    cases o1 with
    | ok u =>
      rw [StM.bind_ok hrd] at h ⊢
      exact ih s0 s1 o h ho
    | fatal c =>
      simp only [StM.bind_apply, StM.andThen, hrd] at h ⊢
      exact h
    | typeException e =>
      simp only [StM.bind_apply, StM.andThen, hrd] at h ⊢
      exact h
    | crash =>
      simp only [StM.bind_apply, StM.andThen, hrd] at h ⊢
      exact h
    | timeout =>
      simp only [StM.bind_apply, StM.andThen, hrd] at h ⊢
      exact h

/-- The first calls of `read`, as many as there are nodes in `pre`, do not
depend on the nodes after `pre`. -/
theorem readN_rest (pre : List Node) (tail tail2 : List Node) :
    ∀ s : XMLReader, s.rest = pre ++ tail →
      ∃ mid, (XMLReader.readN pre.length s).2.rest = mid ++ tail
        ∧ XMLReader.readN pre.length { s with rest := pre ++ tail2 }
          = ((XMLReader.readN pre.length s).1,
              { (XMLReader.readN pre.length s).2 with rest := mid ++ tail2 })
        ∧ ((XMLReader.readN pre.length s).1 = .ok () → mid = []) := by
  induction pre with
  | nil =>
    intro s h
    exact ⟨[], by simpa [XMLReader.readN] using h, by simp [XMLReader.readN], fun _ => rfl⟩
  | cons n pre ih =>
    intro s h
    obtain ⟨mid0, a1, a2, a3⟩ := read_rest s n (pre ++ tail) (pre ++ tail2) h
    simp only [List.length_cons, XMLReader.readN, StM.bind_apply, StM.andThen, List.cons_append]
    rw [a2]
    rcases hrd : XMLReader.read s with ⟨o, s0⟩
    rw [hrd] at a1 a3
    simp only at a1 a3
    cases o with
    | ok u =>
      have hm : mid0 = [] := a3 rfl
      subst hm
      simp only [List.nil_append] at a1 ⊢
      obtain ⟨mid, b1, b2, b3⟩ := ih s0 a1
      exact ⟨mid, b1, b2, b3⟩
    | fatal c => exact ⟨mid0 ++ pre, by simp [a1], by simp, by simp⟩
    | typeException e => exact ⟨mid0 ++ pre, by simp [a1], by simp, by simp⟩
    | crash => exact ⟨mid0 ++ pre, by simp [a1], by simp, by simp⟩
    | timeout => exact ⟨mid0 ++ pre, by simp [a1], by simp, by simp⟩

theorem readPush_start (s : XMLReader) (n : Node) (hc : s.cur = some n)
    (hn : n.type = ELEMENT) :
    XMLReader.readPush s
      = (match in_word_set n.localName with
        | none => (.fatal (-1), s)
        | some t => (.ok (), { s with path := s.path.push t })) := by
  obtain ⟨cur, rest, locs, path, log, errs⟩ := s
  simp only at hc
  subst hc
  simp only [XMLReader.readPush, XMLReader.getNodeType, hn, if_true, StM.bind_apply,
    StM.andThen, XMLReader.getElement]
  cases in_word_set n.localName <;> rfl

theorem readPush_other (s : XMLReader) (h : XMLReader.getNodeType s ≠ ELEMENT) :
    XMLReader.readPush s = (.ok (), s) := by
  simp [XMLReader.readPush, h]

theorem readPop_plain (s : XMLReader)
    (h : ¬ (XMLReader.getNodeType s = END_ELEMENT
      ∨ (XMLReader.getNodeType s = ELEMENT ∧ XMLReader.isEmpty s = true))) :
    XMLReader.readPop s = (.ok (), s) := by
  simp [XMLReader.readPop, h]

theorem readPop_closer (s : XMLReader) (c : Node) (hc : s.cur = some c)
    (hcl : c.closes = true) :
    XMLReader.readPop s
      = (match s.path.pop with
        | none => (.crash, s)
        | some (t, p) =>
          match in_word_set c.localName with
          | none => (.fatal (-1), { s with path := p })
          | some e =>
            if t ≠ e then (.fatal (-1), { s with path := p })
            else (.ok (), { s with path := p })) := by
  obtain ⟨cur, rest, locs, path, log, errs⟩ := s
  simp only at hc
  subst hc
  have hcond : c.type = END_ELEMENT ∨ (c.type = ELEMENT ∧ c.isEmpty = true) := by
    simpa [Node.closes] using hcl
  have hcond1 : XMLReader.getNodeType ⟨some c, rest, locs, path, log, errs⟩ = END_ELEMENT
      ∨ (XMLReader.getNodeType ⟨some c, rest, locs, path, log, errs⟩ = ELEMENT
        ∧ XMLReader.isEmpty ⟨some c, rest, locs, path, log, errs⟩ = true) := by
    rcases hcond with h | h
    · exact Or.inl h
    · exact Or.inr ⟨h.1, by simp [XMLReader.isEmpty, h.1, h.2]⟩
  unfold XMLReader.readPop
  rw [if_pos hcond1]
  simp only [StM.bind_apply, StM.andThen, XMLReader.popPath]
  cases hp : path.pop with
  | none => rfl
  | some r =>
    obtain ⟨t, p⟩ := r
    simp only [XMLReader.getElement]
    cases hw : in_word_set c.localName with
    | none => rfl
    | some e =>
      by_cases hte : t ≠ e
      · simp only [if_pos hte]
        rfl
      · simp only [if_neg hte]
        rfl

theorem read_nil_eq (s : XMLReader) (h : s.rest = []) :
    XMLReader.read s
      = (match XMLReader.readPop s with
        | (.ok _, sa) => (.fatal (-1), sa)
        | (.fatal c, sa) => (.fatal c, sa)
        | (.typeException e, sa) => (.typeException e, sa)
        | (.crash, sa) => (.crash, sa)
        | (.timeout, sa) => (.timeout, sa)) := by
  have hr := readPop_keeps_rest s
  unfold XMLReader.read
  simp only [StM.bind_apply, StM.andThen]
  rcases hpop : XMLReader.readPop s with ⟨o, sa⟩
  rw [hpop] at hr
  simp only at hr
  cases o with
  | ok u =>
    simp only [XMLReader.xmlTextReaderRead, hr, h, if_true, StM.throwInt]
  | fatal c => rfl
  | typeException e => rfl
  | crash => rfl
  | timeout => rfl

/-- Leaving an end tag and leaving an empty element of the same name are the
same step: the calls of `read` from two states that differ in such a current
node only end alike, with the same path, and in the same state if they
return. -/
theorem read_closer_congr (a : XMLReader) (c1 c2 : Node) (h1 : a.cur = some c1)
    (hc1 : c1.closes = true) (hc2 : c2.closes = true) (hl : c1.localName = c2.localName) :
    (XMLReader.read a).1 = (XMLReader.read { a with cur := some c2 }).1
      ∧ (XMLReader.read a).2.path = (XMLReader.read { a with cur := some c2 }).2.path
      ∧ ((XMLReader.read a).1 = .ok () →
          XMLReader.read a = XMLReader.read { a with cur := some c2 }) := by
  have p1 := readPop_closer a c1 h1 hc1
  have p2 := readPop_closer { a with cur := some c2 } c2 rfl hc2
  rw [← hl] at p2
  simp only at p2
  obtain ⟨l, hr⟩ : ∃ l, a.rest = l := ⟨_, rfl⟩
  cases l with
  | nil =>
    rw [read_nil_eq a hr, read_nil_eq { a with cur := some c2 } hr, p1, p2]
    cases a.path.pop with
    | none => exact ⟨rfl, rfl, by simp⟩
    | some tp =>
      obtain ⟨t, p⟩ := tp
      simp only
      cases in_word_set c1.localName with
      | none => exact ⟨rfl, rfl, by simp⟩
      | some e =>
        simp only
        by_cases hte : t ≠ e
        · rw [if_pos hte, if_pos hte]
          exact ⟨rfl, rfl, by simp⟩
        · rw [if_neg hte, if_neg hte]
          exact ⟨rfl, rfl, by simp⟩
  | cons n r =>
    rw [read_eq a n r hr, read_eq { a with cur := some c2 } n r hr, p1, p2]
    cases a.path.pop with
    | none => exact ⟨rfl, rfl, by simp⟩
    | some tp =>
      obtain ⟨t, p⟩ := tp
      simp only
      cases in_word_set c1.localName with
      | none => exact ⟨rfl, rfl, by simp⟩
      | some e =>
        simp only
        by_cases hte : t ≠ e
        · rw [if_pos hte, if_pos hte]
          exact ⟨rfl, rfl, by simp⟩
        · rw [if_neg hte, if_neg hte]
          exact ⟨rfl, rfl, fun _ => rfl⟩

theorem empty_vs_pair (s : XMLReader) (E : Node) (r : List Node) (hE : E.type = ELEMENT)
    (hem : E.isEmpty = true) (hs : s.rest = E :: r) :
    (XMLReader.read s).1 = (XMLReader.read { s with rest := E.asStart :: E.endOf :: r }).1
      ∧ (XMLReader.read s).2.path
          = (XMLReader.read { s with rest := E.asStart :: E.endOf :: r }).2.path
      ∧ (∀ sA, XMLReader.read s = (.ok (), sA) →
          ∃ sB sB2, XMLReader.read { s with rest := E.asStart :: E.endOf :: r } = (.ok (), sB)
            ∧ XMLReader.read sB = (.ok (), sB2) ∧ sB.path = sA.path ∧ sB2.path = sA.path
            ∧ (XMLReader.read sA).1 = (XMLReader.read sB2).1
            ∧ (XMLReader.read sA).2.path = (XMLReader.read sB2).2.path
            ∧ ((XMLReader.read sA).1 = .ok () → XMLReader.read sA = XMLReader.read sB2)) := by
  have e1 := read_eq s E r hs
  have hp2 := readPop_rest s (E.asStart :: E.endOf :: r)
  have e2 := read_eq { s with rest := E.asStart :: E.endOf :: r } E.asStart (E.endOf :: r) rfl
  rw [hp2] at e2
  rcases hpop : XMLReader.readPop s with ⟨o, sa⟩
  rw [hpop] at e1 e2
  simp only at e1 e2
  have hEc : E.closes = true := by simp [Node.closes, hE, hem]
  have hEe : E.endOf.closes = true := by simp [Node.closes, Node.endOf]
  cases o with
  | ok u =>
    dsimp only at e1 e2
    have p1 := fun (q : XMLReader) (hq : q.cur = some E) => readPush_start q E hq hE
    have p2 := fun (q : XMLReader) (hq : q.cur = some E.asStart) =>
      readPush_start q E.asStart hq hE
    rw [p1 _ rfl] at e1
    rw [p2 _ rfl] at e2
    have hl : E.asStart.localName = E.localName := rfl
    rw [hl] at e2
    cases hw : in_word_set E.localName with
    | none =>
      rw [hw] at e1 e2
      simp only at e1 e2
      refine ⟨by rw [e1, e2], by rw [e1, e2], fun sA h => ?_⟩
      rw [e1] at h
      simp at h
    | some t =>
      rw [hw] at e1 e2
      simp only at e1 e2
      refine ⟨by rw [e1, e2], by rw [e1, e2], fun sA h => ?_⟩
      rw [e1] at h
      simp only [Prod.mk.injEq, true_and] at h
      subst h
      have f1 : XMLReader.read
            { sa with cur := some E.asStart, rest := E.endOf :: r,
                      path := sa.path.push t }
          = (.ok (), { sa with cur := some E.endOf, rest := r, path := sa.path.push t }) := by
        rw [read_eq _ E.endOf r rfl, readPop_plain _ (by
          simp [XMLReader.getNodeType, XMLReader.isEmpty, hE, Node.asStart])]
        exact readPush_other _ (by simp [XMLReader.getNodeType, Node.endOf])
      exact ⟨_, _, e2, f1, rfl, rfl,
        read_closer_congr { sa with cur := some E, rest := r, path := sa.path.push t }
          E E.endOf rfl hEc hEe rfl⟩
  | fatal c =>
    dsimp only at e1 e2
    refine ⟨by rw [e1, e2], by rw [e1, e2], fun sA h => ?_⟩
    rw [e1] at h
    simp at h
  | typeException e =>
    dsimp only at e1 e2
    refine ⟨by rw [e1, e2], by rw [e1, e2], fun sA h => ?_⟩
    rw [e1] at h
    simp at h
  | crash =>
    dsimp only at e1 e2
    refine ⟨by rw [e1, e2], by rw [e1, e2], fun sA h => ?_⟩
    rw [e1] at h
    simp at h
  | timeout =>
    dsimp only at e1 e2
    refine ⟨by rw [e1, e2], by rw [e1, e2], fun sA h => ?_⟩
    rw [e1] at h
    simp at h

theorem readN_one (s : XMLReader) : XMLReader.readN 1 s = XMLReader.read s := by
  simp only [XMLReader.readN]
  exact congrFun (StM.bind_pure XMLReader.read) s

/-- Two runs of `read` that agree (same outcome, same frames, and the same
state when they succeed) agree after any number of further calls. -/
theorem readN_agree (a b j : Nat) (x y : XMLReader)
    (h1 : (XMLReader.readN a x).1 = (XMLReader.readN b y).1)
    (h2 : (XMLReader.readN a x).2.path = (XMLReader.readN b y).2.path)
    (h3 : (XMLReader.readN a x).1 = .ok () → XMLReader.readN a x = XMLReader.readN b y) :
    (XMLReader.readN (a + j) x).1 = (XMLReader.readN (b + j) y).1
      ∧ (XMLReader.readN (a + j) x).2.path = (XMLReader.readN (b + j) y).2.path
      ∧ ((XMLReader.readN (a + j) x).1 = .ok () →
          XMLReader.readN (a + j) x = XMLReader.readN (b + j) y) := by
  rcases hx : XMLReader.readN a x with ⟨o, x1⟩
  rcases hy : XMLReader.readN b y with ⟨o2, y1⟩
  rw [hx, hy] at h1 h2 h3
  simp only at h1 h2 h3
  subst h1
  by_cases ho : o = .ok ()
  · subst ho
    have h4 := h3 rfl
    simp only [Prod.mk.injEq, true_and] at h4
    subst h4
    rw [readN_add a j x x1 hx, readN_add b j y x1 hy]
    exact ⟨rfl, rfl, fun _ => rfl⟩
  · rw [readN_fail a j x x1 o hx ho, readN_fail b j y y1 o hy ho]
    exact ⟨rfl, h2, fun h => absurd h ho⟩

/-- The empty element at the head of the input, against its start tag and
end tag: the same frames while it is the current node, and the same run
from the node after it. -/
theorem empty_vs_pair_readN (s : XMLReader) (E : Node) (r : List Node) (hE : E.type = ELEMENT)
    (hem : E.isEmpty = true) (hs : s.rest = E :: r) :
    (XMLReader.readN 1 s).1
        = (XMLReader.readN 1 { s with rest := E.asStart :: E.endOf :: r }).1
      ∧ (XMLReader.readN 1 s).2.path
          = (XMLReader.readN 1 { s with rest := E.asStart :: E.endOf :: r }).2.path
      ∧ ((XMLReader.readN 1 s).1 = .ok () →
          (XMLReader.readN 2 { s with rest := E.asStart :: E.endOf :: r }).1 = .ok ()
            ∧ (XMLReader.readN 2 { s with rest := E.asStart :: E.endOf :: r }).2.path
                = (XMLReader.readN 1 s).2.path)
      ∧ ∀ m, (XMLReader.readN (2 + m) s).1
            = (XMLReader.readN (3 + m) { s with rest := E.asStart :: E.endOf :: r }).1
          ∧ (XMLReader.readN (2 + m) s).2.path
            = (XMLReader.readN (3 + m) { s with rest := E.asStart :: E.endOf :: r }).2.path
          ∧ ((XMLReader.readN (2 + m) s).1 = .ok () →
              XMLReader.readN (2 + m) s
                = XMLReader.readN (3 + m) { s with rest := E.asStart :: E.endOf :: r }) := by
  obtain ⟨a1, a2, a3⟩ := empty_vs_pair s E r hE hem hs
  rw [readN_one, readN_one]
  refine ⟨a1, a2, ?_, ?_⟩
  · intro hok
    rcases hrd : XMLReader.read s with ⟨o, sA⟩
    rw [hrd] at hok
    simp only at hok
    subst hok
    obtain ⟨sB, sB2, b1, b2, b3, b4, _⟩ := a3 sA hrd
    rw [readN_succ 1 _ sB b1, readN_one, b2]
    exact ⟨rfl, b4⟩
  · intro m
    rcases hrd : XMLReader.read s with ⟨o, sA⟩
    by_cases ho : o = .ok ()
    · subst ho
      obtain ⟨sB, sB2, b1, b2, b3, b4, b5, b6, b7⟩ := a3 sA hrd
      rw [show 2 + m = (1 + m) + 1 by omega, show 3 + m = ((1 + m) + 1) + 1 by omega,
        readN_succ _ s sA hrd, readN_succ _ _ sB b1, readN_succ _ sB sB2 b2]
      exact readN_agree 1 1 m sA sB2 (by rw [readN_one, readN_one]; exact b5)
        (by rw [readN_one, readN_one]; exact b6) (by rw [readN_one, readN_one]; exact b7)
    · rcases hrd2 : XMLReader.read { s with rest := E.asStart :: E.endOf :: r } with ⟨o2, sB⟩
      rw [hrd, hrd2] at a1 a2
      simp only at a1 a2
      subst a1
      have f1 := readN_fail 1 (1 + m) s sA o (by rw [readN_one]; exact hrd) ho
      have f2 := readN_fail 1 (2 + m) _ sB o (by rw [readN_one]; exact hrd2) ho
      rw [show 2 + m = 1 + (1 + m) by omega, show 3 + m = 1 + (2 + m) by omega, f1, f2]
      exact ⟨rfl, a2, fun h => absurd h ho⟩

/-- C25: for the path, an empty element `<e/>` is read like the start tag
`<e>` followed at once by the end tag `</e>`.  In a run of `read` over an
input that holds the empty element after the nodes `pre`, against the same
input with the pair in its place: when the element is the current node the
outcome and the frames are those at the start tag of the pair; they are also
the frames at the end tag of the pair; and once `read` advanced past the
element the outcome and the frames are the same after every further call,
with the same reader state whenever the call returns. -/
theorem C25_empty_element_as_start_and_end (s : XMLReader) (pre r : List Node) (E : Node)
    (hE : E.type = ELEMENT) (hem : E.isEmpty = true) (hs : s.rest = pre ++ E :: r) :
    (XMLReader.readN (pre.length + 1) s).1
        = (XMLReader.readN (pre.length + 1)
            { s with rest := pre ++ E.asStart :: E.endOf :: r }).1
      ∧ (XMLReader.readN (pre.length + 1) s).2.path
          = (XMLReader.readN (pre.length + 1)
              { s with rest := pre ++ E.asStart :: E.endOf :: r }).2.path
      ∧ ((XMLReader.readN (pre.length + 1) s).1 = .ok () →
          (XMLReader.readN (pre.length + 2)
              { s with rest := pre ++ E.asStart :: E.endOf :: r }).1 = .ok ()
            ∧ (XMLReader.readN (pre.length + 2)
                { s with rest := pre ++ E.asStart :: E.endOf :: r }).2.path
                = (XMLReader.readN (pre.length + 1) s).2.path)
      ∧ ∀ m, (XMLReader.readN (pre.length + (2 + m)) s).1
            = (XMLReader.readN (pre.length + (3 + m))
                { s with rest := pre ++ E.asStart :: E.endOf :: r }).1
          ∧ (XMLReader.readN (pre.length + (2 + m)) s).2.path
            = (XMLReader.readN (pre.length + (3 + m))
                { s with rest := pre ++ E.asStart :: E.endOf :: r }).2.path
          ∧ ((XMLReader.readN (pre.length + (2 + m)) s).1 = .ok () →
              XMLReader.readN (pre.length + (2 + m)) s
                = XMLReader.readN (pre.length + (3 + m))
                    { s with rest := pre ++ E.asStart :: E.endOf :: r }) := by
  obtain ⟨mid, c1, c2, c3⟩ := readN_rest pre (E :: r) (E.asStart :: E.endOf :: r) s hs
  rcases hk : XMLReader.readN pre.length s with ⟨o, sk⟩
  rw [hk] at c1 c2 c3
  simp only at c1 c2 c3
  by_cases ho : o = .ok ()
  · subst ho
    have hmid := c3 rfl
    subst hmid
    simp only [List.nil_append] at c1 c2
    obtain ⟨e1, e2, e3, e4⟩ := empty_vs_pair_readN sk E r hE hem c1
    rw [readN_add _ 1 s sk hk, readN_add _ 1 _ _ c2, readN_add _ 2 _ _ c2]
    refine ⟨e1, e2, e3, fun m => ?_⟩
    rw [readN_add _ (2 + m) s sk hk, readN_add _ (3 + m) _ _ c2]
    exact e4 m
  · have f1 := fun j => readN_fail pre.length j s sk o hk ho
    have f2 := fun j => readN_fail pre.length j _ _ o c2 ho
    rw [f1 1, f2 1, f2 2]
    refine ⟨rfl, rfl, fun h => absurd h ho, fun m => ?_⟩
    rw [f1 (2 + m), f2 (3 + m)]
    exact ⟨rfl, rfl, fun h => absurd h ho⟩

theorem C25_empty_element_as_start_and_end_witness :
    ((emptyTag "declaration" []).type = ELEMENT ∧ (emptyTag "declaration" []).isEmpty = true
      ∧ (XMLReader.new [startTag "nta" [], emptyTag "declaration" [], endTag "nta"]).rest
          = [startTag "nta" []] ++ emptyTag "declaration" [] :: [endTag "nta"])
    ∧ ((XMLReader.readN ([startTag "nta" []].length + 1)
          (XMLReader.new [startTag "nta" [], emptyTag "declaration" [], endTag "nta"])).1
        = (XMLReader.readN ([startTag "nta" []].length + 1)
            { XMLReader.new [startTag "nta" [], emptyTag "declaration" [], endTag "nta"] with
              rest := [startTag "nta" []] ++ (emptyTag "declaration" []).asStart
                :: (emptyTag "declaration" []).endOf :: [endTag "nta"] }).1
      ∧ (XMLReader.readN ([startTag "nta" []].length + 1)
          (XMLReader.new [startTag "nta" [], emptyTag "declaration" [], endTag "nta"])).2.path
        = (XMLReader.readN ([startTag "nta" []].length + 1)
            { XMLReader.new [startTag "nta" [], emptyTag "declaration" [], endTag "nta"] with
              rest := [startTag "nta" []] ++ (emptyTag "declaration" []).asStart
                :: (emptyTag "declaration" []).endOf :: [endTag "nta"] }).2.path
      ∧ ((XMLReader.readN ([startTag "nta" []].length + 1)
          (XMLReader.new [startTag "nta" [], emptyTag "declaration" [], endTag "nta"])).1
            = .ok () →
          (XMLReader.readN ([startTag "nta" []].length + 2)
            { XMLReader.new [startTag "nta" [], emptyTag "declaration" [], endTag "nta"] with
              rest := [startTag "nta" []] ++ (emptyTag "declaration" []).asStart
                :: (emptyTag "declaration" []).endOf :: [endTag "nta"] }).1 = .ok ()
          ∧ (XMLReader.readN ([startTag "nta" []].length + 2)
            { XMLReader.new [startTag "nta" [], emptyTag "declaration" [], endTag "nta"] with
              rest := [startTag "nta" []] ++ (emptyTag "declaration" []).asStart
                :: (emptyTag "declaration" []).endOf :: [endTag "nta"] }).2.path
            = (XMLReader.readN ([startTag "nta" []].length + 1)
                (XMLReader.new
                  [startTag "nta" [], emptyTag "declaration" [], endTag "nta"])).2.path)
      ∧ ∀ m, (XMLReader.readN ([startTag "nta" []].length + (2 + m))
          (XMLReader.new [startTag "nta" [], emptyTag "declaration" [], endTag "nta"])).1
          = (XMLReader.readN ([startTag "nta" []].length + (3 + m))
            { XMLReader.new [startTag "nta" [], emptyTag "declaration" [], endTag "nta"] with
              rest := [startTag "nta" []] ++ (emptyTag "declaration" []).asStart
                :: (emptyTag "declaration" []).endOf :: [endTag "nta"] }).1
        ∧ (XMLReader.readN ([startTag "nta" []].length + (2 + m))
          (XMLReader.new [startTag "nta" [], emptyTag "declaration" [], endTag "nta"])).2.path
          = (XMLReader.readN ([startTag "nta" []].length + (3 + m))
            { XMLReader.new [startTag "nta" [], emptyTag "declaration" [], endTag "nta"] with
              rest := [startTag "nta" []] ++ (emptyTag "declaration" []).asStart
                :: (emptyTag "declaration" []).endOf :: [endTag "nta"] }).2.path
        ∧ ((XMLReader.readN ([startTag "nta" []].length + (2 + m))
          (XMLReader.new [startTag "nta" [], emptyTag "declaration" [], endTag "nta"])).1
            = .ok () →
          XMLReader.readN ([startTag "nta" []].length + (2 + m))
            (XMLReader.new [startTag "nta" [], emptyTag "declaration" [], endTag "nta"])
          = XMLReader.readN ([startTag "nta" []].length + (3 + m))
            { XMLReader.new [startTag "nta" [], emptyTag "declaration" [], endTag "nta"] with
              rest := [startTag "nta" []] ++ (emptyTag "declaration" []).asStart
                :: (emptyTag "declaration" []).endOf :: [endTag "nta"] })) :=
  ⟨⟨rfl, rfl, rfl⟩,
    C25_empty_element_as_start_and_end
      (XMLReader.new [startTag "nta" [], emptyTag "declaration" [], endTag "nta"])
      [startTag "nta" []] [endTag "nta"] (emptyTag "declaration" []) rfl rfl rfl⟩

/-! ### A nail with a separate end tag -/

/-- At the start tag of a nail that is not an empty element,
`begin(TAG_NAIL)` returns true without reading, so the loop
`while (begin(TAG_NAIL));` does not end. -/
theorem nail_loop_hangs (f : Nat) (s : XMLReader) (e : Node) (hc : s.cur = some e)
    (he : e.type = ELEMENT) (hte : in_word_set e.localName = some TAG_NAIL)
    (hem : e.isEmpty = false) :
    ∀ n, StM.whileLoop n (XMLReader.begin f TAG_NAIL true) id () s = (.timeout, s) := by
  intro n
  induction n with
  | zero => rfl
  | succ n ih =>
    cases f with
    | zero => simp [StM.whileLoop, StM.andThen, XMLReader.begin]
    | succ f =>
      have hb := XMLReader.begin_at f TAG_NAIL true s e TAG_NAIL hc he hte (by simp [hem])
      simp only [decide_True] at hb
      simp only [StM.whileLoop, StM.andThen, hb, if_true, id]
      exact ih

theorem renderEls_append (t : tag_t) (a b : List El) :
    renderEls t (a ++ b) = renderEls t a ++ renderEls t b := by
  induction a with
  | nil => rfl
  | cons e a ih => simp [renderEls, ih]

theorem nails_hang {β : Type} (fuel : Nat) (skipped more : List El) (nail : El)
    (hsk : ∀ e ∈ skipped, e.ok ∧ e.isEmpty = true) (hopen : nail.isEmpty = false)
    (tail : List Node) (f : Unit → M β) :
    ParsesG Outcome.caught fuel none
      (StM.whileLoop fuel (XMLReader.begin fuel TAG_NAIL true) id () >>= f)
      Sem.hang (renderEls TAG_NAIL (skipped ++ nail :: more)) tail := by
  intro s hG hP
  rw [renderEls_append, List.append_assoc] at hP
  have hP1 : Pending (some TAG_NAIL) s
      (nail.node TAG_NAIL :: (nail.gap ++ renderEls TAG_NAIL more ++ tail)) := by
    have := Pending_absorb (Pending_weaken hP) (nails_skippable skipped hsk)
    simpa [renderEls, El.render] using this
  obtain ⟨s1, hb, hc, _, ha, _⟩ := XMLReader.begin_pending fuel TAG_NAIL true (some TAG_NAIL)
    (Or.inr ⟨rfl, rfl⟩) s (nail.node TAG_NAIL) _ TAG_NAIL hG hP1 rfl
    (in_word_set_node TAG_NAIL nail) (by simp [El.node, hopen])
  simp only [decide_True] at hb
  obtain ⟨g, rfl⟩ : ∃ g, fuel = g + 1 := ⟨fuel - 1, by have := hG.2; omega⟩
  have hloop := nail_loop_hangs (g + 1) s1 (nail.node TAG_NAIL) hc rfl
    (in_word_set_node TAG_NAIL nail) (by simp [El.node, hopen]) g
  have hrun : StM.whileLoop (g + 1) (XMLReader.begin (g + 1) TAG_NAIL true) id () s
      = (.timeout, s1) := by
    simp only [StM.whileLoop, StM.andThen, hb, if_true, id]
    exact hloop
  simp only [StM.bind_apply, StM.andThen, hrun, Sem.hang, ha, Outcome.caught, false_implies,
    and_self]

theorem transition_children_hang (env : Env) (fuel : Nat) (t : TransitionD)
    (skipped more : List El) (nail : El)
    (h_source : okOpt t.source) (h_target : okOpt t.target) (h_labels : ∀ e ∈ t.labels, e.ok)
    (hnails : t.nails = skipped ++ nail :: more)
    (hsk : ∀ e ∈ skipped, e.ok ∧ e.isEmpty = true) (hopen : nail.isEmpty = false)
    (tail : List Node) :
    ParsesT fuel none
      (do
        let src ← XMLReader.source fuel
        let dst ← XMLReader.target fuel
        StM.whileLoop fuel (XMLReader.label env fuel) id ()
        StM.whileLoop fuel (XMLReader.begin fuel TAG_NAIL true) id ()
        XMLReader.notify env (Call.procEdge src dst))
      (do
        let _ ← semEndpoint t.source
        let _ ← semEndpoint t.target
        Sem.forEach (semLabel env) t.labels
        Sem.hang)
      (renderOpt TAG_SOURCE t.source ++ (renderOpt TAG_TARGET t.target
        ++ (renderEls TAG_LABEL t.labels ++ renderEls TAG_NAIL t.nails)))
      tail := by
  have hF3 : Follows [TAG_NAIL] (renderEls TAG_NAIL t.nails ++ tail) := by
    rw [hnails]
    cases skipped with
    | nil =>
      simp only [List.nil_append, renderEls, List.append_assoc]
      exact Follows_render TAG_NAIL nail _ _ (by simp)
    | cons e es =>
      simp only [List.cons_append, renderEls, List.append_assoc]
      exact Follows_render TAG_NAIL e _ _ (by simp)
  have hF2 : Follows [TAG_LABEL, TAG_NAIL]
      ((renderEls TAG_LABEL t.labels ++ renderEls TAG_NAIL t.nails) ++ tail) := by
    simpa using Follows_els TAG_LABEL t.labels hF3 (by simp) (by simp)
  have hF1 : Follows [TAG_TARGET, TAG_LABEL, TAG_NAIL]
      ((renderOpt TAG_TARGET t.target
        ++ (renderEls TAG_LABEL t.labels ++ renderEls TAG_NAIL t.nails)) ++ tail) := by
    simpa using Follows_opt TAG_TARGET t.target hF2 (by simp) (by simp)
  refine ParsesT_bind (source_parses fuel t.source h_source _ _ hF1 (by decide))
    (NoThrow_semEndpoint _) (fun src => ?_)
  refine ParsesT_bind (target_parses fuel t.target h_target _ _ hF2 (by decide))
    (NoThrow_semEndpoint _) (fun dst => ?_)
  refine ParsesG_bind_val (labels_parses env fuel id () t.labels h_labels _ _ hF3 (by decide))
    (NoThrow_forEach _ (NoThrow_semLabel env) _) ?_ caught_of_caught
  rw [hnails]
  exact nails_hang fuel skipped more nail hsk hopen tail _

/-- C23 (the code diverges from the claim): a transition whose first nail
that is not an empty element, written `<nail ...></nail>`, is never left.
From every state with the transition ahead and fuel for all the nodes that
are left, if the source, the target and the labels are processed normally,
`transition` does not return (so neither does the parse), and it makes no
edge notification; at the start tag of such a nail the loop
`while (begin(TAG_NAIL));` does not end for any bound on its turns and on
the turns of `begin`. -/
theorem C23_open_nail_is_never_consumed (env : Env) (fuel : Nat) (t : TransitionD)
    (skipped more : List El) (nail : El) (h_el : t.el.ok) (hem : t.el.isEmpty = false)
    (h_source : okOpt t.source) (h_target : okOpt t.target) (h_labels : ∀ e ∈ t.labels, e.ok)
    (hnails : t.nails = skipped ++ nail :: more)
    (hsk : ∀ e ∈ skipped, e.ok ∧ e.isEmpty = true) (hopen : nail.isEmpty = false)
    (tail : List Node) (s : XMLReader) (hG : Good fuel s)
    (hP : Pending none s (t.render ++ tail)) (σ : Sem)
    (hrun : (do
        let _ ← semEndpoint t.source
        let _ ← semEndpoint t.target
        Sem.forEach (semLabel env) t.labels) s.abs = (.ok (), σ)) :
    (XMLReader.transition env fuel s).1 = .timeout
      ∧ (XMLReader.transition env fuel s).2.abs = σ
      ∧ (∀ a b, Call.procEdge a b ∈ (XMLReader.transition env fuel s).2.log →
          Call.procEdge a b ∈ s.log)
      ∧ (∀ (n f : Nat) (s2 : XMLReader) (e : Node), s2.cur = some e → e.type = ELEMENT →
          in_word_set e.localName = some TAG_NAIL → e.isEmpty = false →
          StM.whileLoop n (XMLReader.begin f TAG_NAIL true) id () s2 = (.timeout, s2)) := by
  have P := Parses_bind_sim (Parses_tryCatch
    (transition_children_hang env fuel t skipped more nail h_source h_target h_labels hnails
      hsk hopen tail) (fun msg => Sim_handleError msg)) (fun _ => Sim_pure true)
  have hF0 : Follows [TAG_SOURCE, TAG_TARGET, TAG_LABEL, TAG_NAIL]
      ((renderOpt TAG_SOURCE t.source ++ (renderOpt TAG_TARGET t.target
        ++ (renderEls TAG_LABEL t.labels ++ renderEls TAG_NAIL t.nails))) ++ tail) := by
    have h3 : Follows [TAG_SOURCE, TAG_TARGET, TAG_LABEL, TAG_NAIL]
        (renderEls TAG_NAIL t.nails ++ tail) := by
      rw [hnails]
      cases skipped with
      | nil =>
        simp only [List.nil_append, renderEls, List.append_assoc]
        exact Follows_render TAG_NAIL nail _ _ (by simp)
      | cons e es =>
        simp only [List.cons_append, renderEls, List.append_assoc]
        exact Follows_render TAG_NAIL e _ _ (by simp)
    have h2 := Follows_els TAG_LABEL t.labels h3 (fun _ h => h) (by simp)
    have h1 := Follows_opt TAG_TARGET t.target h2 (fun _ h => h) (by simp)
    simpa using Follows_opt TAG_SOURCE t.source h1 (fun _ h => h) (by simp)
  obtain ⟨s1, s2, hb, hc, hr, ha, hG1, hread, ha2, hG2, hP2, htext⟩ :=
    enter fuel TAG_TRANSITION true none (Or.inl rfl) t.el _ h_el
      (Or.inl ⟨_, hF0⟩) (by simp [hem]) s hG (by simpa [TransitionD.render] using hP)
  have hsem : (do
        StM.tryCatch (do
            let _ ← semEndpoint t.source
            let _ ← semEndpoint t.target
            Sem.forEach (semLabel env) t.labels
            Sem.hang)
          (fun what => Sem.handleError what)
        pure true : StM Sem Bool) s.abs = (.timeout, σ) := by
    obtain ⟨a, σ1, r1, r2⟩ := bind_ok_inv hrun
    obtain ⟨b, σ2, r3, r4⟩ := bind_ok_inv r2
    simp only [StM.bind_apply, StM.andThen, StM.tryCatch, r1, r3, r4, Sem.hang]
  have hres := Parses_at_eq P (r := XMLReader.transition env fuel s) (s := s) (by
      simp only [XMLReader.transition, StM.bind_apply, StM.andThen, hb, if_true, StM.tryCatch,
        hread]) rfl ha2 hG2 hP2
  rw [hsem] at hres
  refine ⟨hres.1, hres.2.1, ?_, ?_⟩
  · intro a b hab
    have hA : Adds (fun c => ∀ x y, c ≠ Call.procEdge x y)
        (do
          let _ ← semEndpoint t.source
          let _ ← semEndpoint t.target
          Sem.forEach (semLabel env) t.labels) :=
      Adds_bind (Adds_semEndpoint _ _) (fun _ => Adds_bind (Adds_semEndpoint _ _)
        (fun _ => Adds_forEach _ (fun e => Adds_semLabel env (fun _ _ _ _ _ => by simp) e) _))
    obtain ⟨l, hl, hn⟩ := hA s.abs
    rw [hrun] at hl
    have hlog : (XMLReader.transition env fuel s).2.log = σ.log := by
      have := congrArg Sem.log hres.2.1
      simpa [XMLReader.abs] using this
    rw [hlog, hl] at hab
    rcases List.mem_append.mp hab with h | h
    · simpa [XMLReader.abs] using h
    · exact absurd rfl (hn _ h a b)
  · intro n f s2 e hc2 he hte hem2
    exact nail_loop_hangs f s2 e hc2 he hte hem2 n

theorem C23_open_nail_is_never_consumed_witness :
    (openNailTransition.el.ok ∧ openNailTransition.el.isEmpty = false
      ∧ okOpt openNailTransition.source ∧ okOpt openNailTransition.target
      ∧ (∀ e ∈ openNailTransition.labels, e.ok)
      ∧ openNailTransition.nails
          = [] ++ (⟨[("x", "0"), ("y", "0")], false, [endTag "nail", endTag "transition"]⟩ : El)
              :: []
      ∧ (∀ e ∈ ([] : List El), e.ok ∧ e.isEmpty = true)
      ∧ (⟨[("x", "0"), ("y", "0")], false, [endTag "nail", endTag "transition"]⟩ : El).isEmpty
          = false
      ∧ Good 7 openNailState ∧ Pending none openNailState (openNailTransition.render ++ [])
      ∧ (do
          let _ ← semEndpoint openNailTransition.source
          let _ ← semEndpoint openNailTransition.target
          Sem.forEach (semLabel acceptAll) openNailTransition.labels) openNailState.abs
          = (.ok (), openNailState.abs))
    ∧ ((XMLReader.transition acceptAll 7 openNailState).1 = .timeout
      ∧ (XMLReader.transition acceptAll 7 openNailState).2.abs = openNailState.abs
      ∧ (∀ a b, Call.procEdge a b ∈ (XMLReader.transition acceptAll 7 openNailState).2.log →
          Call.procEdge a b ∈ openNailState.log)
      ∧ (∀ (n f : Nat) (s2 : XMLReader) (e : Node), s2.cur = some e → e.type = ELEMENT →
          in_word_set e.localName = some TAG_NAIL → e.isEmpty = false →
          StM.whileLoop n (XMLReader.begin f TAG_NAIL true) id () s2 = (.timeout, s2))) :=
  have hG : Good 7 openNailState :=
    ⟨⟨[], by decide, by simp [PathOK, pendingPop, openNailState, XMLReader.new, Path.new]⟩,
      by decide⟩
  have hP : Pending none openNailState (openNailTransition.render ++ []) :=
    ⟨[], rfl, by simp⟩
  ⟨⟨by decide, rfl, by decide, by decide, by decide, rfl, by simp, rfl, hG, hP, rfl⟩,
    C23_open_nail_is_never_consumed acceptAll 7 openNailTransition [] []
      ⟨[("x", "0"), ("y", "0")], false, [endTag "nail", endTag "transition"]⟩
      (by decide) rfl (by decide) (by decide) (by decide) rfl (by simp) rfl [] openNailState
      hG hP openNailState.abs rfl⟩

/-! ### A rejected edge -/

theorem semEndpoint_ok_inv (o : Option El) (σ σ1 : Sem) (a : String)
    (h : semEndpoint o σ = (.ok a, σ1)) : σ1 = σ ∧ resolve σ o = some a := by
  cases o with
  | none => simp [semEndpoint, StM.throwInt] at h
  | some e =>
    simp only [semEndpoint, Sem.getLocation] at h
    simp only [resolve]
    cases hr : e.attrs.lookup "ref" with
    | none => simp [hr] at h
    | some r =>
      simp only [hr] at h
      split at h
      · simp at h
      · split at h
        · rename_i l hl
          simp only [Prod.mk.injEq, Outcome.ok.injEq] at h
          exact ⟨h.2.symm, by simp only [hl, h.1]⟩
        · simp at h

/-- A transition whose source, target and labels are processed normally
calls `procEdge` with the two names, reports the answer if it is a rejection,
and returns true. -/
theorem semTransition_ends (env : Env) (x : TransitionD) (hxe : x.el.isEmpty = false)
    (σ σ1 : Sem) (a b : String) (h : semEdgeEnds env x σ = (.ok (a, b), σ1)) :
    semTransition env x σ
      = (.ok true,
          match env.builder σ1.log (Call.procEdge a b) with
          | none => { σ1 with log := σ1.log ++ [Call.procEdge a b] }
          | some msg =>
            { σ1 with log := σ1.log ++ [Call.procEdge a b], msgs := σ1.msgs ++ [msg] }) := by
  simp only [semEdgeEnds] at h
  obtain ⟨a1, σa, h1, h⟩ := bind_ok_inv h
  obtain ⟨b1, σb, h2, h⟩ := bind_ok_inv h
  obtain ⟨u, σc, h3, h⟩ := bind_ok_inv h
  simp only [StM.pure_apply, Prod.mk.injEq, Outcome.ok.injEq] at h
  obtain ⟨⟨rfl, rfl⟩, rfl⟩ := h
  simp only [semTransition, hxe, Bool.false_eq_true, if_false, StM.bind_apply, StM.andThen,
    StM.tryCatch, h1, h2, h3, Sem.notify, StM.pure_apply]
  cases env.builder σc.log (Call.procEdge a1 b1) <;> rfl

theorem semNta_from_transition (env : Env) (d : NtaD) (before after : List TemplateD)
    (t : TemplateD) (ht : d.templates = before ++ t :: after) (hne : t.el.isEmpty = false)
    (xs ys : List TransitionD) (x : TransitionD) (hx : t.transitions = xs ++ x :: ys)
    (σ : Sem) (hpre : semUpToTransition env d before t xs Sem.new = (.ok (), σ))
    (σ1 : Sem) (v : Bool) (hxr : semTransition env x σ = (.ok v, σ1)) :
    semNta env d Sem.new = semAfterTransition env d ys after σ1 := by
  simp only [semUpToTransition] at hpre
  obtain ⟨v1, σh, h1, hpre⟩ := bind_ok_inv hpre
  obtain ⟨v2, σi, h2, h3⟩ := bind_ok_inv hpre
  rw [semNta_from_init env d before after t ht hne σh h1]
  have h4 : (Sem.forEach (semTransition env) (xs ++ x :: ys)) σi
      = (Sem.forEach (semTransition env) ys) σ1 := by
    rw [forEach_append, StM.bind_ok h3]
    simp only [Sem.forEach]
    rw [StM.bind_ok hxr]
  simp only [semAfterTransition, semTemplateTail, hx]
  simp only [StM.bind_apply (StM.tryCatch _ _), StM.andThen, tryCatch_bind_ok h2]
  have h5 : StM.tryCatch (do
        Sem.forEach (semTransition env) (xs ++ x :: ys)
        Sem.notify env Call.procEnd) (fun what => Sem.handleError what) σi
      = StM.tryCatch (do
        Sem.forEach (semTransition env) ys
        Sem.notify env Call.procEnd) (fun what => Sem.handleError what) σ1 := by
    simp only [StM.tryCatch, StM.bind_apply, StM.andThen, h4]
  rw [h5]

theorem Adds_semAfterTransition (env : Env) (d : NtaD) (ys : List TransitionD)
    (after : List TemplateD) : Adds (fun _ => True) (semAfterTransition env d ys after) := by
  unfold semAfterTransition
  refine Adds_bind (Adds_tryCatch (Adds_bind
    (Adds_mono (Adds_forEach _ (Adds_semTransition env) _) (fun _ _ => trivial))
    (fun _ => Adds_notify env _ trivial)) (fun _ => Adds_handleError _ _)) (fun _ => ?_)
  refine Adds_bind (Adds_mono (Adds_forEach _ (Adds_semTemplate env) _) (fun _ _ => trivial))
    (fun _ => ?_)
  refine Adds_bind (Adds_semSystem env _ (fun _ => trivial) _) (fun _ => ?_)
  refine Adds_bind (Adds_semSystem env _ (fun _ => trivial) _) (fun _ => ?_)
  exact Adds_notify env _ trivial

/-- A transition that the parse comes to, whose source, target and labels are
processed normally, has its `procEdge` in the calls of the parse. -/
theorem edge_then_log (env : Env) (d : NtaD) (before after : List TemplateD)
    (t : TemplateD) (ht : d.templates = before ++ t :: after) (hne : t.el.isEmpty = false)
    (xs ys : List TransitionD) (x : TransitionD) (hx : t.transitions = xs ++ x :: ys)
    (hxe : x.el.isEmpty = false)
    (σ : Sem) (hpre : semUpToTransition env d before t xs Sem.new = (.ok (), σ))
    (a b : String) (σ1 : Sem) (hrun : semEdgeEnds env x σ = (.ok (a, b), σ1)) :
    ∃ rest, (semNta env d Sem.new).2.log = σ1.log ++ Call.procEdge a b :: rest := by
  have hT := semTransition_ends env x hxe σ σ1 a b hrun
  rw [semNta_from_transition env d before after t ht hne xs ys x hx σ hpre _ true hT]
  obtain ⟨l, a1, _⟩ := Adds_semAfterTransition env d ys after
    (match env.builder σ1.log (Call.procEdge a b) with
      | none => { σ1 with log := σ1.log ++ [Call.procEdge a b] }
      | some msg =>
        { σ1 with log := σ1.log ++ [Call.procEdge a b], msgs := σ1.msgs ++ [msg] })
  refine ⟨l, ?_⟩
  rw [a1]
  cases env.builder σ1.log (Call.procEdge a b) <;> simp

/-- A rejected edge is reported and the parse goes on: in a document of the
expected shape, which has a `system` element, read with a builder that accepts every `procBegin`, take a
transition `x` not written `<transition/>` of a template not written
`<template/>`.  If the parse comes to it (what precedes it is processed
normally and leaves the state `σ`), its source, target and labels are
processed normally (names `a` and `b`, state `σ1`) and the builder answers
`procEdge(a, b)` with a `TypeException` of message `msg`, then `transition`
returns true from every good reader state in `σ` with the call logged and the
one message `msg` added; the parse goes on from there with the transitions
that follow in the template, `procEnd` and the rest of the document; and for
every later transition of the template not written `<transition/>` that the
parse comes to and whose source, target and labels are processed normally,
the names are those that the map of locations gives for the two `ref`s, and
`procEdge` with these names is among the calls of the parse. -/
theorem rejected_edge_drops_one_transition (env : Env) (hb : AcceptsBegin env)
    (fuel : Nat) (d : NtaD) (hd : d.ok) (hf : d.render.length < fuel)
    (before after : List TemplateD) (t : TemplateD)
    (ht : d.templates = before ++ t :: after) (hne : t.el.isEmpty = false)
    (xs ys : List TransitionD) (x : TransitionD)
    (hx : t.transitions = xs ++ x :: ys) (hxe : x.el.isEmpty = false)
    (σ : Sem) (hpre : semUpToTransition env d before t xs Sem.new = (.ok (), σ))
    (a b : String) (σ1 : Sem) (hrun : semEdgeEnds env x σ = (.ok (a, b), σ1))
    (msg : String) (hrej : env.builder σ1.log (Call.procEdge a b) = some msg) :
    (∀ (s : XMLReader) (tail : List Node), x.ok → Good fuel s →
        Pending none s (x.render ++ tail) →
        Follows [TAG_TRANSITION, TAG_TEMPLATE, TAG_INSTANTIATION, TAG_SYSTEM] tail →
        s.abs = σ →
        (XMLReader.transition env fuel s).1 = .ok true
          ∧ (XMLReader.transition env fuel s).2.abs
            = { σ1 with log := σ1.log ++ [Call.procEdge a b], msgs := σ1.msgs ++ [msg] })
      ∧ absRun (parseXMLBuffer env fuel (some d.render))
        = finishParse (semAfterTransition env d ys after
            { σ1 with log := σ1.log ++ [Call.procEdge a b], msgs := σ1.msgs ++ [msg] })
      ∧ ∀ (ys1 ys2 : List TransitionD) (y : TransitionD) (σ2 σ3 : Sem) (a2 b2 : String),
          ys = ys1 ++ y :: ys2 → y.el.isEmpty = false →
          semUpToTransition env d before t (xs ++ x :: ys1) Sem.new = (.ok (), σ2) →
          semEdgeEnds env y σ2 = (.ok (a2, b2), σ3) →
          resolve σ2 y.source = some a2 ∧ resolve σ2 y.target = some b2
            ∧ ∃ rest, (absRun (parseXMLBuffer env fuel (some d.render))).2.log
                = σ3.log ++ Call.procEdge a2 b2 :: rest := by
  have hT := semTransition_ends env x hxe σ σ1 a b hrun
  rw [hrej] at hT
  simp only at hT
  rw [parseXMLBuffer_render env hb fuel d hd hf, semParse_eq_finishParse]
  refine ⟨?_, ?_, ?_⟩
  · intro s tail hxo hG hP hF ha
    have h := transition_parses env fuel none (Or.inl rfl) x hxo hxe tail hF s hG hP
    rw [ha, hT] at h
    exact ⟨h.1, h.2.1⟩
  · rw [semNta_from_transition env d before after t ht hne xs ys x hx σ hpre _ true hT]
  · intro ys1 ys2 y σ2 σ3 a2 b2 hys hye hpre2 hrun2
    have hx2 : t.transitions = (xs ++ x :: ys1) ++ y :: ys2 := by
      rw [hx, hys]
      simp
    obtain ⟨rest, hrest⟩ := edge_then_log env d before after t ht hne (xs ++ x :: ys1) ys2 y
      hx2 hye σ2 hpre2 a2 b2 σ3 hrun2
    simp only [semEdgeEnds] at hrun2
    obtain ⟨a1, σa, h1, h⟩ := bind_ok_inv hrun2
    obtain ⟨b1, σb, h2, h⟩ := bind_ok_inv h
    obtain ⟨u, σc, h3, h⟩ := bind_ok_inv h
    simp only [StM.pure_apply, Prod.mk.injEq, Outcome.ok.injEq] at h
    obtain ⟨⟨rfl, rfl⟩, rfl⟩ := h
    obtain ⟨rfl, r1⟩ := semEndpoint_ok_inv _ _ _ _ h1
    obtain ⟨rfl, r2⟩ := semEndpoint_ok_inv _ _ _ _ h2
    exact ⟨r1, r2, rest, by rw [finishParse_log, hrest]⟩

theorem rejected_edge_drops_one_transition_example :
    (AcceptsBegin rejectEdge ∧ (docOf [twoEdges]).ok ∧ (docOf [twoEdges]).render.length < 40
      ∧ (docOf [twoEdges]).templates = [] ++ twoEdges :: [] ∧ twoEdges.el.isEmpty = false
      ∧ twoEdges.transitions = [] ++ edgeAB :: [edgeBA] ∧ edgeAB.el.isEmpty = false
      ∧ semUpToTransition rejectEdge (docOf [twoEdges]) [] twoEdges [] Sem.new
          = (.ok (), twoEdgesAtInit)
      ∧ semEdgeEnds rejectEdge edgeAB twoEdgesAtInit = (.ok ("_a", "_b"), twoEdgesAtInit)
      ∧ rejectEdge.builder twoEdgesAtInit.log (Call.procEdge "_a" "_b") = some "rejected")
    ∧ ((∀ (s : XMLReader) (tail : List Node), edgeAB.ok → Good 40 s →
          Pending none s (edgeAB.render ++ tail) →
          Follows [TAG_TRANSITION, TAG_TEMPLATE, TAG_INSTANTIATION, TAG_SYSTEM] tail →
          s.abs = twoEdgesAtInit →
          (XMLReader.transition rejectEdge 40 s).1 = .ok true
            ∧ (XMLReader.transition rejectEdge 40 s).2.abs
              = { twoEdgesAtInit with
                  log := twoEdgesAtInit.log ++ [Call.procEdge "_a" "_b"],
                  msgs := twoEdgesAtInit.msgs ++ ["rejected"] })
      ∧ absRun (parseXMLBuffer rejectEdge 40 (some (docOf [twoEdges]).render))
        = finishParse (semAfterTransition rejectEdge (docOf [twoEdges]) [edgeBA] []
            { twoEdgesAtInit with
              log := twoEdgesAtInit.log ++ [Call.procEdge "_a" "_b"],
              msgs := twoEdgesAtInit.msgs ++ ["rejected"] })
      ∧ ∀ (ys1 ys2 : List TransitionD) (y : TransitionD) (σ2 σ3 : Sem) (a2 b2 : String),
          [edgeBA] = ys1 ++ y :: ys2 → y.el.isEmpty = false →
          semUpToTransition rejectEdge (docOf [twoEdges]) [] twoEdges ([] ++ edgeAB :: ys1)
            Sem.new = (.ok (), σ2) →
          semEdgeEnds rejectEdge y σ2 = (.ok (a2, b2), σ3) →
          resolve σ2 y.source = some a2 ∧ resolve σ2 y.target = some b2
            ∧ ∃ rest,
              (absRun (parseXMLBuffer rejectEdge 40 (some (docOf [twoEdges]).render))).2.log
                = σ3.log ++ Call.procEdge a2 b2 :: rest) :=
  have hb : AcceptsBegin rejectEdge := by
    intro _ _ _
    simp [rejectEdge]
  ⟨⟨hb, by decide!, by decide!, rfl, rfl, rfl, rfl, by decide!, by decide!, by decide!⟩,
    rejected_edge_drops_one_transition rejectEdge hb 40 (docOf [twoEdges]) (by decide!)
      (by decide!) [] [] twoEdges rfl rfl [] [edgeBA] edgeAB rfl rfl twoEdgesAtInit
      (by decide!) "_a" "_b" twoEdgesAtInit (by decide!) "rejected" (by decide!)⟩

/-- C22, on a document in which no start tag follows the template.  Read
with a builder that rejects the first edge, the document `twoEdgesNoSystem`
(no `system` element) has the rejection reported once, but the second
transition makes no `procEdge` and the parse returns -1.  The rejection is
not the cause: read with a builder that accepts everything, the same document
ends in the same way with the same calls.  In both runs the search for a
further label of the second transition reads to the end of the input.  With a
`system` element after the template the rejected edge is reported and the
second edge is notified. -/
theorem C22_rejected_edge_then_end_of_input :
    absRun (parseXMLBuffer rejectEdge 40 (some twoEdgesNoSystem))
        = (.ok (-1), ⟨[(some "a", "_a"), (some "b", "_b")],
            [Call.procBegin (some "T") 0, Call.procState "_a" false,
              Call.procState "_b" false, Call.procStateInit "_a", Call.procEdge "_a" "_b"],
            ["rejected"]⟩)
      ∧ absRun (parseXMLBuffer acceptAll 40 (some twoEdgesNoSystem))
        = (.ok (-1), ⟨[(some "a", "_a"), (some "b", "_b")],
            [Call.procBegin (some "T") 0, Call.procState "_a" false,
              Call.procState "_b" false, Call.procStateInit "_a", Call.procEdge "_a" "_b"],
            []⟩)
      ∧ absRun (parseXMLBuffer rejectEdge 40 (some (docOf [twoEdges]).render))
        = (.ok 0, ⟨[(some "a", "_a"), (some "b", "_b")],
            [Call.procBegin (some "T") 0, Call.procState "_a" false,
              Call.procState "_b" false, Call.procStateInit "_a", Call.procEdge "_a" "_b",
              Call.procEdge "_b" "_a", Call.procEnd,
              Call.parseXTA "system T;" true S_SYSTEM, Call.done],
            ["rejected"]⟩) := by
  decide!

/-! ### A rejected location -/

theorem semLocation_split (env : Env) (l : LocationD) :
    semLocation env l = (do
      StM.tryCatch (semLocationHead env l >>= fun nm => semLocationCalls env l nm)
        (fun what => Sem.handleError what)
      pure true) := by
  simp only [semLocation, semLocationHead, semLocationCalls, StM.bind_assoc, StM.pure_bind]

/-- A location whose notification is rejected: the rejection is reported
and `location` returns true. -/
theorem semLocation_rejected (env : Env) (l : LocationD) (σ σ1 σ2 : Sem) (nm msg : String)
    (hhead : semLocationHead env l σ = (.ok nm, σ1))
    (hrej : semLocationCalls env l nm σ1 = (.typeException msg, σ2)) :
    semLocation env l σ = (.ok true, { σ2 with msgs := σ2.msgs ++ [msg] }) := by
  rw [semLocation_split]
  simp only [StM.bind_apply, StM.andThen, StM.tryCatch, hhead, hrej, Sem.handleError,
    StM.pure_apply]

theorem bind_throw_inv {σ α β : Type} {m : StM σ α} {f : α → StM σ β} {s s2 : σ}
    {msg : String} (h : (m >>= f) s = (.typeException msg, s2)) :
    m s = (.typeException msg, s2)
      ∨ ∃ a s1, m s = (.ok a, s1) ∧ f a s1 = (.typeException msg, s2) := by
  rcases hms : m s with ⟨o, s1⟩
  simp only [StM.bind_apply, StM.andThen, hms] at h
  cases o with
  | ok a => exact Or.inr ⟨a, s1, rfl, h⟩
  | typeException e =>
    simp only [Prod.mk.injEq, Outcome.typeException.injEq] at h
    obtain ⟨rfl, rfl⟩ := h
    exact Or.inl rfl
  | fatal c => simp at h
  | crash => simp at h
  | timeout => simp at h

theorem notify_throw_inv (env : Env) (c : Call) (σ σ1 : Sem) (msg : String)
    (h : Sem.notify env c σ = (.typeException msg, σ1)) :
    env.builder σ.log c = some msg ∧ σ1 = { σ with log := σ.log ++ [c] } := by
  simp only [Sem.notify] at h
  cases hb : env.builder σ.log c with
  | none => simp [hb] at h
  | some m =>
    simp only [hb, Prod.mk.injEq, Outcome.typeException.injEq] at h
    exact ⟨by rw [h.1], h.2.symm⟩

theorem notify_ok_inv (env : Env) (c : Call) (σ σ1 : Sem) (u : Unit)
    (h : Sem.notify env c σ = (.ok u, σ1)) :
    env.builder σ.log c = none ∧ σ1 = { σ with log := σ.log ++ [c] } := by
  simp only [Sem.notify] at h
  cases hb : env.builder σ.log c with
  | none =>
    simp only [hb, Prod.mk.injEq, true_and] at h
    exact ⟨rfl, h.symm⟩
  | some m => simp [hb] at h

/-- The rejected notification of a location is the last call made for it,
one of the three calls for the name of the location; no message is added
before the rejection is caught. -/
theorem semLocationCalls_rejected (env : Env) (l : LocationD) (σ1 σ2 : Sem) (nm msg : String)
    (hrej : semLocationCalls env l nm σ1 = (.typeException msg, σ2)) :
    σ2.msgs = σ1.msgs ∧ σ2.locations = σ1.locations
      ∧ ∃ calls c, σ2.log = σ1.log ++ calls ++ [c]
          ∧ env.builder (σ1.log ++ calls) c = some msg
          ∧ (c = Call.procState nm (anyLabel l.labels) ∨ c = Call.procStateCommit nm
              ∨ c = Call.procStateUrgent nm) := by
  simp only [semLocationCalls] at hrej
  rcases bind_throw_inv hrej with h | ⟨u, s1, h1, h⟩
  · obtain ⟨g1, rfl⟩ := notify_throw_inv _ _ _ _ _ h
    exact ⟨rfl, rfl, [], Call.procState nm (anyLabel l.labels), by simp, by simpa using g1,
      Or.inl rfl⟩
  · obtain ⟨_, rfl⟩ := notify_ok_inv _ _ _ _ _ h1
    have hlast : ∀ (σa : Sem) (calls : List Call), σa.msgs = σ1.msgs →
        σa.locations = σ1.locations → σa.log = σ1.log ++ calls →
        (if l.urgent.isSome = true then Sem.notify env (Call.procStateUrgent nm) else pure ()) σa
          = (.typeException msg, σ2) →
        σ2.msgs = σ1.msgs ∧ σ2.locations = σ1.locations
          ∧ ∃ calls c, σ2.log = σ1.log ++ calls ++ [c]
              ∧ env.builder (σ1.log ++ calls) c = some msg
              ∧ (c = Call.procState nm (anyLabel l.labels) ∨ c = Call.procStateCommit nm
                  ∨ c = Call.procStateUrgent nm) := by
      intro σa calls e1 e2 e3 hh
      by_cases hu : l.urgent.isSome = true
      · rw [if_pos hu] at hh
        obtain ⟨g1, rfl⟩ := notify_throw_inv _ _ _ _ _ hh
        exact ⟨e1, e2, calls, Call.procStateUrgent nm, by simp [e3], by simpa [e3] using g1,
          Or.inr (Or.inr rfl)⟩
      · rw [if_neg hu] at hh
        simp at hh
    by_cases hc : l.committed.isSome = true
    · rw [if_pos hc] at h
      rcases bind_throw_inv h with h | ⟨u2, s2, h2, h⟩
      · obtain ⟨g1, rfl⟩ := notify_throw_inv _ _ _ _ _ h
        exact ⟨rfl, rfl, [Call.procState nm (anyLabel l.labels)], Call.procStateCommit nm,
          by simp, by simpa using g1, Or.inr (Or.inl rfl)⟩
      · obtain ⟨_, rfl⟩ := notify_ok_inv _ _ _ _ _ h2
        refine hlast _ [Call.procState nm (anyLabel l.labels), Call.procStateCommit nm]
          ?_ ?_ ?_ h
        · rfl
        · rfl
        · simp
    · rw [if_neg hc] at h
      refine hlast _ [Call.procState nm (anyLabel l.labels)] ?_ ?_ ?_ h
      · rfl
      · rfl
      · simp

theorem semNta_from_location (env : Env) (d : NtaD) (before after : List TemplateD)
    (t : TemplateD) (ht : d.templates = before ++ t :: after) (hne : t.el.isEmpty = false)
    (ls ls2 : List LocationD) (l : LocationD) (hl : t.locations = ls ++ l :: ls2)
    (σ : Sem) (hpre : semUpToLocation env d before t ls Sem.new = (.ok (), σ))
    (σ1 : Sem) (v : Bool) (hlr : semLocation env l σ = (.ok v, σ1)) :
    semNta env d Sem.new = semAfterLocation env d t ls2 after σ1 := by
  simp only [semUpToLocation] at hpre
  obtain ⟨v1, σa, h1, hpre⟩ := bind_ok_inv hpre
  obtain ⟨v2, σb, h2, hpre⟩ := bind_ok_inv hpre
  obtain ⟨v3, σc, h3, hpre⟩ := bind_ok_inv hpre
  obtain ⟨v4, σd, h4, hpre⟩ := bind_ok_inv hpre
  obtain ⟨v5, σe, h5, hpre⟩ := bind_ok_inv hpre
  obtain ⟨v6, σf, h6, h7⟩ := bind_ok_inv hpre
  have h8 : (Sem.forEach (semLocation env) (ls ++ l :: ls2)) σf
      = (Sem.forEach (semLocation env) ls2) σ1 := by
    rw [forEach_append, StM.bind_ok h7]
    simp only [Sem.forEach]
    rw [StM.bind_ok hlr]
  simp only [semNta, ht]
  rw [StM.bind_ok h1]
  simp only [StM.bind_apply (Sem.forEach (semTemplate env) (before ++ t :: after)),
    StM.andThen, forEach_append, StM.bind_ok h2, Sem.forEach, semTemplate, hne,
    Bool.false_eq_true, if_false, StM.bind_assoc, semAfterLocation, hl]
  simp only [StM.bind_apply (StM.tryCatch _ _), StM.andThen, tryCatch_bind_ok h3,
    tryCatch_bind_ok h4, tryCatch_bind_ok h5, tryCatch_bind_ok h6, StM.pure_bind]
  have h9 : StM.tryCatch (do
        Sem.forEach (semLocation env) (ls ++ l :: ls2)
        let _ ← semInit env t.init
        Sem.forEach (semTransition env) t.transitions
        Sem.notify env Call.procEnd) (fun what => Sem.handleError what) σf
      = StM.tryCatch (do
        Sem.forEach (semLocation env) ls2
        let _ ← semInit env t.init
        Sem.forEach (semTransition env) t.transitions
        Sem.notify env Call.procEnd) (fun what => Sem.handleError what) σ1 := by
    simp only [StM.tryCatch, StM.bind_apply, StM.andThen, h8]
  rw [h9]
  generalize StM.tryCatch _ _ _ = r
  rcases r with ⟨o, s1⟩
  cases o <;> rfl

theorem Emits_semAfterLocation (env : Env) (hb : AcceptsBegin env) (d : NtaD) (t : TemplateD)
    (ls : List LocationD) (after : List TemplateD) :
    Emits templateCall (semAfterLocation env d t ls after) (none :: pairsOf env after) := by
  unfold semAfterLocation
  show Emits templateCall _ ([none] ++ pairsOf env after)
  refine Emits_bind (NoThrow_tryCatch (fun _ => NoThrow_handleError _))
    (Emits_tryCatch ?_ (fun _ => Quiet_handleError _ _)) (fun _ => ?_)
  · refine Emits_bind_right (NoThrow_forEach _ (NoThrow_semLocation env) _)
      (Quiet_forEach _ (Quiet_semLocation env templateCall_parseXTA (fun _ _ => rfl)
        (fun _ => rfl) (fun _ => rfl)) _) (fun _ => ?_)
    refine Emits_bind_right (NoThrow_semInit env _)
      (Quiet_semInit env (fun _ => rfl) _) (fun _ => ?_)
    refine Emits_bind_right (NoThrow_forEach _ (NoThrow_semTransition env) _)
      (Quiet_forEach _ (Quiet_semTransition env templateCall_parseXTA (fun _ _ => rfl)) _)
      (fun _ => ?_)
    exact Emits_notify env _ _ rfl
  · refine Emits_bind_left (NoThrow_forEach _ (NoThrow_semTemplate env) _)
      (Emits_templates env hb _) (fun _ => ?_)
    refine Quiet_bind (Quiet_semSystem env templateCall_parseXTA _ _) (fun _ => ?_)
    refine Quiet_bind (Quiet_semSystem env templateCall_parseXTA _ _) (fun _ => ?_)
    exact Quiet_notify env _ rfl

/-- A rejected location is reported and the parse goes on: in a document of
the expected shape, which has a `system` element, read with a builder that accepts every `procBegin`, take a
location `l` of a template not written `<template/>`.  If the parse comes to
it (what precedes it is processed normally and leaves the state `σ`), its
name and labels are processed normally (name `nm`, state `σ1`) and one of its
notifications is answered with a `TypeException` of message `msg` (state
`σ2`), then: the rejected call is `procState`, `procStateCommit` or
`procStateUrgent` for `nm`, it is the last call made for the location, and no
message is added before the rejection is caught; `location` returns true from
every good reader state in `σ`, with the one message `msg` added; the parse
goes on from there with the locations that follow in the template, the
`init`, the transitions and `procEnd`, and the rest of the document; and if
the parse returns 0, the next `procBegin` or `procEnd` after the rejection is
the `procEnd` of the template, followed by the pairs of the templates after
it. -/
theorem rejected_location_is_reported (env : Env) (hb : AcceptsBegin env)
    (fuel : Nat) (d : NtaD) (hd : d.ok) (hf : d.render.length < fuel)
    (before after : List TemplateD) (t : TemplateD)
    (ht : d.templates = before ++ t :: after) (hne : t.el.isEmpty = false)
    (ls ls2 : List LocationD) (l : LocationD) (hl : t.locations = ls ++ l :: ls2)
    (σ : Sem) (hpre : semUpToLocation env d before t ls Sem.new = (.ok (), σ))
    (nm : String) (σ1 : Sem) (hhead : semLocationHead env l σ = (.ok nm, σ1))
    (msg : String) (σ2 : Sem)
    (hrej : semLocationCalls env l nm σ1 = (.typeException msg, σ2)) :
    (σ2.msgs = σ1.msgs ∧ σ2.locations = σ1.locations
        ∧ ∃ calls c, σ2.log = σ1.log ++ calls ++ [c]
            ∧ env.builder (σ1.log ++ calls) c = some msg
            ∧ (c = Call.procState nm (anyLabel l.labels) ∨ c = Call.procStateCommit nm
                ∨ c = Call.procStateUrgent nm))
      ∧ (∀ (s : XMLReader) (tail : List Node), l.ok → Good fuel s →
          Pending none s (l.render ++ tail) →
          Follows [TAG_LOCATION, TAG_INIT, TAG_TRANSITION, TAG_TEMPLATE, TAG_INSTANTIATION,
            TAG_SYSTEM] tail →
          s.abs = σ →
          (XMLReader.location env fuel s).1 = .ok true
            ∧ (XMLReader.location env fuel s).2.abs = { σ2 with msgs := σ2.msgs ++ [msg] })
      ∧ absRun (parseXMLBuffer env fuel (some d.render))
          = finishParse (semAfterLocation env d t ls2 after
              { σ2 with msgs := σ2.msgs ++ [msg] })
      ∧ ((parseXMLBuffer env fuel (some d.render)).1 = .ok 0 →
          templateCalls (parseXMLBuffer env fuel (some d.render)).2.log
            = templateCalls σ2.log ++ none :: pairsOf env after) := by
  have hL := semLocation_rejected env l σ σ1 σ2 nm msg hhead hrej
  have hN := semNta_from_location env d before after t ht hne ls ls2 l hl σ hpre _ true hL
  have hr := parseXMLBuffer_render env hb fuel d hd hf
  refine ⟨semLocationCalls_rejected env l σ1 σ2 nm msg hrej, ?_, ?_, ?_⟩
  · intro s tail hlo hG hP hF ha
    have h := location_parses env fuel l hlo tail hF s hG hP
    rw [ha, hL] at h
    exact ⟨h.1, h.2.1⟩
  · rw [hr, semParse_eq_finishParse, hN]
  · intro h0
    have h1 : (parseXMLBuffer env fuel (some d.render)).1 = (semParse env d).1 :=
      congrArg Prod.fst hr
    have h2 : (parseXMLBuffer env fuel (some d.render)).2.log = (semParse env d).2.log :=
      congrArg (fun r => r.2.log) hr
    rw [h1] at h0
    obtain ⟨g1, g2⟩ := semParse_zero env d h0
    rw [h2, g2]
    rw [hN] at g1 ⊢
    have := Emits_semAfterLocation env hb d t ls2 after
      { σ2 with msgs := σ2.msgs ++ [msg] } (caught_of_returns _ g1)
    simpa [templateCalls] using this

theorem rejected_location_is_reported_example :
    (AcceptsBegin rejectState ∧ oneTemplate.ok ∧ oneTemplate.render.length < 40
      ∧ oneTemplate.templates = [] ++ loopTemplate "T" "a" :: []
      ∧ (loopTemplate "T" "a").el.isEmpty = false
      ∧ (loopTemplate "T" "a").locations = [] ++ locationA :: []
      ∧ semUpToLocation rejectState oneTemplate [] (loopTemplate "T" "a") [] Sem.new
          = (.ok (), ⟨[], [Call.procBegin (some "T") 0], []⟩)
      ∧ semLocationHead rejectState locationA ⟨[], [Call.procBegin (some "T") 0], []⟩
          = (.ok "_a", ⟨[(some "a", "_a")], [Call.procBegin (some "T") 0], []⟩)
      ∧ semLocationCalls rejectState locationA "_a"
            ⟨[(some "a", "_a")], [Call.procBegin (some "T") 0], []⟩
          = (.typeException "rejected",
              ⟨[(some "a", "_a")], [Call.procBegin (some "T") 0, Call.procState "_a" false],
                []⟩))
    ∧ (((⟨[(some "a", "_a")], [Call.procBegin (some "T") 0, Call.procState "_a" false],
            []⟩ : Sem).msgs
          = (⟨[(some "a", "_a")], [Call.procBegin (some "T") 0], []⟩ : Sem).msgs
        ∧ (⟨[(some "a", "_a")], [Call.procBegin (some "T") 0, Call.procState "_a" false],
            []⟩ : Sem).locations
          = (⟨[(some "a", "_a")], [Call.procBegin (some "T") 0], []⟩ : Sem).locations
        ∧ ∃ calls c,
            (⟨[(some "a", "_a")], [Call.procBegin (some "T") 0, Call.procState "_a" false],
              []⟩ : Sem).log
              = (⟨[(some "a", "_a")], [Call.procBegin (some "T") 0], []⟩ : Sem).log
                ++ calls ++ [c]
            ∧ rejectState.builder
                ((⟨[(some "a", "_a")], [Call.procBegin (some "T") 0], []⟩ : Sem).log ++ calls) c
              = some "rejected"
            ∧ (c = Call.procState "_a" (anyLabel locationA.labels)
                ∨ c = Call.procStateCommit "_a" ∨ c = Call.procStateUrgent "_a"))
      ∧ (∀ (s : XMLReader) (tail : List Node), locationA.ok → Good 40 s →
          Pending none s (locationA.render ++ tail) →
          Follows [TAG_LOCATION, TAG_INIT, TAG_TRANSITION, TAG_TEMPLATE, TAG_INSTANTIATION,
            TAG_SYSTEM] tail →
          s.abs = ⟨[], [Call.procBegin (some "T") 0], []⟩ →
          (XMLReader.location rejectState 40 s).1 = .ok true
            ∧ (XMLReader.location rejectState 40 s).2.abs
              = ⟨[(some "a", "_a")], [Call.procBegin (some "T") 0, Call.procState "_a" false],
                  [] ++ ["rejected"]⟩)
      ∧ absRun (parseXMLBuffer rejectState 40 (some oneTemplate.render))
          = finishParse (semAfterLocation rejectState oneTemplate (loopTemplate "T" "a") [] []
              ⟨[(some "a", "_a")], [Call.procBegin (some "T") 0, Call.procState "_a" false],
                [] ++ ["rejected"]⟩)
      ∧ ((parseXMLBuffer rejectState 40 (some oneTemplate.render)).1 = .ok 0 →
          templateCalls (parseXMLBuffer rejectState 40 (some oneTemplate.render)).2.log
            = templateCalls [Call.procBegin (some "T") 0, Call.procState "_a" false]
              ++ none :: pairsOf rejectState [])) :=
  have hb : AcceptsBegin rejectState := by
    intro _ _ _
    simp [rejectState]
  ⟨⟨hb, by decide!, by decide!, rfl, rfl, rfl, by decide!, by decide!, by decide!⟩,
    rejected_location_is_reported rejectState hb 40 oneTemplate (by decide!) (by decide!)
      [] [] (loopTemplate "T" "a") rfl rfl [] [] locationA rfl
      ⟨[], [Call.procBegin (some "T") 0], []⟩ (by decide!) "_a"
      ⟨[(some "a", "_a")], [Call.procBegin (some "T") 0], []⟩ (by decide!) "rejected"
      ⟨[(some "a", "_a")], [Call.procBegin (some "T") 0, Call.procState "_a" false], []⟩
      (by decide!)⟩

/-- C21, on a document in which no start tag follows the template.  Read
with a builder that rejects `procState`, the document `noSystem` (no `system`
element) has the rejection reported once and the `init` processed, but the
parse returns -1 and no `procEnd` is sent.  The rejection is not the cause:
read with a builder that accepts everything, the same document ends in the
same way with the same calls.  In both runs the search for a transition reads
to the end of the input.  With a `system` element after the template the same
rejection is followed by the `init`, the transition and `procEnd`. -/
theorem C21_rejected_location_then_end_of_input :
    absRun (parseXMLBuffer rejectState 40 (some noSystem))
        = (.ok (-1), ⟨[(some "a", "_a")],
            [Call.procBegin (some "T") 0, Call.procState "_a" false, Call.procStateInit "_a"],
            ["rejected"]⟩)
      ∧ absRun (parseXMLBuffer acceptAll 40 (some noSystem))
        = (.ok (-1), ⟨[(some "a", "_a")],
            [Call.procBegin (some "T") 0, Call.procState "_a" false, Call.procStateInit "_a"],
            []⟩)
      ∧ absRun (parseXMLBuffer rejectState 40 (some oneTemplate.render))
        = (.ok 0, ⟨[(some "a", "_a")],
            [Call.procBegin (some "T") 0, Call.procState "_a" false, Call.procStateInit "_a",
              Call.procEdge "_a" "_a", Call.procEnd, Call.parseXTA "system T;" true S_SYSTEM,
              Call.done],
            ["rejected"]⟩) := by
  decide!

/-! ### A rejected location stays registered -/

/-- The part of `location` before the notifications registers the id under
the name it returns, and calls nothing but the embedded grammar. -/
theorem semLocationHead_registers (env : Env) (l : LocationD) (i : String)
    (hid : l.el.attrs.lookup "id" = some i) (σ σ1 : Sem) (nm : String)
    (h : semLocationHead env l σ = (.ok nm, σ1)) :
    KeysSet σ1 ∧ σ1.locations.lookup (some i) = some nm
      ∧ ∃ pre, σ1.log = σ.log ++ pre ∧ ∀ c ∈ pre, c.isParse = true := by
  have hA : Adds (fun c => c.isParse = true) (semLocationHead env l) := by
    unfold semLocationHead
    refine Adds_bind (Adds_semName _ env _) (fun _ => ?_)
    refine Adds_bind (Adds_forEach (P := fun c => c.isParse = true) _
      (fun e => Adds_semLabel (P := fun c => c.isParse = true) env (fun _ _ _ => rfl) e) _)
      (fun _ => ?_)
    refine Adds_bind (Adds_locationName _ _ _) (fun _ => ?_)
    exact Adds_bind (Adds_setLocation _ _ _) (fun _ => Adds_pure _ _)
  obtain ⟨pre, hlog, hpre⟩ := hA σ
  rw [h] at hlog
  simp only [semLocationHead, hid] at h
  obtain ⟨v1, σa, _, h⟩ := bind_ok_inv h
  obtain ⟨v2, σb, _, h⟩ := bind_ok_inv h
  obtain ⟨v3, σc, _, h⟩ := bind_ok_inv h
  obtain ⟨v4, σd, h4, h⟩ := bind_ok_inv h
  simp only [StM.pure_apply, Prod.mk.injEq, Outcome.ok.injEq] at h
  obtain ⟨rfl, rfl⟩ := h
  obtain ⟨k1, k2⟩ := setLocation_ok i v3 σc σd v4 h4
  exact ⟨k1, k2, pre, hlog, hpre⟩

theorem forEach_split {α β : Type} (f : α → StM Sem β) (l1 l2 : List α) (a : α) :
    Sem.forEach f (l1 ++ a :: l2)
      = (Sem.forEach f l1 >>= fun _ => f a >>= fun _ => Sem.forEach f l2) := by
  funext σ
  rw [forEach_append]
  rfl

/-- The parse before the `init` of a template, from the state before one of
its locations. -/
theorem semUpToInit_from_location (env : Env) (d : NtaD) (before : List TemplateD)
    (t : TemplateD) (ls ls2 : List LocationD) (l : LocationD)
    (hl : t.locations = ls ++ l :: ls2)
    (σ : Sem) (hpre : semUpToLocation env d before t ls Sem.new = (.ok (), σ))
    (σ1 : Sem) (v : Bool) (hloc : semLocation env l σ = (.ok v, σ1)) :
    semUpToInit env d before t Sem.new = Sem.forEach (semLocation env) ls2 σ1 := by
  have e : semUpToInit env d before t
      = (semUpToLocation env d before t ls >>= fun _ =>
          semLocation env l >>= fun _ => Sem.forEach (semLocation env) ls2) := by
    simp only [semUpToInit, semTemplateHead, semUpToLocation, hl, forEach_split,
      StM.bind_assoc]
  rw [e, StM.bind_ok hpre, StM.bind_ok hloc]

/-- C31: in a document of the expected shape read with a builder that
accepts every `procBegin`, take a location `l` with id `i` of a template not
written `<template/>`, such that no later location of the template has this
id.  If the parse comes to it (state `σ`), its name and labels are processed
normally (name `nm`, state `σ1`) and one of its notifications is answered
with a `TypeException` (state `σ2`), then: `nm` is the name of the location,
it is registered for `i` in `σ1`, before any notification (only calls of the
embedded grammar were made), and the rejected notification leaves the map as
it is; `location` returns true and `getLocation(i)` returns `nm` in the state
it leaves; at the `init` of the template and at every transition of the
template that the parse comes to, `i` still resolves to `nm`: an `init`, a
`source` or a `target` with this `ref` gets `nm` (no -1 is thrown), and
`procStateInit(nm)`, respectively `procEdge` with `nm`, is among the calls of
the parse. -/
theorem C31_rejected_location_stays_registered (env : Env) (hb : AcceptsBegin env)
    (fuel : Nat) (d : NtaD) (hd : d.ok) (hf : d.render.length < fuel)
    (before after : List TemplateD) (t : TemplateD)
    (ht : d.templates = before ++ t :: after) (hne : t.el.isEmpty = false)
    (ls ls2 : List LocationD) (l : LocationD) (i : String)
    (hl : t.locations = ls ++ l :: ls2) (hid : l.el.attrs.lookup "id" = some i)
    (hls2 : ∀ x ∈ ls2, x.el.attrs.lookup "id" ≠ some i)
    (σ : Sem) (hpre : semUpToLocation env d before t ls Sem.new = (.ok (), σ))
    (nm : String) (σ1 : Sem) (hhead : semLocationHead env l σ = (.ok nm, σ1))
    (msg : String) (σ2 : Sem)
    (hrej : semLocationCalls env l nm σ1 = (.typeException msg, σ2)) :
    (nm = locationNameOf env l i ∧ σ1.locations.lookup (some i) = some nm
        ∧ (∃ pre, σ1.log = σ.log ++ pre ∧ ∀ c ∈ pre, c.isParse = true)
        ∧ σ2.locations = σ1.locations)
      ∧ (∀ (s : XMLReader) (tail : List Node), l.ok → Good fuel s →
          Pending none s (l.render ++ tail) →
          Follows [TAG_LOCATION, TAG_INIT, TAG_TRANSITION, TAG_TEMPLATE, TAG_INSTANTIATION,
            TAG_SYSTEM] tail →
          s.abs = σ →
          (XMLReader.location env fuel s).1 = .ok true
            ∧ (XMLReader.getLocation (some i) (XMLReader.location env fuel s).2).1 = .ok nm)
      ∧ (∀ σi, semUpToInit env d before t Sem.new = (.ok (), σi) →
          σi.locations.lookup (some i) = some nm
            ∧ (∀ s : XMLReader, s.abs = σi → (XMLReader.getLocation (some i) s).1 = .ok nm)
            ∧ ∀ e, t.init = some e → e.attrs.lookup "ref" = some i →
                ∃ rest, (absRun (parseXMLBuffer env fuel (some d.render))).2.log
                  = σi.log ++ Call.procStateInit nm :: rest)
      ∧ (∀ (xs ys : List TransitionD) (x : TransitionD) (σx : Sem),
          t.transitions = xs ++ x :: ys → x.el.isEmpty = false →
          semUpToTransition env d before t xs Sem.new = (.ok (), σx) →
          σx.locations.lookup (some i) = some nm
            ∧ (∀ s : XMLReader, s.abs = σx → (XMLReader.getLocation (some i) s).1 = .ok nm)
            ∧ (∀ e, x.source = some e → e.attrs.lookup "ref" = some i →
                semEndpoint x.source σx = (.ok nm, σx))
            ∧ (∀ e, x.target = some e → e.attrs.lookup "ref" = some i →
                semEndpoint x.target σx = (.ok nm, σx))
            ∧ ∀ (a b : String) (σ3 : Sem), semEdgeEnds env x σx = (.ok (a, b), σ3) →
                ((∃ e, x.source = some e ∧ e.attrs.lookup "ref" = some i) → a = nm)
                ∧ ((∃ e, x.target = some e ∧ e.attrs.lookup "ref" = some i) → b = nm)
                ∧ ∃ rest, (absRun (parseXMLBuffer env fuel (some d.render))).2.log
                    = σ3.log ++ Call.procEdge a b :: rest) := by
  have hL := semLocation_rejected env l σ σ1 σ2 nm msg hhead hrej
  obtain ⟨kR, lR⟩ := semLocation_registers env l i hid σ _ true hL
  obtain ⟨kH, lH, hpreH⟩ := semLocationHead_registers env l i hid σ σ1 nm hhead
  obtain ⟨_, hC, _⟩ := semLocationCalls_rejected env l σ1 σ2 nm msg hrej
  have hnm : nm = locationNameOf env l i := by
    have e : ({ σ2 with msgs := σ2.msgs ++ [msg] } : Sem).locations = σ1.locations := hC
    rw [e, lH] at lR
    exact Option.some.inj lR
  have lR1 : ({ σ2 with msgs := σ2.msgs ++ [msg] } : Sem).locations.lookup (some i)
      = some nm := by
    rw [lR, hnm]
  have regi : ∀ σi, semUpToInit env d before t Sem.new = (.ok (), σi) →
      KeysSet σi ∧ σi.locations.lookup (some i) = some nm := by
    intro σi hi
    rw [semUpToInit_from_location env d before t ls ls2 l hl σ hpre _ true hL] at hi
    have := @Keeps_forEach _ _ i nm (semLocation env) ls2
      (fun x hx => Keeps_semLocation i _ env x (hls2 x hx)) _ kR lR1
    rw [hi] at this
    exact this
  have regx : ∀ xs σx, semUpToTransition env d before t xs Sem.new = (.ok (), σx) →
      KeysSet σx ∧ σx.locations.lookup (some i) = some nm := by
    intro xs σx hx
    simp only [semUpToTransition] at hx
    obtain ⟨_, σi, hi, hx⟩ := bind_ok_inv hx
    obtain ⟨ki, li⟩ := regi σi hi
    have hK : Keeps i nm (do
        let _ ← semInit env t.init
        Sem.forEach (semTransition env) xs) :=
      Keeps_bind (Keeps_semInit i nm env _)
        (fun _ => Keeps_forEach _ _ (fun x _ => Keeps_semTransition i nm env x))
    have := hK σi ki li
    rw [hx] at this
    exact this
  have hr := parseXMLBuffer_render env hb fuel d hd hf
  refine ⟨⟨hnm, lH, hpreH, hC⟩, ?_, ?_, ?_⟩
  · intro s tail hlo hG hP hF ha
    have h := location_parses env fuel l hlo tail hF s hG hP
    rw [ha, hL] at h
    refine ⟨h.1, getLocation_code _ i nm ?_ ?_⟩
    · rw [h.2.1]
      exact kR
    · rw [h.2.1]
      exact lR1
  · intro σi hi
    obtain ⟨ki, li⟩ := regi σi hi
    refine ⟨li, ?_, ?_⟩
    · intro s hs
      exact getLocation_code s i nm (by rw [hs]; exact ki) (by rw [hs]; exact li)
    · intro e he hre
      rw [hr, semParse_eq_finishParse, finishParse_log,
        semNta_from_init env d before after t ht hne σi hi]
      exact init_then_log env d after t e i nm he hre σi ki li
  · intro xs ys x σx hx hxe hprex
    obtain ⟨kx, lx⟩ := regx xs σx hprex
    have hres : ∀ (o : Option El) (e : El), o = some e → e.attrs.lookup "ref" = some i →
        resolve σx o = some nm := by
      intro o e ho hre
      subst ho
      simp only [resolve, hre, lx]
    refine ⟨lx, ?_, ?_, ?_, ?_⟩
    · intro s hs
      exact getLocation_code s i nm (by rw [hs]; exact kx) (by rw [hs]; exact lx)
    · intro e he hre
      exact semEndpoint_good σx kx _ nm (hres _ e he hre)
    · intro e he hre
      exact semEndpoint_good σx kx _ nm (hres _ e he hre)
    · intro a b σ3 hrun
      obtain ⟨rest, hrest⟩ := edge_then_log env d before after t ht hne xs ys x hx hxe σx
        hprex a b σ3 hrun
      simp only [semEdgeEnds] at hrun
      obtain ⟨a1, σa, h1, h⟩ := bind_ok_inv hrun
      obtain ⟨b1, σb, h2, h⟩ := bind_ok_inv h
      obtain ⟨u, σc, h3, h⟩ := bind_ok_inv h
      simp only [StM.pure_apply, Prod.mk.injEq, Outcome.ok.injEq] at h
      obtain ⟨⟨rfl, rfl⟩, rfl⟩ := h
      obtain ⟨rfl, r1⟩ := semEndpoint_ok_inv _ _ _ _ h1
      obtain ⟨rfl, r2⟩ := semEndpoint_ok_inv _ _ _ _ h2
      refine ⟨?_, ?_, rest, ?_⟩
      · rintro ⟨e, he, hre⟩
        rw [hres _ e he hre] at r1
        exact (Option.some.inj r1).symm
      · rintro ⟨e, he, hre⟩
        rw [hres _ e he hre] at r2
        exact (Option.some.inj r2).symm
      · rw [hr, semParse_eq_finishParse, finishParse_log, hrest]

theorem C31_rejected_location_stays_registered_witness :
    (AcceptsBegin rejectState ∧ oneTemplate.ok ∧ oneTemplate.render.length < 40
      ∧ oneTemplate.templates = [] ++ loopTemplate "T" "a" :: []
      ∧ (loopTemplate "T" "a").el.isEmpty = false
      ∧ (loopTemplate "T" "a").locations = [] ++ locationA :: []
      ∧ locationA.el.attrs.lookup "id" = some "a"
      ∧ (∀ x ∈ ([] : List LocationD), x.el.attrs.lookup "id" ≠ some "a")
      ∧ semUpToLocation rejectState oneTemplate [] (loopTemplate "T" "a") [] Sem.new
          = (.ok (), atLocationA)
      ∧ semLocationHead rejectState locationA atLocationA = (.ok "_a", registeredA)
      ∧ semLocationCalls rejectState locationA "_a" registeredA
          = (.typeException "rejected", notifiedA))
    ∧ (("_a" = locationNameOf rejectState locationA "a"
          ∧ registeredA.locations.lookup (some "a") = some "_a"
          ∧ (∃ pre, registeredA.log = atLocationA.log ++ pre ∧ ∀ c ∈ pre, c.isParse = true)
          ∧ notifiedA.locations = registeredA.locations)
      ∧ (∀ (s : XMLReader) (tail : List Node), locationA.ok → Good 40 s →
          Pending none s (locationA.render ++ tail) →
          Follows [TAG_LOCATION, TAG_INIT, TAG_TRANSITION, TAG_TEMPLATE, TAG_INSTANTIATION,
            TAG_SYSTEM] tail →
          s.abs = atLocationA →
          (XMLReader.location rejectState 40 s).1 = .ok true
            ∧ (XMLReader.getLocation (some "a") (XMLReader.location rejectState 40 s).2).1
              = .ok "_a")
      ∧ (∀ σi, semUpToInit rejectState oneTemplate [] (loopTemplate "T" "a") Sem.new
            = (.ok (), σi) →
          σi.locations.lookup (some "a") = some "_a"
            ∧ (∀ s : XMLReader, s.abs = σi →
                (XMLReader.getLocation (some "a") s).1 = .ok "_a")
            ∧ ∀ e, (loopTemplate "T" "a").init = some e → e.attrs.lookup "ref" = some "a" →
                ∃ rest,
                  (absRun (parseXMLBuffer rejectState 40 (some oneTemplate.render))).2.log
                    = σi.log ++ Call.procStateInit "_a" :: rest)
      ∧ (∀ (xs ys : List TransitionD) (x : TransitionD) (σx : Sem),
          (loopTemplate "T" "a").transitions = xs ++ x :: ys → x.el.isEmpty = false →
          semUpToTransition rejectState oneTemplate [] (loopTemplate "T" "a") xs Sem.new
            = (.ok (), σx) →
          σx.locations.lookup (some "a") = some "_a"
            ∧ (∀ s : XMLReader, s.abs = σx →
                (XMLReader.getLocation (some "a") s).1 = .ok "_a")
            ∧ (∀ e, x.source = some e → e.attrs.lookup "ref" = some "a" →
                semEndpoint x.source σx = (.ok "_a", σx))
            ∧ (∀ e, x.target = some e → e.attrs.lookup "ref" = some "a" →
                semEndpoint x.target σx = (.ok "_a", σx))
            ∧ ∀ (a b : String) (σ3 : Sem),
                semEdgeEnds rejectState x σx = (.ok (a, b), σ3) →
                ((∃ e, x.source = some e ∧ e.attrs.lookup "ref" = some "a") → a = "_a")
                ∧ ((∃ e, x.target = some e ∧ e.attrs.lookup "ref" = some "a") → b = "_a")
                ∧ ∃ rest,
                  (absRun (parseXMLBuffer rejectState 40 (some oneTemplate.render))).2.log
                    = σ3.log ++ Call.procEdge a b :: rest)) :=
  have hb : AcceptsBegin rejectState := by
    intro _ _ _
    simp [rejectState]
  ⟨⟨hb, by decide!, by decide!, rfl, rfl, rfl, by decide!, by simp, by decide!, by decide!,
      by decide!⟩,
    C31_rejected_location_stays_registered rejectState hb 40 oneTemplate (by decide!)
      (by decide!) [] [] (loopTemplate "T" "a") rfl rfl [] [] locationA "a" rfl (by decide!)
      (by simp) atLocationA (by decide!) "_a" registeredA (by decide!) "rejected" notifiedA
      (by decide!)⟩

/-! ### One entry for each id -/

theorem Maintains_of_locations {α : Type} (Q : List (Option String × String) → Prop)
    (m : StM Sem α) (h : ∀ σ, (m σ).2.locations = σ.locations) : Maintains Q m := by
  intro σ hq
  rw [h σ]
  exact hq

theorem Maintains_pure {α : Type} (Q : List (Option String × String) → Prop) (a : α) :
    Maintains Q (pure a : StM Sem α) :=
  Maintains_of_locations Q _ (fun _ => rfl)

theorem Maintains_bind {α β : Type} {Q : List (Option String × String) → Prop}
    {m : StM Sem α} {f : α → StM Sem β}
    (hm : Maintains Q m) (hf : ∀ a, Maintains Q (f a)) : Maintains Q (m >>= f) := by
  intro σ hq
  have h1 := hm σ hq
  rcases hms : m σ with ⟨o, σ1⟩
  simp only [StM.bind_apply, StM.andThen, hms] at h1 ⊢
  cases o with
  | ok a => exact hf a σ1 h1
  | fatal c => exact h1
  | typeException e => exact h1
  | crash => exact h1
  | timeout => exact h1

theorem Maintains_tryCatch {Q : List (Option String × String) → Prop} {m : StM Sem Unit}
    {h : String → StM Sem Unit}
    (hm : Maintains Q m) (hh : ∀ msg, Maintains Q (h msg)) :
    Maintains Q (StM.tryCatch m h) := by
  intro σ hq
  have h1 := hm σ hq
  rcases hms : m σ with ⟨o, σ1⟩
  simp only [StM.tryCatch, hms] at h1 ⊢
  cases o with
  | typeException e => exact hh e σ1 h1
  | ok a => exact h1
  | fatal c => exact h1
  | crash => exact h1
  | timeout => exact h1

theorem Maintains_ite {α : Type} {Q : List (Option String × String) → Prop} {c : Prop}
    [Decidable c] {m1 m2 : StM Sem α}
    (h1 : Maintains Q m1) (h2 : Maintains Q m2) : Maintains Q (if c then m1 else m2) := by
  by_cases hc : c <;> simp [hc, h1, h2]

theorem Maintains_forEach {α β : Type} {Q : List (Option String × String) → Prop}
    (f : α → StM Sem β) (l : List α)
    (hf : ∀ a ∈ l, Maintains Q (f a)) : Maintains Q (Sem.forEach f l) := by
  induction l with
  | nil => exact Maintains_pure Q _
  | cons a l ih =>
    exact Maintains_bind (hf a (by simp)) (fun _ => ih (fun x hx => hf x (by simp [hx])))

theorem Maintains_handleError (Q : List (Option String × String) → Prop) (msg : String) :
    Maintains Q (Sem.handleError msg) :=
  Maintains_of_locations Q _ (fun _ => rfl)

theorem Maintains_throwInt {α : Type} (Q : List (Option String × String) → Prop) (c : Int) :
    Maintains Q (StM.throwInt c : StM Sem α) :=
  Maintains_of_locations Q _ (fun _ => rfl)

theorem Maintains_crashed {α : Type} (Q : List (Option String × String) → Prop) :
    Maintains Q (StM.crashed : StM Sem α) :=
  Maintains_of_locations Q _ (fun _ => rfl)

theorem Maintains_parse (Q : List (Option String × String) → Prop) (env : Env)
    (text : String) (part : xta_part_t) : Maintains Q (Sem.parse env text part) :=
  Maintains_of_locations Q _ (fun _ => rfl)

theorem Maintains_notify (Q : List (Option String × String) → Prop) (env : Env) (c : Call) :
    Maintains Q (Sem.notify env c) := by
  refine Maintains_of_locations Q _ (fun σ => ?_)
  simp only [Sem.notify]
  split <;> rfl

theorem Maintains_getLocation (Q : List (Option String × String) → Prop)
    (id : Option String) : Maintains Q (Sem.getLocation id) := by
  refine Maintains_of_locations Q _ (fun σ => ?_)
  simp only [Sem.getLocation]
  cases id with
  | none => rfl
  | some j =>
    simp only
    split
    · rfl
    · split <;> rfl

theorem Maintains_locationName (Q : List (Option String × String) → Prop)
    (l_name l_id : Option String) : Maintains Q (Sem.locationName l_name l_id) := by
  unfold Sem.locationName
  refine Maintains_ite ?_ (Maintains_pure Q _)
  cases l_id with
  | none => exact Maintains_crashed Q
  | some j => exact Maintains_pure Q _

theorem Maintains_labelText (Q : List (Option String × String) → Prop) (env : Env)
    (kind : Option String) (text : String) : Maintains Q (Sem.labelText env kind text) := by
  unfold Sem.labelText
  cases kind with
  | none => exact Maintains_crashed Q
  | some k =>
    simp only
    refine Maintains_ite
      (Maintains_bind (Maintains_parse Q env _ _) (fun _ => Maintains_pure Q _)) ?_
    refine Maintains_ite
      (Maintains_bind (Maintains_parse Q env _ _) (fun _ => Maintains_pure Q _)) ?_
    refine Maintains_ite
      (Maintains_bind (Maintains_parse Q env _ _) (fun _ => Maintains_pure Q _)) ?_
    exact Maintains_ite
      (Maintains_bind (Maintains_parse Q env _ _) (fun _ => Maintains_pure Q _))
      (Maintains_pure Q _)

theorem Maintains_semName (Q : List (Option String × String) → Prop) (env : Env)
    (o : Option El) : Maintains Q (semName env o) := by
  unfold UTAP.semName
  split
  · split
    · exact Maintains_ite (Maintains_pure Q _)
        (Maintains_bind (Maintains_handleError Q _) (fun _ => Maintains_pure Q _))
    · exact Maintains_bind (Maintains_handleError Q _) (fun _ => Maintains_pure Q _)
  · exact Maintains_pure Q _

theorem Maintains_semParameter (Q : List (Option String × String) → Prop) (env : Env)
    (o : Option El) : Maintains Q (semParameter env o) := by
  unfold UTAP.semParameter
  split
  · exact Maintains_parse Q env _ _
  · exact Maintains_pure Q _

theorem Maintains_semDeclaration (Q : List (Option String × String) → Prop) (env : Env)
    (o : Option El) : Maintains Q (semDeclaration env o) := by
  unfold UTAP.semDeclaration
  split
  · split
    · exact Maintains_bind (Maintains_parse Q env _ _) (fun _ => Maintains_pure Q _)
    · exact Maintains_pure Q _
  · exact Maintains_pure Q _

theorem Maintains_semLabel (Q : List (Option String × String) → Prop) (env : Env) (e : El) :
    Maintains Q (semLabel env e) := by
  unfold UTAP.semLabel
  split
  · split
    · exact Maintains_bind (Maintains_labelText Q env _ _) (fun _ => Maintains_pure Q _)
    · exact Maintains_pure Q _
  · exact Maintains_pure Q _

theorem Maintains_semSystem (Q : List (Option String × String) → Prop) (env : Env)
    (part : xta_part_t) (o : Option El) : Maintains Q (semSystem env part o) := by
  unfold UTAP.semSystem
  split
  · exact Maintains_bind (Maintains_parse Q env _ _) (fun _ => Maintains_pure Q _)
  · exact Maintains_pure Q _

theorem Maintains_semEndpoint (Q : List (Option String × String) → Prop) (o : Option El) :
    Maintains Q (semEndpoint o) := by
  cases o with
  | none => exact Maintains_throwInt Q _
  | some e => exact Maintains_getLocation Q _

/-- A location maintains what the assignment to the map for its id
maintains. -/
theorem Maintains_semLocation (Q : List (Option String × String) → Prop) (env : Env)
    (l : LocationD)
    (hset : ∀ name, Maintains Q (Sem.setLocation (l.el.attrs.lookup "id") name)) :
    Maintains Q (semLocation env l) := by
  unfold UTAP.semLocation
  refine Maintains_bind (Maintains_tryCatch ?_ (fun _ => Maintains_handleError Q _))
    (fun _ => Maintains_pure Q _)
  refine Maintains_bind (Maintains_semName Q env _) (fun _ => ?_)
  refine Maintains_bind (Maintains_forEach _ _ (fun e _ => Maintains_semLabel Q env e))
    (fun _ => ?_)
  refine Maintains_bind (Maintains_locationName Q _ _) (fun _ => ?_)
  refine Maintains_bind (hset _) (fun _ => ?_)
  refine Maintains_bind (Maintains_notify Q env _) (fun _ => ?_)
  exact Maintains_ite
    (Maintains_bind (Maintains_notify Q env _)
      (fun _ => Maintains_ite (Maintains_notify Q env _) (Maintains_pure Q _)))
    (Maintains_bind (Maintains_pure Q ())
      (fun _ => Maintains_ite (Maintains_notify Q env _) (Maintains_pure Q _)))

theorem Maintains_semInit (Q : List (Option String × String) → Prop) (env : Env)
    (o : Option El) : Maintains Q (semInit env o) := by
  unfold UTAP.semInit
  split
  · exact Maintains_bind (Maintains_handleError Q _) (fun _ => Maintains_pure Q _)
  · split
    · exact Maintains_bind (Maintains_getLocation Q _)
        (fun _ => Maintains_bind (Maintains_tryCatch (Maintains_notify Q env _)
          (fun _ => Maintains_handleError Q _)) (fun _ => Maintains_pure Q _))
    · exact Maintains_bind (Maintains_handleError Q _) (fun _ => Maintains_pure Q _)

theorem Maintains_semTransition (Q : List (Option String × String) → Prop) (env : Env)
    (t : TransitionD) : Maintains Q (semTransition env t) := by
  unfold UTAP.semTransition
  refine Maintains_ite (Maintains_pure Q _) ?_
  refine Maintains_bind (Maintains_tryCatch ?_ (fun _ => Maintains_handleError Q _))
    (fun _ => Maintains_pure Q _)
  refine Maintains_bind (Maintains_semEndpoint Q _) (fun _ => ?_)
  refine Maintains_bind (Maintains_semEndpoint Q _) (fun _ => ?_)
  refine Maintains_bind (Maintains_forEach _ _ (fun e _ => Maintains_semLabel Q env e))
    (fun _ => ?_)
  exact Maintains_notify Q env _

theorem Maintains_semTemplate (Q : List (Option String × String) → Prop) (env : Env)
    (t : TemplateD) (hset : ∀ id name, Maintains Q (Sem.setLocation id name)) :
    Maintains Q (semTemplate env t) := by
  unfold UTAP.semTemplate
  refine Maintains_ite (Maintains_pure Q _) ?_
  refine Maintains_bind (Maintains_tryCatch ?_ (fun _ => Maintains_handleError Q _))
    (fun _ => Maintains_pure Q _)
  refine Maintains_bind (Maintains_semName Q env _) (fun _ => ?_)
  refine Maintains_bind (Maintains_semParameter Q env _) (fun _ => ?_)
  refine Maintains_bind (Maintains_notify Q env _) (fun _ => ?_)
  refine Maintains_bind (Maintains_semDeclaration Q env _) (fun _ => ?_)
  refine Maintains_bind
    (Maintains_forEach _ _ (fun l _ => Maintains_semLocation Q env l (hset _))) (fun _ => ?_)
  refine Maintains_bind (Maintains_semInit Q env _) (fun _ => ?_)
  refine Maintains_bind
    (Maintains_forEach _ _ (fun x _ => Maintains_semTransition Q env x)) (fun _ => ?_)
  exact Maintains_notify Q env _

theorem Maintains_semNta (Q : List (Option String × String) → Prop) (env : Env) (d : NtaD)
    (hset : ∀ id name, Maintains Q (Sem.setLocation id name)) : Maintains Q (semNta env d) := by
  unfold UTAP.semNta
  refine Maintains_bind (Maintains_semDeclaration Q env _) (fun _ => ?_)
  refine Maintains_bind
    (Maintains_forEach _ _ (fun t _ => Maintains_semTemplate Q env t hset)) (fun _ => ?_)
  refine Maintains_bind (Maintains_semSystem Q env _ _) (fun _ => ?_)
  refine Maintains_bind (Maintains_semSystem Q env _ _) (fun _ => ?_)
  exact Maintains_notify Q env _

theorem Maintains_semUpToLocation (Q : List (Option String × String) → Prop) (env : Env)
    (d : NtaD) (before : List TemplateD) (t : TemplateD) (ls : List LocationD)
    (hset : ∀ id name, Maintains Q (Sem.setLocation id name)) :
    Maintains Q (semUpToLocation env d before t ls) := by
  unfold semUpToLocation
  refine Maintains_bind (Maintains_semDeclaration Q env _) (fun _ => ?_)
  refine Maintains_bind
    (Maintains_forEach _ _ (fun t _ => Maintains_semTemplate Q env t hset)) (fun _ => ?_)
  refine Maintains_bind (Maintains_semName Q env _) (fun _ => ?_)
  refine Maintains_bind (Maintains_semParameter Q env _) (fun _ => ?_)
  refine Maintains_bind (Maintains_notify Q env _) (fun _ => ?_)
  refine Maintains_bind (Maintains_semDeclaration Q env _) (fun _ => ?_)
  exact Maintains_forEach _ _ (fun l _ => Maintains_semLocation Q env l (hset _))

/-- The assignment `locations[l_id] = l_name` adds no second entry for a
key. -/
theorem setLocation_distinct (id : Option String) (name : String) :
    Maintains DistinctIds (Sem.setLocation id name) := by
  intro σ hq
  unfold Sem.setLocation
  split
  · simp [DistinctIds]
  · split
    · exact hq
    · split
      · have e : (σ.locations.map fun kv => if kv.1 = id then (kv.1, name) else kv).map
            Prod.fst = σ.locations.map Prod.fst := by
          rw [List.map_map]
          refine List.map_congr_left (fun kv _ => ?_)
          simp only [Function.comp]
          split <;> rfl
        simp only [DistinctIds] at hq ⊢
        rw [e]
        exact hq
      · rename_i hany
        simp only [DistinctIds, List.map_append, List.map_cons, List.map_nil] at hq ⊢
        refine List.Nodup.append hq (List.nodup_singleton _) ?_
        intro k hk1 hk2
        simp only [List.mem_singleton] at hk2
        subst hk2
        apply hany
        simp only [List.any_eq_true, decide_eq_true_eq]
        obtain ⟨kv, hkv, rfl⟩ := List.mem_map.mp hk1
        exact ⟨kv, hkv, rfl⟩

/-- A null key stays the key of the only entry. -/
theorem setLocation_nullAlone (id : Option String) (name : String) :
    Maintains NullAlone (Sem.setLocation id name) := by
  intro σ hq
  unfold Sem.setLocation
  split
  · cases id with
    | none => exact Or.inr ⟨name, rfl⟩
    | some j =>
      refine Or.inl (fun kv hkv => ?_)
      simp only [List.mem_singleton] at hkv
      rw [hkv]
      simp
  · split
    · exact hq
    · rename_i hne hcr
      have hidn : id ≠ none := fun h => hcr (Or.inl h)
      have hk : ∀ kv ∈ σ.locations, kv.1 ≠ none := by
        intro kv hkv hn
        apply hcr
        right
        simp only [List.any_eq_true, decide_eq_true_eq]
        exact ⟨kv, hkv, hn⟩
      split
      · refine Or.inl (fun kv hkv => ?_)
        simp only [List.mem_map] at hkv
        obtain ⟨kv0, hm, rfl⟩ := hkv
        split
        · exact hk kv0 hm
        · exact hk kv0 hm
      · refine Or.inl (fun kv hkv => ?_)
        simp only [List.mem_append, List.mem_singleton] at hkv
        rcases hkv with h | h
        · exact hk kv h
        · rw [h]
          exact hidn

theorem lookup_some_mem (l : List (Option String × String)) (k : Option String) (v : String)
    (h : l.lookup k = some v) : k ∈ l.map Prod.fst := by
  induction l with
  | nil => simp [List.lookup] at h
  | cons kv l ih =>
    obtain ⟨a, w⟩ := kv
    rw [List.lookup_cons] at h
    cases hka : (k == a)
    · simp only [hka] at h
      simp only [List.map_cons, List.mem_cons]
      exact Or.inr (ih h)
    · simp only [List.map_cons, List.mem_cons]
      exact Or.inl (by simpa using hka)

/-- The assignment `locations[l_id] = l_name` for an id that has an entry:
the entry gets the new name, and the map has the same keys as before. -/
theorem setLocation_present (i name old : String) (s : XMLReader)
    (hk : ∀ kv ∈ s.locations, kv.1 ≠ none)
    (hl : s.locations.lookup (some i) = some old) :
    XMLReader.setLocation (some i) name s
      = (.ok (), { s with
          locations := s.locations.map fun kv => if kv.1 = some i then (kv.1, name) else kv })
      := by
  have hne : s.locations ≠ [] := by
    intro h
    rw [h] at hl
    simp [List.lookup] at hl
  have hk1 : s.locations.any (fun kv => kv.1 = none) = false := by
    simp only [List.any_eq_false, decide_eq_true_eq]
    exact fun kv hkv => hk kv hkv
  have ha : s.locations.any (fun kv => kv.1 = some i) = true := by
    have := lookup_some_mem _ _ _ hl
    obtain ⟨kv, hkv, hkey⟩ := List.mem_map.mp this
    simp only [List.any_eq_true, decide_eq_true_eq]
    exact ⟨kv, hkv, hkey⟩
  simp [XMLReader.setLocation, hne, hk1, ha]

theorem setLocation_same_keys (K : List (Option String)) (i name : String)
    (hi : some i ∈ K) :
    Maintains (fun L => L.map Prod.fst = K) (Sem.setLocation (some i) name) := by
  intro σ hq
  unfold Sem.setLocation
  split
  · rename_i he
    rw [he] at hq
    simp only [List.map_nil] at hq
    rw [← hq] at hi
    cases hi
  · split
    · exact hq
    · split
      · simp only
        rw [List.map_map, ← hq]
        refine List.map_congr_left (fun kv _ => ?_)
        simp only [Function.comp]
        split <;> rfl
      · rename_i hany
        exfalso
        apply hany
        rw [← hq] at hi
        obtain ⟨kv, hkv, hkey⟩ := List.mem_map.mp hi
        simp only [List.any_eq_true, decide_eq_true_eq]
        exact ⟨kv, hkv, hkey⟩

theorem KeysSet_of_nullAlone (σ : Sem) (h : NullAlone σ.locations) (i nm : String)
    (hl : σ.locations.lookup (some i) = some nm) : KeysSet σ := by
  rcases h with h | ⟨n, h⟩
  · exact h
  · rw [h] at hl
    simp [List.lookup] at hl

theorem countP_key_one (l : List (Option String × String)) (k : Option String)
    (hd : DistinctIds l) (hm : k ∈ l.map Prod.fst) :
    l.countP (fun kv => decide (kv.1 = k)) = 1 := by
  induction l with
  | nil => simp at hm
  | cons kv l ih =>
    obtain ⟨a, w⟩ := kv
    simp only [DistinctIds, List.map_cons, List.nodup_cons] at hd
    by_cases hak : a = k
    · subst hak
      have h0 : l.countP (fun kv => decide (kv.1 = a)) = 0 := by
        rw [List.countP_eq_zero]
        intro kv hkv hkey
        simp only [decide_eq_true_eq] at hkey
        exact hd.1 (List.mem_map.mpr ⟨kv, hkv, hkey⟩)
      rw [List.countP_cons_of_pos _ _ (by simp), h0]
    · simp only [List.map_cons, List.mem_cons] at hm
      rcases hm with h | h
      · exact absurd h.symm hak
      · rw [List.countP_cons_of_neg _ _ (by simpa using hak)]
        exact ih hd.2 h

/-- C32: in a document of the expected shape read with a builder that
accepts every `procBegin`, take a location `l` with id `i` of a template not
written `<template/>`, such that no later location of the template has this
id, and let the parse come to it in a state `σ` in which `i` is registered
already, by an earlier location, under the name `nm1`.  If `location`
returns for `l` (state `σ1`), then: the assignment to the map gives the
entry of `i` the new name and leaves the keys as they are; in `σ1` the id
`i` resolves to the name of `l`, the map has the same keys as in `σ`, with
one entry for `i`, and every other id resolves as before; `location` on the
reader leaves a state in which `getLocation(i)` returns the name of `l`; so
it does at the `init` of the template, where an `init` with this `ref` is
notified with the name of `l`; and in `σ`, in `σ1`, at the `init` and at the
end of the parse no two entries of the map have the same key. -/
theorem C32_later_location_replaces_earlier (env : Env) (hb : AcceptsBegin env)
    (fuel : Nat) (d : NtaD) (hd : d.ok) (hf : d.render.length < fuel)
    (before after : List TemplateD) (t : TemplateD)
    (ht : d.templates = before ++ t :: after) (hne : t.el.isEmpty = false)
    (ls ls2 : List LocationD) (l : LocationD) (i : String)
    (hl : t.locations = ls ++ l :: ls2) (hid : l.el.attrs.lookup "id" = some i)
    (hls2 : ∀ x ∈ ls2, x.el.attrs.lookup "id" ≠ some i)
    (σ : Sem) (hpre : semUpToLocation env d before t ls Sem.new = (.ok (), σ))
    (nm1 : String) (hreg : σ.locations.lookup (some i) = some nm1)
    (σ1 : Sem) (v : Bool) (hloc : semLocation env l σ = (.ok v, σ1)) :
    (∀ (s : XMLReader) (name : String), s.abs = σ →
        XMLReader.setLocation (some i) name s
          = (.ok (), { s with
              locations :=
                s.locations.map fun kv => if kv.1 = some i then (kv.1, name) else kv }))
      ∧ (σ1.locations.lookup (some i) = some (locationNameOf env l i)
          ∧ σ1.locations.map Prod.fst = σ.locations.map Prod.fst
          ∧ σ1.locations.countP (fun kv => decide (kv.1 = some i)) = 1
          ∧ ∀ (j nmj : String), j ≠ i → σ.locations.lookup (some j) = some nmj →
              σ1.locations.lookup (some j) = some nmj)
      ∧ (∀ (s : XMLReader) (tail : List Node), l.ok → Good fuel s →
          Pending none s (l.render ++ tail) →
          Follows [TAG_LOCATION, TAG_INIT, TAG_TRANSITION, TAG_TEMPLATE, TAG_INSTANTIATION,
            TAG_SYSTEM] tail →
          s.abs = σ →
          (XMLReader.location env fuel s).1 = .ok true
            ∧ (XMLReader.location env fuel s).2.abs = σ1
            ∧ (XMLReader.getLocation (some i) (XMLReader.location env fuel s).2).1
                = .ok (locationNameOf env l i))
      ∧ (∀ σi, semUpToInit env d before t Sem.new = (.ok (), σi) →
          σi.locations.lookup (some i) = some (locationNameOf env l i)
            ∧ (∀ s : XMLReader, s.abs = σi →
                (XMLReader.getLocation (some i) s).1 = .ok (locationNameOf env l i))
            ∧ (∀ e, t.init = some e → e.attrs.lookup "ref" = some i →
                ∃ rest, (absRun (parseXMLBuffer env fuel (some d.render))).2.log
                  = σi.log ++ Call.procStateInit (locationNameOf env l i) :: rest)
            ∧ DistinctIds σi.locations)
      ∧ DistinctIds σ.locations ∧ DistinctIds σ1.locations
      ∧ DistinctIds (parseXMLBuffer env fuel (some d.render)).2.locations := by
  have hset : ∀ (id : Option String) (name : String),
      Maintains DistinctIds (Sem.setLocation id name) := setLocation_distinct
  have hnew : DistinctIds Sem.new.locations := by simp [DistinctIds, Sem.new]
  have dσ : DistinctIds σ.locations := by
    have := Maintains_semUpToLocation DistinctIds env d before t ls hset Sem.new hnew
    rwa [hpre] at this
  have nσ : NullAlone σ.locations := by
    have := Maintains_semUpToLocation NullAlone env d before t ls setLocation_nullAlone
      Sem.new (Or.inl (by simp [Sem.new]))
    rwa [hpre] at this
  have kσ : KeysSet σ := KeysSet_of_nullAlone σ nσ i nm1 hreg
  have dσ1 : DistinctIds σ1.locations := by
    have := Maintains_semLocation DistinctIds env l (fun _ => hset _ _) σ dσ
    rwa [hloc] at this
  obtain ⟨k1, l1⟩ := semLocation_registers env l i hid σ σ1 v hloc
  have hv : v = true := by
    have := semLocation_true env l σ
    rw [hloc] at this
    cases v
    · exact absurd rfl this
    · rfl
  subst hv
  have keys1 : σ1.locations.map Prod.fst = σ.locations.map Prod.fst := by
    have := Maintains_semLocation (fun L => L.map Prod.fst = σ.locations.map Prod.fst) env l
      (fun name => by
        rw [hid]
        exact setLocation_same_keys _ i name (lookup_some_mem _ _ _ hreg)) σ rfl
    rwa [hloc] at this
  have regi : ∀ σi, semUpToInit env d before t Sem.new = (.ok (), σi) →
      (KeysSet σi ∧ σi.locations.lookup (some i) = some (locationNameOf env l i))
        ∧ DistinctIds σi.locations := by
    intro σi hi
    rw [semUpToInit_from_location env d before t ls ls2 l hl σ hpre σ1 true hloc] at hi
    have h1 := @Keeps_forEach _ _ i (locationNameOf env l i) (semLocation env) ls2
      (fun x hx => Keeps_semLocation i _ env x (hls2 x hx)) σ1 k1 l1
    have h2 := @Maintains_forEach _ _ DistinctIds (semLocation env) ls2
      (fun x _ => Maintains_semLocation DistinctIds env x (fun _ => hset _ _)) σ1 dσ1
    rw [hi] at h1 h2
    exact ⟨h1, h2⟩
  have hr := parseXMLBuffer_render env hb fuel d hd hf
  refine ⟨?_, ⟨l1, keys1, ?_, ?_⟩, ?_, ?_, dσ, dσ1, ?_⟩
  · intro s name hs
    refine setLocation_present i name nm1 s ?_ ?_
    · intro kv hkv
      exact kσ kv (by rw [← hs]; exact hkv)
    · rw [← hs] at hreg
      exact hreg
  · exact countP_key_one _ _ dσ1 (lookup_some_mem _ _ _ l1)
  · intro j nmj hj hlj
    have hidj : l.el.attrs.lookup "id" ≠ some j := by
      rw [hid]
      intro h
      exact hj (Option.some.inj h).symm
    have := Keeps_semLocation j nmj env l hidj σ kσ hlj
    rw [hloc] at this
    exact this.2
  · intro s tail hlo hG hP hF ha
    have h := location_parses env fuel l hlo tail hF s hG hP
    rw [ha, hloc] at h
    refine ⟨h.1, h.2.1, getLocation_code _ i _ ?_ ?_⟩
    · rw [h.2.1]
      exact k1
    · rw [h.2.1]
      exact l1
  · intro σi hi
    obtain ⟨⟨ki, li⟩, di⟩ := regi σi hi
    refine ⟨li, fun s hs => getLocation_code s i _ (by rw [hs]; exact ki)
      (by rw [hs]; exact li), ?_, di⟩
    intro e he hre
    rw [hr, semParse_eq_finishParse, finishParse_log,
      semNta_from_init env d before after t ht hne σi hi]
    exact init_then_log env d after t e i _ he hre σi ki li
  · have e : (parseXMLBuffer env fuel (some d.render)).2.locations
        = (semNta env d Sem.new).2.locations := by
      have := congrArg (fun r => r.2.locations) hr
      simp only [absRun, XMLReader.abs] at this
      rw [this, semParse_eq_finishParse, finishParse_log]
    rw [e]
    exact Maintains_semNta DistinctIds env d hset Sem.new hnew

theorem C32_later_location_replaces_earlier_witness :
    (AcceptsBegin acceptAll ∧ (docOf [sameIdTemplate]).ok
      ∧ (docOf [sameIdTemplate]).render.length < 40
      ∧ (docOf [sameIdTemplate]).templates = [] ++ sameIdTemplate :: []
      ∧ sameIdTemplate.el.isEmpty = false
      ∧ sameIdTemplate.locations = [firstA] ++ secondA :: []
      ∧ secondA.el.attrs.lookup "id" = some "a"
      ∧ (∀ x ∈ ([] : List LocationD), x.el.attrs.lookup "id" ≠ some "a")
      ∧ semUpToLocation acceptAll (docOf [sameIdTemplate]) [] sameIdTemplate [firstA] Sem.new
          = (.ok (), afterFirstA)
      ∧ afterFirstA.locations.lookup (some "a") = some "A"
      ∧ semLocation acceptAll secondA afterFirstA = (.ok true, afterSecondA))
    ∧ ((∀ (s : XMLReader) (name : String), s.abs = afterFirstA →
          XMLReader.setLocation (some "a") name s
            = (.ok (), { s with
                locations :=
                  s.locations.map fun kv => if kv.1 = some "a" then (kv.1, name) else kv }))
      ∧ (afterSecondA.locations.lookup (some "a") = some (locationNameOf acceptAll secondA "a")
          ∧ afterSecondA.locations.map Prod.fst = afterFirstA.locations.map Prod.fst
          ∧ afterSecondA.locations.countP (fun kv => decide (kv.1 = some "a")) = 1
          ∧ ∀ (j nmj : String), j ≠ "a" → afterFirstA.locations.lookup (some j) = some nmj →
              afterSecondA.locations.lookup (some j) = some nmj)
      ∧ (∀ (s : XMLReader) (tail : List Node), secondA.ok → Good 40 s →
          Pending none s (secondA.render ++ tail) →
          Follows [TAG_LOCATION, TAG_INIT, TAG_TRANSITION, TAG_TEMPLATE, TAG_INSTANTIATION,
            TAG_SYSTEM] tail →
          s.abs = afterFirstA →
          (XMLReader.location acceptAll 40 s).1 = .ok true
            ∧ (XMLReader.location acceptAll 40 s).2.abs = afterSecondA
            ∧ (XMLReader.getLocation (some "a") (XMLReader.location acceptAll 40 s).2).1
                = .ok (locationNameOf acceptAll secondA "a"))
      ∧ (∀ σi, semUpToInit acceptAll (docOf [sameIdTemplate]) [] sameIdTemplate Sem.new
            = (.ok (), σi) →
          σi.locations.lookup (some "a") = some (locationNameOf acceptAll secondA "a")
            ∧ (∀ s : XMLReader, s.abs = σi →
                (XMLReader.getLocation (some "a") s).1
                  = .ok (locationNameOf acceptAll secondA "a"))
            ∧ (∀ e, sameIdTemplate.init = some e → e.attrs.lookup "ref" = some "a" →
                ∃ rest,
                  (absRun (parseXMLBuffer acceptAll 40
                      (some (docOf [sameIdTemplate]).render))).2.log
                    = σi.log
                      ++ Call.procStateInit (locationNameOf acceptAll secondA "a") :: rest)
            ∧ DistinctIds σi.locations)
      ∧ DistinctIds afterFirstA.locations ∧ DistinctIds afterSecondA.locations
      ∧ DistinctIds
          (parseXMLBuffer acceptAll 40 (some (docOf [sameIdTemplate]).render)).2.locations) :=
  ⟨⟨fun _ _ _ => rfl, by decide!, by decide!, rfl, rfl, rfl, by decide!, by simp, by decide!,
      by decide!, by decide!⟩,
    C32_later_location_replaces_earlier acceptAll (fun _ _ _ => rfl) 40
      (docOf [sameIdTemplate]) (by decide!) (by decide!) [] [] sameIdTemplate rfl rfl
      [firstA] [] secondA "a" rfl (by decide!) (by simp) afterFirstA (by decide!) "A"
      (by decide!) afterSecondA true (by decide!)⟩

/-! ### An `init` with an unregistered `ref` -/

theorem bind_crash {σ α β : Type} {m : StM σ α} {f : α → StM σ β} {s s1 : σ}
    (h : m s = (.crash, s1)) : (m >>= f) s = (.crash, s1) := by
  simp [StM.bind_apply, StM.andThen, h]

theorem tryCatch_crash {σ : Type} {m : StM σ Unit} {h : String → StM σ Unit} {s s1 : σ}
    (hm : m s = (.crash, s1)) : StM.tryCatch m h s = (.crash, s1) := by
  simp [StM.tryCatch, hm]

theorem forEach_crash {α β : Type} (f : α → StM Sem β) (l1 : List α) (a : α) (l2 : List α)
    {σ σ1 σ2 : Sem} (h1 : Sem.forEach f l1 σ = (.ok (), σ1))
    (h2 : f a σ1 = (.crash, σ2)) : Sem.forEach f (l1 ++ a :: l2) σ = (.crash, σ2) := by
  induction l1 generalizing σ with
  | nil =>
    simp only [Sem.forEach, StM.pure_apply, Prod.mk.injEq, true_and] at h1
    subst h1
    simp only [List.nil_append, Sem.forEach]
    exact bind_crash h2
  | cons b l ih =>
    simp only [Sem.forEach] at h1
    obtain ⟨v, σ3, h3, h4⟩ := bind_ok_inv h1
    simp only [List.cons_append, Sem.forEach]
    rw [StM.bind_ok h3]
    exact ih h4

/-- A search of a map of locations whose key is null ends in a null
dereference. -/
theorem getLocation_null (σ : Sem) (n : String) (h : σ.locations = [(none, n)]) (r : String) :
    Sem.getLocation (some r) σ = (.crash, σ) := by
  simp [Sem.getLocation, h]

/-- A null dereference is not caught by the entry points. -/
theorem semParse_crash (env : Env) (d : NtaD) (σ : Sem)
    (h : semNta env d Sem.new = (.crash, σ)) : semParse env d = (.crash, σ) := by
  simp [semParse, h]

/-- A null dereference in a template after its locations ends the parse. -/
theorem semNta_crash (env : Env) (d : NtaD) (before after : List TemplateD) (t : TemplateD)
    (ht : d.templates = before ++ t :: after) (hne : t.el.isEmpty = false) (σh σ : Sem)
    (hpre : semUpToInit env d before t Sem.new = (.ok (), σh))
    (htail : semTemplateTail env t σh = (.crash, σ)) :
    semNta env d Sem.new = (.crash, σ) := by
  simp only [semUpToInit] at hpre
  obtain ⟨v1, σa, h1, hpre⟩ := bind_ok_inv hpre
  obtain ⟨v2, σb, h2, h3⟩ := bind_ok_inv hpre
  have h4 : semTemplate env t σb = (.crash, σ) := by
    rw [semTemplate_split env t hne]
    refine bind_crash (tryCatch_crash ?_)
    rw [StM.bind_ok h3]
    exact htail
  simp only [semNta, ht]
  rw [StM.bind_ok h1]
  exact bind_crash (forEach_crash _ before t after h2 h4)

/-- When the parse comes to an `init` element, a null key is the only key of
the map of locations, if there is one. -/
theorem semUpToInit_nullAlone (env : Env) (d : NtaD) (before : List TemplateD) (t : TemplateD)
    (σ : Sem) (hpre : semUpToInit env d before t Sem.new = (.ok (), σ)) :
    NullAlone σ.locations := by
  have h : semUpToInit env d before t = semUpToLocation env d before t t.locations := by
    simp only [semUpToInit, semUpToLocation, semTemplateHead, StM.bind_assoc]
  have hm := Maintains_semUpToLocation NullAlone env d before t t.locations
    setLocation_nullAlone Sem.new (Or.inl (by simp [Sem.new]))
  rw [← h, hpre] at hm
  exact hm

/-- C3, as the code has it: in a document of the expected shape read with a
builder that accepts every `procBegin`, take the `init` element of a template
not written `<template/>`.  Let the parse come to it (what precedes it is
processed normally and leaves the state `σ`) with a `ref` that is present but
not registered in `σ`.  Then either no key of the map of locations is null,
or the map holds one entry, with a null key (a location with a name and no
`id` was read).  In the first case the parse returns -1 and leaves the calls
and the messages of `σ`: `init` calls no `procStateInit` and reports no
"Missing initial state".  In the second case the search of the map
dereferences the null key: the parse does not return but crashes. -/
theorem C3_unregistered_init_fatal_or_crash (env : Env) (hb : AcceptsBegin env) (fuel : Nat)
    (d : NtaD) (hd : d.ok) (hf : d.render.length < fuel)
    (before after : List TemplateD) (t : TemplateD)
    (ht : d.templates = before ++ t :: after) (hne : t.el.isEmpty = false)
    (e : El) (r : String) (hi : t.init = some e) (hr : e.attrs.lookup "ref" = some r)
    (σ : Sem) (hpre : semUpToInit env d before t Sem.new = (.ok (), σ))
    (hun : σ.locations.lookup (some r) = none) :
    (KeysSet σ ∨ ∃ n, σ.locations = [(none, n)])
      ∧ (KeysSet σ →
          absRun (parseXMLBuffer env fuel (some d.render)) = (.ok (-1), σ))
      ∧ (∀ n, σ.locations = [(none, n)] →
          absRun (parseXMLBuffer env fuel (some d.render)) = (.crash, σ)) := by
  refine ⟨semUpToInit_nullAlone env d before t σ hpre, ?_, ?_⟩
  · intro hk
    rw [parseXMLBuffer_render env hb fuel d hd hf]
    apply semParse_fatal
    refine semNta_abort env d before after t ht hne σ σ (-1) hpre ?_
    simp only [semTemplateTail, hi]
    refine bind_fatal ?_
    simp only [semInit, hr]
    exact bind_fatal (getLocation_unset σ hk r hun)
  · intro n hn
    rw [parseXMLBuffer_render env hb fuel d hd hf]
    apply semParse_crash
    refine semNta_crash env d before after t ht hne σ σ hpre ?_
    simp only [semTemplateTail, hi]
    refine bind_crash ?_
    simp only [semInit, hr]
    exact bind_crash (getLocation_null σ n hn r)

theorem C3_unregistered_init_fatal_or_crash_witness :
    ((docOf [namedNoId]).ok ∧ (docOf [namedNoId]).render.length < 40
      ∧ semUpToInit acceptAll (docOf [namedNoId]) [] namedNoId Sem.new
          = (.ok (), ⟨[(none, "idle")],
              [Call.procBegin (some "T") 0, Call.procState "idle" false], []⟩))
    ∧ absRun (parseXMLBuffer acceptAll 40 (some (docOf [namedNoId]).render))
        = (.crash, ⟨[(none, "idle")],
            [Call.procBegin (some "T") 0, Call.procState "idle" false], []⟩)
    ∧ absRun (parseXMLBuffer acceptAll 40 (some (docOf [unregisteredInit]).render))
        = (.ok (-1), ⟨[(some "a", "_a")],
            [Call.procBegin (some "T") 0, Call.procState "_a" false], []⟩) :=
  ⟨⟨by decide!, by decide!, by decide!⟩,
    (C3_unregistered_init_fatal_or_crash acceptAll (fun _ _ _ => rfl) 40 (docOf [namedNoId])
      (by decide!) (by decide!) [] [] namedNoId rfl rfl
      ⟨[("ref", "zz")], true, []⟩ "zz" rfl rfl _ (by decide!) (by decide!)).2.2 "idle" rfl,
    by decide!⟩

end UTAP
